import Mathlib

/-!
WAV reader (src/input/r_wav.cpp): chunk scanner, opening, prober, sub-demuxers, read
loop and progress.

A shallow embedding of `wav_reader_c` and of the four sub-demuxers, followed by the
properties established about them.

Conventions of the embedding:
* `int64_t` values are `Int`; stream offsets and sizes of the byte source are `Nat`.
* A byte is a `Nat` below 256; a buffer of the program is a function from the index
  to the byte stored there, a byte string handed over by value is a `List Nat`.
* An operation of the byte source returns its result together with the new state of
  the source; the result `none` stands for a raised I/O exception.
* A read step returns, next to its status and the new state of the reader, the calls
  it made to the sub-demuxer and the packetizer, in the order of the calls.
-/

namespace WavReader

/-! ## The byte source -/

/-- Modelled from the spec: the byte source `mm_io_c` (src/common/mm_io.cpp is not part
of the sources at hand). The spec asks for absolute and relative seek, a size query, a
bounded read that returns fewer bytes only at end of input, scoped position
save and restore, and an IOError channel for hard failures. `data i % 256` is the byte
at offset `i` (meaningful below `size`), `positions` is the stack of saved positions,
`ops` counts the operations issued so far and `fault k = true` makes the operation
number `k` raise. -/
structure mm_io where
  size : Nat
  data : Nat → Nat
  pos : Nat
  positions : List Nat
  ops : Nat
  fault : Nat → Bool

/-- The three seek modes of `setFilePointer`. -/
inductive seek_mode
  | seek_beginning
  | seek_current
  | seek_end
  deriving DecidableEq, Repr

/-- Modelled from the spec: one operation is issued on the source; its fault flag is
looked up and the operation counter advances. -/
def mm_io.issue (io : mm_io) : Bool × mm_io :=
  (io.fault io.ops, { io with ops := io.ops + 1 })

/-- Modelled from the spec: `getFilePointer`, the current offset. -/
def mm_io.getFilePointer (io : mm_io) : Option Int × mm_io :=
  match io.issue with
  | (true, io1) => (none, io1)
  | (false, io1) => (some (io1.pos : Int), io1)

/-- Modelled from the spec: `get_size`, the size query. -/
def mm_io.get_size (io : mm_io) : Option Int × mm_io :=
  match io.issue with
  | (true, io1) => (none, io1)
  | (false, io1) => (some (io1.size : Int), io1)

/-- Modelled from the spec: `setFilePointer(offset, mode)`. Seeking is legal to every
offset that is not negative, also beyond the end of the input. -/
def mm_io.setFilePointer (io : mm_io) (offset : Int) (mode : seek_mode) : Option Unit × mm_io :=
  match io.issue with
  | (true, io1) => (none, io1)
  | (false, io1) =>
    let target : Int :=
      match mode with
      | .seek_beginning => offset
      | .seek_current => (io1.pos : Int) + offset
      | .seek_end => (io1.size : Int) + offset
    if target < 0 then (none, io1) else (some (), { io1 with pos := target.toNat })

/-- The bytes stored in a memory at `off`, `off + 1`, ..., `off + n - 1`. -/
def mem_slice (m : Nat → Nat) (off n : Nat) : List Nat :=
  (List.range n).map (fun i => m (off + i))

/-- Modelled from the spec: `read(buffer, n)` delivers up to `n` bytes, fewer only at
the end of the input, and zero bytes beyond it. The bytes are returned by value. -/
def mm_io.read (io : mm_io) (n : Int) : Option (List Nat) × mm_io :=
  match io.issue with
  | (true, io1) => (none, io1)
  | (false, io1) =>
    let cnt := min n.toNat (io1.size - io1.pos)
    (some (mem_slice (fun i => io1.data i % 256) io1.pos cnt), { io1 with pos := io1.pos + cnt })

/-- Little-endian 16 bit value of the first two bytes (`get_uint16_le`). -/
def get_uint16_le (b : List Nat) : Nat :=
  b.getD 0 0 % 256 + 256 * (b.getD 1 0 % 256)

/-- Little-endian 32 bit value of the first four bytes (`get_uint32_le`). -/
def get_uint32_le (b : List Nat) : Nat :=
  b.getD 0 0 % 256 + 256 * (b.getD 1 0 % 256) + 65536 * (b.getD 2 0 % 256)
    + 16777216 * (b.getD 3 0 % 256)

/-- Modelled from the spec: `read_uint32_le` reads four bytes and raises when they
cannot be had. -/
def mm_io.read_uint32_le (io : mm_io) : Option Nat × mm_io :=
  match io.read 4 with
  | (none, io1) => (none, io1)
  | (some bs, io1) => if bs.length = 4 then (some (get_uint32_le bs), io1) else (none, io1)

/-- Modelled from the spec: `save_pos()` pushes the current offset. -/
def mm_io.save_pos (io : mm_io) : Option Unit × mm_io :=
  match io.issue with
  | (true, io1) => (none, io1)
  | (false, io1) => (some (), { io1 with positions := io1.pos :: io1.positions })

/-- Modelled from the spec: `restore_pos()` pops the saved offset and seeks back to it;
it answers `false` when nothing was saved. -/
def mm_io.restore_pos (io : mm_io) : Option Bool × mm_io :=
  match io.issue with
  | (true, io1) => (none, io1)
  | (false, io1) =>
    match io1.positions with
    | [] => (some false, io1)
    | p :: rest => (some true, { io1 with pos := p, positions := rest })

/-- A source on which no operation ever raises. -/
def mm_io.no_fault (io : mm_io) : Prop := ∀ k, io.fault k = false

/-! ## C string comparison -/

/-- The `tolower` of the C locale. -/
def tolower (c : Nat) : Nat := if 65 ≤ c ∧ c ≤ 90 then c + 32 else c

/-- The character of a C string at the front of the list; past the end stands the
terminating NUL. -/
def c_head (s : List Nat) : Nat := s.headD 0

/-- The libc `strncmp(s1, s2, n)`: compares at most `n` characters and stops at a NUL. -/
def strncmp : List Nat → List Nat → Nat → Int
  | _, _, 0 => 0
  | s1, s2, n + 1 =>
    if c_head s1 ≠ c_head s2 then (c_head s1 : Int) - (c_head s2 : Int)
    else if c_head s1 = 0 then 0
    else strncmp s1.tail s2.tail n

/-- The libc `strncasecmp(s1, s2, n)`: as `strncmp` on the lower-cased characters. -/
def strncasecmp : List Nat → List Nat → Nat → Int
  | _, _, 0 => 0
  | s1, s2, n + 1 =>
    if tolower (c_head s1) ≠ tolower (c_head s2) then
      (tolower (c_head s1) : Int) - (tolower (c_head s2) : Int)
    else if tolower (c_head s1) = 0 then 0
    else strncasecmp s1.tail s2.tail n

/-- The string literal "data". -/
def str_data : List Nat := [100, 97, 116, 97]

/-- The string literal "fmt ". -/
def str_fmt : List Nat := [102, 109, 116, 32]

/-- The string literal "RIFF". -/
def str_RIFF : List Nat := [82, 73, 70, 70]

/-- The string literal "WAVE". -/
def str_WAVE : List Nat := [87, 65, 86, 69]

/-! ## Layout of `wave_header` -/

/-- Modelled from the spec: `sizeof(struct riff_struct)`, the 12 byte container header
made of the 4 byte id, the 4 byte length and the 4 byte wave id (avilib.h is not part
of the sources at hand). -/
def sizeof_riff_struct : Nat := 12

/-- Modelled from the spec: `sizeof(struct chunk_struct)`, the 4 byte tag and the 4 byte
little-endian length in front of every chunk. -/
def sizeof_chunk_struct : Nat := 8

/-- Modelled from the spec: `sizeof(struct common_struct)`, the format descriptor with
format tag, channels, sample rate, byte rate, block alignment and bits per sample. -/
def sizeof_common_struct : Nat := 16

/-- Modelled from the spec: `sizeof(wave_header)`: riff, format chunk header, common
part and data chunk header. -/
def sizeof_wave_header : Nat :=
  sizeof_riff_struct + sizeof_chunk_struct + sizeof_common_struct + sizeof_chunk_struct

/-- The bytes of a `wave_header` as far as the reader fills them. -/
structure wave_header where
  riff : List Nat
  format : List Nat
  common : List Nat
  deriving DecidableEq, Repr

/-- The field `riff.id`. -/
def wave_header.riff_id (h : wave_header) : List Nat := h.riff.take 4

/-- The field `riff.wave_id`. -/
def wave_header.riff_wave_id (h : wave_header) : List Nat := (h.riff.drop 8).take 4

/-- The field `common.wFormatTag`. -/
def wave_header.wFormatTag (h : wave_header) : List Nat := h.common.take 2

/-- The field `common.wChannels`. -/
def wave_header.wChannels (h : wave_header) : List Nat := (h.common.drop 2).take 2

/-- The field `common.dwSamplesPerSec`. -/
def wave_header.dwSamplesPerSec (h : wave_header) : List Nat := (h.common.drop 4).take 4

/-- The field `common.wBitsPerSample`. -/
def wave_header.wBitsPerSample (h : wave_header) : List Nat := (h.common.drop 14).take 2

/-! ## The chunk index -/

/-- One entry of the chunk index (`wav_chunk_t`). -/
structure wav_chunk_t where
  pos : Int
  id : List Nat
  len : Int
  deriving DecidableEq, Repr

/-! ## Functions of other modules used by the sub-demuxers -/

/-- The fields of `ac3_header_t` that r_wav.cpp reads. -/
structure ac3_header_t where
  sample_rate : Nat
  channels : Nat
  bsid : Nat
  deriving DecidableEq, Repr

/-- The DTS header is only handed on by r_wav.cpp; its content is kept as bytes. -/
structure dts_header_t where
  fields : List Nat
  deriving DecidableEq, Repr

/-- The functions of ac3_common, dts_common and of the allocator that r_wav.cpp calls;
their sources are not at hand, so the embedding takes them as parameters. A buffer
argument `(ptr, len)` is passed as the list of the `len` bytes at `ptr`. An output
parameter is passed as the old value and returned as the new one.
* `find_ac3_header buf size header look_for_second_header` returns the position or -1;
* `find_consecutive_ac3_headers buf size num` returns the position or -1;
* `detect_dts buf len pack_14_16 swap_bytes` returns the verdict and the two flags;
* `find_dts_header buf size header` returns the position or a negative value;
* `dts_14_to_dts_16 src srcwords` returns the bytes it writes to the destination;
* `alloc slot size i` is byte `i` of the block of `size` bytes that `memory_c::alloc`
  hands out for the buffer number `slot` of a sub-demuxer; its content is not initialised. -/
structure codec_lib where
  find_ac3_header : List Nat → Int → ac3_header_t → Bool → Int × ac3_header_t
  find_consecutive_ac3_headers : List Nat → Int → Int → Int
  detect_dts : List Nat → Int → Bool → Bool → Bool × Bool × Bool
  find_dts_header : List Nat → Int → dts_header_t → Int × dts_header_t
  dts_14_to_dts_16 : List Nat → Int → List Nat
  alloc : Nat → Nat → Nat → Nat

/-! ## Buffers -/

/-- A memory after the bytes `bs` were stored from index `off` on. -/
def mem_write (m : Nat → Nat) (off : Nat) (bs : List Nat) : Nat → Nat :=
  fun i => if off ≤ i ∧ i < off + bs.length then bs.getD (i - off) 0 else m i

/-- The partner of an index inside its byte pair. -/
def pair_index (k : Nat) : Nat := if k % 2 = 0 then k + 1 else k - 1

/-- The libc `swab(from + soff, to + doff, n)`: the destination after the call. Adjacent
bytes are exchanged; the last byte of an odd `n` is not copied, and nothing is copied
for `n` below 2. -/
def swab (src : Nat → Nat) (soff : Nat) (dst : Nat → Nat) (doff : Nat) (n : Int) : Nat → Nat :=
  fun j =>
    if doff ≤ j ∧ j - doff < 2 * (n.toNat / 2) then src (soff + pair_index (j - doff)) else dst j

/-- The libc `memcpy(to, from, n)` on two distinct buffers: the destination after the call. -/
def memcpy (dst : Nat → Nat) (src : Nat → Nat) (n : Nat) : Nat → Nat :=
  fun j => if j < n then src j else dst j

/-- One of the two scratch buffers replaced. -/
def set_buf (bufs : Nat → Nat → Nat) (i : Nat) (m : Nat → Nat) : Nat → Nat → Nat :=
  fun j => if j = i then m else bufs j

/-! ## The sub-demuxers -/

/-- `AC3ACM_READ_SIZE` -/
def AC3ACM_READ_SIZE : Nat := 100000

/-- `AC3WAV_BLOCK_SIZE` -/
def AC3WAV_BLOCK_SIZE : Nat := 6144

/-- `AC3WAV_SYNC_WORD1` -/
def AC3WAV_SYNC_WORD1 : Nat := 0xf872

/-- `AC3WAV_SYNC_WORD2` -/
def AC3WAV_SYNC_WORD2 : Nat := 0x4e1f

/-- `DTS_READ_SIZE` -/
def DTS_READ_SIZE : Nat := 16384

/-- The members of `wav_ac3acm_demuxer_c`, shared by `wav_ac3wav_demuxer_c`. -/
structure ac3_demuxer where
  m_ac3header : ac3_header_t
  m_buf : Nat → Nat → Nat
  m_cur_buf : Nat
  m_swap_bytes : Bool

/-- The members of `wav_dts_demuxer_c`. -/
structure dts_demuxer where
  m_swap_bytes : Bool
  m_pack_14_16 : Bool
  m_dtsheader : dts_header_t
  m_buf : Nat → Nat → Nat
  m_cur_buf : Nat

/-- The members of `wav_pcm_demuxer_c`. -/
structure pcm_demuxer where
  m_bps : Int
  m_buffer : Nat → Nat
  ieee_float : Bool

/-- The closed set of sub-demuxer variants behind `wav_demuxer_cptr`. -/
inductive wav_demuxer
  | ac3acm (d : ac3_demuxer)
  | ac3wav (d : ac3_demuxer)
  | dts (d : dts_demuxer)
  | pcm (d : pcm_demuxer)

/-- The names of the four variants. -/
inductive demuxer_kind
  | ac3acm
  | ac3wav
  | dts
  | pcm
  deriving DecidableEq, Repr

/-- The variant of a sub-demuxer. -/
def wav_demuxer.kind : wav_demuxer → demuxer_kind
  | .ac3acm _ => .ac3acm
  | .ac3wav _ => .ac3wav
  | .dts _ => .dts
  | .pcm _ => .pcm

/-! ## The reader -/

/-- The members of `wav_reader_c`. -/
structure wav_reader_c where
  m_io : mm_io
  m_wheader : wave_header
  m_chunks : List wav_chunk_t
  m_bytes_processed : Int
  m_bytes_in_data_chunks : Int
  m_remaining_bytes_in_current_data_chunk : Int
  m_cur_data_chunk_idx : Int
  m_demuxer : Option wav_demuxer

/-- Why the loop of `scan_chunks` was left: the tag read came up short (`return`), an
I/O operation raised (caught by the `catch (...)`), or the large-file correction was
applied (`break`). -/
inductive scan_exit
  | short_read
  | io_error
  | corrected
  deriving DecidableEq, Repr

/-- The tail of the loop body of `scan_chunks`: `m_chunks.push_back(new_chunk)` and
`m_io->setFilePointer(new_chunk.len, seek_current)`, with the payload total `total`
computed before. -/
def scan_push (r : wav_reader_c) (io : mm_io) (new_chunk : wav_chunk_t) (total : Int) :
    wav_reader_c × Option scan_exit :=
  match io.setFilePointer new_chunk.len .seek_current with
  | (none, io1) =>
    ({ r with m_io := io1, m_chunks := r.m_chunks ++ [new_chunk], m_bytes_in_data_chunks := total },
      some .io_error)
  | (some _, io1) =>
    ({ r with m_io := io1, m_chunks := r.m_chunks ++ [new_chunk], m_bytes_in_data_chunks := total },
      none)

/-- The large-file branch of `scan_chunks`: the length of the last recorded chunk is
recomputed from the file size and replaces the old one in the payload total. -/
def scan_correct (file_size : Int) (r : wav_reader_c) (io : mm_io) (previous_chunk : wav_chunk_t) :
    wav_reader_c :=
  let this_chunk_len : Int := file_size - previous_chunk.pos - (sizeof_chunk_struct : Int)
  { r with
    m_io := io,
    m_chunks := r.m_chunks.dropLast ++ [{ previous_chunk with len := this_chunk_len }],
    m_bytes_in_data_chunks := r.m_bytes_in_data_chunks - previous_chunk.len + this_chunk_len }

/-- One pass through the body of the `while (true)` loop of `scan_chunks`. The second
component is `none` when the loop goes on and the reason of leaving it otherwise. -/
def scan_step (file_size : Int) (r : wav_reader_c) : wav_reader_c × Option scan_exit :=
  match r.m_io.getFilePointer with
  | (none, io1) => ({ r with m_io := io1 }, some .io_error)
  | (some pos, io1) =>
    match io1.read 4 with
    | (none, io2) => ({ r with m_io := io2 }, some .io_error)
    | (some id, io2) =>
      if id.length ≠ 4 then ({ r with m_io := io2 }, some .short_read)
      else
        match io2.read_uint32_le with
        | (none, io3) => ({ r with m_io := io3 }, some .io_error)
        | (some len, io3) =>
          let new_chunk : wav_chunk_t := { pos := pos, id := id, len := (len : Int) }
          if strncasecmp id str_data 4 = 0 then
            scan_push r io3 new_chunk (r.m_bytes_in_data_chunks + new_chunk.len)
          else
            match r.m_chunks.getLast? with
            | none => scan_push r io3 new_chunk r.m_bytes_in_data_chunks
            | some previous_chunk =>
              if strncasecmp previous_chunk.id str_data 4 = 0 ∧ file_size > 0x100000000 then
                (scan_correct file_size r io3 previous_chunk, some .corrected)
              else scan_push r io3 new_chunk r.m_bytes_in_data_chunks

/-- The loop of `scan_chunks`, run for at most `fuel` passes; `none` when the passes
do not suffice. -/
def scan_loop (file_size : Int) : Nat → wav_reader_c → Option (wav_reader_c × scan_exit)
  | 0, _ => none
  | fuel + 1, r =>
    match scan_step file_size r with
    | (r1, some e) => some (r1, e)
    | (r1, none) => scan_loop file_size fuel r1

/-- The number of passes that is enough for every input: each pass that goes on has
consumed 8 bytes of the file. -/
def scan_fuel (io : mm_io) : Nat := io.size / 8 + 1

/-- The function `wav_reader_c::scan_chunks`, with the reason for which scanning ended
(`none`: `get_size` raised before the loop). The exception handler of the function
swallows every exception. -/
def scan_chunks_exit (r : wav_reader_c) : wav_reader_c × Option scan_exit :=
  match r.m_io.get_size with
  | (none, io1) => ({ r with m_io := io1 }, some .io_error)
  | (some file_size, io1) =>
    match scan_loop file_size (scan_fuel io1) { r with m_io := io1 } with
    | some (r1, e) => (r1, some e)
    | none => ({ r with m_io := io1 }, none)

/-- The function `wav_reader_c::scan_chunks`: the reader after the call. -/
def scan_chunks (r : wav_reader_c) : wav_reader_c := (scan_chunks_exit r).1

/-- The loop of `find_chunk` over the entries from `idx` on. -/
def find_chunk_loop (id : List Nat) (allow_empty : Bool) : List wav_chunk_t → Nat → Int
  | [], _ => -1
  | c :: rest, idx =>
    if strncasecmp c.id id 4 = 0 ∧ (allow_empty = true ∨ c.len ≠ 0) then (idx : Int)
    else find_chunk_loop id allow_empty rest (idx + 1)

/-- The function `wav_reader_c::find_chunk`. The loop test `idx < m_chunks.size()`
compares as unsigned values, so that a negative start index ends the loop at once. -/
def find_chunk (r : wav_reader_c) (id : List Nat) (start_idx : Int) (allow_empty : Bool) : Int :=
  if start_idx < 0 then -1
  else find_chunk_loop id allow_empty (r.m_chunks.drop start_idx.toNat) start_idx.toNat

/-- The state of the members after the initialiser list of the constructor. -/
def wav_reader_c.init (io : mm_io) : wav_reader_c :=
  { m_io := io,
    m_wheader := { riff := [], format := [], common := [] },
    m_chunks := [],
    m_bytes_processed := 0,
    m_bytes_in_data_chunks := 0,
    m_remaining_bytes_in_current_data_chunk := 0,
    m_cur_data_chunk_idx := 0,
    m_demuxer := none }

/-- A byte source of `size` bytes that starts with the bytes `head` and holds zero
bytes behind them, positioned at `pos`, without faults. -/
def mm_io.of_head (head : List Nat) (size pos : Nat) : mm_io :=
  { size := size, data := fun i => head.getD i 0, pos := pos, positions := [], ops := 0,
    fault := fun _ => false }

/-- The four bytes of a length field. -/
def le32 (n : Nat) : List Nat := [n % 256, n / 256 % 256, n / 65536 % 256, n / 16777216 % 256]

/-- The test container: RIFF header, a format chunk of 16 bytes and a data chunk of
1000 bytes of silence, 1044 bytes in all, positioned behind the RIFF header. -/
def sample_fmt_data : mm_io :=
  mm_io.of_head (str_RIFF ++ le32 1036 ++ str_WAVE ++ str_fmt ++ le32 16 ++ List.replicate 16 0
    ++ str_data ++ le32 1000) 1044 12

/-! ## Probing -/

/-- The content of a block fresh from `memory_c::alloc`. -/
def fresh_buf (lib : codec_lib) (slot size : Nat) : Nat → Nat :=
  fun i => lib.alloc slot size i % 256

/-- The value of an `ac3_header_t` before `find_ac3_header` has filled it. -/
def ac3_header_t.unset : ac3_header_t := { sample_rate := 0, channels := 0, bsid := 0 }

/-- The constructor `wav_ac3acm_demuxer_c::wav_ac3acm_demuxer_c`, which
`wav_ac3wav_demuxer_c` inherits. -/
def ac3_demuxer.new (lib : codec_lib) : ac3_demuxer :=
  { m_ac3header := ac3_header_t.unset,
    m_buf := fun j => fresh_buf lib j AC3ACM_READ_SIZE,
    m_cur_buf := 0,
    m_swap_bytes := false }

/-- The constructor `wav_dts_demuxer_c::wav_dts_demuxer_c`. -/
def dts_demuxer.new (lib : codec_lib) : dts_demuxer :=
  { m_swap_bytes := false,
    m_pack_14_16 := false,
    m_dtsheader := { fields := [] },
    m_buf := fun j => fresh_buf lib j DTS_READ_SIZE,
    m_cur_buf := 0 }

/-- The constructor `wav_pcm_demuxer_c::wav_pcm_demuxer_c`. The product of the two
16 bit fields and the 32 bit field is formed in 32 bit arithmetic. -/
def pcm_demuxer.new (lib : codec_lib) (wheader : wave_header) (float : Bool) : pcm_demuxer :=
  let m_bps : Int :=
    ((get_uint16_le wheader.wChannels * get_uint16_le wheader.wBitsPerSample
      * get_uint32_le wheader.dwSamplesPerSec % 4294967296 / 8 : Nat) : Int)
  { m_bps := m_bps, m_buffer := fresh_buf lib 0 m_bps.toNat, ieee_float := float }

/-- The opening of every probe: `io->save_pos()`, `io->read(buffer, n)` and
`io->restore_pos()`; the bytes read are returned, `none` when one of the three raised. -/
def probe_read (io : mm_io) (n : Nat) : Option (List Nat) × mm_io :=
  match io.save_pos with
  | (none, io1) => (none, io1)
  | (some _, io1) =>
    match io1.read (n : Int) with
    | (none, io2) => (none, io2)
    | (some bs, io2) =>
      match io2.restore_pos with
      | (none, io3) => (none, io3)
      | (some _, io3) => (some bs, io3)

/-- The function `wav_ac3acm_demuxer_c::decode_buffer`. -/
def wav_ac3acm_demuxer_c.decode_buffer (d : ac3_demuxer) (len : Int) : Int × ac3_demuxer :=
  if 2 < len ∧ d.m_swap_bytes = true then
    (0, { d with
          m_buf := set_buf d.m_buf (d.m_cur_buf ^^^ 1)
            (swab (d.m_buf d.m_cur_buf) 0 (d.m_buf (d.m_cur_buf ^^^ 1)) 0 len),
          m_cur_buf := d.m_cur_buf ^^^ 1 })
  else (0, d)

/-- The part of `wav_ac3acm_demuxer_c::probe` behind the three stream operations: the
`len` bytes `bs` were read into the active buffer; the verdict and the sub-demuxer
after the probe. -/
def wav_ac3acm_demuxer_c.probe_buffer (lib : codec_lib) (d : ac3_demuxer) (bs : List Nat) :
    Bool × ac3_demuxer :=
  let len : Int := (bs.length : Int)
  let d1 : ac3_demuxer :=
    { d with m_buf := set_buf d.m_buf d.m_cur_buf (mem_write (d.m_buf d.m_cur_buf) 0 bs) }
  let pos := lib.find_consecutive_ac3_headers (mem_slice (d1.m_buf d1.m_cur_buf) 0 len.toNat) len 4
  let second : Int × ac3_demuxer :=
    if pos = -1 then
      let d2 := (wav_ac3acm_demuxer_c.decode_buffer { d1 with m_swap_bytes := true } len).2
      (lib.find_consecutive_ac3_headers (mem_slice (d2.m_buf d2.m_cur_buf) 0 len.toNat) len 4, d2)
    else (pos, d1)
  if second.1 = -1 then (false, second.2)
  else
    let d3 := second.2
    let found := lib.find_ac3_header
      (mem_slice (d3.m_buf d3.m_cur_buf) second.1.toNat (len - second.1).toNat)
      (len - second.1) d3.m_ac3header true
    (true, { d3 with m_ac3header := found.2 })

/-- The function `wav_ac3acm_demuxer_c::probe`; the verdict is `none` when an I/O
operation raised. -/
def wav_ac3acm_demuxer_c.probe (lib : codec_lib) (d : ac3_demuxer) (io : mm_io) :
    Option Bool × ac3_demuxer × mm_io :=
  match probe_read io AC3ACM_READ_SIZE with
  | (none, io1) => (none, d, io1)
  | (some bs, io1) =>
    let res := wav_ac3acm_demuxer_c.probe_buffer lib d bs
    (some res.1, res.2, io1)

/-- The function `wav_ac3wav_demuxer_c::decode_buffer`. -/
def wav_ac3wav_demuxer_c.decode_buffer (lib : codec_lib) (d : ac3_demuxer) (len : Int) :
    Int × ac3_demuxer :=
  if len < 8 then (-1, d)
  else
    let d1 : ac3_demuxer :=
      if d.m_swap_bytes = true then
        { d with
          m_buf := set_buf d.m_buf (d.m_cur_buf ^^^ 1)
            (swab (d.m_buf d.m_cur_buf) 8
              (memcpy (d.m_buf (d.m_cur_buf ^^^ 1)) (d.m_buf d.m_cur_buf) 8) 8 (len - 8)),
          m_cur_buf := d.m_cur_buf ^^^ 1 }
      else d
    let base := d1.m_buf d1.m_cur_buf
    if get_uint16_le (mem_slice base 0 2) ≠ AC3WAV_SYNC_WORD1
        ∨ get_uint16_le (mem_slice base 2 2) ≠ AC3WAV_SYNC_WORD2 ∨ 0x01 ≠ base 4 then (-1, d1)
    else
      let payload_len : Int := ((get_uint16_le (mem_slice base 6 2) / 8 : Nat) : Int)
      if payload_len + 8 > len then (-1, d1)
      else
        let found := lib.find_ac3_header (mem_slice base 8 payload_len.toNat) payload_len
          d1.m_ac3header true
        (if 0 = found.1 then payload_len else -1, { d1 with m_ac3header := found.2 })

/-- The part of `wav_ac3wav_demuxer_c::probe` behind the three stream operations, on
the bytes `bs` read into the active buffer. -/
def wav_ac3wav_demuxer_c.probe_buffer (lib : codec_lib) (d : ac3_demuxer) (bs : List Nat) :
    Bool × ac3_demuxer :=
  let len : Int := (bs.length : Int)
  let d1 : ac3_demuxer :=
    { d with m_buf := set_buf d.m_buf d.m_cur_buf (mem_write (d.m_buf d.m_cur_buf) 0 bs) }
  let first := wav_ac3wav_demuxer_c.decode_buffer lib d1 len
  if first.1 > 0 then (true, first.2)
  else
    let second := wav_ac3wav_demuxer_c.decode_buffer lib { first.2 with m_swap_bytes := true } len
    (decide (second.1 > 0), second.2)

/-- The function `wav_ac3wav_demuxer_c::probe`. -/
def wav_ac3wav_demuxer_c.probe (lib : codec_lib) (d : ac3_demuxer) (io : mm_io) :
    Option Bool × ac3_demuxer × mm_io :=
  match probe_read io AC3WAV_BLOCK_SIZE with
  | (none, io1) => (none, d, io1)
  | (some bs, io1) =>
    let res := wav_ac3wav_demuxer_c.probe_buffer lib d bs
    (some res.1, res.2, io1)

/-- The function `wav_dts_demuxer_c::decode_buffer`. -/
def wav_dts_demuxer_c.decode_buffer (lib : codec_lib) (d : dts_demuxer) (len : Int) :
    Int × dts_demuxer :=
  let d1 : dts_demuxer :=
    if d.m_swap_bytes = true then
      { d with
        m_buf := set_buf d.m_buf (d.m_cur_buf ^^^ 1)
          (swab (d.m_buf d.m_cur_buf) 0 (d.m_buf (d.m_cur_buf ^^^ 1)) 0 len),
        m_cur_buf := d.m_cur_buf ^^^ 1 }
    else d
  if d1.m_pack_14_16 = true then
    let srcwords : Int := Int.tdiv len 2
    let written := (lib.dts_14_to_dts_16
      (mem_slice (d1.m_buf d1.m_cur_buf) 0 (2 * srcwords.toNat)) srcwords).map (fun b => b % 256)
    (Int.tdiv (len * 7) 8,
      { d1 with
        m_buf := set_buf d1.m_buf (d1.m_cur_buf ^^^ 1)
          (mem_write (d1.m_buf (d1.m_cur_buf ^^^ 1)) 0 written),
        m_cur_buf := d1.m_cur_buf ^^^ 1 })
  else (len, d1)

/-- The part of `wav_dts_demuxer_c::probe` behind the three stream operations, on the
bytes `bs` read into the active buffer. -/
def wav_dts_demuxer_c.probe_buffer (lib : codec_lib) (d : dts_demuxer) (bs : List Nat) :
    Bool × dts_demuxer :=
  let len : Int := (bs.length : Int)
  let d1 : dts_demuxer :=
    { d with m_buf := set_buf d.m_buf d.m_cur_buf (mem_write (d.m_buf d.m_cur_buf) 0 bs) }
  let verdict := lib.detect_dts (mem_slice (d1.m_buf d1.m_cur_buf) 0 len.toNat) len
    d1.m_pack_14_16 d1.m_swap_bytes
  let d2 : dts_demuxer := { d1 with m_pack_14_16 := verdict.2.1, m_swap_bytes := verdict.2.2 }
  if verdict.1 = true then
    let decoded := wav_dts_demuxer_c.decode_buffer lib d2 len
    let d3 := decoded.2
    let found := lib.find_dts_header (mem_slice (d3.m_buf d3.m_cur_buf) 0 decoded.1.toNat)
      decoded.1 d3.m_dtsheader
    (decide (found.1 ≥ 0), { d3 with m_dtsheader := found.2 })
  else (false, d2)

/-- The function `wav_dts_demuxer_c::probe`. -/
def wav_dts_demuxer_c.probe (lib : codec_lib) (d : dts_demuxer) (io : mm_io) :
    Option Bool × dts_demuxer × mm_io :=
  match probe_read io DTS_READ_SIZE with
  | (none, io1) => (none, d, io1)
  | (some bs, io1) =>
    let res := wav_dts_demuxer_c.probe_buffer lib d bs
    (some res.1, res.2, io1)

/-- The function `wav_pcm_demuxer_c::probe`. -/
def wav_pcm_demuxer_c.probe (_io : mm_io) : Bool := true

/-- The probe of a freshly constructed sub-demuxer of the given variant on the stream
of the reader, as `create_demuxer` issues it. The PCM variant, which `create_demuxer`
constructs without asking, answers `true` without touching the stream. -/
def probe_candidate (lib : codec_lib) (wheader : wave_header) (k : demuxer_kind) (io : mm_io) :
    Option Bool × wav_demuxer × mm_io :=
  match k with
  | .ac3acm =>
    let res := wav_ac3acm_demuxer_c.probe lib (ac3_demuxer.new lib) io
    (res.1, .ac3acm res.2.1, res.2.2)
  | .dts =>
    let res := wav_dts_demuxer_c.probe lib (dts_demuxer.new lib) io
    (res.1, .dts res.2.1, res.2.2)
  | .ac3wav =>
    let res := wav_ac3wav_demuxer_c.probe lib (ac3_demuxer.new lib) io
    (res.1, .ac3wav res.2.1, res.2.2)
  | .pcm =>
    (some (wav_pcm_demuxer_c.probe io),
      .pcm (pcm_demuxer.new lib wheader (decide (0x0003 = get_uint16_le wheader.wFormatTag))), io)

/-- The statement `m_demuxer = new ...; if (!m_demuxer->probe(m_io)) m_demuxer.clear();`
of `create_demuxer` for the variant `k`. The second component of the state is the list
of the variants whose `probe` was called so far; `none` when an I/O operation raised. -/
def try_candidate (lib : codec_lib) (k : demuxer_kind) (st : wav_reader_c × List demuxer_kind) :
    Option (wav_reader_c × List demuxer_kind) :=
  match probe_candidate lib st.1.m_wheader k st.1.m_io with
  | (none, _, _) => none
  | (some true, d, io1) => some ({ st.1 with m_io := io1, m_demuxer := some d }, st.2 ++ [k])
  | (some false, _, io1) => some ({ st.1 with m_io := io1, m_demuxer := none }, st.2 ++ [k])

/-- The guard `if (!m_demuxer.get())` in front of a candidate. -/
def unless_selected (lib : codec_lib) (k : demuxer_kind) (st : wav_reader_c × List demuxer_kind) :
    Option (wav_reader_c × List demuxer_kind) :=
  match st.1.m_demuxer with
  | some _ => some st
  | none => try_candidate lib k st

/-- The function `wav_reader_c::create_demuxer`: the reader after the call together with
the list of the variants whose `probe` was called, in the order of the calls; `none`
when an I/O operation raised. -/
def create_demuxer (lib : codec_lib) (r : wav_reader_c) : Option (wav_reader_c × List demuxer_kind) :=
  let format_tag := get_uint16_le r.m_wheader.wFormatTag
  let ieee_float : Bool := decide (0x0003 = format_tag)
  match (if 0x2000 = format_tag then try_candidate lib .ac3acm (r, []) else some (r, [])) with
  | none => none
  | some st1 =>
    match unless_selected lib .dts st1 with
    | none => none
    | some st2 =>
      match unless_selected lib .ac3wav st2 with
      | none => none
      | some st3 =>
        match st3.1.m_demuxer with
        | some _ => some st3
        | none =>
          some ({ st3.1 with m_demuxer := some (.pcm (pcm_demuxer.new lib st3.1.m_wheader ieee_float)) },
            st3.2)

/-! ## Opening -/

/-- What the constructor throws: an `error_c` with its message, or the exception of
the byte source passing through. -/
inductive wav_exception
  | error_c (msg : String)
  | io_exception
  deriving DecidableEq, Repr

/-- The message of the failed open. -/
def msg_could_not_open : String := "wav_reader: Could not open the source file."

/-- The message of the failed container probe. -/
def msg_not_valid_wave : String := "wav_reader: Source is not a valid WAVE file."

/-- The message of the short RIFF header. -/
def msg_no_wave_header : String := "wav_reader: could not read WAVE header."

/-- The message of the missing format chunk. -/
def msg_no_format_chunk : String := "wav_reader: No format chunk found."

/-- The message of the format chunk that is too short. -/
def msg_format_unreadable : String := "wav_reader: The format chunk could not be read."

/-- The message of the missing data chunk. -/
def msg_no_data_chunk : String := "wav_reader: No data chunk was found."

/-- The function `wav_reader_c::probe_file`. The test `sizeof(wave_header) > size`
compares a `size_t` with an `int64_t`, that is, as unsigned 64 bit values. -/
def probe_file (io : mm_io) (size : Int) : Int × mm_io :=
  if (sizeof_wave_header : Int) > size % 18446744073709551616 then (0, io)
  else
    match io.setFilePointer 0 .seek_beginning with
    | (none, io1) => (0, io1)
    | (some _, io1) =>
      match io1.read (sizeof_riff_struct : Int) with
      | (none, io2) => (0, io2)
      | (some riff, io2) =>
        if riff.length ≠ sizeof_riff_struct then (0, io2)
        else
          match io2.setFilePointer 0 .seek_beginning with
          | (none, io3) => (0, io3)
          | (some _, io3) =>
            if strncmp (riff.take 4) str_RIFF 4 ≠ 0 ∨ strncmp ((riff.drop 8).take 4) str_WAVE 4 ≠ 0
            then (0, io3)
            else (1, io3)

/-- The entry `m_chunks[idx]`. -/
def wav_reader_c.chunk_at (r : wav_reader_c) (idx : Int) : wav_chunk_t :=
  r.m_chunks.getD idx.toNat { pos := 0, id := [], len := 0 }

/-- The function `wav_reader_c::parse_file`. The defaults of `find_chunk` are
`start_idx = 0` and `allow_empty = true`. -/
def parse_file (r : wav_reader_c) : Except wav_exception wav_reader_c :=
  match r.m_io.read (sizeof_riff_struct : Int) with
  | (none, _) => .error .io_exception
  | (some riff, io1) =>
    if riff.length ≠ sizeof_riff_struct then .error (.error_c msg_no_wave_header)
    else
      let r1 := scan_chunks { r with m_io := io1, m_wheader := { r.m_wheader with riff := riff } }
      let chunk_idx := find_chunk r1 str_fmt 0 true
      if chunk_idx = -1 then .error (.error_c msg_no_format_chunk)
      else
        match r1.m_io.setFilePointer (r1.chunk_at chunk_idx).pos .seek_beginning with
        | (none, _) => .error .io_exception
        | (some _, io2) =>
          match io2.read (sizeof_chunk_struct : Int) with
          | (none, _) => .error .io_exception
          | (some format, io3) =>
            if format.length ≠ sizeof_chunk_struct then .error (.error_c msg_format_unreadable)
            else
              match io3.read (sizeof_common_struct : Int) with
              | (none, _) => .error .io_exception
              | (some common, io4) =>
                if common.length ≠ sizeof_common_struct then
                  .error (.error_c msg_format_unreadable)
                else
                  let r2 : wav_reader_c :=
                    { r1 with
                      m_io := io4,
                      m_wheader := { r1.m_wheader with format := format, common := common } }
                  let idx := find_chunk r2 str_data 0 false
                  if idx = -1 then .error (.error_c msg_no_data_chunk)
                  else
                    match r2.m_io.setFilePointer ((r2.chunk_at idx).pos + (sizeof_chunk_struct : Int))
                        .seek_beginning with
                    | (none, _) => .error .io_exception
                    | (some _, io5) =>
                      .ok { r2 with
                            m_io := io5,
                            m_cur_data_chunk_idx := idx,
                            m_remaining_bytes_in_current_data_chunk := (r2.chunk_at idx).len }

/-- The size query at the head of the constructor: `setFilePointer(0, seek_end)`,
`getFilePointer()` and `setFilePointer(0, seek_beginning)`; `none` when one of them
raised. -/
def query_size (io : mm_io) : Option Int × mm_io :=
  match io.setFilePointer 0 .seek_end with
  | (none, io1) => (none, io1)
  | (some _, io1) =>
    match io1.getFilePointer with
    | (none, io2) => (none, io2)
    | (some size, io2) =>
      match io2.setFilePointer 0 .seek_beginning with
      | (none, io3) => (none, io3)
      | (some _, io3) => (some size, io3)

/-- The constructor `wav_reader_c::wav_reader_c` on the opened source file `io`. -/
def wav_reader_c.new (lib : codec_lib) (io : mm_io) : Except wav_exception wav_reader_c :=
  match query_size io with
  | (none, _) => .error (.error_c msg_could_not_open)
  | (some size, io1) =>
    match probe_file io1 size with
    | (probed, io2) =>
      if probed = 0 then .error (.error_c msg_not_valid_wave)
      else
        match parse_file (wav_reader_c.init io2) with
        | .error e => .error e
        | .ok r1 =>
          match create_demuxer lib r1 with
          | none => .error .io_exception
          | some (r2, _) => .ok r2

/-- A codec library that recognises nothing. -/
def lib_none : codec_lib :=
  { find_ac3_header := fun _ _ h _ => (-1, h),
    find_consecutive_ac3_headers := fun _ _ _ => -1,
    detect_dts := fun _ _ p s => (false, p, s),
    find_dts_header := fun _ _ h => (-1, h),
    dts_14_to_dts_16 := fun _ _ => [],
    alloc := fun _ _ _ => 0 }

/-- The outcome of the constructor: the message thrown, if any. -/
def thrown {α : Type} (x : Except wav_exception α) : Option wav_exception :=
  match x with
  | .error e => some e
  | .ok _ => none

/-! ## Vocabulary of the properties -/

/-- A tag equals "data" when case is ignored. -/
def tag_is_data (id : List Nat) : Prop := id.map tolower = str_data

instance (id : List Nat) : Decidable (tag_is_data id) := by
  unfold tag_is_data
  infer_instance

/-- The sum of the length fields of the index entries whose tag is "data", case ignored. -/
def payload_sum (cs : List wav_chunk_t) : Int :=
  ((cs.filter (fun c => decide (tag_is_data c.id))).map (fun c => c.len)).sum

/-- The source holds, from offset `off` up to its end, exactly the complete chunk
records `recs`, each given by its 4 byte tag and its declared length: 8 bytes of
header followed by as many payload bytes as declared. -/
def holds_records (io : mm_io) : Nat → List (List Nat × Nat) → Prop
  | off, [] => off = io.size
  | off, rec :: rest =>
    rec.1.length = 4 ∧ rec.2 < 4294967296
      ∧ mem_slice (fun i => io.data i % 256) off 8 = rec.1 ++ le32 rec.2
      ∧ off + 8 + rec.2 ≤ io.size
      ∧ holds_records io (off + 8 + rec.2) rest

/-- The index that belongs to a sequence of records starting at offset `off`: entry
`i` carries the tag and length of record `i`, the first offset is `off` and each further
one is the previous offset plus 8 plus the previous length. -/
def index_of : Nat → List (List Nat × Nat) → List wav_chunk_t
  | _, [] => []
  | off, rec :: rest =>
    { pos := (off : Int), id := rec.1, len := (rec.2 : Int) } :: index_of (off + 8 + rec.2) rest

/-- The consistency of the index with the payload total that the scanner keeps: the
total is the sum over the "data" entries, and every tag has 4 bytes. -/
def index_consistent (r : wav_reader_c) : Prop :=
  r.m_bytes_in_data_chunks = payload_sum r.m_chunks ∧ ∀ c ∈ r.m_chunks, c.id.length = 4

/-- A container of 0x100000037 bytes: RIFF header, a format chunk of 16 bytes, a data
chunk whose declared 4 bytes are its true payload, and a complete "LIST" chunk of
0xffffffff bytes that fills the rest of the file; positioned behind the RIFF header. -/
def sample_large : mm_io :=
  mm_io.of_head (str_RIFF ++ le32 0 ++ str_WAVE ++ str_fmt ++ le32 16 ++ List.replicate 16 0
    ++ str_data ++ le32 4 ++ [1, 2, 3, 4] ++ [76, 73, 83, 84] ++ le32 0xffffffff) 0x100000037 12

/-- The reader in the middle of scanning `sample_large`: the format chunk and the data
chunk are recorded and the stream stands at the header of the "LIST" chunk. -/
def sample_large_scanning : wav_reader_c :=
  { wav_reader_c.init { sample_large with pos := 48 } with
    m_chunks := [{ pos := 12, id := str_fmt, len := 16 }, { pos := 36, id := str_data, len := 4 }],
    m_bytes_in_data_chunks := 4 }

/-- A container that breaks off inside the tag of its second chunk: RIFF header, a
complete format chunk and two further bytes; positioned behind the format chunk. -/
def sample_truncated : mm_io :=
  mm_io.of_head (str_RIFF ++ le32 0 ++ str_WAVE ++ str_fmt ++ le32 16 ++ List.replicate 16 0
    ++ [100, 97]) 38 36

/-- The reader in the middle of scanning `sample_truncated`: the format chunk is
recorded and the stream stands where the next tag would begin. -/
def sample_truncated_scanning : wav_reader_c :=
  { wav_reader_c.init sample_truncated with
    m_chunks := [{ pos := 12, id := str_fmt, len := 16 }] }

/-- Entry `i` of the index is at or behind `start`, its tag equals the requested tag
when case is ignored, and it is not empty unless empty chunks are allowed. -/
def chunk_matches (r : wav_reader_c) (id : List Nat) (allow_empty : Bool) (start i : Nat) : Prop :=
  start ≤ i ∧ ∃ c, r.m_chunks[i]? = some c ∧ c.id.map tolower = id.map tolower
    ∧ (allow_empty = true ∨ c.len ≠ 0)

/-- An index of two empty chunks and a data chunk of 7 bytes. -/
def sample_index : wav_reader_c :=
  { wav_reader_c.init (mm_io.of_head [] 0 0) with
    m_chunks := [{ pos := 12, id := str_fmt, len := 0 }, { pos := 20, id := str_data, len := 0 },
      { pos := 28, id := [68, 65, 84, 65], len := 7 }] }

/-- A byte source of 44 bytes with the RIFF and WAVE marks and zero bytes elsewhere. -/
def sample_riff : mm_io :=
  mm_io.of_head (str_RIFF ++ le32 36 ++ str_WAVE) 44 0

/-- The candidates of `create_demuxer` in the order in which it considers them: the
generic AC3 variant only for the format tag 0x2000, then DTS, then wrapped AC3, then
PCM. -/
def candidates (format_tag : Nat) : List demuxer_kind :=
  (if 0x2000 = format_tag then [demuxer_kind.ac3acm] else []) ++ [.dts, .ac3wav, .pcm]

/-- The probe of a fresh sub-demuxer of variant `k` succeeds on the stream `io`. -/
def probe_succeeds (lib : codec_lib) (wheader : wave_header) (io : mm_io) (k : demuxer_kind) : Bool :=
  decide ((probe_candidate lib wheader k io).1 = some true)

/-- The bytes that a probe of `n` bytes gets to see on a stream without faults. -/
def probe_bytes (io : mm_io) (n : Nat) : List Nat :=
  mem_slice (fun i => io.data i % 256) io.pos (min n (io.size - io.pos))

/-- The verdict and the sub-demuxer of the probe of variant `k` on a stream without
faults, from the bytes that the probe sees. -/
def probe_outcome (lib : codec_lib) (wheader : wave_header) (io : mm_io) (k : demuxer_kind) :
    Bool × wav_demuxer :=
  match k with
  | .ac3acm =>
    let res := wav_ac3acm_demuxer_c.probe_buffer lib (ac3_demuxer.new lib)
      (probe_bytes io AC3ACM_READ_SIZE)
    (res.1, .ac3acm res.2)
  | .dts =>
    let res := wav_dts_demuxer_c.probe_buffer lib (dts_demuxer.new lib)
      (probe_bytes io DTS_READ_SIZE)
    (res.1, .dts res.2)
  | .ac3wav =>
    let res := wav_ac3wav_demuxer_c.probe_buffer lib (ac3_demuxer.new lib)
      (probe_bytes io AC3WAV_BLOCK_SIZE)
    (res.1, .ac3wav res.2)
  | .pcm =>
    (true, .pcm (pcm_demuxer.new lib wheader (decide (0x0003 = get_uint16_le wheader.wFormatTag))))

/-- A small container: RIFF header, a format chunk (PCM, 2 channels, 8000 Hz, 16 bits)
and a data chunk of 8 bytes of silence, 52 bytes in all. -/
def sample_small : mm_io :=
  mm_io.of_head (str_RIFF ++ le32 44 ++ str_WAVE ++ str_fmt ++ le32 16
    ++ [1, 0, 2, 0] ++ le32 8000 ++ le32 32000 ++ [4, 0, 16, 0] ++ str_data ++ le32 8) 52 0

/-- The reader on `sample_small` as `parse_file` leaves it: index built, format header
read, stream at the payload of the data chunk. -/
def sample_small_parsed : wav_reader_c :=
  { m_io := { sample_small with pos := 44 },
    m_wheader :=
      { riff := str_RIFF ++ le32 44 ++ str_WAVE,
        format := str_fmt ++ le32 16,
        common := [1, 0, 2, 0] ++ le32 8000 ++ le32 32000 ++ [4, 0, 16, 0] },
    m_chunks := [{ pos := 12, id := str_fmt, len := 16 }, { pos := 36, id := str_data, len := 8 }],
    m_bytes_processed := 0,
    m_bytes_in_data_chunks := 8,
    m_remaining_bytes_in_current_data_chunk := 8,
    m_cur_data_chunk_idx := 1,
    m_demuxer := none }

/-- The bytes `bs` that a probe sees match the layout of a wrapped AC3 block: the
16 bit little-endian sync words 0xf872 and 0x4e1f, the type byte 0x01 (the byte at
offset 4, the one that `decode_buffer` compares), a payload of bit-length / 8 bytes,
at least one, that fits with the 8 byte head into the bytes seen, and an AC3 frame
header found at the first payload byte. -/
def wrapped_layout (lib : codec_lib) (bs : List Nat) : Prop :=
  8 ≤ bs.length
    ∧ get_uint16_le (bs.take 2) = AC3WAV_SYNC_WORD1
    ∧ get_uint16_le ((bs.drop 2).take 2) = AC3WAV_SYNC_WORD2
    ∧ bs.getD 4 0 = 0x01
    ∧ 0 < get_uint16_le ((bs.drop 6).take 2) / 8
    ∧ get_uint16_le ((bs.drop 6).take 2) / 8 + 8 ≤ bs.length
    ∧ (lib.find_ac3_header ((bs.drop 8).take (get_uint16_le ((bs.drop 6).take 2) / 8))
        ((get_uint16_le ((bs.drop 6).take 2) / 8 : Nat) : Int) ac3_header_t.unset true).1 = 0

/-- A codec library for which every buffer holds a DTS header at its start and an AC3
header at its start, and no run of consecutive AC3 headers. -/
def lib_dts_and_ac3 : codec_lib :=
  { find_ac3_header := fun _ _ h _ => (0, h),
    find_consecutive_ac3_headers := fun _ _ _ => -1,
    detect_dts := fun _ _ _ _ => (true, false, false),
    find_dts_header := fun _ _ h => (0, h),
    dts_14_to_dts_16 := fun _ _ => [],
    alloc := fun _ _ _ => 0 }

/-- A container whose data chunk of 16 bytes starts with a wrapped AC3 block: sync
words, burst information with type 0x01, a bit length of 64 and 8 payload bytes. -/
def sample_wrapped : mm_io :=
  mm_io.of_head (str_RIFF ++ le32 52 ++ str_WAVE ++ str_fmt ++ le32 16
    ++ [1, 0, 2, 0] ++ le32 48000 ++ le32 192000 ++ [4, 0, 16, 0] ++ str_data ++ le32 16
    ++ [0x72, 0xf8, 0x1f, 0x4e, 0x01, 0x00, 0x40, 0x00, 0x0b, 0x77, 1, 2, 3, 4, 5, 6]) 60 0

/-- The reader on `sample_wrapped` as `parse_file` leaves it. -/
def sample_wrapped_parsed : wav_reader_c :=
  { m_io := { sample_wrapped with pos := 44 },
    m_wheader :=
      { riff := str_RIFF ++ le32 52 ++ str_WAVE,
        format := str_fmt ++ le32 16,
        common := [1, 0, 2, 0] ++ le32 48000 ++ le32 192000 ++ [4, 0, 16, 0] },
    m_chunks := [{ pos := 12, id := str_fmt, len := 16 }, { pos := 36, id := str_data, len := 16 }],
    m_bytes_processed := 0,
    m_bytes_in_data_chunks := 16,
    m_remaining_bytes_in_current_data_chunk := 16,
    m_cur_data_chunk_idx := 1,
    m_demuxer := none }

/-- A codec library for which every buffer holds an AC3 header at its start, no run of
consecutive AC3 headers and nothing of DTS. -/
def lib_ac3_only : codec_lib :=
  { find_ac3_header := fun _ _ h _ => (0, h),
    find_consecutive_ac3_headers := fun _ _ _ => -1,
    detect_dts := fun _ _ p s => (false, p, s),
    find_dts_header := fun _ _ h => (-1, h),
    dts_14_to_dts_16 := fun _ _ => [],
    alloc := fun _ _ _ => 0 }

/-- The variant that the constructor has selected, if it succeeded. -/
def selected_kind (x : Except wav_exception wav_reader_c) : Option demuxer_kind :=
  match x with
  | .error _ => none
  | .ok r =>
    match r.m_demuxer with
    | none => none
    | some d => some d.kind

/-- Two states of the same byte source: size, content, fault schedule and the stack
of saved positions agree; only the position and the operation counter may differ. -/
def same_source (a b : mm_io) : Prop :=
  b.size = a.size ∧ b.data = a.data ∧ b.fault = a.fault ∧ b.positions = a.positions

/-- The members of the reader that scanning does not touch are the same in `a` and `b`,
and the byte source is the same. -/
def reader_frame (a b : wav_reader_c) : Prop :=
  b.m_wheader = a.m_wheader ∧ b.m_demuxer = a.m_demuxer
    ∧ b.m_bytes_processed = a.m_bytes_processed
    ∧ b.m_remaining_bytes_in_current_data_chunk = a.m_remaining_bytes_in_current_data_chunk
    ∧ b.m_cur_data_chunk_idx = a.m_cur_data_chunk_idx
    ∧ same_source a.m_io b.m_io

/-- The container marks: bytes 0..3 are "RIFF" and bytes 8..11 are "WAVE". -/
def has_magic (io : mm_io) : Prop :=
  mem_slice (fun i => io.data i % 256) 0 4 = str_RIFF
    ∧ mem_slice (fun i => io.data i % 256) 8 4 = str_WAVE

instance (io : mm_io) : Decidable (has_magic io) := by
  unfold has_magic
  infer_instance

/-- The reader as `parse_file` has it when it comes back from `scan_chunks`: RIFF
header read, index built. -/
def parse_file_scanned (r : wav_reader_c) : wav_reader_c :=
  let riff := r.m_io.read (sizeof_riff_struct : Int)
  scan_chunks { r with m_io := riff.2, m_wheader := { r.m_wheader with riff := riff.1.getD [] } }

/-- The reader as the constructor has it on the opened source `io` when `parse_file`
comes back from `scan_chunks`: size queried, container probed, RIFF header read, index
built. -/
def scanned_at_open (io : mm_io) : wav_reader_c :=
  let io1 := (query_size io).2
  let io2 := (probe_file io1 (io.size : Int)).2
  parse_file_scanned (wav_reader_c.init io2)

/-- The offset of the first format chunk of the index. -/
def format_chunk_pos (r : wav_reader_c) : Int := (r.chunk_at (find_chunk r str_fmt 0 true)).pos

/-- A container of 44 bytes whose format chunk breaks off behind its header: RIFF
header, a "LIST" chunk of 16 bytes, and the 8 byte header of a format chunk that
declares 16 bytes. -/
def sample_short_fmt : mm_io :=
  mm_io.of_head (str_RIFF ++ le32 36 ++ str_WAVE ++ [76, 73, 83, 84] ++ le32 16
    ++ List.replicate 16 0 ++ str_fmt ++ le32 16) 44 0

/-- The index has a chunk whose tag is "fmt ", case ignored. -/
def has_format_chunk (r : wav_reader_c) : Prop :=
  ∃ c ∈ r.m_chunks, c.id.map tolower = str_fmt

/-- The index has a data chunk of non-zero length. -/
def has_payload_chunk (r : wav_reader_c) : Prop :=
  ∃ c ∈ r.m_chunks, tag_is_data c.id ∧ c.len ≠ 0

instance (r : wav_reader_c) : Decidable (has_format_chunk r) := by
  unfold has_format_chunk
  infer_instance

instance (r : wav_reader_c) : Decidable (has_payload_chunk r) := by
  unfold has_payload_chunk
  infer_instance

/-! ## Processing and reading -/

/-- The two results of a read step that `wav_reader_c::read` returns. -/
inductive file_status_e
  | FILE_STATUS_DONE
  | FILE_STATUS_MOREDATA
  deriving DecidableEq, Repr

/-- What a read step hands to its collaborators, in the order of the calls: the call
`m_demuxer->process(size)`, a packet handed to the packetizer with its bytes, and the
call `PTZR0->flush()`. -/
inductive reader_event
  | demuxer_process (size : Int)
  | packet (bytes : List Nat)
  | flush
  deriving DecidableEq, Repr

/-- The virtual function `get_preferred_input_size` of the four variants. -/
def wav_demuxer.get_preferred_input_size : wav_demuxer → Int
  | .ac3acm _ => (AC3ACM_READ_SIZE : Int)
  | .ac3wav _ => (AC3WAV_BLOCK_SIZE : Int)
  | .dts _ => (DTS_READ_SIZE : Int)
  | .pcm d => d.m_bps

/-- The virtual function `get_buffer` of the four variants: the active buffer. -/
def wav_demuxer.get_buffer : wav_demuxer → Nat → Nat
  | .ac3acm d => d.m_buf d.m_cur_buf
  | .ac3wav d => d.m_buf d.m_cur_buf
  | .dts d => d.m_buf d.m_cur_buf
  | .pcm d => d.m_buffer

/-- The sub-demuxer after `m_io->read(m_demuxer->get_buffer(), n)` has stored the
bytes `bs` at the start of the active buffer. -/
def wav_demuxer.store (bs : List Nat) : wav_demuxer → wav_demuxer
  | .ac3acm d =>
    .ac3acm { d with m_buf := set_buf d.m_buf d.m_cur_buf (mem_write (d.m_buf d.m_cur_buf) 0 bs) }
  | .ac3wav d =>
    .ac3wav { d with m_buf := set_buf d.m_buf d.m_cur_buf (mem_write (d.m_buf d.m_cur_buf) 0 bs) }
  | .dts d =>
    .dts { d with m_buf := set_buf d.m_buf d.m_cur_buf (mem_write (d.m_buf d.m_cur_buf) 0 bs) }
  | .pcm d => .pcm { d with m_buffer := mem_write d.m_buffer 0 bs }

/-- The function `wav_ac3acm_demuxer_c::process`: the sub-demuxer after the call and
the packets handed to the packetizer. -/
def wav_ac3acm_demuxer_c.process (d : ac3_demuxer) (size : Int) : ac3_demuxer × List (List Nat) :=
  if 0 ≥ size then (d, [])
  else
    let d1 := (wav_ac3acm_demuxer_c.decode_buffer d size).2
    (d1, [mem_slice (d1.m_buf d1.m_cur_buf) 0 size.toNat])

/-- The function `wav_ac3wav_demuxer_c::process`. -/
def wav_ac3wav_demuxer_c.process (lib : codec_lib) (d : ac3_demuxer) (size : Int) :
    ac3_demuxer × List (List Nat) :=
  if 0 ≥ size then (d, [])
  else
    let decoded := wav_ac3wav_demuxer_c.decode_buffer lib d size
    let d1 := decoded.2
    if 0 < decoded.1 then (d1, [mem_slice (d1.m_buf d1.m_cur_buf) 8 decoded.1.toNat])
    else (d1, [])

/-- The function `wav_dts_demuxer_c::process`. -/
def wav_dts_demuxer_c.process (lib : codec_lib) (d : dts_demuxer) (size : Int) :
    dts_demuxer × List (List Nat) :=
  if 0 ≥ size then (d, [])
  else
    let decoded := wav_dts_demuxer_c.decode_buffer lib d size
    let d1 := decoded.2
    (d1, [mem_slice (d1.m_buf d1.m_cur_buf) 0 decoded.1.toNat])

/-- The function `wav_pcm_demuxer_c::process`. -/
def wav_pcm_demuxer_c.process (d : pcm_demuxer) (len : Int) : pcm_demuxer × List (List Nat) :=
  if 0 ≥ len then (d, [])
  else (d, [mem_slice d.m_buffer 0 len.toNat])

/-- The virtual call `m_demuxer->process(size)`. -/
def wav_demuxer.process (lib : codec_lib) (size : Int) : wav_demuxer → wav_demuxer × List (List Nat)
  | .ac3acm d => (.ac3acm (wav_ac3acm_demuxer_c.process d size).1,
      (wav_ac3acm_demuxer_c.process d size).2)
  | .ac3wav d => (.ac3wav (wav_ac3wav_demuxer_c.process lib d size).1,
      (wav_ac3wav_demuxer_c.process lib d size).2)
  | .dts d => (.dts (wav_dts_demuxer_c.process lib d size).1,
      (wav_dts_demuxer_c.process lib d size).2)
  | .pcm d => (.pcm (wav_pcm_demuxer_c.process d size).1, (wav_pcm_demuxer_c.process d size).2)

/-- The function `wav_reader_c::read`: the status returned, the reader after the
step and the calls made to the collaborators. The result is `none` when an operation of
the byte source raised (the exception leaves the function) or when no sub-demuxer is
selected. The requested byte count is a count: below zero nothing is read. -/
def wav_reader_c.read (lib : codec_lib) (r : wav_reader_c) :
    Option (file_status_e × wav_reader_c × List reader_event) :=
  match r.m_demuxer with
  | none => none
  | some d =>
    let requested_bytes : Int :=
      min r.m_remaining_bytes_in_current_data_chunk d.get_preferred_input_size
    match r.m_io.read requested_bytes with
    | (none, _) => none
    | (some bs, io1) =>
      let num_read : Int := (bs.length : Int)
      if 0 ≥ num_read then
        some (.FILE_STATUS_DONE, { r with m_io := io1 }, [.flush])
      else
        let processed := (d.store bs).process lib num_read
        let events : List reader_event :=
          .demuxer_process num_read :: processed.2.map reader_event.packet
        let r1 : wav_reader_c :=
          { r with
            m_io := io1,
            m_demuxer := some processed.1,
            m_bytes_processed := r.m_bytes_processed + num_read,
            m_remaining_bytes_in_current_data_chunk :=
              r.m_remaining_bytes_in_current_data_chunk - num_read }
        if r1.m_remaining_bytes_in_current_data_chunk = 0 then
          let idx := find_chunk r1 str_data (r1.m_cur_data_chunk_idx + 1) false
          if -1 = idx then
            some (.FILE_STATUS_DONE, { r1 with m_cur_data_chunk_idx := idx }, events ++ [.flush])
          else
            match r1.m_io.setFilePointer ((r1.chunk_at idx).pos + (sizeof_chunk_struct : Int))
                .seek_beginning with
            | (none, _) => none
            | (some _, io2) =>
              some (.FILE_STATUS_MOREDATA,
                { r1 with
                  m_io := io2,
                  m_cur_data_chunk_idx := idx,
                  m_remaining_bytes_in_current_data_chunk := (r1.chunk_at idx).len },
                events)
        else some (.FILE_STATUS_MOREDATA, r1, events)

/-- The caller of the reader: read steps, one after the other, until one returns
`FILE_STATUS_DONE`; the reader at the end and all calls made. At most `fuel` steps are
taken; `none` when they do not suffice or when a step raised. -/
def read_loop (lib : codec_lib) : Nat → wav_reader_c → Option (wav_reader_c × List reader_event)
  | 0, _ => none
  | fuel + 1, r =>
    match r.read lib with
    | none => none
    | some (.FILE_STATUS_DONE, r1, ev) => some (r1, ev)
    | some (.FILE_STATUS_MOREDATA, r1, ev) =>
      match read_loop lib fuel r1 with
      | none => none
      | some (r2, ev2) => some (r2, ev ++ ev2)

/-- The conversion of a 64 bit value to `int`. -/
def to_int32 (x : Int) : Int := (x + 2147483648) % 4294967296 - 2147483648

/-- The function `wav_reader_c::get_progress`. The quotient is formed in 64 bit
arithmetic, which the embedding takes as exact, and returned as an `int`. -/
def get_progress (r : wav_reader_c) : Int :=
  if r.m_bytes_in_data_chunks ≠ 0 then
    to_int32 (Int.tdiv (100 * r.m_bytes_processed) r.m_bytes_in_data_chunks)
  else 100

/-- The two bytes of a 16 bit field. -/
def le16 (n : Nat) : List Nat := [n % 256, n / 256 % 256]

/-- A format header of linear PCM with the given channel count, bits per sample and
samples per second. -/
def pcm_header (channels bits rate : Nat) : wave_header :=
  { riff := [],
    format := [],
    common := [1, 0] ++ le16 channels ++ le32 rate ++ le32 0 ++ [0, 0] ++ le16 bits }

/-- A reader in the middle of its work: 500 of 1000 payload bytes processed. -/
def sample_half_done : wav_reader_c :=
  { wav_reader_c.init (mm_io.of_head [] 0 0) with
    m_bytes_processed := 500,
    m_bytes_in_data_chunks := 1000 }

/-- A generic AC3 sub-demuxer with the byte swap locked in, whose active buffer holds
the bytes `bs`. -/
def sample_swapping (bs : List Nat) : ac3_demuxer :=
  { ac3_demuxer.new lib_none with
    m_swap_bytes := true,
    m_buf := set_buf (ac3_demuxer.new lib_none).m_buf 0
      (mem_write ((ac3_demuxer.new lib_none).m_buf 0) 0 bs) }

/-- A DTS sub-demuxer with the 14-to-16 repack locked in and no byte swap. -/
def sample_repacking : dts_demuxer :=
  { dts_demuxer.new lib_none with m_pack_14_16 := true }

/-- A sequence of probes of fresh sub-demuxers of the given variants, one after the
other, on a stream: the stream behind them, `none` when an operation raised. -/
def run_probes (lib : codec_lib) (wheader : wave_header) : List demuxer_kind → mm_io → Option mm_io
  | [], io => some io
  | k :: ks, io =>
    match probe_candidate lib wheader k io with
    | (none, _, _) => none
    | (some _, _, io1) => run_probes lib wheader ks io1

/-- The members of the reader that the prober does not touch are the same in `a` and
`b`, and the stream of `b` is at the position of the stream of `a`. -/
def probe_frame (a b : wav_reader_c) : Prop :=
  b.m_chunks = a.m_chunks ∧ b.m_wheader = a.m_wheader
    ∧ b.m_bytes_processed = a.m_bytes_processed
    ∧ b.m_bytes_in_data_chunks = a.m_bytes_in_data_chunks
    ∧ b.m_remaining_bytes_in_current_data_chunk = a.m_remaining_bytes_in_current_data_chunk
    ∧ b.m_cur_data_chunk_idx = a.m_cur_data_chunk_idx
    ∧ b.m_io.pos = a.m_io.pos ∧ same_source a.m_io b.m_io

/-! ## Vocabulary of the read loop -/

/-- Every entry of the index has its 8 byte header inside the source and a length
that is not negative. -/
def chunks_in_bounds (r : wav_reader_c) : Prop :=
  ∀ c ∈ r.m_chunks, 0 ≤ c.pos ∧ c.pos + 8 ≤ (r.m_io.size : Int) ∧ 0 ≤ c.len

/-- The reader works on entry `i` of the index, which is the chunk `c`: the entry is
tagged "data" and not empty, the remaining byte count is positive and at most the
length of the chunk, and the bytes consumed from the chunk (stream position minus
payload start) plus the remaining bytes are the length of the chunk. -/
def reading_at (r : wav_reader_c) (i : Nat) (c : wav_chunk_t) : Prop :=
  r.m_cur_data_chunk_idx = (i : Int) ∧ r.m_chunks[i]? = some c ∧ tag_is_data c.id ∧ c.len ≠ 0
    ∧ 0 < r.m_remaining_bytes_in_current_data_chunk
    ∧ r.m_remaining_bytes_in_current_data_chunk ≤ c.len
    ∧ ((r.m_io.pos : Int) - (c.pos + 8)) + r.m_remaining_bytes_in_current_data_chunk = c.len

/-- The processed byte count of a reader that works on entry `i`: the payload of the
data chunks in front of the entry and the bytes consumed from the entry. -/
def processed_at (r : wav_reader_c) (i : Nat) (c : wav_chunk_t) : Prop :=
  r.m_bytes_processed
    = payload_sum (r.m_chunks.take i) + (c.len - r.m_remaining_bytes_in_current_data_chunk)

/-- The reader has run out of data chunks: no current chunk, nothing remaining, and
all recorded payload bytes processed. -/
def finished (r : wav_reader_c) : Prop :=
  r.m_cur_data_chunk_idx = -1 ∧ r.m_remaining_bytes_in_current_data_chunk = 0
    ∧ r.m_bytes_processed = r.m_bytes_in_data_chunks

/-- What holds of the reader between two read steps. -/
def read_invariant (r : wav_reader_c) : Prop :=
  index_consistent r ∧ chunks_in_bounds r
    ∧ ((∃ i c, reading_at r i c ∧ processed_at r i c) ∨ finished r)

/-- The reader after `n` read steps each of which returned `FILE_STATUS_MOREDATA`;
`none` when one of them raised or returned `FILE_STATUS_DONE`. -/
def read_more (lib : codec_lib) : Nat → wav_reader_c → Option wav_reader_c
  | 0, r => some r
  | n + 1, r =>
    match r.read lib with
    | some (.FILE_STATUS_MOREDATA, r1, _) => read_more lib n r1
    | _ => none

/-- The reader after `n` read steps, whatever they returned; `none` when one of them
raised. -/
def read_steps (lib : codec_lib) : Nat → wav_reader_c → Option wav_reader_c
  | 0, r => some r
  | n + 1, r =>
    match r.read lib with
    | some (_, r1, _) => read_steps lib n r1
    | none => none

/-- The packets among the calls made to the collaborators, in the order of the calls. -/
def packets_of : List reader_event → List (List Nat)
  | [] => []
  | .packet bs :: rest => bs :: packets_of rest
  | _ :: rest => packets_of rest

/-- The payload of an index entry as the source holds it: the `len` bytes from offset
`pos + 8` on. -/
def chunk_payload (io : mm_io) (c : wav_chunk_t) : List Nat :=
  mem_slice (fun i => io.data i % 256) (c.pos + 8).toNat c.len.toNat

/-- The payloads of the data chunks of non-zero length, in index order, one after the
other. -/
def data_payloads (io : mm_io) (cs : List wav_chunk_t) : List Nat :=
  ((cs.filter (fun c => decide (tag_is_data c.id ∧ c.len ≠ 0))).map (chunk_payload io)).flatten

/-- The payload of every data chunk of the index is fully present in the source. -/
def payloads_present (r : wav_reader_c) : Prop :=
  ∀ c ∈ r.m_chunks, tag_is_data c.id → c.pos + 8 + c.len ≤ (r.m_io.size : Int)

/-- The number of bytes that the read of a step delivers when the sub-demuxer is `d`:
the requested count, cut short at the end of the source. -/
def read_count (r : wav_reader_c) (d : wav_demuxer) : Nat :=
  min (min r.m_remaining_bytes_in_current_data_chunk d.get_preferred_input_size).toNat
    (r.m_io.size - r.m_io.pos)

/-- The bytes that the read of a step delivers. -/
def read_block (r : wav_reader_c) (d : wav_demuxer) : List Nat :=
  mem_slice (fun i => r.m_io.data i % 256) r.m_io.pos (read_count r d)

/-- The reader of a step behind the read, the call of `process` and the update of the
two byte counters. -/
def after_process (lib : codec_lib) (r : wav_reader_c) (d : wav_demuxer) : wav_reader_c :=
  { r with
    m_io := { r.m_io with ops := r.m_io.ops + 1, pos := r.m_io.pos + read_count r d },
    m_demuxer := some ((d.store (read_block r d)).process lib (read_count r d : Int)).1,
    m_bytes_processed := r.m_bytes_processed + (read_count r d : Int),
    m_remaining_bytes_in_current_data_chunk :=
      r.m_remaining_bytes_in_current_data_chunk - (read_count r d : Int) }

/-- The calls that a step makes for the block it has read: `process` and the packets
that `process` hands on. -/
def process_events (lib : codec_lib) (r : wav_reader_c) (d : wav_demuxer) : List reader_event :=
  .demuxer_process (read_count r d : Int)
    :: ((d.store (read_block r d)).process lib (read_count r d : Int)).2.map reader_event.packet

/-- The result of the constructor when it succeeds (and the initial state when it
does not). -/
def opened (lib : codec_lib) (io : mm_io) : wav_reader_c :=
  match wav_reader_c.new lib io with
  | .ok r => r
  | .error _ => wav_reader_c.init io

/-- The preferred input size of the selected sub-demuxer, 0 when none is selected. -/
def wav_reader_c.block_size (r : wav_reader_c) : Int :=
  (r.m_demuxer.map wav_demuxer.get_preferred_input_size).getD 0

/-- The variant of the selected sub-demuxer. -/
def wav_reader_c.variant (r : wav_reader_c) : Option demuxer_kind :=
  r.m_demuxer.map wav_demuxer.kind

/-- The sizes of the calls of `process` among the calls made to the collaborators, in
the order of the calls. -/
def process_calls : List reader_event → List Int
  | [] => []
  | .demuxer_process n :: rest => n :: process_calls rest
  | _ :: rest => process_calls rest

/-- One second of silence: RIFF header, a format chunk (PCM, 2 channels, 8000 Hz,
16 bits) and a data chunk of 32000 zero bytes, 32044 bytes in all. -/
def sample_one_second : mm_io :=
  mm_io.of_head (str_RIFF ++ le32 32036 ++ str_WAVE ++ str_fmt ++ le32 16
    ++ [1, 0, 2, 0] ++ le32 8000 ++ le32 32000 ++ [4, 0, 16, 0]
    ++ str_data ++ le32 32000) 32044 0

/-- A container with two data chunks: RIFF header, a format chunk (PCM, 2 channels,
8000 Hz, 16 bits), a data chunk of 4 bytes and a data chunk of 2 bytes, 58 bytes in
all. -/
def sample_two_chunks : mm_io :=
  mm_io.of_head (str_RIFF ++ le32 50 ++ str_WAVE ++ str_fmt ++ le32 16
    ++ [1, 0, 2, 0] ++ le32 8000 ++ le32 32000 ++ [4, 0, 16, 0]
    ++ str_data ++ le32 4 ++ [1, 2, 3, 4] ++ str_data ++ le32 2 ++ [5, 6]) 58 0

/-- The reader on `sample_two_chunks` after the first read step, which has used up the
first data chunk and moved on to the second. -/
def sample_two_chunks_second : wav_reader_c :=
  (read_more lib_none 1 (opened lib_none sample_two_chunks)).getD
    (wav_reader_c.init sample_two_chunks)

/-- A container whose data chunk is cut short: RIFF header, a format chunk (PCM,
2 channels, 8000 Hz, 16 bits) and a data chunk that declares 16 bytes of which the file
holds 8, 52 bytes in all. -/
def sample_cut_short : mm_io :=
  mm_io.of_head (str_RIFF ++ le32 44 ++ str_WAVE ++ str_fmt ++ le32 16
    ++ [1, 0, 2, 0] ++ le32 8000 ++ le32 32000 ++ [4, 0, 16, 0]
    ++ str_data ++ le32 16 ++ [1, 2, 3, 4, 5, 6, 7, 8]) 52 0

/-- The reader on `sample_cut_short` after the first read step, which has read the 8
bytes that are there. -/
def sample_cut_short_second : wav_reader_c :=
  (read_steps lib_none 1 (opened lib_none sample_cut_short)).getD
    (wav_reader_c.init sample_cut_short)

/-- The reader on `sample_cut_short` after the second read step, which found nothing
to read. -/
def sample_cut_short_done : wav_reader_c :=
  ((sample_cut_short_second.read lib_none).map (fun x => x.2.1)).getD sample_cut_short_second

instance (r : wav_reader_c) : Decidable (payloads_present r) := by
  unfold payloads_present
  infer_instance

/-- The sum of the lengths of the data chunks of non-zero length. -/
def payload_lengths (cs : List wav_chunk_t) : Int :=
  ((cs.filter (fun c => decide (tag_is_data c.id ∧ c.len ≠ 0))).map (fun c => c.len)).sum

/-- A container with two data chunks of 500 and 300 bytes behind the format chunk
(PCM, 2 channels, 8000 Hz, 16 bits), 852 bytes in all; the first payload holds the
byte 7 throughout, the second zero bytes. -/
def sample_500_300 : mm_io :=
  { size := 852,
    data := fun i =>
      if i < 44 then
        (str_RIFF ++ le32 844 ++ str_WAVE ++ str_fmt ++ le32 16
          ++ [1, 0, 2, 0] ++ le32 8000 ++ le32 32000 ++ [4, 0, 16, 0]
          ++ str_data ++ le32 500).getD i 0
      else if i < 544 then 7
      else (str_data ++ le32 300).getD (i - 544) 0,
    pos := 0, positions := [], ops := 0, fault := fun _ => false }

/-- A container whose format chunk gives a sample rate of 0 (PCM, 2 channels, 16
bits), with a complete data chunk of 8 bytes, 52 bytes in all. -/
def sample_no_rate : mm_io :=
  mm_io.of_head (str_RIFF ++ le32 44 ++ str_WAVE ++ str_fmt ++ le32 16
    ++ [1, 0, 2, 0] ++ le32 0 ++ le32 0 ++ [4, 0, 16, 0]
    ++ str_data ++ le32 8 ++ [1, 2, 3, 4, 5, 6, 7, 8]) 52 0

/-! ## Vocabulary of the wrapped AC3 block -/

/-- The buffer that `wav_ac3wav_demuxer_c::decode_buffer` examines through its pointer
`base`, and from which `process` takes the packet: the active buffer behind the call. -/
def wav_ac3wav_demuxer_c.base (lib : codec_lib) (d : ac3_demuxer) (len : Int) : Nat → Nat :=
  (wav_ac3wav_demuxer_c.decode_buffer lib d len).2.m_buf
    (wav_ac3wav_demuxer_c.decode_buffer lib d len).2.m_cur_buf

/-- The payload length that the head of a block declares: the little-endian 16 bit
word at offset 6, a number of bits, divided by 8. -/
def declared_payload (base : Nat → Nat) : Nat := get_uint16_le (mem_slice base 6 2) / 8

/-- The head of a block of `len` bytes is that of a wrapped AC3 block: at least 8
bytes, the two sync words, the byte 0x01 at offset 4, and a declared payload of at
least one byte that fits into the block behind the head. -/
def head_valid (base : Nat → Nat) (len : Int) : Prop :=
  8 ≤ len
    ∧ get_uint16_le (mem_slice base 0 2) = AC3WAV_SYNC_WORD1
    ∧ get_uint16_le (mem_slice base 2 2) = AC3WAV_SYNC_WORD2
    ∧ base 4 = 0x01
    ∧ 0 < declared_payload base
    ∧ (declared_payload base : Int) + 8 ≤ len

instance (base : Nat → Nat) (len : Int) : Decidable (head_valid base len) := by
  unfold head_valid
  infer_instance

/-- The search for an AC3 frame header over the declared payload, the bytes from
offset 8 on, finds a header at position 0. -/
def frame_at_start (lib : codec_lib) (header : ac3_header_t) (base : Nat → Nat) : Prop :=
  (lib.find_ac3_header (mem_slice base 8 (declared_payload base)) (declared_payload base : Int)
    header true).1 = 0

instance (lib : codec_lib) (header : ac3_header_t) (base : Nat → Nat) :
    Decidable (frame_at_start lib header base) := by
  unfold frame_at_start
  infer_instance

/-- A memory with the byte at index `i` replaced by `x`. -/
def poke (m : Nat → Nat) (i x : Nat) : Nat → Nat := fun j => if j = i then x else m j

/-- The sub-demuxer with the byte at index `i` of its active buffer replaced by `x`. -/
def ac3_demuxer.poke_active (d : ac3_demuxer) (i x : Nat) : ac3_demuxer :=
  { d with m_buf := set_buf d.m_buf d.m_cur_buf (poke (d.m_buf d.m_cur_buf) i x) }

/-- The sub-demuxer after the bytes `bs` were read into its active buffer. -/
def ac3_demuxer.holding (d : ac3_demuxer) (bs : List Nat) : ac3_demuxer :=
  { d with m_buf := set_buf d.m_buf d.m_cur_buf (mem_write (d.m_buf d.m_cur_buf) 0 bs) }

/-- A wrapped AC3 block of 16 bytes: sync words, the bytes 0x01 and 0x00, a bit length
of 64 and 8 payload bytes. -/
def wrapped_block : List Nat :=
  [0x72, 0xf8, 0x1f, 0x4e, 0x01, 0x00, 0x40, 0x00, 0x0b, 0x77, 1, 2, 3, 4, 5, 6]

/-- The checks that `wav_ac3wav_demuxer_c::decode_buffer` makes on the 8 byte head, on
the raw bytes `bs` of a block: at least 8 bytes, the two sync words, the type byte at
offset 4, and a declared payload that fits into the block behind the head. -/
def wrapped_head (bs : List Nat) : Prop :=
  8 ≤ bs.length
    ∧ get_uint16_le (bs.take 2) = AC3WAV_SYNC_WORD1
    ∧ get_uint16_le ((bs.drop 2).take 2) = AC3WAV_SYNC_WORD2
    ∧ bs.getD 4 0 = 0x01
    ∧ get_uint16_le ((bs.drop 6).take 2) / 8 + 8 ≤ bs.length

instance (bs : List Nat) : Decidable (wrapped_head bs) := by
  unfold wrapped_head
  infer_instance

/-- Two states of a sub-demuxer that agree in everything except, possibly, the byte at
index `i` of their buffers. -/
def same_but_at (i : Nat) (a b : ac3_demuxer) : Prop :=
  a.m_ac3header = b.m_ac3header ∧ a.m_cur_buf = b.m_cur_buf ∧ a.m_swap_bytes = b.m_swap_bytes
    ∧ ∀ c j, j ≠ i → a.m_buf c j = b.m_buf c j

/-- A wrapped AC3 block whose payload, exchanged in pairs, starts with the AC3 sync
word: the head is that of `wrapped_block`. -/
def wrapped_block_swapped : List Nat :=
  [0x72, 0xf8, 0x1f, 0x4e, 0x01, 0x00, 0x40, 0x00, 0x77, 0x0b, 2, 1, 4, 3, 6, 5]

/-- A codec library that finds an AC3 header exactly in buffers starting with the
bytes 0x0b 0x77, and nothing else. -/
def lib_ac3_sync : codec_lib :=
  { find_ac3_header := fun b _ h _ => (if b.take 2 = [0x0b, 0x77] then 0 else -1, h),
    find_consecutive_ac3_headers := fun _ _ _ => -1,
    detect_dts := fun _ _ p s => (false, p, s),
    find_dts_header := fun _ _ h => (-1, h),
    dts_14_to_dts_16 := fun _ _ => [],
    alloc := fun _ _ _ => 0 }

/-- One transform between the two scratch buffers: from the buffers `buf` with the
active index `cur` to the buffers `buf1` with the active index `cur1`. The active index
has flipped, the buffer that was active is as it was, the other one of the pair now is
`written`, and no further buffer has changed. -/
def flips_into_inactive (buf : Nat → Nat → Nat) (cur : Nat) (buf1 : Nat → Nat → Nat) (cur1 : Nat)
    (written : Nat → Nat) : Prop :=
  cur1 = cur ^^^ 1 ∧ buf1 cur = buf cur ∧ buf1 (cur ^^^ 1) = written
    ∧ ∀ c, c ≠ cur ^^^ 1 → buf1 c = buf c

/-- The bytes that the 14-to-16-bit repack of `wav_dts_demuxer_c::decode_buffer` stores
for a block of `len` bytes in the buffer `active`. -/
def repacked (lib : codec_lib) (active : Nat → Nat) (len : Int) : List Nat :=
  (lib.dts_14_to_dts_16 (mem_slice active 0 (2 * (Int.tdiv len 2).toNat)) (Int.tdiv len 2)).map
    (fun b => b % 256)

/-- A DTS sub-demuxer with both transforms locked in. -/
def sample_swapping_repacking : dts_demuxer :=
  { dts_demuxer.new lib_none with m_swap_bytes := true, m_pack_14_16 := true }

/-- The sub-demuxer that the constructor selects on `sample_two_chunks`. -/
def sample_two_chunks_demuxer : wav_demuxer :=
  (opened lib_none sample_two_chunks).m_demuxer.getD
    (.pcm { m_bps := 0, m_buffer := fun _ => 0, ieee_float := false })

/-- Entry `j` of the index of `r` is the chunk `c`, a data chunk of non-zero length
behind the current entry. -/
def next_data_chunk (r : wav_reader_c) (j : Nat) (c : wav_chunk_t) : Prop :=
  r.m_cur_data_chunk_idx < (j : Int) ∧ r.m_chunks[j]? = some c ∧ tag_is_data c.id ∧ c.len ≠ 0

instance (r : wav_reader_c) (j : Nat) (c : wav_chunk_t) : Decidable (next_data_chunk r j c) := by
  unfold next_data_chunk
  infer_instance

/-- The reader on `sample_two_chunks` after the two read steps that use up its two
data chunks: the second one has returned `FILE_STATUS_DONE`. -/
def sample_two_chunks_done : wav_reader_c :=
  (read_steps lib_none 2 (opened lib_none sample_two_chunks)).getD
    (wav_reader_c.init sample_two_chunks)

/-- The number of passes through the body of the loop of `scan_chunks` that the loop
makes from the reader `r` when at most `fuel` passes are allowed. -/
def scan_passes (file_size : Int) : Nat → wav_reader_c → Nat
  | 0, _ => 0
  | fuel + 1, r =>
    match scan_step file_size r with
    | (_, some _) => 1
    | (r1, none) => 1 + scan_passes file_size fuel r1

/-- The index `after` comes from the index `before` by appending entries and then, at
most, rewriting the length of the last entry to `file_size - pos - 8`, which happens
in files above 0x100000000 bytes only. -/
def index_grown (file_size : Int) (before after : List wav_chunk_t) : Prop :=
  ∃ cs : List wav_chunk_t,
    after = before ++ cs
      ∨ (file_size > 0x100000000
          ∧ ∃ p : wav_chunk_t, (before ++ cs).getLast? = some p
            ∧ after = (before ++ cs).dropLast
                ++ [{ p with len := file_size - p.pos - (sizeof_chunk_struct : Int) }])

/-! ## Facts about the byte source -/

theorem issue_ok (io : mm_io) (h : io.fault io.ops = false) :
    io.issue = (false, { io with ops := io.ops + 1 }) := by
  simp [mm_io.issue, h]

theorem getFilePointer_ok (io : mm_io) (h : io.fault io.ops = false) :
    io.getFilePointer = (some (io.pos : Int), { io with ops := io.ops + 1 }) := by
  simp [mm_io.getFilePointer, issue_ok io h]

theorem get_size_ok (io : mm_io) (h : io.fault io.ops = false) :
    io.get_size = (some (io.size : Int), { io with ops := io.ops + 1 }) := by
  simp [mm_io.get_size, issue_ok io h]

theorem read_ok (io : mm_io) (n : Int) (h : io.fault io.ops = false) :
    io.read n = (some (mem_slice (fun i => io.data i % 256) io.pos (min n.toNat (io.size - io.pos))),
      { io with ops := io.ops + 1, pos := io.pos + min n.toNat (io.size - io.pos) }) := by
  simp [mm_io.read, issue_ok io h]

theorem seek_current_ok (io : mm_io) (off : Nat) (h : io.fault io.ops = false) :
    io.setFilePointer (off : Int) .seek_current
      = (some (), { io with ops := io.ops + 1, pos := io.pos + off }) := by
  have h1 : ¬ ((io.pos : Int) + (off : Int) < 0) := by omega
  have h2 : ((io.pos : Int) + (off : Int)).toNat = io.pos + off := by omega
  simp [mm_io.setFilePointer, issue_ok io h, h1, h2]

theorem seek_beginning_ok (io : mm_io) (off : Nat) (h : io.fault io.ops = false) :
    io.setFilePointer (off : Int) .seek_beginning
      = (some (), { io with ops := io.ops + 1, pos := off }) := by
  have h1 : ¬ ((off : Int) < 0) := by omega
  simp [mm_io.setFilePointer, issue_ok io h, h1]

theorem mem_slice_length (m : Nat → Nat) (off n : Nat) : (mem_slice m off n).length = n := by
  simp [mem_slice]

theorem mem_slice_add (m : Nat → Nat) (off a b : Nat) :
    mem_slice m off (a + b) = mem_slice m off a ++ mem_slice m (off + a) b := by
  simp [mem_slice, List.range_add, List.map_append, Nat.add_assoc]

theorem get_uint32_le_le32 (n : Nat) (h : n < 4294967296) : get_uint32_le (le32 n) = n := by
  simp [get_uint32_le, le32]
  omega

/-! ## Facts about tags -/

theorem tolower_eq_zero (c : Nat) : tolower c = 0 ↔ c = 0 := by
  unfold tolower
  split <;> omega

theorem strncasecmp_tag (id tag : List Nat) (h : id.length = 4) (ht : tag.length = 4)
    (hz : ∀ c ∈ tag, c ≠ 0) :
    strncasecmp id tag 4 = 0 ↔ id.map tolower = tag.map tolower := by
  match id, h, tag, ht with
  | [a, b, c, d], _, [e, f, g, k], _ =>
    have he : tolower e ≠ 0 := fun hh => hz e (by simp) ((tolower_eq_zero e).1 hh)
    have hf : tolower f ≠ 0 := fun hh => hz f (by simp) ((tolower_eq_zero f).1 hh)
    have hg : tolower g ≠ 0 := fun hh => hz g (by simp) ((tolower_eq_zero g).1 hh)
    simp only [strncasecmp, c_head, List.headD_cons, List.tail_cons, List.map_cons, List.map_nil]
    by_cases ha : tolower a = tolower e <;> by_cases hb : tolower b = tolower f <;>
      by_cases hc : tolower c = tolower g <;> by_cases hd : tolower d = tolower k <;>
      simp [ha, hb, hc, hd, he, hf, hg] <;> omega

theorem strncasecmp_data (id : List Nat) (h : id.length = 4) :
    strncasecmp id str_data 4 = 0 ↔ tag_is_data id := by
  have := strncasecmp_tag id str_data h (by decide) (by decide)
  simpa [tag_is_data, str_data, tolower] using this

/-! ## Facts about one pass of the scanning loop -/

theorem payload_sum_append (cs : List wav_chunk_t) (c : wav_chunk_t) :
    payload_sum (cs ++ [c]) = payload_sum cs + (if tag_is_data c.id then c.len else 0) := by
  unfold payload_sum
  by_cases h : tag_is_data c.id <;> simp [List.filter_append, List.filter_cons, h]

theorem scan_push_chunks (r : wav_reader_c) (io : mm_io) (c : wav_chunk_t) (t : Int) :
    (scan_push r io c t).1.m_chunks = r.m_chunks ++ [c]
      ∧ (scan_push r io c t).1.m_bytes_in_data_chunks = t
      ∧ ((scan_push r io c t).2 = none ∨ (scan_push r io c t).2 = some .io_error) := by
  unfold scan_push
  rcases h : io.setFilePointer c.len .seek_current with ⟨_ | u, io1⟩ <;> simp

/-- The three ways in which one pass of the loop can end: nothing was recorded and
the loop is left; a chunk with a tag of 4 bytes was appended and counted; or the last
entry was corrected and the loop is left. -/
theorem scan_step_cases (fs : Int) (r : wav_reader_c) :
    ((scan_step fs r).1.m_chunks = r.m_chunks
        ∧ (scan_step fs r).1.m_bytes_in_data_chunks = r.m_bytes_in_data_chunks
        ∧ ((scan_step fs r).2 = some .io_error ∨ (scan_step fs r).2 = some .short_read))
    ∨ (∃ c : wav_chunk_t, c.id.length = 4 ∧ 0 ≤ c.len
        ∧ (scan_step fs r).1.m_chunks = r.m_chunks ++ [c]
        ∧ (scan_step fs r).1.m_bytes_in_data_chunks
            = r.m_bytes_in_data_chunks + (if tag_is_data c.id then c.len else 0)
        ∧ ((scan_step fs r).2 = none ∨ (scan_step fs r).2 = some .io_error))
    ∨ (∃ p : wav_chunk_t, r.m_chunks.getLast? = some p ∧ strncasecmp p.id str_data 4 = 0
        ∧ fs > 0x100000000
        ∧ (scan_step fs r).1.m_chunks
            = r.m_chunks.dropLast ++ [{ p with len := fs - p.pos - (sizeof_chunk_struct : Int) }]
        ∧ (scan_step fs r).1.m_bytes_in_data_chunks
            = r.m_bytes_in_data_chunks - p.len + (fs - p.pos - (sizeof_chunk_struct : Int))
        ∧ (scan_step fs r).2 = some .corrected) := by
  rcases h1 : r.m_io.getFilePointer with ⟨_ | pos, io1⟩
  · simp [scan_step, h1]
  rcases h2 : io1.read 4 with ⟨_ | id, io2⟩
  · simp [scan_step, h1, h2]
  by_cases hl : id.length = 4
  swap
  · simp [scan_step, h1, h2, hl]
  rcases h3 : io2.read_uint32_le with ⟨_ | len, io3⟩
  · simp [scan_step, h1, h2, hl, h3]
  simp only [scan_step, h1, h2, h3, hl, ne_eq, not_true_eq_false, if_false]
  by_cases hd : strncasecmp id str_data 4 = 0
  · right; left
    have hd2 : tag_is_data id := (strncasecmp_data id hl).1 hd
    refine ⟨{ pos := pos, id := id, len := (len : Int) }, hl, by simp, ?_⟩
    have := scan_push_chunks r io3 { pos := pos, id := id, len := (len : Int) }
      (r.m_bytes_in_data_chunks + (len : Int))
    simpa [hd, hd2] using this
  · have hd2 : ¬ tag_is_data id := fun hh => hd ((strncasecmp_data id hl).2 hh)
    have hpush : ∃ c : wav_chunk_t, c.id.length = 4 ∧ 0 ≤ c.len
        ∧ (scan_push r io3 { pos := pos, id := id, len := (len : Int) }
            r.m_bytes_in_data_chunks).1.m_chunks = r.m_chunks ++ [c]
        ∧ (scan_push r io3 { pos := pos, id := id, len := (len : Int) }
            r.m_bytes_in_data_chunks).1.m_bytes_in_data_chunks
            = r.m_bytes_in_data_chunks + (if tag_is_data c.id then c.len else 0)
        ∧ ((scan_push r io3 { pos := pos, id := id, len := (len : Int) }
            r.m_bytes_in_data_chunks).2 = none
          ∨ (scan_push r io3 { pos := pos, id := id, len := (len : Int) }
            r.m_bytes_in_data_chunks).2 = some .io_error) := by
      refine ⟨{ pos := pos, id := id, len := (len : Int) }, hl, by simp, ?_⟩
      have := scan_push_chunks r io3 { pos := pos, id := id, len := (len : Int) }
        r.m_bytes_in_data_chunks
      simpa [hd2] using this
    simp only [hd, if_false]
    rcases hlast : r.m_chunks.getLast? with _ | p
    · right; left
      simpa using hpush
    · by_cases hc : strncasecmp p.id str_data 4 = 0 ∧ fs > 0x100000000
      · right; right
        refine ⟨p, rfl, hc.1, hc.2, ?_⟩
        simp [hc, scan_correct]
      · right; left
        simpa [hc] using hpush

theorem index_consistent_step (fs : Int) (r : wav_reader_c) (h : index_consistent r) :
    index_consistent (scan_step fs r).1 := by
  obtain ⟨hsum, hlen⟩ := h
  rcases scan_step_cases fs r with ⟨hc, ht, _⟩ | ⟨c, hc4, _, hc, ht, _⟩ | ⟨p, hp, hpd, _, hc, ht, _⟩
  · exact ⟨by rw [hc, ht]; exact hsum, by rw [hc]; exact hlen⟩
  · refine ⟨by rw [hc, ht, payload_sum_append, hsum], ?_⟩
    rw [hc]
    intro x hx
    rcases List.mem_append.1 hx with hx | hx
    · exact hlen x hx
    · simp at hx
      rw [hx]; exact hc4
  · have hsplit : r.m_chunks.dropLast ++ [p] = r.m_chunks :=
      List.dropLast_append_getLast? p (by simp [hp])
    have hpm : p ∈ r.m_chunks := by rw [← hsplit]; simp
    have hp4 : p.id.length = 4 := hlen p hpm
    have hpdata : tag_is_data p.id := (strncasecmp_data p.id hp4).1 hpd
    have hold : payload_sum r.m_chunks = payload_sum r.m_chunks.dropLast + p.len := by
      conv_lhs => rw [← hsplit]
      rw [payload_sum_append]; simp [hpdata]
    refine ⟨?_, ?_⟩
    · rw [hc, ht, payload_sum_append, hsum, hold]
      simp [hpdata]
    · rw [hc]
      intro x hx
      rcases List.mem_append.1 hx with hx | hx
      · exact hlen x (by rw [← hsplit]; exact List.mem_append_left _ hx)
      · simp at hx
        rw [hx]; exact hp4

theorem index_consistent_loop (fs : Int) (fuel : Nat) (r : wav_reader_c) (h : index_consistent r)
    (res : wav_reader_c × scan_exit) (hres : scan_loop fs fuel r = some res) :
    index_consistent res.1 := by
  induction fuel generalizing r with
  | zero => simp [scan_loop] at hres
  | succ k ih =>
    have hstep := index_consistent_step fs r h
    rcases hs : scan_step fs r with ⟨r1, _ | e⟩
    · rw [hs] at hstep
      simp only [scan_loop, hs] at hres
      exact ih r1 hstep hres
    · rw [hs] at hstep
      simp only [scan_loop, hs, Option.some.injEq] at hres
      rw [← hres]; exact hstep

theorem index_consistent_scan (r : wav_reader_c) (h : index_consistent r) :
    index_consistent (scan_chunks r) := by
  unfold scan_chunks scan_chunks_exit
  rcases h1 : r.m_io.get_size with ⟨_ | fs, io1⟩
  · exact h
  · simp only
    rcases h2 : scan_loop fs (scan_fuel io1) { r with m_io := io1 } with _ | res
    · exact h
    · exact index_consistent_loop fs (scan_fuel io1) { r with m_io := io1 } h res h2

/-! ## The scanning loop comes to an end -/

theorem getFilePointer_some (io io1 : mm_io) (p : Int) (h : io.getFilePointer = (some p, io1)) :
    p = (io.pos : Int) ∧ io1 = { io with ops := io.ops + 1 } := by
  unfold mm_io.getFilePointer mm_io.issue at h
  cases hf : io.fault io.ops <;> simp [hf] at h
  exact ⟨h.1.symm, h.2.symm⟩

theorem read_some (io io1 : mm_io) (n : Int) (bs : List Nat) (h : io.read n = (some bs, io1)) :
    bs = mem_slice (fun i => io.data i % 256) io.pos (min n.toNat (io.size - io.pos))
      ∧ io1 = { io with ops := io.ops + 1, pos := io.pos + min n.toNat (io.size - io.pos) } := by
  unfold mm_io.read mm_io.issue at h
  cases hf : io.fault io.ops <;> simp [hf] at h
  exact ⟨h.1.symm, h.2.symm⟩

theorem read4_some (io io1 : mm_io) (bs : List Nat) (h : io.read 4 = (some bs, io1))
    (hl : bs.length = 4) :
    io.pos + 4 ≤ io.size ∧ bs = mem_slice (fun i => io.data i % 256) io.pos 4
      ∧ io1 = { io with ops := io.ops + 1, pos := io.pos + 4 } := by
  obtain ⟨hb, hio⟩ := read_some io io1 4 bs h
  have hlen : min (4 : Int).toNat (io.size - io.pos) = 4 := by
    rw [hb, mem_slice_length] at hl
    exact hl
  rw [hlen] at hb hio
  have h4 : (4 : Int).toNat = 4 := rfl
  rw [h4] at hlen
  exact ⟨by omega, hb, hio⟩

theorem read_uint32_le_some (io io1 : mm_io) (v : Nat) (h : io.read_uint32_le = (some v, io1)) :
    io.pos + 4 ≤ io.size
      ∧ v = get_uint32_le (mem_slice (fun i => io.data i % 256) io.pos 4)
      ∧ io1 = { io with ops := io.ops + 1, pos := io.pos + 4 } := by
  unfold mm_io.read_uint32_le at h
  rcases hr : io.read 4 with ⟨_ | bs, io2⟩
  · simp [hr] at h
  · by_cases hl : bs.length = 4
    · simp [hr, hl] at h
      obtain ⟨h1, h2, h3⟩ := read4_some io io2 bs hr hl
      exact ⟨h1, by rw [← h.1, h2], by rw [← h.2, h3]⟩
    · simp [hr, hl] at h

theorem seek_current_some (io io1 : mm_io) (off : Nat)
    (h : io.setFilePointer (off : Int) .seek_current = (some (), io1)) :
    io1 = { io with ops := io.ops + 1, pos := io.pos + off } := by
  unfold mm_io.setFilePointer mm_io.issue at h
  have h1 : ¬ ((io.pos : Int) + (off : Int) < 0) := by omega
  have h2 : ((io.pos : Int) + (off : Int)).toNat = io.pos + off := by omega
  cases hf : io.fault io.ops <;> simp [hf, h1, h2] at h
  exact h.symm

theorem scan_push_next (r : wav_reader_c) (io : mm_io) (pos : Int) (id : List Nat) (len : Nat)
    (t : Int) (h : (scan_push r io { pos := pos, id := id, len := (len : Int) } t).2 = none) :
    (scan_push r io { pos := pos, id := id, len := (len : Int) } t).1
      = { r with
          m_io := { io with ops := io.ops + 1, pos := io.pos + len },
          m_chunks := r.m_chunks ++ [{ pos := pos, id := id, len := (len : Int) }],
          m_bytes_in_data_chunks := t } := by
  unfold scan_push at h ⊢
  rcases hs : io.setFilePointer (len : Int) .seek_current with ⟨_ | u, io1⟩
  · simp [hs] at h
  · have := seek_current_some io io1 len hs
    simp [this]

/-- A pass after which the loop goes on has read a complete header of 8 bytes and has
moved the stream behind the declared payload. -/
theorem scan_step_next (fs : Int) (r : wav_reader_c) (h : (scan_step fs r).2 = none) :
    r.m_io.pos + 8 ≤ r.m_io.size
      ∧ ∃ len : Nat, ∃ t : Int,
        len = get_uint32_le (mem_slice (fun i => r.m_io.data i % 256) (r.m_io.pos + 4) 4)
        ∧ (scan_step fs r).1
          = { r with
              m_io := { r.m_io with ops := r.m_io.ops + 4, pos := r.m_io.pos + 8 + len },
              m_chunks := r.m_chunks ++
                [{ pos := (r.m_io.pos : Int),
                   id := mem_slice (fun i => r.m_io.data i % 256) r.m_io.pos 4,
                   len := (len : Int) }],
              m_bytes_in_data_chunks := t } := by
  rcases h1 : r.m_io.getFilePointer with ⟨_ | pos, io1⟩
  · simp [scan_step, h1] at h
  rcases h2 : io1.read 4 with ⟨_ | id, io2⟩
  · simp [scan_step, h1, h2] at h
  by_cases hl : id.length = 4
  swap
  · simp [scan_step, h1, h2, hl] at h
  rcases h3 : io2.read_uint32_le with ⟨_ | len, io3⟩
  · simp [scan_step, h1, h2, hl, h3] at h
  obtain ⟨hp, hio1⟩ := getFilePointer_some _ _ _ h1
  obtain ⟨hsz2, hid, hio2⟩ := read4_some _ _ _ h2 hl
  obtain ⟨hsz3, hv, hio3⟩ := read_uint32_le_some _ _ _ h3
  have hpos1 : io1.pos = r.m_io.pos := by rw [hio1]
  have hsize1 : io1.size = r.m_io.size := by rw [hio1]
  have hpos2 : io2.pos = r.m_io.pos + 4 := by rw [hio2, ← hpos1]
  have hsize2 : io2.size = r.m_io.size := by rw [hio2, ← hsize1]
  have hdata1 : io1.data = r.m_io.data := by rw [hio1]
  have hdata2 : io2.data = r.m_io.data := by rw [hio2, ← hdata1]
  have hio3full : { io3 with ops := io3.ops + 1, pos := io3.pos + len }
      = { r.m_io with ops := r.m_io.ops + 4, pos := r.m_io.pos + 8 + len } := by
    rw [hio3, hio2, hio1]
  refine ⟨by omega, len, ?_⟩
  simp only [scan_step, h1, h2, h3, hl, ne_eq, not_true_eq_false, if_false] at h ⊢
  have hidv : id = mem_slice (fun i => r.m_io.data i % 256) r.m_io.pos 4 := by
    rw [hid, hdata1, hpos1]
  have hlenv : len = get_uint32_le (mem_slice (fun i => r.m_io.data i % 256) (r.m_io.pos + 4) 4) := by
    rw [hv, hdata2, hpos2]
  by_cases hd : strncasecmp id str_data 4 = 0
  · simp only [hd, if_true] at h ⊢
    refine ⟨r.m_bytes_in_data_chunks + (len : Int), hlenv, ?_⟩
    rw [scan_push_next r io3 pos id len _ h, hio3full, hp, hidv]
  · simp only [hd, if_false] at h ⊢
    rcases hlast : r.m_chunks.getLast? with _ | p
    · simp only [hlast] at h ⊢
      refine ⟨r.m_bytes_in_data_chunks, hlenv, ?_⟩
      rw [scan_push_next r io3 pos id len _ h, hio3full, hp, hidv]
    · simp only [hlast] at h ⊢
      by_cases hc : strncasecmp p.id str_data 4 = 0 ∧ fs > 0x100000000
      · simp [hc] at h
      · simp only [hc, if_false] at h ⊢
        refine ⟨r.m_bytes_in_data_chunks, hlenv, ?_⟩
        rw [scan_push_next r io3 pos id len _ h, hio3full, hp, hidv]

theorem scan_loop_ends (fs : Int) (fuel : Nat) (r : wav_reader_c)
    (h : (r.m_io.size - r.m_io.pos) / 8 < fuel) : ∃ res, scan_loop fs fuel r = some res := by
  induction fuel generalizing r with
  | zero => omega
  | succ k ih =>
    rcases hs : scan_step fs r with ⟨r1, _ | e⟩
    · have hn : (scan_step fs r).2 = none := by rw [hs]
      obtain ⟨hsz, len, t, _, hr1⟩ := scan_step_next fs r hn
      rw [hs] at hr1
      simp only at hr1
      have hpos : r1.m_io.pos = r.m_io.pos + 8 + len := by rw [hr1]
      have hsize : r1.m_io.size = r.m_io.size := by rw [hr1]
      simp only [scan_loop, hs]
      apply ih
      rw [hpos, hsize]
      omega
    · exact ⟨(r1, e), by simp [scan_loop, hs]⟩

/-- The passes allotted to `scan_chunks` always suffice: the function returns with a
reason for which scanning ended. -/
theorem scan_chunks_exit_some (r : wav_reader_c) : ∃ e, (scan_chunks_exit r).2 = some e := by
  unfold scan_chunks_exit
  rcases h1 : r.m_io.get_size with ⟨_ | fs, io1⟩
  · exact ⟨_, rfl⟩
  · simp only
    obtain ⟨res, hres⟩ := scan_loop_ends fs (scan_fuel io1) { r with m_io := io1 }
      (by simp only [scan_fuel]; omega)
    rw [hres]
    exact ⟨res.2, rfl⟩

theorem scan_loop_more_fuel (fs : Int) (fuel extra : Nat) (r : wav_reader_c)
    (res : wav_reader_c × scan_exit) (h : scan_loop fs fuel r = some res) :
    scan_loop fs (fuel + extra) r = some res := by
  induction fuel generalizing r with
  | zero => simp [scan_loop] at h
  | succ k ih =>
    have e : k + 1 + extra = (k + extra) + 1 := by omega
    rw [e]
    rcases hs : scan_step fs r with ⟨r1, _ | e⟩
    · simp only [scan_loop, hs] at h ⊢
      exact ih r1 h
    · simp only [scan_loop, hs] at h ⊢
      exact h

/-! ## Scanning a well-formed container -/

theorem slice_of_record (f : Nat → Nat) (off : Nat) (tag : List Nat) (len : Nat)
    (ht : tag.length = 4) (hrec : mem_slice f off 8 = tag ++ le32 len) :
    mem_slice f off 4 = tag ∧ mem_slice f (off + 4) 4 = le32 len := by
  have h := mem_slice_add f off 4 4
  rw [show 4 + 4 = 8 from rfl, hrec] at h
  have := List.append_inj h (by rw [ht, mem_slice_length])
  exact ⟨this.1.symm, this.2.symm⟩

theorem scan_step_record (fs : Int) (r : wav_reader_c) (tag : List Nat) (len : Nat)
    (hf : r.m_io.no_fault) (hfs : fs ≤ 0x100000000) (ht : tag.length = 4)
    (hlen : len < 4294967296)
    (hrec : mem_slice (fun i => r.m_io.data i % 256) r.m_io.pos 8 = tag ++ le32 len)
    (hsz : r.m_io.pos + 8 ≤ r.m_io.size) :
    scan_step fs r
      = ({ r with
           m_io := { r.m_io with ops := r.m_io.ops + 4, pos := r.m_io.pos + 8 + len },
           m_chunks := r.m_chunks ++ [{ pos := (r.m_io.pos : Int), id := tag, len := (len : Int) }],
           m_bytes_in_data_chunks :=
             r.m_bytes_in_data_chunks + (if tag_is_data tag then (len : Int) else 0) }, none) := by
  obtain ⟨hs1, hs2⟩ := slice_of_record _ _ _ _ ht hrec
  have hff : ∀ k, r.m_io.fault k = false := hf
  have hm1 : min 4 (r.m_io.size - r.m_io.pos) = 4 := by omega
  have hm2 : min 4 (r.m_io.size - (r.m_io.pos + 4)) = 4 := by omega
  have h1 := getFilePointer_ok r.m_io (hff _)
  have h2 := read_ok { r.m_io with ops := r.m_io.ops + 1 } 4 (hff _)
  simp only [show (4 : Int).toNat = 4 from rfl, hm1, hs1] at h2
  have h3 : mm_io.read_uint32_le
      { r.m_io with ops := r.m_io.ops + 1 + 1, pos := r.m_io.pos + 4 }
      = (some len, { r.m_io with ops := r.m_io.ops + 1 + 1 + 1, pos := r.m_io.pos + 4 + 4 }) := by
    have h3r := read_ok { r.m_io with ops := r.m_io.ops + 1 + 1, pos := r.m_io.pos + 4 } 4 (hff _)
    simp only [show (4 : Int).toNat = 4 from rfl, hm2, hs2] at h3r
    simp only [mm_io.read_uint32_le, h3r]
    rw [get_uint32_le_le32 len hlen]
    simp [le32]
  have h4 := seek_current_ok
    { r.m_io with ops := r.m_io.ops + 1 + 1 + 1, pos := r.m_io.pos + 4 + 4 } len (hff _)
  have hnc : ∀ p : wav_chunk_t, ¬ (strncasecmp p.id str_data 4 = 0 ∧ fs > 0x100000000) := by
    intro p hp
    omega
  simp only [scan_step, h1, h2, h3, ht, ne_eq, not_true_eq_false, if_false]
  by_cases hd : strncasecmp tag str_data 4 = 0
  · have hd2 : tag_is_data tag := (strncasecmp_data tag ht).1 hd
    simp only [hd, hd2, if_true, scan_push, h4]
  · have hd2 : ¬ tag_is_data tag := fun hh => hd ((strncasecmp_data tag ht).2 hh)
    simp only [hd, hd2, if_false, add_zero]
    rcases hlast : r.m_chunks.getLast? with _ | p
    · simp only [scan_push, h4]
    · simp only [hnc p, if_false, scan_push, h4]

theorem holds_records_congr (io io1 : mm_io) (hd : io1.data = io.data) (hs : io1.size = io.size)
    (recs : List (List Nat × Nat)) (off : Nat) :
    holds_records io off recs → holds_records io1 off recs := by
  induction recs generalizing off with
  | nil =>
    intro h
    simp only [holds_records] at h ⊢
    rw [hs]; exact h
  | cons rec rest ih =>
    intro h
    simp only [holds_records] at h ⊢
    rw [hd, hs]
    exact ⟨h.1, h.2.1, h.2.2.1, h.2.2.2.1, ih _ h.2.2.2.2⟩

theorem holds_records_size (io : mm_io) (recs : List (List Nat × Nat)) (off : Nat)
    (h : holds_records io off recs) : off + 8 * recs.length ≤ io.size := by
  induction recs generalizing off with
  | nil =>
    simp only [holds_records] at h
    simp [h]
  | cons rec rest ih =>
    simp only [holds_records] at h
    have := ih _ h.2.2.2.2
    simp only [List.length_cons]
    omega

theorem payload_sum_cons (c : wav_chunk_t) (cs : List wav_chunk_t) :
    payload_sum (c :: cs) = (if tag_is_data c.id then c.len else 0) + payload_sum cs := by
  unfold payload_sum
  by_cases h : tag_is_data c.id <;> simp [List.filter_cons, h]

theorem scan_step_at_end (fs : Int) (r : wav_reader_c) (hf : r.m_io.no_fault)
    (hend : r.m_io.size ≤ r.m_io.pos) :
    (scan_step fs r).2 = some .short_read ∧ (scan_step fs r).1.m_chunks = r.m_chunks
      ∧ (scan_step fs r).1.m_bytes_in_data_chunks = r.m_bytes_in_data_chunks := by
  have hff : ∀ k, r.m_io.fault k = false := hf
  have hm : min 4 (r.m_io.size - r.m_io.pos) = 0 := by omega
  have h1 := getFilePointer_ok r.m_io (hff _)
  have h2 := read_ok { r.m_io with ops := r.m_io.ops + 1 } 4 (hff _)
  simp only [show (4 : Int).toNat = 4 from rfl, hm] at h2
  simp [scan_step, h1, h2, mem_slice]

theorem scan_loop_records (fs : Int) (hfs : fs ≤ 0x100000000) (recs : List (List Nat × Nat)) :
    ∀ (fuel : Nat) (r : wav_reader_c), r.m_io.no_fault → holds_records r.m_io r.m_io.pos recs →
      recs.length < fuel →
      ∃ r1, scan_loop fs fuel r = some (r1, .short_read)
        ∧ r1.m_chunks = r.m_chunks ++ index_of r.m_io.pos recs
        ∧ r1.m_bytes_in_data_chunks
            = r.m_bytes_in_data_chunks + payload_sum (index_of r.m_io.pos recs) := by
  induction recs with
  | nil =>
    intro fuel r hf hr hfuel
    obtain ⟨k, rfl⟩ : ∃ k, fuel = k + 1 := ⟨fuel - 1, by simp at hfuel; omega⟩
    simp only [holds_records] at hr
    obtain ⟨he, hc, ht⟩ := scan_step_at_end fs r hf (by omega)
    rcases hs : scan_step fs r with ⟨r1, e⟩
    rw [hs] at he hc ht
    simp only at he hc ht
    refine ⟨r1, by simp [scan_loop, hs, he], by simp [index_of, hc], by simp [index_of, payload_sum, ht]⟩
  | cons rec rest ih =>
    intro fuel r hf hr hfuel
    obtain ⟨k, rfl⟩ : ∃ k, fuel = k + 1 := ⟨fuel - 1, by simp at hfuel; omega⟩
    simp only [holds_records] at hr
    obtain ⟨ht, hlen, hrec, hsz, hrest⟩ := hr
    have hstep := scan_step_record fs r rec.1 rec.2 hf hfs ht hlen hrec (by omega)
    have hrest1 := holds_records_congr r.m_io
      { r.m_io with ops := r.m_io.ops + 4, pos := r.m_io.pos + 8 + rec.2 } rfl rfl rest _ hrest
    obtain ⟨r1, h1, h2, h3⟩ := ih k
      { r with
        m_io := { r.m_io with ops := r.m_io.ops + 4, pos := r.m_io.pos + 8 + rec.2 },
        m_chunks := r.m_chunks ++ [{ pos := (r.m_io.pos : Int), id := rec.1, len := (rec.2 : Int) }],
        m_bytes_in_data_chunks :=
          r.m_bytes_in_data_chunks + (if tag_is_data rec.1 then (rec.2 : Int) else 0) }
      hf hrest1 (by simp only [List.length_cons] at hfuel; omega)
    refine ⟨r1, by simp only [scan_loop, hstep]; exact h1, ?_, ?_⟩
    · rw [h2]; simp [index_of]
    · rw [h3]; simp only [index_of, payload_sum_cons]; omega

/-- C1: on a fault-free container of at most 0x100000000 bytes whose body, from the
position at which scanning starts, is a sequence of complete chunk records,
`scan_chunks` builds the index with one entry per record in file order, entry `i`
carrying the tag, the length and the offset of record `i`, the first offset being the
start position and each further one the previous offset plus 8 plus the previous
length; the payload total is the sum over the data entries. For the records
("fmt ", 16), ("data", 1000) the index has 2 entries and the payload total is 1000. -/
theorem scan_chunks_builds_index (io : mm_io) (recs : List (List Nat × Nat))
    (hf : io.no_fault) (hs : io.size ≤ 0x100000000) (hr : holds_records io io.pos recs) :
    (scan_chunks (wav_reader_c.init io)).m_chunks = index_of io.pos recs
      ∧ (scan_chunks (wav_reader_c.init io)).m_bytes_in_data_chunks
          = payload_sum (index_of io.pos recs)
      ∧ (recs = [(str_fmt, 16), (str_data, 1000)] →
          (scan_chunks (wav_reader_c.init io)).m_chunks.length = 2
            ∧ (scan_chunks (wav_reader_c.init io)).m_bytes_in_data_chunks = 1000) := by
  have hff : ∀ k, io.fault k = false := hf
  have hsz := holds_records_size io recs io.pos hr
  have hg := get_size_ok io (hff _)
  obtain ⟨r1, h1, h2, h3⟩ := scan_loop_records (io.size : Int) (by omega) recs
    (scan_fuel { io with ops := io.ops + 1 })
    { wav_reader_c.init io with m_io := { io with ops := io.ops + 1 } } hf
    (holds_records_congr io { io with ops := io.ops + 1 } rfl rfl recs _ hr)
    (by simp only [scan_fuel]; omega)
  have hres : scan_chunks (wav_reader_c.init io) = r1 := by
    simp only [scan_chunks, scan_chunks_exit, wav_reader_c.init, hg]
    simp only [wav_reader_c.init] at h1
    rw [h1]
  rw [hres]
  have hc : r1.m_chunks = index_of io.pos recs := by rw [h2]; simp [wav_reader_c.init]
  have ht : r1.m_bytes_in_data_chunks = payload_sum (index_of io.pos recs) := by
    rw [h3]; simp [wav_reader_c.init]
  refine ⟨hc, ht, ?_⟩
  intro hrecs
  rw [hc, ht, hrecs]
  refine ⟨by simp [index_of], ?_⟩
  simp only [index_of, payload_sum_cons, payload_sum]
  have e1 : ¬ tag_is_data str_fmt := by decide
  have e2 : tag_is_data str_data := by decide
  simp [e1, e2]

theorem scan_chunks_builds_index_witness :
    (scan_chunks (wav_reader_c.init sample_fmt_data)).m_chunks
        = index_of 12 [(str_fmt, 16), (str_data, 1000)]
      ∧ (scan_chunks (wav_reader_c.init sample_fmt_data)).m_chunks.length = 2
      ∧ (scan_chunks (wav_reader_c.init sample_fmt_data)).m_bytes_in_data_chunks = 1000 :=
  have h := scan_chunks_builds_index sample_fmt_data [(str_fmt, 16), (str_data, 1000)]
    (fun _ => rfl) (by decide)
    ⟨by decide, by decide, by decide, by decide, by decide, by decide, by decide, by decide, rfl⟩
  ⟨h.1, (h.2.2 rfl).1, (h.2.2 rfl).2⟩

/-! ## The payload total -/

/-- C2: after `scan_chunks` has returned, on every byte source (every content, size,
start position and fault schedule, hence also truncated files and files on which the
large-file correction fired), the recorded total `m_bytes_in_data_chunks` is the sum of
the `len` fields of exactly those index entries whose tag equals "data" when case is
ignored; and `scan_chunks` does return, with a reason for which scanning ended. -/
theorem scan_chunks_total_is_payload_sum (io : mm_io) :
    (∃ e, (scan_chunks_exit (wav_reader_c.init io)).2 = some e)
      ∧ (scan_chunks (wav_reader_c.init io)).m_bytes_in_data_chunks
          = payload_sum (scan_chunks (wav_reader_c.init io)).m_chunks := by
  refine ⟨scan_chunks_exit_some _, ?_⟩
  have h0 : index_consistent (wav_reader_c.init io) := by
    simp [index_consistent, wav_reader_c.init, payload_sum]
  exact (index_consistent_scan _ h0).1

/-! ## The large-file correction -/

theorem tag_is_data_length (id : List Nat) (h : tag_is_data id) : id.length = 4 := by
  have := congrArg List.length h
  simpa [str_data] using this

/-- The pass of the loop that meets the header of a chunk that is not a data chunk
while the last recorded entry is a data chunk. -/
theorem scan_step_after_data (fs : Int) (r : wav_reader_c) (p : wav_chunk_t)
    (hf : r.m_io.no_fault) (hlast : r.m_chunks.getLast? = some p) (hp : tag_is_data p.id)
    (hsz : r.m_io.pos + 8 ≤ r.m_io.size)
    (hnd : ¬ tag_is_data (mem_slice (fun i => r.m_io.data i % 256) r.m_io.pos 4)) :
    (fs > 0x100000000 →
      scan_step fs r
        = ({ r with
             m_io := { r.m_io with ops := r.m_io.ops + 3, pos := r.m_io.pos + 8 },
             m_chunks := r.m_chunks.dropLast ++ [{ p with len := fs - p.pos - 8 }],
             m_bytes_in_data_chunks := r.m_bytes_in_data_chunks - p.len + (fs - p.pos - 8) },
           some .corrected))
    ∧ (fs ≤ 0x100000000 →
      (scan_step fs r).1.m_chunks
        = r.m_chunks ++
            [{ pos := (r.m_io.pos : Int),
               id := mem_slice (fun i => r.m_io.data i % 256) r.m_io.pos 4,
               len := (get_uint32_le
                 (mem_slice (fun i => r.m_io.data i % 256) (r.m_io.pos + 4) 4) : Int) }]
        ∧ (scan_step fs r).1.m_bytes_in_data_chunks = r.m_bytes_in_data_chunks
        ∧ (scan_step fs r).2 = none) := by
  have hff : ∀ k, r.m_io.fault k = false := hf
  have hm1 : min 4 (r.m_io.size - r.m_io.pos) = 4 := by omega
  have hm2 : min 4 (r.m_io.size - (r.m_io.pos + 4)) = 4 := by omega
  have h1 := getFilePointer_ok r.m_io (hff _)
  have h2 := read_ok { r.m_io with ops := r.m_io.ops + 1 } 4 (hff _)
  simp only [show (4 : Int).toNat = 4 from rfl, hm1] at h2
  have h3r := read_ok { r.m_io with ops := r.m_io.ops + 1 + 1, pos := r.m_io.pos + 4 } 4 (hff _)
  simp only [show (4 : Int).toNat = 4 from rfl, hm2] at h3r
  have h3 : mm_io.read_uint32_le
      { r.m_io with ops := r.m_io.ops + 1 + 1, pos := r.m_io.pos + 4 }
      = (some (get_uint32_le (mem_slice (fun i => r.m_io.data i % 256) (r.m_io.pos + 4) 4)),
          { r.m_io with ops := r.m_io.ops + 1 + 1 + 1, pos := r.m_io.pos + 4 + 4 }) := by
    simp only [mm_io.read_uint32_le, h3r, mem_slice_length, if_true]
  have hl : (mem_slice (fun i => r.m_io.data i % 256) r.m_io.pos 4).length = 4 :=
    mem_slice_length _ _ _
  have hd : ¬ strncasecmp (mem_slice (fun i => r.m_io.data i % 256) r.m_io.pos 4) str_data 4 = 0 :=
    fun hh => hnd ((strncasecmp_data _ hl).1 hh)
  have hpd : strncasecmp p.id str_data 4 = 0 :=
    (strncasecmp_data p.id (tag_is_data_length p.id hp)).2 hp
  constructor
  · intro hbig
    have hc : strncasecmp p.id str_data 4 = 0 ∧ fs > 0x100000000 := ⟨hpd, hbig⟩
    simp only [scan_step, h1, h2, h3, hl, hd, hlast, hc, ne_eq, not_true_eq_false, if_false,
      and_self, if_true, scan_correct, sizeof_chunk_struct]
    simp [Nat.add_assoc]
  · intro hsmall
    have hc : ¬ (strncasecmp p.id str_data 4 = 0 ∧ fs > 0x100000000) := by
      intro hh
      omega
    have h4 := seek_current_ok
      { r.m_io with ops := r.m_io.ops + 1 + 1 + 1, pos := r.m_io.pos + 4 + 4 }
      (get_uint32_le (mem_slice (fun i => r.m_io.data i % 256) (r.m_io.pos + 4) 4)) (hff _)
    simp only [scan_step, h1, h2, h3, hl, hd, hlast, hc, ne_eq, not_true_eq_false, if_false,
      scan_push, h4, and_self]

/-- C3: in a file of size S above 0x100000000, when the most recently recorded chunk
is a data chunk at header offset `p.pos` and the next 8 bytes at the scan position
form a chunk header whose tag is not "data" (case ignored, as everywhere in the
scanner), the loop of `scan_chunks` rewrites the length of that data chunk to
S - (p.pos + 8), replaces the old length by the new one in the payload total, does not
record the chunk just read and is left at once. -/
theorem scan_corrects_large_file (fuel : Nat) (r : wav_reader_c) (p : wav_chunk_t)
    (hf : r.m_io.no_fault) (hS : r.m_io.size > 0x100000000)
    (hlast : r.m_chunks.getLast? = some p) (hp : tag_is_data p.id)
    (hsz : r.m_io.pos + 8 ≤ r.m_io.size)
    (hnd : ¬ tag_is_data (mem_slice (fun i => r.m_io.data i % 256) r.m_io.pos 4)) :
    ∃ r1, scan_loop (r.m_io.size : Int) (fuel + 1) r = some (r1, .corrected)
      ∧ r1.m_chunks = r.m_chunks.dropLast ++ [{ p with len := (r.m_io.size : Int) - (p.pos + 8) }]
      ∧ r1.m_bytes_in_data_chunks
          = r.m_bytes_in_data_chunks - p.len + ((r.m_io.size : Int) - (p.pos + 8))
      ∧ r1.m_chunks.length = r.m_chunks.length := by
  have hstep := (scan_step_after_data (r.m_io.size : Int) r p hf hlast hp hsz hnd).1 (by omega)
  have hne : r.m_chunks ≠ [] := by
    intro hnil
    rw [hnil] at hlast
    simp at hlast
  have hlen : r.m_chunks.length ≠ 0 := fun h0 => hne (List.length_eq_zero.1 h0)
  have hsub : (r.m_io.size : Int) - p.pos - 8 = (r.m_io.size : Int) - (p.pos + 8) := by omega
  refine ⟨(scan_step (r.m_io.size : Int) r).1, ?_, ?_, ?_, ?_⟩
  · simp only [scan_loop, hstep]
  · rw [hstep]
    simp only [hsub]
  · rw [hstep]
    simp only [hsub]
  · rw [hstep]
    simp only [List.length_append, List.length_dropLast, List.length_singleton]
    omega

theorem scan_corrects_large_file_witness :
    ∃ r1, scan_loop (sample_large_scanning.m_io.size : Int) (0 + 1) sample_large_scanning
        = some (r1, .corrected)
      ∧ r1.m_chunks = sample_large_scanning.m_chunks.dropLast ++
          [{ ({ pos := 36, id := str_data, len := 4 } : wav_chunk_t) with
             len := (sample_large_scanning.m_io.size : Int) - ((36 : Int) + 8) }]
      ∧ r1.m_bytes_in_data_chunks
          = sample_large_scanning.m_bytes_in_data_chunks - (4 : Int)
            + ((sample_large_scanning.m_io.size : Int) - ((36 : Int) + 8))
      ∧ r1.m_chunks.length = sample_large_scanning.m_chunks.length :=
  scan_corrects_large_file 0 sample_large_scanning { pos := 36, id := str_data, len := 4 }
    (fun _ => rfl) (by decide) (by decide) (by decide) (by decide) (by decide)

/-- C4, as the claim states it, fails: `sample_large` is larger than the threshold, all
its chunks are complete and well-formed, its data chunk declares its true length 4 and
is followed by the complete non-data chunk "LIST"; yet `scan_chunks` rewrites the
length of the data chunk to the file size minus 44 and does not record "LIST". -/
theorem correction_hits_consistent_length :
    sample_large.size > 0x100000000
      ∧ holds_records sample_large sample_large.pos
          [(str_fmt, 16), (str_data, 4), ([76, 73, 83, 84], 0xffffffff)]
      ∧ (scan_chunks (wav_reader_c.init sample_large)).m_chunks
          = [{ pos := 12, id := str_fmt, len := 16 },
             { pos := 36, id := str_data, len := 0x100000037 - 44 }]
      ∧ (scan_chunks (wav_reader_c.init sample_large)).m_chunks
          ≠ index_of 12 [(str_fmt, 16), (str_data, 4), ([76, 73, 83, 84], 0xffffffff)] := by
  refine ⟨by decide, ?_, by decide, by decide⟩
  exact ⟨by decide, by decide, by decide, by decide, by decide, by decide, by decide, by decide,
    by decide, by decide, by decide, by decide, rfl⟩

/-- C4, amended: the large-file correction does not look at the declared length of the
data chunk. When the last recorded entry is a data chunk, whatever its declared length,
and the complete header of a chunk that is not a data chunk is read next, the file size
alone decides: the following chunk is appended to the index, with the length of the data
chunk and the payload total unchanged and the loop going on, exactly when the file size
is at most 0x100000000; above it the length of the data chunk is rewritten to the file
size minus its payload start, the following chunk is not recorded and the loop is left. -/
theorem correction_gated_by_size_only (fs : Int) (r : wav_reader_c) (p : wav_chunk_t)
    (hf : r.m_io.no_fault) (hlast : r.m_chunks.getLast? = some p) (hp : tag_is_data p.id)
    (hsz : r.m_io.pos + 8 ≤ r.m_io.size)
    (hnd : ¬ tag_is_data (mem_slice (fun i => r.m_io.data i % 256) r.m_io.pos 4)) :
    (((scan_step fs r).1.m_chunks
          = r.m_chunks ++
            [{ pos := (r.m_io.pos : Int),
               id := mem_slice (fun i => r.m_io.data i % 256) r.m_io.pos 4,
               len := (get_uint32_le
                 (mem_slice (fun i => r.m_io.data i % 256) (r.m_io.pos + 4) 4) : Int) }]
        ∧ (scan_step fs r).1.m_bytes_in_data_chunks = r.m_bytes_in_data_chunks
        ∧ (scan_step fs r).2 = none)
      ↔ fs ≤ 0x100000000)
    ∧ (((scan_step fs r).1.m_chunks
          = r.m_chunks.dropLast ++ [{ p with len := fs - (p.pos + 8) }]
        ∧ (scan_step fs r).2 = some .corrected)
      ↔ fs > 0x100000000) := by
  obtain ⟨hbig, hsmall⟩ := scan_step_after_data fs r p hf hlast hp hsz hnd
  have hsub : fs - p.pos - 8 = fs - (p.pos + 8) := by omega
  constructor
  · constructor
    · intro h
      by_contra hcon
      have hb := hbig (by omega)
      rw [hb] at h
      simp at h
    · exact hsmall
  · constructor
    · intro h
      by_contra hcon
      have hs := hsmall (by omega)
      rw [hs.2.2] at h
      simp at h
    · intro h
      rw [hbig h]
      simp only [hsub]
      exact ⟨trivial, trivial⟩

theorem correction_gated_by_size_only_witness :
    (((scan_step 0x100000037 sample_large_scanning).1.m_chunks
          = sample_large_scanning.m_chunks ++
            [{ pos := (sample_large_scanning.m_io.pos : Int),
               id := mem_slice (fun i => sample_large_scanning.m_io.data i % 256)
                 sample_large_scanning.m_io.pos 4,
               len := (get_uint32_le (mem_slice (fun i => sample_large_scanning.m_io.data i % 256)
                 (sample_large_scanning.m_io.pos + 4) 4) : Int) }]
        ∧ (scan_step 0x100000037 sample_large_scanning).1.m_bytes_in_data_chunks
            = sample_large_scanning.m_bytes_in_data_chunks
        ∧ (scan_step 0x100000037 sample_large_scanning).2 = none)
      ↔ (0x100000037 : Int) ≤ 0x100000000)
    ∧ (((scan_step 0x100000037 sample_large_scanning).1.m_chunks
          = sample_large_scanning.m_chunks.dropLast ++
            [{ ({ pos := 36, id := str_data, len := 4 } : wav_chunk_t) with
               len := (0x100000037 : Int) - ((36 : Int) + 8) }]
        ∧ (scan_step 0x100000037 sample_large_scanning).2 = some .corrected)
      ↔ (0x100000037 : Int) > 0x100000000) :=
  correction_gated_by_size_only 0x100000037 sample_large_scanning
    { pos := 36, id := str_data, len := 4 }
    (fun _ => rfl) (by decide) (by decide) (by decide) (by decide)

/-! ## Truncated input and failing reads -/

theorem payload_sum_append_list (a b : List wav_chunk_t) :
    payload_sum (a ++ b) = payload_sum a + payload_sum b := by
  unfold payload_sum
  simp [List.filter_append]

/-- As long as the correction does not fire, the loop only appends to the index. -/
theorem scan_loop_extends (fs : Int) (fuel : Nat) (r : wav_reader_c)
    (res : wav_reader_c × scan_exit) (h : scan_loop fs fuel r = some res)
    (hne : res.2 ≠ .corrected) :
    ∃ cs : List wav_chunk_t, res.1.m_chunks = r.m_chunks ++ cs
      ∧ res.1.m_bytes_in_data_chunks = r.m_bytes_in_data_chunks + payload_sum cs := by
  induction fuel generalizing r with
  | zero => simp [scan_loop] at h
  | succ k ih =>
    rcases hs : scan_step fs r with ⟨r1, _ | e⟩
    · simp only [scan_loop, hs] at h
      obtain ⟨cs, hc, ht⟩ := ih r1 h
      rcases scan_step_cases fs r with ⟨_, _, he⟩ | ⟨c, _, _, hc1, ht1, _⟩ | ⟨_, _, _, _, _, _, he⟩
      · rw [hs] at he
        simp at he
      · rw [hs] at hc1 ht1
        simp only at hc1 ht1
        refine ⟨c :: cs, by rw [hc, hc1]; simp, ?_⟩
        rw [ht, ht1, payload_sum_cons]
        omega
      · rw [hs] at he
        simp at he
    · simp only [scan_loop, hs, Option.some.injEq] at h
      rw [← h] at hne ⊢
      simp only at hne ⊢
      rcases scan_step_cases fs r with ⟨hc1, ht1, _⟩ | ⟨c, _, _, hc1, ht1, _⟩ | ⟨_, _, _, _, _, _, he⟩
      · rw [hs] at hc1 ht1
        simp only at hc1 ht1
        exact ⟨[], by simp [hc1], by simp [ht1, payload_sum]⟩
      · rw [hs] at hc1 ht1
        simp only at hc1 ht1
        refine ⟨[c], hc1, ?_⟩
        rw [ht1, payload_sum_cons]
        simp [payload_sum]
      · rw [hs] at he
        simp only [Option.some.injEq] at he
        exact absurd he hne

/-- When fewer than 8 bytes are left, no header can be read. -/
theorem header_unreadable_of_short (io : mm_io) (h : io.size < io.pos + 8) :
    ∀ (pos : Int) (io1 : mm_io) (id : List Nat) (io2 : mm_io) (len : Nat) (io3 : mm_io),
      io.getFilePointer = (some pos, io1) → io1.read 4 = (some id, io2) → id.length = 4 →
      io2.read_uint32_le = (some len, io3) → False := by
  intro pos io1 id io2 len io3 h1 h2 hl h3
  obtain ⟨_, hio1⟩ := getFilePointer_some _ _ _ h1
  obtain ⟨hsz2, _, hio2⟩ := read4_some _ _ _ h2 hl
  obtain ⟨hsz3, _, _⟩ := read_uint32_le_some _ _ _ h3
  rw [hio2] at hsz3
  rw [hio1] at hsz3
  simp only at hsz3
  omega

/-- C5: `scan_chunks` never reports a failure. On every byte source the function
returns, with a reason for which scanning ended. When the header of the next chunk
cannot be read (fewer than 4 tag bytes are delivered, or the 4 byte length cannot be
read, or one of the operations raises), the pass records nothing: the index and the
payload total stay as they are and the loop is left, because of the short read or of the
exception that the handler swallows. And whenever the loop is left for one of these two
reasons, also by an exception of the seek behind a recorded chunk, the index it leaves
behind is the index it started from, extended by the chunks whose headers were read in
full, with the payload total extended accordingly. -/
theorem scan_stops_silently (fs : Int) (r : wav_reader_c)
    (hfail : ∀ (pos : Int) (io1 : mm_io) (id : List Nat) (io2 : mm_io) (len : Nat) (io3 : mm_io),
      r.m_io.getFilePointer = (some pos, io1) → io1.read 4 = (some id, io2) → id.length = 4 →
      io2.read_uint32_le = (some len, io3) → False) :
    (∃ e, (scan_chunks_exit r).2 = some e)
      ∧ (scan_step fs r).1.m_chunks = r.m_chunks
      ∧ (scan_step fs r).1.m_bytes_in_data_chunks = r.m_bytes_in_data_chunks
      ∧ ((scan_step fs r).2 = some .short_read ∨ (scan_step fs r).2 = some .io_error)
      ∧ (∀ fuel, scan_loop fs (fuel + 1) r = some ((scan_step fs r).1, .short_read)
          ∨ scan_loop fs (fuel + 1) r = some ((scan_step fs r).1, .io_error))
      ∧ (∀ (fuel : Nat) (r0 : wav_reader_c) (res : wav_reader_c × scan_exit),
          scan_loop fs fuel r0 = some res → res.2 ≠ .corrected →
          ∃ cs : List wav_chunk_t, res.1.m_chunks = r0.m_chunks ++ cs
            ∧ res.1.m_bytes_in_data_chunks = r0.m_bytes_in_data_chunks + payload_sum cs) := by
  have hstep : (scan_step fs r).1.m_chunks = r.m_chunks
      ∧ (scan_step fs r).1.m_bytes_in_data_chunks = r.m_bytes_in_data_chunks
      ∧ ((scan_step fs r).2 = some .short_read ∨ (scan_step fs r).2 = some .io_error) := by
    rcases h1 : r.m_io.getFilePointer with ⟨_ | pos, io1⟩
    · simp [scan_step, h1]
    rcases h2 : io1.read 4 with ⟨_ | id, io2⟩
    · simp [scan_step, h1, h2]
    by_cases hl : id.length = 4
    swap
    · simp [scan_step, h1, h2, hl]
    rcases h3 : io2.read_uint32_le with ⟨_ | len, io3⟩
    · simp [scan_step, h1, h2, hl, h3]
    exact (hfail pos io1 id io2 len io3 h1 h2 hl h3).elim
  refine ⟨scan_chunks_exit_some r, hstep.1, hstep.2.1, hstep.2.2, ?_, ?_⟩
  · intro fuel
    rcases hstep.2.2 with he | he
    · left
      rcases hs : scan_step fs r with ⟨r1, e⟩
      rw [hs] at he
      simp only at he
      simp [scan_loop, hs, he]
    · right
      rcases hs : scan_step fs r with ⟨r1, e⟩
      rw [hs] at he
      simp only at he
      simp [scan_loop, hs, he]
  · intro fuel r0 res h hne
    exact scan_loop_extends fs fuel r0 res h hne

theorem scan_stops_silently_witness :
    (∃ e, (scan_chunks_exit sample_truncated_scanning).2 = some e)
      ∧ (scan_step 38 sample_truncated_scanning).1.m_chunks = sample_truncated_scanning.m_chunks
      ∧ (scan_step 38 sample_truncated_scanning).1.m_bytes_in_data_chunks
          = sample_truncated_scanning.m_bytes_in_data_chunks
      ∧ ((scan_step 38 sample_truncated_scanning).2 = some .short_read
          ∨ (scan_step 38 sample_truncated_scanning).2 = some .io_error) :=
  have h := scan_stops_silently 38 sample_truncated_scanning
    (header_unreadable_of_short sample_truncated (by decide))
  ⟨h.1, h.2.1, h.2.2.1, h.2.2.2.1⟩

/-! ## Looking up a chunk -/

theorem find_chunk_loop_spec (id : List Nat) (ae : Bool) (cs : List wav_chunk_t) (b : Nat) :
    (find_chunk_loop id ae cs b = -1
        ∧ ∀ c ∈ cs, ¬ (strncasecmp c.id id 4 = 0 ∧ (ae = true ∨ c.len ≠ 0)))
    ∨ (∃ k c, cs[k]? = some c ∧ (strncasecmp c.id id 4 = 0 ∧ (ae = true ∨ c.len ≠ 0))
        ∧ (∀ j c1, j < k → cs[j]? = some c1 →
            ¬ (strncasecmp c1.id id 4 = 0 ∧ (ae = true ∨ c1.len ≠ 0)))
        ∧ find_chunk_loop id ae cs b = ((b + k : Nat) : Int)) := by
  induction cs generalizing b with
  | nil => left; simp [find_chunk_loop]
  | cons c rest ih =>
    by_cases hc : strncasecmp c.id id 4 = 0 ∧ (ae = true ∨ c.len ≠ 0)
    · right
      refine ⟨0, c, by simp, hc, ?_, ?_⟩
      · intro j c1 hj
        omega
      · simp [find_chunk_loop, hc]
    · rcases ih (b + 1) with ⟨h1, h2⟩ | ⟨k, c0, hk, hhit, hmin, hres⟩
      · left
        refine ⟨by simp only [find_chunk_loop, hc, if_false]; exact h1, ?_⟩
        intro x hx
        rcases List.mem_cons.1 hx with hx | hx
        · rw [hx]; exact hc
        · exact h2 x hx
      · right
        refine ⟨k + 1, c0, by simpa using hk, hhit, ?_, ?_⟩
        · intro j c1 hj hj1
          cases j with
          | zero =>
            simp at hj1
            rw [← hj1]; exact hc
          | succ j0 =>
            exact hmin j0 c1 (by omega) (by simpa using hj1)
        · simp only [find_chunk_loop, hc, if_false, hres]
          congr 1
          omega

/-- C6: for every index (of entries with 4 byte tags), every requested tag of 4
characters, every start index that is not negative and every `allow_empty` flag,
`find_chunk` returns the smallest index `i` at or behind the start index such that the
tag of entry `i` equals the requested tag when case is ignored and (`allow_empty` or
the length of entry `i` is not zero); it returns -1 if and only if no such index exists. -/
theorem find_chunk_first_match (r : wav_reader_c) (id : List Nat) (start_idx : Int)
    (allow_empty : Bool) (hs : 0 ≤ start_idx) (hid : id.length = 4) (hz : ∀ c ∈ id, c ≠ 0)
    (hidx : ∀ c ∈ r.m_chunks, c.id.length = 4) :
    (find_chunk r id start_idx allow_empty = -1
        ↔ ¬ ∃ i, chunk_matches r id allow_empty start_idx.toNat i)
    ∧ (∀ i, chunk_matches r id allow_empty start_idx.toNat i →
        ∃ m : Nat, find_chunk r id start_idx allow_empty = (m : Int)
          ∧ chunk_matches r id allow_empty start_idx.toNat m
          ∧ ∀ j, chunk_matches r id allow_empty start_idx.toNat j → m ≤ j) := by
  have hns : ¬ start_idx < 0 := by omega
  have hconv : ∀ c ∈ r.m_chunks,
      ((strncasecmp c.id id 4 = 0 ∧ (allow_empty = true ∨ c.len ≠ 0))
        ↔ (c.id.map tolower = id.map tolower ∧ (allow_empty = true ∨ c.len ≠ 0))) := by
    intro c hc
    rw [strncasecmp_tag c.id id (hidx c hc) hid hz]
  have hget : ∀ (k : Nat) (c : wav_chunk_t), (r.m_chunks.drop start_idx.toNat)[k]? = some c →
      r.m_chunks[start_idx.toNat + k]? = some c ∧ c ∈ r.m_chunks := by
    intro k c hk
    rw [List.getElem?_drop] at hk
    exact ⟨hk, List.getElem?_mem hk⟩
  simp only [find_chunk, hns, if_false]
  rcases find_chunk_loop_spec id allow_empty (r.m_chunks.drop start_idx.toNat) start_idx.toNat with
    ⟨h1, h2⟩ | ⟨k, c0, hk, hhit, hmin, hres⟩
  · have hnone : ¬ ∃ i, chunk_matches r id allow_empty start_idx.toNat i := by
      rintro ⟨i, hi, c, hc, hm⟩
      have hmem : c ∈ r.m_chunks.drop start_idx.toNat := by
        have hd : (r.m_chunks.drop start_idx.toNat)[i - start_idx.toNat]? = some c := by
          rw [List.getElem?_drop]
          rw [show start_idx.toNat + (i - start_idx.toNat) = i by omega]
          exact hc
        exact List.getElem?_mem hd
      exact h2 c hmem ((hconv c (List.getElem?_mem hc)).2 hm)
    refine ⟨⟨fun _ => hnone, fun _ => h1⟩, ?_⟩
    intro i hi
    exact absurd ⟨i, hi⟩ hnone
  · obtain ⟨hk1, hk2⟩ := hget k c0 hk
    have hmatch : chunk_matches r id allow_empty start_idx.toNat (start_idx.toNat + k) :=
      ⟨by omega, c0, hk1, (hconv c0 hk2).1 hhit⟩
    have hleast : ∀ j, chunk_matches r id allow_empty start_idx.toNat j →
        start_idx.toNat + k ≤ j := by
      rintro j ⟨hj, c, hc, hm⟩
      by_contra hlt
      have hjd : (r.m_chunks.drop start_idx.toNat)[j - start_idx.toNat]? = some c := by
        rw [List.getElem?_drop]
        rw [show start_idx.toNat + (j - start_idx.toNat) = j by omega]
        exact hc
      exact hmin (j - start_idx.toNat) c (by omega) hjd ((hconv c (List.getElem?_mem hc)).2 hm)
    refine ⟨⟨?_, ?_⟩, ?_⟩
    · intro h
      rw [hres] at h
      omega
    · intro h
      exact absurd ⟨_, hmatch⟩ h
    · intro i _
      exact ⟨start_idx.toNat + k, hres, hmatch, hleast⟩

theorem find_chunk_first_match_witness :
    (find_chunk sample_index str_data 0 false = -1
        ↔ ¬ ∃ i, chunk_matches sample_index str_data false (0 : Int).toNat i)
    ∧ (∀ i, chunk_matches sample_index str_data false (0 : Int).toNat i →
        ∃ m : Nat, find_chunk sample_index str_data 0 false = (m : Int)
          ∧ chunk_matches sample_index str_data false (0 : Int).toNat m
          ∧ ∀ j, chunk_matches sample_index str_data false (0 : Int).toNat j → m ≤ j)
    ∧ find_chunk sample_index str_data 0 false = 2 :=
  ⟨(find_chunk_first_match sample_index str_data 0 false (by decide) (by decide) (by decide)
    (by decide)).1,
   (find_chunk_first_match sample_index str_data 0 false (by decide) (by decide) (by decide)
    (by decide)).2, by decide⟩

/-! ## Probing the container -/

theorem setFilePointer_fault (io : mm_io) (off : Int) (m : seek_mode) (h : io.fault io.ops = true) :
    (io.setFilePointer off m).1 = none := by
  simp [mm_io.setFilePointer, mm_io.issue, h]

theorem read_fault (io : mm_io) (n : Int) (h : io.fault io.ops = true) : (io.read n).1 = none := by
  simp [mm_io.read, mm_io.issue, h]

theorem strncmp_tag (id tag : List Nat) (h : id.length = 4) (ht : tag.length = 4)
    (hz : ∀ c ∈ tag, c ≠ 0) : strncmp id tag 4 = 0 ↔ id = tag := by
  match id, h, tag, ht with
  | [a, b, c, d], _, [e, f, g, k], _ =>
    have he : e ≠ 0 := hz e (by simp)
    have hf : f ≠ 0 := hz f (by simp)
    have hg : g ≠ 0 := hz g (by simp)
    simp only [strncmp, c_head, List.headD_cons, List.tail_cons]
    by_cases ha : a = e <;> by_cases hb : b = f <;>
      by_cases hc : c = g <;> by_cases hd : d = k <;>
      simp [ha, hb, hc, hd, he, hf, hg] <;> omega

theorem riff_fields (f : Nat → Nat) :
    (mem_slice f 0 12).take 4 = mem_slice f 0 4
      ∧ ((mem_slice f 0 12).drop 8).take 4 = mem_slice f 8 4 := by
  constructor
  · have h := mem_slice_add f 0 4 8
    rw [show 4 + 8 = 12 from rfl] at h
    rw [h, List.take_left' (mem_slice_length f 0 4)]
  · have h := mem_slice_add f 0 8 4
    rw [show 8 + 4 = 12 from rfl, show 0 + 8 = 8 from rfl] at h
    rw [h, List.drop_left' (mem_slice_length f 0 8)]
    exact List.take_of_length_le (by rw [mem_slice_length])

/-- C8: `probe_file` (called with a size that is not negative) returns 1 if and only if
the given size is at least the size of the full wave header, none of its three
operations on the byte source raises, the 12 bytes of the RIFF header can be read from
offset 0, bytes 0..3 are exactly "RIFF" and bytes 8..11 are exactly "WAVE"; in every
other case, an I/O exception included, it returns 0. -/
theorem probe_file_accepts_iff (io : mm_io) (size : Int) (hs0 : 0 ≤ size)
    (hs1 : size < 9223372036854775808) :
    ((probe_file io size).1 = 1
        ↔ ((sizeof_wave_header : Int) ≤ size
            ∧ (io.fault io.ops = false ∧ io.fault (io.ops + 1) = false
                ∧ io.fault (io.ops + 2) = false)
            ∧ sizeof_riff_struct ≤ io.size
            ∧ mem_slice (fun i => io.data i % 256) 0 4 = str_RIFF
            ∧ mem_slice (fun i => io.data i % 256) 8 4 = str_WAVE))
    ∧ ((probe_file io size).1 ≠ 1 → (probe_file io size).1 = 0) := by
  have hmod : size % 18446744073709551616 = size := Int.emod_eq_of_lt hs0 (by omega)
  have hw : (sizeof_wave_header : Int) = 44 := by decide
  have hr : sizeof_riff_struct = 12 := rfl
  unfold probe_file
  rw [hmod, hw, hr]
  by_cases hsz : (44 : Int) > size
  · simp only [hsz, if_true]
    refine ⟨⟨fun h => by simp at h, fun h => by omega⟩, fun _ => trivial⟩
  simp only [hsz, if_false]
  cases hf0 : io.fault io.ops
  swap
  · have h1 := setFilePointer_fault io 0 .seek_beginning hf0
    rcases hs : io.setFilePointer 0 .seek_beginning with ⟨_ | u, io1⟩
    · simp
    · rw [hs] at h1
      simp at h1
  have h1 := seek_beginning_ok io 0 hf0
  simp only [Nat.cast_zero] at h1
  simp only [h1]
  cases hf1 : io.fault (io.ops + 1)
  swap
  · have h2 := read_fault { io with ops := io.ops + 1, pos := 0 } ((12 : Nat) : Int) hf1
    rcases hs : mm_io.read { io with ops := io.ops + 1, pos := 0 } ((12 : Nat) : Int) with
      ⟨_ | u, io2⟩
    · simp
    · rw [hs] at h2
      simp at h2
  have h2 := read_ok { io with ops := io.ops + 1, pos := 0 } ((12 : Nat) : Int) hf1
  simp only [Int.toNat_ofNat, Nat.sub_zero, Nat.zero_add] at h2
  simp only [h2, mem_slice_length]
  by_cases hlen : min 12 io.size = 12
  swap
  · simp only [ne_eq, hlen, not_false_eq_true, if_true]
    refine ⟨⟨fun h => by simp at h, fun h => by omega⟩, fun _ => trivial⟩
  simp only [hlen, ne_eq, not_true_eq_false, if_false]
  cases hf2 : io.fault (io.ops + 1 + 1)
  swap
  · have h3 := setFilePointer_fault { io with ops := io.ops + 1 + 1, pos := 0 + 12 } 0
      .seek_beginning hf2
    rcases hs : mm_io.setFilePointer { io with ops := io.ops + 1 + 1, pos := 0 + 12 } 0
      .seek_beginning with ⟨_ | u, io3⟩
    · simp [show io.ops + 2 = io.ops + 1 + 1 from rfl, hf2]
    · rw [hs] at h3
      simp at h3
  have h3 := seek_beginning_ok { io with ops := io.ops + 1 + 1, pos := 0 + 12 } 0 hf2
  simp only [Nat.cast_zero] at h3
  simp only [h3]
  obtain ⟨hr1, hr2⟩ := riff_fields (fun i => io.data i % 256)
  have eR := strncmp_tag (mem_slice (fun i => io.data i % 256) 0 4) str_RIFF
    (mem_slice_length _ _ _) (by decide) (by decide)
  have eW := strncmp_tag (mem_slice (fun i => io.data i % 256) 8 4) str_WAVE
    (mem_slice_length _ _ _) (by decide) (by decide)
  have h12 : 12 ≤ io.size := by omega
  have h44 : (44 : Int) ≤ size := by omega
  simp only [hr1, hr2, eR, eW]
  by_cases hR : mem_slice (fun i => io.data i % 256) 0 4 = str_RIFF <;>
    by_cases hW : mem_slice (fun i => io.data i % 256) 8 4 = str_WAVE <;>
    simp [hR, hW, h12, h44, show io.ops + 2 = io.ops + 1 + 1 from rfl, hf2]

theorem probe_file_accepts_iff_witness :
    ((probe_file sample_riff 44).1 = 1
        ↔ ((sizeof_wave_header : Int) ≤ 44
            ∧ (sample_riff.fault sample_riff.ops = false
                ∧ sample_riff.fault (sample_riff.ops + 1) = false
                ∧ sample_riff.fault (sample_riff.ops + 2) = false)
            ∧ sizeof_riff_struct ≤ sample_riff.size
            ∧ mem_slice (fun i => sample_riff.data i % 256) 0 4 = str_RIFF
            ∧ mem_slice (fun i => sample_riff.data i % 256) 8 4 = str_WAVE))
    ∧ (probe_file sample_riff 44).1 = 1 :=
  ⟨(probe_file_accepts_iff sample_riff 44 (by decide) (by decide)).1, by decide⟩

/-! ## The prober -/

theorem probe_read_ok (io : mm_io) (n : Nat) (hf : io.no_fault) :
    probe_read io n = (some (probe_bytes io n), { io with ops := io.ops + 3 }) := by
  have hff : ∀ k, io.fault k = false := hf
  simp [probe_read, mm_io.save_pos, mm_io.read, mm_io.restore_pos, mm_io.issue, hff, probe_bytes]

theorem probe_candidate_ok (lib : codec_lib) (wheader : wave_header) (io : mm_io)
    (k : demuxer_kind) (hf : io.no_fault) (hk : k ≠ .pcm) :
    probe_candidate lib wheader k io
      = (some (probe_outcome lib wheader io k).1, (probe_outcome lib wheader io k).2,
          { io with ops := io.ops + 3 }) := by
  cases k with
  | ac3acm =>
    simp [probe_candidate, probe_outcome, wav_ac3acm_demuxer_c.probe, probe_read_ok io _ hf]
  | dts =>
    simp [probe_candidate, probe_outcome, wav_dts_demuxer_c.probe, probe_read_ok io _ hf]
  | ac3wav =>
    simp [probe_candidate, probe_outcome, wav_ac3wav_demuxer_c.probe, probe_read_ok io _ hf]
  | pcm => exact absurd rfl hk

theorem probe_succeeds_eq (lib : codec_lib) (wheader : wave_header) (io : mm_io)
    (k : demuxer_kind) (hf : io.no_fault) :
    probe_succeeds lib wheader io k = (probe_outcome lib wheader io k).1 := by
  by_cases hk : k = .pcm
  · subst hk
    simp [probe_succeeds, probe_candidate, probe_outcome, wav_pcm_demuxer_c.probe]
  · simp [probe_succeeds, probe_candidate_ok lib wheader io k hf hk]

theorem probe_outcome_kind (lib : codec_lib) (wheader : wave_header) (io : mm_io)
    (k : demuxer_kind) : (probe_outcome lib wheader io k).2.kind = k := by
  cases k <;> rfl

theorem try_candidate_ok (lib : codec_lib) (k : demuxer_kind) (r : wav_reader_c)
    (log : List demuxer_kind) (hf : r.m_io.no_fault) (hk : k ≠ .pcm) :
    try_candidate lib k (r, log)
      = some ({ r with
                m_io := { r.m_io with ops := r.m_io.ops + 3 },
                m_demuxer :=
                  if (probe_outcome lib r.m_wheader r.m_io k).1 = true then
                    some (probe_outcome lib r.m_wheader r.m_io k).2
                  else none },
              log ++ [k]) := by
  simp only [try_candidate, probe_candidate_ok lib r.m_wheader r.m_io k hf hk]
  cases (probe_outcome lib r.m_wheader r.m_io k).1 <;> simp

theorem probe_outcome_ops (lib : codec_lib) (wheader : wave_header) (io : mm_io) (m : Nat)
    (k : demuxer_kind) :
    probe_outcome lib wheader { io with ops := m } k = probe_outcome lib wheader io k := by
  cases k <;> rfl

/-- What `create_demuxer` does on a stream without faults, in terms of the verdicts of
the three probes. -/
theorem create_demuxer_ok (lib : codec_lib) (r : wav_reader_c) (hf : r.m_io.no_fault)
    (hnone : r.m_demuxer = none) :
    ∃ r1 log d, create_demuxer lib r = some (r1, log) ∧ r1.m_demuxer = some d
      ∧ d.kind =
          (if 0x2000 = get_uint16_le r.m_wheader.wFormatTag
              ∧ (probe_outcome lib r.m_wheader r.m_io .ac3acm).1 = true then demuxer_kind.ac3acm
           else if (probe_outcome lib r.m_wheader r.m_io .dts).1 = true then demuxer_kind.dts
           else if (probe_outcome lib r.m_wheader r.m_io .ac3wav).1 = true then demuxer_kind.ac3wav
           else demuxer_kind.pcm)
      ∧ log =
          (if 0x2000 = get_uint16_le r.m_wheader.wFormatTag then [demuxer_kind.ac3acm] else [])
          ++ (if 0x2000 = get_uint16_le r.m_wheader.wFormatTag
                ∧ (probe_outcome lib r.m_wheader r.m_io .ac3acm).1 = true then []
              else [demuxer_kind.dts]
                ++ (if (probe_outcome lib r.m_wheader r.m_io .dts).1 = true then []
                    else [demuxer_kind.ac3wav]))
      ∧ r1.m_chunks = r.m_chunks ∧ r1.m_wheader = r.m_wheader
      ∧ r1.m_io.pos = r.m_io.pos ∧ r1.m_io.size = r.m_io.size ∧ r1.m_io.data = r.m_io.data
      ∧ r1.m_io.fault = r.m_io.fault := by
  have hf3 : ∀ m, mm_io.no_fault { r.m_io with ops := m } := fun _ k => hf k
  have hne1 : demuxer_kind.ac3acm ≠ .pcm := by decide
  have hne2 : demuxer_kind.dts ≠ .pcm := by decide
  have hne3 : demuxer_kind.ac3wav ≠ .pcm := by decide
  by_cases ht : 0x2000 = get_uint16_le r.m_wheader.wFormatTag
  · cases hA : (probe_outcome lib r.m_wheader r.m_io .ac3acm).1 <;>
      cases hC : (probe_outcome lib r.m_wheader r.m_io .dts).1 <;>
      cases hB : (probe_outcome lib r.m_wheader r.m_io .ac3wav).1 <;>
      simp [create_demuxer, unless_selected, ht, hA, hC, hB, try_candidate_ok, hf, hf3,
        probe_outcome_ops]
    all_goals refine ⟨_, _, ⟨rfl, rfl⟩, _, rfl, ?_, ?_⟩
    all_goals first | rfl | exact probe_outcome_kind _ _ _ _ | simp
  · cases hC : (probe_outcome lib r.m_wheader r.m_io .dts).1 <;>
      cases hB : (probe_outcome lib r.m_wheader r.m_io .ac3wav).1 <;>
      simp [create_demuxer, unless_selected, ht, hnone, hC, hB, try_candidate_ok, hf, hf3,
        probe_outcome_ops]
    all_goals refine ⟨_, _, ⟨rfl, rfl⟩, _, rfl, ?_, ?_⟩
    all_goals first | rfl | exact probe_outcome_kind _ _ _ _ | simp

/-- C9: on a stream without faults, `create_demuxer` (entered, as in the constructor,
with no sub-demuxer selected) always ends with exactly one sub-demuxer selected, namely
the first candidate whose probe succeeds in the fixed order generic AC3 (only for the
format tag 0x2000), DTS, wrapped AC3, PCM; the probes called are those of the candidates
in front of the selected one and its own (PCM is taken without a call), so that no
candidate behind the first success is probed; and PCM is selected if and only if the
probe of every earlier eligible candidate failed. -/
theorem create_demuxer_selects_first_success (lib : codec_lib) (r : wav_reader_c)
    (hf : r.m_io.no_fault) (hnone : r.m_demuxer = none) :
    ∃ r1 log d, create_demuxer lib r = some (r1, log) ∧ r1.m_demuxer = some d
      ∧ (candidates (get_uint16_le r.m_wheader.wFormatTag)).find?
            (probe_succeeds lib r.m_wheader r.m_io) = some d.kind
      ∧ log = (((candidates (get_uint16_le r.m_wheader.wFormatTag)).takeWhile
            (fun k => !probe_succeeds lib r.m_wheader r.m_io k)) ++ [d.kind]).filter
              (fun k => decide (k ≠ demuxer_kind.pcm))
      ∧ (d.kind = demuxer_kind.pcm
          ↔ ∀ k ∈ candidates (get_uint16_le r.m_wheader.wFormatTag), k ≠ demuxer_kind.pcm →
              probe_succeeds lib r.m_wheader r.m_io k = false) := by
  obtain ⟨r1, log, d, hcd, hd, hkind, hlog, _⟩ := create_demuxer_ok lib r hf hnone
  have hps : probe_succeeds lib r.m_wheader r.m_io
      = fun k => (probe_outcome lib r.m_wheader r.m_io k).1 := by
    funext k
    exact probe_succeeds_eq lib r.m_wheader r.m_io k hf
  have hpcm : (probe_outcome lib r.m_wheader r.m_io .pcm).1 = true := rfl
  refine ⟨r1, log, d, hcd, hd, ?_⟩
  rw [hps, hkind, hlog]
  by_cases ht : 0x2000 = get_uint16_le r.m_wheader.wFormatTag
  · cases hA : (probe_outcome lib r.m_wheader r.m_io .ac3acm).1 <;>
      cases hC : (probe_outcome lib r.m_wheader r.m_io .dts).1 <;>
      cases hB : (probe_outcome lib r.m_wheader r.m_io .ac3wav).1 <;>
      simp [candidates, ← ht, hA, hC, hB, hpcm, List.find?, List.takeWhile, List.filter]
  · cases hC : (probe_outcome lib r.m_wheader r.m_io .dts).1 <;>
      cases hB : (probe_outcome lib r.m_wheader r.m_io .ac3wav).1 <;>
      simp [candidates, ht, hC, hB, hpcm, List.find?, List.takeWhile, List.filter]

theorem create_demuxer_selects_first_success_witness :
    ∃ r1 log d, create_demuxer lib_none sample_small_parsed = some (r1, log)
      ∧ r1.m_demuxer = some d
      ∧ (candidates (get_uint16_le sample_small_parsed.m_wheader.wFormatTag)).find?
            (probe_succeeds lib_none sample_small_parsed.m_wheader sample_small_parsed.m_io)
          = some d.kind
      ∧ log = (((candidates (get_uint16_le sample_small_parsed.m_wheader.wFormatTag)).takeWhile
            (fun k => !probe_succeeds lib_none sample_small_parsed.m_wheader
              sample_small_parsed.m_io k)) ++ [d.kind]).filter
              (fun k => decide (k ≠ demuxer_kind.pcm))
      ∧ (d.kind = demuxer_kind.pcm
          ↔ ∀ k ∈ candidates (get_uint16_le sample_small_parsed.m_wheader.wFormatTag),
              k ≠ demuxer_kind.pcm →
              probe_succeeds lib_none sample_small_parsed.m_wheader sample_small_parsed.m_io k
                = false) :=
  create_demuxer_selects_first_success lib_none sample_small_parsed (fun _ => rfl) rfl

/-! ## The wrapped AC3 layout -/

theorem mem_slice_write (m : Nat → Nat) (bs : List Nat) (off n : Nat) (h : off + n ≤ bs.length) :
    mem_slice (mem_write m 0 bs) off n = (bs.drop off).take n := by
  apply List.ext_getElem
  · simp [mem_slice_length]
    omega
  · intro i h1 h2
    simp only [mem_slice, List.getElem_map, List.getElem_range, List.getElem_take,
      List.getElem_drop, mem_write]
    simp only [mem_slice_length] at h1
    have hlt : off + i < bs.length := by omega
    simp [hlt, List.getD_eq_getElem?_getD, List.getElem?_eq_getElem hlt]

theorem wrapped_probe_accepts (lib : codec_lib) (bs : List Nat) (h : wrapped_layout lib bs) :
    (wav_ac3wav_demuxer_c.probe_buffer lib (ac3_demuxer.new lib) bs).1 = true := by
  obtain ⟨h8, hs1, hs2, ht, hpos, hfit, hfound⟩ := h
  have hlen : ¬ ((bs.length : Int) < 8) := by omega
  have hbase : set_buf (ac3_demuxer.new lib).m_buf 0
      (mem_write ((ac3_demuxer.new lib).m_buf 0) 0 bs) 0
      = mem_write ((ac3_demuxer.new lib).m_buf 0) 0 bs := by
    simp [set_buf]
  have e0 := mem_slice_write ((ac3_demuxer.new lib).m_buf 0) bs 0 2 (by omega)
  have e2 := mem_slice_write ((ac3_demuxer.new lib).m_buf 0) bs 2 2 (by omega)
  have e6 := mem_slice_write ((ac3_demuxer.new lib).m_buf 0) bs 6 2 (by omega)
  have e8 := mem_slice_write ((ac3_demuxer.new lib).m_buf 0) bs 8
    (get_uint16_le ((bs.drop 6).take 2) / 8) (by omega)
  have e4 : mem_write ((ac3_demuxer.new lib).m_buf 0) 0 bs 4 = bs.getD 4 0 := by
    have : 4 < bs.length := by omega
    simp [mem_write, this]
  simp only [List.drop_zero] at e0
  have hfirst : (wav_ac3wav_demuxer_c.decode_buffer lib
      { ac3_demuxer.new lib with
        m_buf := set_buf (ac3_demuxer.new lib).m_buf (ac3_demuxer.new lib).m_cur_buf
          (mem_write ((ac3_demuxer.new lib).m_buf (ac3_demuxer.new lib).m_cur_buf) 0 bs) }
      (bs.length : Int)).1 = ((get_uint16_le ((bs.drop 6).take 2) / 8 : Nat) : Int) := by
    have hsw : (ac3_demuxer.new lib).m_swap_bytes = false := rfl
    have hcur : (ac3_demuxer.new lib).m_cur_buf = 0 := rfl
    have hhdr : (ac3_demuxer.new lib).m_ac3header = ac3_header_t.unset := rfl
    have hfit2 : ¬ (((get_uint16_le ((bs.drop 6).take 2) / 8 : Nat) : Int) + 8 > (bs.length : Int)) := by
      omega
    simp only [wav_ac3wav_demuxer_c.decode_buffer, hlen, if_false, hsw, hcur, hbase, e0, e2, e6,
      Bool.false_eq_true, e0, e2, e6, e8, e4, hs1, hs2, ht, hfit2, Int.toNat_ofNat, hhdr, hfound]
    simp
  have hgt : ((get_uint16_le ((bs.drop 6).take 2) / 8 : Nat) : Int) > 0 := by omega
  simp only [wav_ac3wav_demuxer_c.probe_buffer, hfirst, hgt, if_true]

/-- C10, as the claim states it, fails: the payload of the data chunk of
`sample_wrapped` matches the wrapped layout, yet with a library whose DTS detection
accepts the same bytes the constructor selects the DTS variant, which `create_demuxer`
asks before the wrapped one. -/
theorem wrapped_layout_loses_to_dts :
    wrapped_layout lib_dts_and_ac3 (probe_bytes { sample_wrapped with pos := 44 } AC3WAV_BLOCK_SIZE)
      ∧ selected_kind (wav_reader_c.new lib_dts_and_ac3 sample_wrapped) = some .dts
      ∧ selected_kind (wav_reader_c.new lib_dts_and_ac3 sample_wrapped) ≠ some .ac3wav := by
  refine ⟨?_, by decide, by decide⟩
  unfold wrapped_layout
  decide

/-- C10, amended: when the bytes at the stream position, the payload start of the
first data chunk, match the wrapped layout (sync words 0xf872 and 0x4e1f, type byte
0x01 at offset 4, a payload of bit-length / 8 bytes, at least one, that fits into the
bytes available, and an AC3 frame header at the first payload byte), `create_demuxer`
never selects the PCM fallback; it selects the wrapped variant if and only if the
probes asked before it, generic AC3 (only for the format tag 0x2000) and DTS, both
fail, and otherwise the first of these two that succeeds. -/
theorem wrapped_layout_never_pcm (lib : codec_lib) (r : wav_reader_c) (hf : r.m_io.no_fault)
    (hnone : r.m_demuxer = none)
    (hl : wrapped_layout lib (probe_bytes r.m_io AC3WAV_BLOCK_SIZE)) :
    ∃ r1 log d, create_demuxer lib r = some (r1, log) ∧ r1.m_demuxer = some d
      ∧ d.kind ≠ demuxer_kind.pcm
      ∧ (d.kind = demuxer_kind.ac3wav
          ↔ ¬ (0x2000 = get_uint16_le r.m_wheader.wFormatTag
                ∧ probe_succeeds lib r.m_wheader r.m_io .ac3acm = true)
              ∧ probe_succeeds lib r.m_wheader r.m_io .dts = false)
      ∧ (d.kind = demuxer_kind.ac3acm
          ↔ 0x2000 = get_uint16_le r.m_wheader.wFormatTag
              ∧ probe_succeeds lib r.m_wheader r.m_io .ac3acm = true)
      ∧ probe_succeeds lib r.m_wheader r.m_io .ac3wav = true := by
  obtain ⟨r1, log, d, hcd, hd, hkind, _⟩ := create_demuxer_ok lib r hf hnone
  have hB : (probe_outcome lib r.m_wheader r.m_io .ac3wav).1 = true :=
    wrapped_probe_accepts lib _ hl
  refine ⟨r1, log, d, hcd, hd, ?_⟩
  rw [probe_succeeds_eq lib r.m_wheader r.m_io .ac3acm hf,
    probe_succeeds_eq lib r.m_wheader r.m_io .dts hf,
    probe_succeeds_eq lib r.m_wheader r.m_io .ac3wav hf, hkind]
  by_cases ht : 0x2000 = get_uint16_le r.m_wheader.wFormatTag
  · cases hA : (probe_outcome lib r.m_wheader r.m_io .ac3acm).1 <;>
      cases hC : (probe_outcome lib r.m_wheader r.m_io .dts).1 <;>
      simp [← ht, hA, hC, hB]
  · cases hC : (probe_outcome lib r.m_wheader r.m_io .dts).1 <;>
      simp [ht, hC, hB]

theorem wrapped_layout_never_pcm_witness :
    (∃ r1 log d, create_demuxer lib_ac3_only sample_wrapped_parsed = some (r1, log)
      ∧ r1.m_demuxer = some d
      ∧ d.kind ≠ demuxer_kind.pcm
      ∧ (d.kind = demuxer_kind.ac3wav
          ↔ ¬ (0x2000 = get_uint16_le sample_wrapped_parsed.m_wheader.wFormatTag
                ∧ probe_succeeds lib_ac3_only sample_wrapped_parsed.m_wheader
                    sample_wrapped_parsed.m_io .ac3acm = true)
              ∧ probe_succeeds lib_ac3_only sample_wrapped_parsed.m_wheader
                  sample_wrapped_parsed.m_io .dts = false)
      ∧ (d.kind = demuxer_kind.ac3acm
          ↔ 0x2000 = get_uint16_le sample_wrapped_parsed.m_wheader.wFormatTag
              ∧ probe_succeeds lib_ac3_only sample_wrapped_parsed.m_wheader
                  sample_wrapped_parsed.m_io .ac3acm = true)
      ∧ probe_succeeds lib_ac3_only sample_wrapped_parsed.m_wheader
          sample_wrapped_parsed.m_io .ac3wav = true)
    ∧ selected_kind (wav_reader_c.new lib_ac3_only sample_wrapped) = some .ac3wav :=
  ⟨wrapped_layout_never_pcm lib_ac3_only sample_wrapped_parsed (fun _ => rfl) rfl
    (by unfold wrapped_layout; decide), by decide⟩

/-! ## What scanning leaves alone -/

theorem same_source_refl (a : mm_io) : same_source a a := ⟨rfl, rfl, rfl, rfl⟩

theorem same_source_trans (a b c : mm_io) (h1 : same_source a b) (h2 : same_source b c) :
    same_source a c :=
  ⟨h2.1.trans h1.1, h2.2.1.trans h1.2.1, h2.2.2.1.trans h1.2.2.1, h2.2.2.2.trans h1.2.2.2⟩

theorem getFilePointer_source (io : mm_io) : same_source io io.getFilePointer.2 := by
  unfold mm_io.getFilePointer mm_io.issue
  cases io.fault io.ops <;> exact ⟨rfl, rfl, rfl, rfl⟩

theorem get_size_source (io : mm_io) : same_source io io.get_size.2 := by
  unfold mm_io.get_size mm_io.issue
  cases io.fault io.ops <;> exact ⟨rfl, rfl, rfl, rfl⟩

theorem read_source (io : mm_io) (n : Int) : same_source io (io.read n).2 := by
  unfold mm_io.read mm_io.issue
  cases io.fault io.ops <;> exact ⟨rfl, rfl, rfl, rfl⟩

theorem read_uint32_le_source (io : mm_io) : same_source io io.read_uint32_le.2 := by
  unfold mm_io.read_uint32_le
  have h := read_source io 4
  rcases hr : io.read 4 with ⟨_ | bs, io1⟩
  · rw [hr] at h; exact h
  · rw [hr] at h
    by_cases hl : bs.length = 4 <;> simp [hl] <;> exact h

theorem setFilePointer_source (io : mm_io) (off : Int) (m : seek_mode) :
    same_source io (io.setFilePointer off m).2 := by
  unfold mm_io.setFilePointer mm_io.issue
  cases io.fault io.ops
  · simp only
    split <;> exact ⟨rfl, rfl, rfl, rfl⟩
  · exact ⟨rfl, rfl, rfl, rfl⟩

theorem scan_push_frame (r : wav_reader_c) (io : mm_io) (c : wav_chunk_t) (t : Int)
    (h : same_source r.m_io io) : reader_frame r (scan_push r io c t).1 := by
  unfold scan_push
  have hs := setFilePointer_source io c.len .seek_current
  rcases hr : io.setFilePointer c.len .seek_current with ⟨_ | u, io1⟩ <;>
    rw [hr] at hs <;>
    exact ⟨rfl, rfl, rfl, rfl, rfl, same_source_trans _ _ _ h hs⟩

theorem scan_step_frame (fs : Int) (r : wav_reader_c) : reader_frame r (scan_step fs r).1 := by
  have s1 := getFilePointer_source r.m_io
  rcases h1 : r.m_io.getFilePointer with ⟨_ | pos, io1⟩
  · rw [h1] at s1
    simp only [scan_step, h1]
    exact ⟨rfl, rfl, rfl, rfl, rfl, s1⟩
  rw [h1] at s1
  have s2 := read_source io1 4
  rcases h2 : io1.read 4 with ⟨_ | id, io2⟩
  · rw [h2] at s2
    simp only [scan_step, h1, h2]
    exact ⟨rfl, rfl, rfl, rfl, rfl, same_source_trans _ _ _ s1 s2⟩
  rw [h2] at s2
  have s12 := same_source_trans _ _ _ s1 s2
  by_cases hl : id.length = 4
  swap
  · simp only [scan_step, h1, h2, hl, ne_eq, not_false_eq_true, if_true]
    exact ⟨rfl, rfl, rfl, rfl, rfl, s12⟩
  have s3 := read_uint32_le_source io2
  rcases h3 : io2.read_uint32_le with ⟨_ | len, io3⟩
  · rw [h3] at s3
    simp only [scan_step, h1, h2, h3, hl, ne_eq, not_true_eq_false, if_false]
    exact ⟨rfl, rfl, rfl, rfl, rfl, same_source_trans _ _ _ s12 s3⟩
  rw [h3] at s3
  have s123 := same_source_trans _ _ _ s12 s3
  simp only [scan_step, h1, h2, h3, hl, ne_eq, not_true_eq_false, if_false]
  by_cases hd : strncasecmp id str_data 4 = 0
  · simp only [hd, if_true]
    exact scan_push_frame r io3 _ _ s123
  · simp only [hd, if_false]
    rcases hlast : r.m_chunks.getLast? with _ | p
    · exact scan_push_frame r io3 _ _ s123
    · by_cases hc : strncasecmp p.id str_data 4 = 0 ∧ fs > 0x100000000
      · simp only [hc, and_self, if_true, scan_correct]
        exact ⟨rfl, rfl, rfl, rfl, rfl, s123⟩
      · simp only [hc, if_false]
        exact scan_push_frame r io3 _ _ s123

theorem reader_frame_trans (a b c : wav_reader_c) (h1 : reader_frame a b)
    (h2 : reader_frame b c) : reader_frame a c :=
  ⟨h2.1.trans h1.1, h2.2.1.trans h1.2.1, h2.2.2.1.trans h1.2.2.1,
    h2.2.2.2.1.trans h1.2.2.2.1, h2.2.2.2.2.1.trans h1.2.2.2.2.1,
    same_source_trans _ _ _ h1.2.2.2.2.2 h2.2.2.2.2.2⟩

theorem scan_loop_frame (fs : Int) (fuel : Nat) (r : wav_reader_c)
    (res : wav_reader_c × scan_exit) (h : scan_loop fs fuel r = some res) :
    reader_frame r res.1 := by
  induction fuel generalizing r with
  | zero => simp [scan_loop] at h
  | succ k ih =>
    have hstep := scan_step_frame fs r
    rcases hs : scan_step fs r with ⟨r1, _ | e⟩
    · rw [hs] at hstep
      simp only [scan_loop, hs] at h
      exact reader_frame_trans _ _ _ hstep (ih r1 h)
    · rw [hs] at hstep
      simp only [scan_loop, hs, Option.some.injEq] at h
      rw [← h]; exact hstep

theorem scan_chunks_frame (r : wav_reader_c) : reader_frame r (scan_chunks r) := by
  unfold scan_chunks scan_chunks_exit
  have s1 := get_size_source r.m_io
  rcases h1 : r.m_io.get_size with ⟨_ | fs, io1⟩
  · rw [h1] at s1
    exact ⟨rfl, rfl, rfl, rfl, rfl, s1⟩
  · rw [h1] at s1
    simp only
    have h0 : reader_frame r { r with m_io := io1 } := ⟨rfl, rfl, rfl, rfl, rfl, s1⟩
    rcases h2 : scan_loop fs (scan_fuel io1) { r with m_io := io1 } with _ | res
    · exact h0
    · exact reader_frame_trans _ _ _ h0 (scan_loop_frame fs _ _ res h2)

theorem pos_nonneg_step (fs : Int) (r : wav_reader_c) (h : ∀ c ∈ r.m_chunks, 0 ≤ c.pos) :
    ∀ c ∈ (scan_step fs r).1.m_chunks, 0 ≤ c.pos := by
  rcases h1 : r.m_io.getFilePointer with ⟨_ | pos, io1⟩
  · simpa [scan_step, h1] using h
  have hpos : 0 ≤ pos := by
    rw [(getFilePointer_some _ _ _ h1).1]
    omega
  rcases h2 : io1.read 4 with ⟨_ | id, io2⟩
  · simpa [scan_step, h1, h2] using h
  by_cases hl : id.length = 4
  swap
  · simpa [scan_step, h1, h2, hl] using h
  rcases h3 : io2.read_uint32_le with ⟨_ | len, io3⟩
  · simpa [scan_step, h1, h2, hl, h3] using h
  have hpush : ∀ t, ∀ c ∈ (scan_push r io3 { pos := pos, id := id, len := (len : Int) } t).1.m_chunks,
      0 ≤ c.pos := by
    intro t c hc
    rw [(scan_push_chunks r io3 _ t).1] at hc
    rcases List.mem_append.1 hc with hc | hc
    · exact h c hc
    · simp at hc
      rw [hc]; exact hpos
  simp only [scan_step, h1, h2, h3, hl, ne_eq, not_true_eq_false, if_false]
  by_cases hd : strncasecmp id str_data 4 = 0
  · simp only [hd, if_true]
    exact hpush _
  · simp only [hd, if_false]
    rcases hlast : r.m_chunks.getLast? with _ | p
    · exact hpush _
    · by_cases hc : strncasecmp p.id str_data 4 = 0 ∧ fs > 0x100000000
      · simp only [hc, and_self, if_true, scan_correct]
        have hsplit : r.m_chunks.dropLast ++ [p] = r.m_chunks :=
          List.dropLast_append_getLast? p (by simp [hlast])
        intro c hcm
        rcases List.mem_append.1 hcm with hcm | hcm
        · exact h c (by rw [← hsplit]; exact List.mem_append_left _ hcm)
        · simp at hcm
          rw [hcm]
          exact h p (by rw [← hsplit]; simp)
      · simp only [hc, if_false]
        exact hpush _

theorem pos_nonneg_scan (r : wav_reader_c) (h : ∀ c ∈ r.m_chunks, 0 ≤ c.pos) :
    ∀ c ∈ (scan_chunks r).m_chunks, 0 ≤ c.pos := by
  have hloop : ∀ (fs : Int) (fuel : Nat) (r0 : wav_reader_c) (res : wav_reader_c × scan_exit),
      (∀ c ∈ r0.m_chunks, 0 ≤ c.pos) → scan_loop fs fuel r0 = some res →
      ∀ c ∈ res.1.m_chunks, 0 ≤ c.pos := by
    intro fs fuel
    induction fuel with
    | zero =>
      intro r0 res _ hres
      simp [scan_loop] at hres
    | succ k ih =>
      intro r0 res h0 hres
      have hstep := pos_nonneg_step fs r0 h0
      rcases hs : scan_step fs r0 with ⟨r1, _ | e⟩
      · rw [hs] at hstep
        simp only [scan_loop, hs] at hres
        exact ih r1 res hstep hres
      · rw [hs] at hstep
        simp only [scan_loop, hs, Option.some.injEq] at hres
        rw [← hres]; exact hstep
  unfold scan_chunks scan_chunks_exit
  rcases h1 : r.m_io.get_size with ⟨_ | fs, io1⟩
  · exact h
  · simp only
    rcases h2 : scan_loop fs (scan_fuel io1) { r with m_io := io1 } with _ | res
    · exact h
    · exact hloop fs (scan_fuel io1) { r with m_io := io1 } res h h2

/-! ## Opening a container -/

theorem query_size_ok (io : mm_io) (hf : io.no_fault) :
    query_size io = (some (io.size : Int), { io with ops := io.ops + 3, pos := 0 }) := by
  have hff : ∀ k, io.fault k = false := hf
  have hn : ¬ ((io.size : Int) < 0) := by omega
  have h1 : io.setFilePointer 0 .seek_end
      = (some (), { io with ops := io.ops + 1, pos := io.size }) := by
    simp [mm_io.setFilePointer, mm_io.issue, hff, hn]
  have h2 := getFilePointer_ok { io with ops := io.ops + 1, pos := io.size } (hff _)
  have h3 := seek_beginning_ok { io with ops := io.ops + 1 + 1, pos := io.size } 0 (hff _)
  simp only [Nat.cast_zero] at h3
  simp only [query_size, h1, h2, h3]

theorem probe_file_no_fault (io : mm_io) (hf : io.no_fault)
    (hsize : io.size < 9223372036854775808) :
    probe_file io (io.size : Int)
      = (if sizeof_wave_header ≤ io.size ∧ has_magic io then 1 else 0,
          if sizeof_wave_header ≤ io.size then { io with ops := io.ops + 3, pos := 0 } else io) := by
  have hff : ∀ k, io.fault k = false := hf
  have hw : sizeof_wave_header = 44 := rfl
  have hr : sizeof_riff_struct = 12 := rfl
  have hmod : (io.size : Int) % 18446744073709551616 = (io.size : Int) :=
    Int.emod_eq_of_lt (by omega) (by omega)
  by_cases hsz : 44 ≤ io.size
  swap
  · have h1 : (44 : Int) > (io.size : Int) := by omega
    simp [probe_file, hw, hmod, h1, hsz]
  have h1 : ¬ ((44 : Int) > (io.size : Int)) := by omega
  have hm : min 12 io.size = 12 := by omega
  obtain ⟨hr1, hr2⟩ := riff_fields (fun i => io.data i % 256)
  have eR := strncmp_tag (mem_slice (fun i => io.data i % 256) 0 4) str_RIFF
    (mem_slice_length _ _ _) (by decide) (by decide)
  have eW := strncmp_tag (mem_slice (fun i => io.data i % 256) 8 4) str_WAVE
    (mem_slice_length _ _ _) (by decide) (by decide)
  have s1 := seek_beginning_ok io 0 (hff _)
  have s2 := read_ok { io with ops := io.ops + 1, pos := 0 } ((12 : Nat) : Int) (hff _)
  have s3 := seek_beginning_ok { io with ops := io.ops + 1 + 1, pos := 0 + 12 } 0 (hff _)
  simp only [Nat.cast_zero] at s1 s3
  simp only [Int.toNat_ofNat, Nat.sub_zero, hm] at s2
  simp only [probe_file, hw, hr, hmod, Nat.cast_ofNat, h1, if_false, s1]
  simp only [Nat.cast_ofNat] at s2
  simp only [s2, mem_slice_length, ne_eq, not_true_eq_false, if_false, s3, hr1, hr2, eR, eW, hsz,
    true_and, if_true, has_magic]
  by_cases hR : mem_slice (fun i => io.data i % 256) 0 4 = str_RIFF <;>
    by_cases hW : mem_slice (fun i => io.data i % 256) 8 4 = str_WAVE <;>
    simp [hR, hW]

theorem find_chunk_at_mem (r : wav_reader_c) (id : List Nat) (ae : Bool)
    (h : find_chunk r id 0 ae ≠ -1) : r.chunk_at (find_chunk r id 0 ae) ∈ r.m_chunks := by
  simp only [find_chunk, lt_self_iff_false, if_false, Int.toNat_zero, List.drop_zero] at h ⊢
  rcases find_chunk_loop_spec id ae r.m_chunks 0 with ⟨h1, _⟩ | ⟨k, c, hk, _, _, hres⟩
  · exact absurd h1 h
  · rw [hres]
    have hc : r.chunk_at ((0 + k : Nat) : Int) = c := by
      simp [wav_reader_c.chunk_at, List.getD_eq_getElem?_getD, hk]
    rw [hc]
    exact List.getElem?_mem hk

theorem find_chunk_chunks (r r1 : wav_reader_c) (h : r1.m_chunks = r.m_chunks) (id : List Nat)
    (start : Int) (ae : Bool) : find_chunk r1 id start ae = find_chunk r id start ae := by
  simp [find_chunk, h]

theorem parse_file_outcome (r : wav_reader_c) (hf : r.m_io.no_fault)
    (h12 : r.m_io.pos + 12 ≤ r.m_io.size) (hc : ∀ c ∈ r.m_chunks, 0 ≤ c.pos) :
    (find_chunk (parse_file_scanned r) str_fmt 0 true = -1 →
        parse_file r = .error (.error_c msg_no_format_chunk))
    ∧ (find_chunk (parse_file_scanned r) str_fmt 0 true ≠ -1 →
        (r.m_io.size : Int) < format_chunk_pos (parse_file_scanned r) + 24 →
        parse_file r = .error (.error_c msg_format_unreadable))
    ∧ (find_chunk (parse_file_scanned r) str_fmt 0 true ≠ -1 →
        format_chunk_pos (parse_file_scanned r) + 24 ≤ (r.m_io.size : Int) →
        find_chunk (parse_file_scanned r) str_data 0 false = -1 →
        parse_file r = .error (.error_c msg_no_data_chunk))
    ∧ (find_chunk (parse_file_scanned r) str_fmt 0 true ≠ -1 →
        format_chunk_pos (parse_file_scanned r) + 24 ≤ (r.m_io.size : Int) →
        find_chunk (parse_file_scanned r) str_data 0 false ≠ -1 →
        ∃ r2, parse_file r = .ok r2 ∧ r2.m_io.no_fault ∧ r2.m_demuxer = r.m_demuxer) := by
  have hff : ∀ k, r.m_io.fault k = false := hf
  have hm : min 12 (r.m_io.size - r.m_io.pos) = 12 := by omega
  have hread := read_ok r.m_io ((12 : Nat) : Int) (hff _)
  simp only [Int.toNat_ofNat, hm] at hread
  have hframe := scan_chunks_frame
    { r with
      m_io := { r.m_io with ops := r.m_io.ops + 1, pos := r.m_io.pos + 12 },
      m_wheader := { r.m_wheader with
        riff := mem_slice (fun i => r.m_io.data i % 256) r.m_io.pos 12 } }
  have hposn := pos_nonneg_scan
    { r with
      m_io := { r.m_io with ops := r.m_io.ops + 1, pos := r.m_io.pos + 12 },
      m_wheader := { r.m_wheader with
        riff := mem_slice (fun i => r.m_io.data i % 256) r.m_io.pos 12 } } hc
  have hscanned : parse_file_scanned r = scan_chunks
      { r with
        m_io := { r.m_io with ops := r.m_io.ops + 1, pos := r.m_io.pos + 12 },
        m_wheader := { r.m_wheader with
          riff := mem_slice (fun i => r.m_io.data i % 256) r.m_io.pos 12 } } := by
    simp only [parse_file_scanned, sizeof_riff_struct, hread, Option.getD_some]
  have hpf : parse_file r = (
      let r1 := parse_file_scanned r
      let chunk_idx := find_chunk r1 str_fmt 0 true
      if chunk_idx = -1 then Except.error (wav_exception.error_c msg_no_format_chunk)
      else
        match r1.m_io.setFilePointer (r1.chunk_at chunk_idx).pos .seek_beginning with
        | (none, _) => .error .io_exception
        | (some _, io2) =>
          match io2.read (sizeof_chunk_struct : Int) with
          | (none, _) => .error .io_exception
          | (some format, io3) =>
            if format.length ≠ sizeof_chunk_struct then .error (.error_c msg_format_unreadable)
            else
              match io3.read (sizeof_common_struct : Int) with
              | (none, _) => .error .io_exception
              | (some common, io4) =>
                if common.length ≠ sizeof_common_struct then
                  .error (.error_c msg_format_unreadable)
                else
                  let r2 : wav_reader_c :=
                    { r1 with
                      m_io := io4,
                      m_wheader := { r1.m_wheader with format := format, common := common } }
                  let idx := find_chunk r2 str_data 0 false
                  if idx = -1 then .error (.error_c msg_no_data_chunk)
                  else
                    match r2.m_io.setFilePointer ((r2.chunk_at idx).pos + (sizeof_chunk_struct : Int))
                        .seek_beginning with
                    | (none, _) => .error .io_exception
                    | (some _, io5) =>
                      .ok { r2 with
                            m_io := io5,
                            m_cur_data_chunk_idx := idx,
                            m_remaining_bytes_in_current_data_chunk := (r2.chunk_at idx).len }) := by
    rw [hscanned]
    simp only [parse_file, sizeof_riff_struct, hread, mem_slice_length, ne_eq, not_true_eq_false,
      if_false]
  rw [hpf]
  rw [← hscanned] at hframe hposn
  generalize parse_file_scanned r = r1 at *
  obtain ⟨_, hdem, _, _, _, hsz, hdata, hfault, _⟩ := hframe
  simp only at hsz hdata hfault hdem
  have hff1 : ∀ k, r1.m_io.fault k = false := fun k => by rw [hfault]; exact hff k
  clear hpf hscanned
  have hsizeI : (r1.m_io.size : Int) = (r.m_io.size : Int) := by rw [hsz]
  have hfc : ∀ (io4 : mm_io) (wh : wave_header),
      find_chunk { r1 with m_io := io4, m_wheader := wh } str_data 0 false
        = find_chunk r1 str_data 0 false := fun _ _ => rfl
  have hca : ∀ (io4 : mm_io) (wh : wave_header) (i : Int),
      wav_reader_c.chunk_at { r1 with m_io := io4, m_wheader := wh } i = r1.chunk_at i :=
    fun _ _ _ => rfl
  have key : find_chunk r1 str_fmt 0 true ≠ -1 →
      ∃ n : Nat, format_chunk_pos r1 = (n : Int)
        ∧ r1.m_io.setFilePointer (r1.chunk_at (find_chunk r1 str_fmt 0 true)).pos .seek_beginning
            = (some (), { r1.m_io with ops := r1.m_io.ops + 1, pos := n }) := by
    intro hfmt
    have hmem := find_chunk_at_mem r1 str_fmt true hfmt
    have hnn := hposn _ hmem
    obtain ⟨n, hn⟩ := Int.eq_ofNat_of_zero_le hnn
    refine ⟨n, hn, ?_⟩
    rw [hn]
    exact seek_beginning_ok r1.m_io n (hff1 _)
  have hrd8 : ∀ n : Nat, mm_io.read { r1.m_io with ops := r1.m_io.ops + 1, pos := n } (8 : Int)
      = (some (mem_slice (fun i => r1.m_io.data i % 256) n (min 8 (r1.m_io.size - n))),
          { r1.m_io with ops := r1.m_io.ops + 1 + 1, pos := n + min 8 (r1.m_io.size - n) }) := by
    intro n
    have := read_ok { r1.m_io with ops := r1.m_io.ops + 1, pos := n } (8 : Int) (hff1 _)
    simpa only [show (8 : Int).toNat = 8 from rfl] using this
  have hrd16 : ∀ n : Nat, mm_io.read { r1.m_io with ops := r1.m_io.ops + 1 + 1, pos := n + 8 }
      (16 : Int)
      = (some (mem_slice (fun i => r1.m_io.data i % 256) (n + 8) (min 16 (r1.m_io.size - (n + 8)))),
          { r1.m_io with ops := r1.m_io.ops + 1 + 1 + 1,
                         pos := n + 8 + min 16 (r1.m_io.size - (n + 8)) }) := by
    intro n
    have := read_ok { r1.m_io with ops := r1.m_io.ops + 1 + 1, pos := n + 8 } (16 : Int) (hff1 _)
    simpa only [show (16 : Int).toNat = 16 from rfl] using this
  refine ⟨fun h => by simp [h], ?_, ?_, ?_⟩
  · intro hfmt hshort
    obtain ⟨n, hn, hseek⟩ := key hfmt
    rw [hn] at hshort
    simp only [hfmt, if_false, hseek, sizeof_chunk_struct, sizeof_common_struct, Nat.cast_ofNat,
      hrd8, mem_slice_length]
    by_cases h8 : min 8 (r1.m_io.size - n) = 8
    · have h16 : ¬ (min 16 (r1.m_io.size - (n + 8)) = 16) := by omega
      simp only [h8, ne_eq, not_true_eq_false, if_false, hrd16, mem_slice_length, h16,
        not_false_eq_true, if_true]
    · simp only [ne_eq, h8, not_false_eq_true, if_true]
  · intro hfmt hlong hdata0
    obtain ⟨n, hn, hseek⟩ := key hfmt
    rw [hn] at hlong
    have h8 : min 8 (r1.m_io.size - n) = 8 := by omega
    have h16 : min 16 (r1.m_io.size - (n + 8)) = 16 := by omega
    simp only [hfmt, if_false, hseek, sizeof_chunk_struct, sizeof_common_struct, Nat.cast_ofNat,
      hrd8, mem_slice_length, h8, ne_eq, not_true_eq_false, hrd16, h16, hfc, hdata0, if_true]
  · intro hfmt hlong hdata1
    obtain ⟨n, hn, hseek⟩ := key hfmt
    rw [hn] at hlong
    have h8 : min 8 (r1.m_io.size - n) = 8 := by omega
    have h16 : min 16 (r1.m_io.size - (n + 8)) = 16 := by omega
    have hmem := find_chunk_at_mem r1 str_data false hdata1
    obtain ⟨m, hmv⟩ := Int.eq_ofNat_of_zero_le (hposn _ hmem)
    have hseek2 := seek_beginning_ok
      { r1.m_io with ops := r1.m_io.ops + 1 + 1 + 1, pos := n + 8 + 16 } (m + 8) (hff1 _)
    simp only [Nat.cast_add, Nat.cast_ofNat] at hseek2
    simp only [hfmt, if_false, hseek, sizeof_chunk_struct, sizeof_common_struct, hrd8,
      mem_slice_length, h8, ne_eq, not_true_eq_false, hrd16, h16, hfc, hca, hdata1, hmv,
      Nat.cast_ofNat, hseek2]
    exact ⟨_, rfl, fun k => hff1 k, hdem⟩

theorem find_chunk_none_iff (r : wav_reader_c) (id : List Nat) (ae : Bool)
    (hid : id.length = 4) (hz : ∀ c ∈ id, c ≠ 0) (hidx : ∀ c ∈ r.m_chunks, c.id.length = 4) :
    find_chunk r id 0 ae = -1
      ↔ ¬ ∃ c ∈ r.m_chunks, c.id.map tolower = id.map tolower ∧ (ae = true ∨ c.len ≠ 0) := by
  simp only [find_chunk, lt_self_iff_false, if_false, Int.toNat_zero, List.drop_zero]
  rcases find_chunk_loop_spec id ae r.m_chunks 0 with ⟨h1, h2⟩ | ⟨k, c, hk, hhit, _, hres⟩
  · refine ⟨fun _ => ?_, fun _ => h1⟩
    rintro ⟨c, hc, hm⟩
    exact h2 c hc ⟨(strncasecmp_tag c.id id (hidx c hc) hid hz).2 hm.1, hm.2⟩
  · have hc := List.getElem?_mem hk
    refine ⟨fun h => ?_, fun h => ?_⟩
    · rw [hres] at h
      omega
    · exact absurd ⟨c, hc, (strncasecmp_tag c.id id (hidx c hc) hid hz).1 hhit.1, hhit.2⟩ h

theorem scanned_tags (r : wav_reader_c) (h : r.m_chunks = []) (ht : r.m_bytes_in_data_chunks = 0) :
    ∀ c ∈ (parse_file_scanned r).m_chunks, c.id.length = 4 := by
  unfold parse_file_scanned
  refine (index_consistent_scan _ ?_).2
  refine ⟨?_, ?_⟩
  · simp [h, ht, payload_sum]
  · simp [h]

/-- The outcome of the constructor on a source without faults, step by step. -/
theorem open_outcome (lib : codec_lib) (io : mm_io) (hf : io.no_fault)
    (hsize : io.size < 9223372036854775808) :
    ((¬ has_magic io ∨ io.size < sizeof_wave_header) →
        thrown (wav_reader_c.new lib io) = some (.error_c msg_not_valid_wave))
    ∧ (has_magic io → sizeof_wave_header ≤ io.size →
        (¬ has_format_chunk (scanned_at_open io) →
            thrown (wav_reader_c.new lib io) = some (.error_c msg_no_format_chunk))
        ∧ (has_format_chunk (scanned_at_open io) →
            (io.size : Int) < format_chunk_pos (scanned_at_open io) + 24 →
            thrown (wav_reader_c.new lib io) = some (.error_c msg_format_unreadable))
        ∧ (has_format_chunk (scanned_at_open io) →
            format_chunk_pos (scanned_at_open io) + 24 ≤ (io.size : Int) →
            ¬ has_payload_chunk (scanned_at_open io) →
            thrown (wav_reader_c.new lib io) = some (.error_c msg_no_data_chunk))
        ∧ (has_format_chunk (scanned_at_open io) →
            format_chunk_pos (scanned_at_open io) + 24 ≤ (io.size : Int) →
            has_payload_chunk (scanned_at_open io) →
            thrown (wav_reader_c.new lib io) = none)) := by
  have hw : sizeof_wave_header = 44 := rfl
  have hq := query_size_ok io hf
  have hf1 : mm_io.no_fault { io with ops := io.ops + 3, pos := 0 } := fun k => hf k
  have hp := probe_file_no_fault { io with ops := io.ops + 3, pos := 0 } hf1 hsize
  have hmag : has_magic { io with ops := io.ops + 3, pos := 0 } = has_magic io := rfl
  simp only [hmag] at hp
  constructor
  · intro hbad
    have hcond : ¬ (sizeof_wave_header ≤ io.size ∧ has_magic io) := by
      rintro ⟨h1, h2⟩
      rcases hbad with hbad | hbad
      · exact hbad h2
      · omega
    simp only [wav_reader_c.new, hq, hp, hcond, if_false, if_true, thrown]
  · intro hm hsz
    have hcond : sizeof_wave_header ≤ io.size ∧ has_magic io := ⟨hsz, hm⟩
    have hf2 : mm_io.no_fault { io with ops := io.ops + 3 + 3, pos := 0 } := fun k => hf k
    have hsc : scanned_at_open io
        = parse_file_scanned (wav_reader_c.init { io with ops := io.ops + 3 + 3, pos := 0 }) := by
      simp only [scanned_at_open, hq, hp, hsz, if_true]
    have h12 : (wav_reader_c.init { io with ops := io.ops + 3 + 3, pos := 0 }).m_io.pos + 12
        ≤ (wav_reader_c.init { io with ops := io.ops + 3 + 3, pos := 0 }).m_io.size := by
      simp only [wav_reader_c.init]
      omega
    obtain ⟨o1, o2, o3, o4⟩ := parse_file_outcome
      (wav_reader_c.init { io with ops := io.ops + 3 + 3, pos := 0 }) hf2 h12
      (by simp [wav_reader_c.init])
    rw [← hsc] at o1 o2 o3 o4
    have htags : ∀ c ∈ (scanned_at_open io).m_chunks, c.id.length = 4 := by
      rw [hsc]
      exact scanned_tags _ rfl rfl
    have efmt := find_chunk_none_iff (scanned_at_open io) str_fmt true (by decide) (by decide) htags
    have edata := find_chunk_none_iff (scanned_at_open io) str_data false (by decide) (by decide)
      htags
    have efmt2 : find_chunk (scanned_at_open io) str_fmt 0 true = -1
        ↔ ¬ has_format_chunk (scanned_at_open io) := by
      rw [efmt]
      simp [has_format_chunk, str_fmt, tolower]
    have edata2 : find_chunk (scanned_at_open io) str_data 0 false = -1
        ↔ ¬ has_payload_chunk (scanned_at_open io) := by
      rw [edata]
      simp [has_payload_chunk, tag_is_data, str_data, tolower]
    have hnew : wav_reader_c.new lib io
        = match parse_file (wav_reader_c.init { io with ops := io.ops + 3 + 3, pos := 0 }) with
          | .error e => .error e
          | .ok r1 =>
            match create_demuxer lib r1 with
            | none => .error .io_exception
            | some (r2, _) => .ok r2 := by
      simp [wav_reader_c.new, hq, hp, hcond, hsz]
    refine ⟨?_, ?_, ?_, ?_⟩
    · intro h
      rw [hnew, o1 (efmt2.2 h)]
      rfl
    · intro h hshort
      rw [hnew, o2 (fun hh => (efmt2.1 hh) h) hshort]
      rfl
    · intro h hlong hnd
      rw [hnew, o3 (fun hh => (efmt2.1 hh) h) hlong (edata2.2 hnd)]
      rfl
    · intro h hlong hd
      obtain ⟨r2, hr2, hfr2, hdem⟩ := o4 (fun hh => (efmt2.1 hh) h) hlong
        (fun hh => (edata2.1 hh) hd)
      obtain ⟨r3, log, d, hcd, _⟩ := create_demuxer_ok lib r2 hfr2 hdem
      rw [hnew, hr2]
      simp only [hcd, thrown]

/-- C7, as the claim states it, fails: `sample_short_fmt` carries the container marks,
its index has a format chunk and no data chunk, yet opening it does not give the
"No data chunk was found" error but "The format chunk could not be read", because the
24 bytes of the format record are not all there. -/
theorem open_fails_on_short_format_chunk :
    has_magic sample_short_fmt
      ∧ has_format_chunk (scanned_at_open sample_short_fmt)
      ∧ ¬ has_payload_chunk (scanned_at_open sample_short_fmt)
      ∧ thrown (wav_reader_c.new lib_none sample_short_fmt)
          = some (.error_c msg_format_unreadable)
      ∧ thrown (wav_reader_c.new lib_none sample_short_fmt)
          ≠ some (.error_c msg_no_data_chunk) := by
  refine ⟨by decide, by decide, by decide, by decide, by decide⟩

/-- C7, amended: on a source without I/O faults, opening a container fails with a
distinct error for each cause. A magic mismatch (or a file shorter than the wave
header) gives the "not a valid WAVE file" error; an index with no "fmt " chunk gives
the "No format chunk found" error; a format chunk whose 24 bytes, chunk header and
format descriptor, cannot be read in full from its offset gives a fourth error, "The
format chunk could not be read"; an index with a readable format chunk but no data
chunk of non-zero length gives the "No data chunk was found" error. The four errors
are pairwise different, and opening succeeds only if none of the conditions holds. -/
theorem open_reports_distinct_errors (lib : codec_lib) (io : mm_io) (hf : io.no_fault)
    (hsize : io.size < 9223372036854775808) :
    ((¬ has_magic io ∨ io.size < sizeof_wave_header) →
        thrown (wav_reader_c.new lib io) = some (.error_c msg_not_valid_wave))
    ∧ (has_magic io → sizeof_wave_header ≤ io.size →
        ¬ has_format_chunk (scanned_at_open io) →
        thrown (wav_reader_c.new lib io) = some (.error_c msg_no_format_chunk))
    ∧ (has_magic io → sizeof_wave_header ≤ io.size →
        has_format_chunk (scanned_at_open io) →
        (io.size : Int) < format_chunk_pos (scanned_at_open io) + 24 →
        thrown (wav_reader_c.new lib io) = some (.error_c msg_format_unreadable))
    ∧ (has_magic io → sizeof_wave_header ≤ io.size →
        has_format_chunk (scanned_at_open io) →
        format_chunk_pos (scanned_at_open io) + 24 ≤ (io.size : Int) →
        ¬ has_payload_chunk (scanned_at_open io) →
        thrown (wav_reader_c.new lib io) = some (.error_c msg_no_data_chunk))
    ∧ (msg_not_valid_wave ≠ msg_no_format_chunk ∧ msg_not_valid_wave ≠ msg_format_unreadable
        ∧ msg_not_valid_wave ≠ msg_no_data_chunk ∧ msg_no_format_chunk ≠ msg_format_unreadable
        ∧ msg_no_format_chunk ≠ msg_no_data_chunk ∧ msg_format_unreadable ≠ msg_no_data_chunk)
    ∧ (thrown (wav_reader_c.new lib io) = none ↔
        (has_magic io ∧ sizeof_wave_header ≤ io.size
          ∧ has_format_chunk (scanned_at_open io)
          ∧ format_chunk_pos (scanned_at_open io) + 24 ≤ (io.size : Int)
          ∧ has_payload_chunk (scanned_at_open io))) := by
  obtain ⟨hbad, hgood⟩ := open_outcome lib io hf hsize
  refine ⟨hbad, fun hm hs => (hgood hm hs).1, fun hm hs => (hgood hm hs).2.1,
    fun hm hs => (hgood hm hs).2.2.1, by decide, ?_⟩
  constructor
  · intro hok
    by_cases hm : has_magic io
    swap
    · rw [hbad (Or.inl hm)] at hok
      simp at hok
    by_cases hs : sizeof_wave_header ≤ io.size
    swap
    · rw [hbad (Or.inr (by omega))] at hok
      simp at hok
    obtain ⟨g1, g2, g3, _⟩ := hgood hm hs
    by_cases hfc : has_format_chunk (scanned_at_open io)
    swap
    · rw [g1 hfc] at hok
      simp at hok
    by_cases hlong : format_chunk_pos (scanned_at_open io) + 24 ≤ (io.size : Int)
    swap
    · rw [g2 hfc (by omega)] at hok
      simp at hok
    by_cases hpc : has_payload_chunk (scanned_at_open io)
    swap
    · rw [g3 hfc hlong hpc] at hok
      simp at hok
    exact ⟨hm, hs, hfc, hlong, hpc⟩
  · rintro ⟨hm, hs, hfc, hlong, hpc⟩
    exact (hgood hm hs).2.2.2 hfc hlong hpc

theorem open_reports_distinct_errors_witness :
    (thrown (wav_reader_c.new lib_none sample_small) = none ↔
        (has_magic sample_small ∧ sizeof_wave_header ≤ sample_small.size
          ∧ has_format_chunk (scanned_at_open sample_small)
          ∧ format_chunk_pos (scanned_at_open sample_small) + 24 ≤ (sample_small.size : Int)
          ∧ has_payload_chunk (scanned_at_open sample_small)))
      ∧ thrown (wav_reader_c.new lib_none sample_small) = none :=
  ⟨(open_reports_distinct_errors lib_none sample_small (fun _ => rfl) (by decide)).2.2.2.2.2,
    by decide⟩

/-! ## Progress -/

theorem to_int32_of_range (x : Int) (h1 : -2147483648 ≤ x) (h2 : x < 2147483648) :
    to_int32 x = x := by
  unfold to_int32
  omega

/-- C16, as the claim states it, fails: with a payload total of zero `get_progress`
returns 100, not 0. -/
theorem get_progress_of_zero_total :
    (wav_reader_c.init (mm_io.of_head [] 0 0)).m_bytes_in_data_chunks = 0
      ∧ get_progress (wav_reader_c.init (mm_io.of_head [] 0 0)) = 100
      ∧ get_progress (wav_reader_c.init (mm_io.of_head [] 0 0)) ≠ 0 := by
  refine ⟨rfl, by decide, by decide⟩

/-- C16, amended: `get_progress` returns 100 when the total recorded payload byte
count is zero, and otherwise the integer quotient 100 times the processed bytes
divided by the total recorded payload bytes (as far as the quotient is an `int`). -/
theorem get_progress_value (r : wav_reader_c)
    (hlo : -2147483648 ≤ Int.tdiv (100 * r.m_bytes_processed) r.m_bytes_in_data_chunks)
    (hhi : Int.tdiv (100 * r.m_bytes_processed) r.m_bytes_in_data_chunks < 2147483648) :
    (r.m_bytes_in_data_chunks = 0 → get_progress r = 100)
      ∧ (r.m_bytes_in_data_chunks ≠ 0 →
          get_progress r = Int.tdiv (100 * r.m_bytes_processed) r.m_bytes_in_data_chunks)
      ∧ (r.m_bytes_in_data_chunks ≠ 0 → 0 ≤ r.m_bytes_processed → 0 ≤ r.m_bytes_in_data_chunks →
          get_progress r = 100 * r.m_bytes_processed / r.m_bytes_in_data_chunks) := by
  refine ⟨fun h => by simp [get_progress, h], fun h => ?_, fun h hp ht => ?_⟩
  · simp only [get_progress, h, ne_eq, not_false_eq_true, if_true]
    exact to_int32_of_range _ hlo hhi
  · simp only [get_progress, h, ne_eq, not_false_eq_true, if_true]
    rw [to_int32_of_range _ hlo hhi]
    exact Int.tdiv_eq_ediv (by omega) ht

theorem get_progress_value_witness :
    (sample_half_done.m_bytes_in_data_chunks = 0 → get_progress sample_half_done = 100)
      ∧ (sample_half_done.m_bytes_in_data_chunks ≠ 0 →
          get_progress sample_half_done
            = Int.tdiv (100 * sample_half_done.m_bytes_processed)
                sample_half_done.m_bytes_in_data_chunks)
      ∧ get_progress sample_half_done = 50 :=
  ⟨(get_progress_value sample_half_done (by decide) (by decide)).1,
    (get_progress_value sample_half_done (by decide) (by decide)).2.1, by decide⟩

/-! ## The block size of the PCM variant -/

/-- C17, as the claim states it, fails: for 1 channel, 12 bits and 8000 Hz the block
size is 12000 bytes, while channels times (bit depth / 8) times sample rate is 8000;
and for 8 channels, 32 bits and 16777216 Hz the product of the three fields, formed in
32 bit arithmetic, wraps to 0, so that the block size is 0. -/
theorem pcm_block_size_differs :
    (wav_demuxer.pcm (pcm_demuxer.new lib_none (pcm_header 1 12 8000) false)).get_preferred_input_size
        = 12000
      ∧ ((1 * (12 / 8) * 8000 : Nat) : Int) = 8000
      ∧ (wav_demuxer.pcm (pcm_demuxer.new lib_none (pcm_header 8 32 16777216)
          false)).get_preferred_input_size = 0
      ∧ ((8 * (32 / 8) * 16777216 : Nat) : Int) = 536870912 := by
  refine ⟨by decide, by decide, by decide, by decide⟩

theorem pcm_block_size_formula (lib : codec_lib) (wheader : wave_header) (float : Bool) :
    (wav_demuxer.pcm (pcm_demuxer.new lib wheader float)).get_preferred_input_size
      = ((get_uint16_le wheader.wChannels * get_uint16_le wheader.wBitsPerSample
          * get_uint32_le wheader.dwSamplesPerSec % 4294967296 / 8 : Nat) : Int) := by
  simp only [wav_demuxer.get_preferred_input_size, pcm_demuxer.new]

/-- C17, amended: for every format header the preferred block size of the PCM variant
is the product of the little-endian channel count, bits per sample and samples per
second, formed in 32 bit arithmetic, divided by 8. Whenever the bit depth is a multiple
of 8 and the product stays below 2^32 this is one second of audio, channels times
(bit depth / 8) times sample rate bytes; for 2 channels, 16 bits and 8000 Hz it is
32000. -/
theorem pcm_block_size (lib : codec_lib) (wheader : wave_header) (float : Bool)
    (hbits : get_uint16_le wheader.wBitsPerSample % 8 = 0)
    (hfit : get_uint16_le wheader.wChannels * get_uint16_le wheader.wBitsPerSample
      * get_uint32_le wheader.dwSamplesPerSec < 4294967296) :
    (wav_demuxer.pcm (pcm_demuxer.new lib wheader float)).get_preferred_input_size
        = ((get_uint16_le wheader.wChannels * (get_uint16_le wheader.wBitsPerSample / 8)
            * get_uint32_le wheader.dwSamplesPerSec : Nat) : Int)
      ∧ (get_uint16_le wheader.wChannels = 2 → get_uint16_le wheader.wBitsPerSample = 16 →
          get_uint32_le wheader.dwSamplesPerSec = 8000 →
          (wav_demuxer.pcm (pcm_demuxer.new lib wheader float)).get_preferred_input_size = 32000) := by
  have hform := pcm_block_size_formula lib wheader float
  obtain ⟨k, hk⟩ : ∃ k, get_uint16_le wheader.wBitsPerSample = 8 * k :=
    ⟨get_uint16_le wheader.wBitsPerSample / 8, by omega⟩
  have hprod : get_uint16_le wheader.wChannels * get_uint16_le wheader.wBitsPerSample
      * get_uint32_le wheader.dwSamplesPerSec
      = 8 * (get_uint16_le wheader.wChannels * k * get_uint32_le wheader.dwSamplesPerSec) := by
    rw [hk]
    ring
  have hval : get_uint16_le wheader.wChannels * get_uint16_le wheader.wBitsPerSample
      * get_uint32_le wheader.dwSamplesPerSec % 4294967296 / 8
      = get_uint16_le wheader.wChannels * (get_uint16_le wheader.wBitsPerSample / 8)
          * get_uint32_le wheader.dwSamplesPerSec := by
    rw [Nat.mod_eq_of_lt hfit, hprod, Nat.mul_div_cancel_left _ (by decide : 0 < 8), hk,
      Nat.mul_div_cancel_left _ (by decide : 0 < 8)]
  refine ⟨by rw [hform, hval], ?_⟩
  intro hc hb hr
  rw [hform, hval, hc, hb, hr]
  rfl

theorem pcm_block_size_witness :
    (wav_demuxer.pcm (pcm_demuxer.new lib_none (pcm_header 2 16 8000) false)).get_preferred_input_size
        = ((get_uint16_le (pcm_header 2 16 8000).wChannels
            * (get_uint16_le (pcm_header 2 16 8000).wBitsPerSample / 8)
            * get_uint32_le (pcm_header 2 16 8000).dwSamplesPerSec : Nat) : Int)
      ∧ (wav_demuxer.pcm (pcm_demuxer.new lib_none (pcm_header 2 16 8000)
          false)).get_preferred_input_size = 32000 :=
  ⟨(pcm_block_size lib_none (pcm_header 2 16 8000) false (by decide) (by decide)).1,
    (pcm_block_size lib_none (pcm_header 2 16 8000) false (by decide) (by decide)).2
      (by decide) (by decide) (by decide)⟩

/-! ## The transforms of the sub-demuxers -/

/-- C18, as the claim states it, fails: with the repack locked in, `decode_buffer` on
14 bytes (7 words) reports 12 bytes, not 16 (8 words), and on 16 bytes (8 words) it
reports 14 bytes (7 words). -/
theorem dts_repack_shrinks :
    sample_repacking.m_pack_14_16 = true
      ∧ (wav_dts_demuxer_c.decode_buffer lib_none sample_repacking 14).1 = 12
      ∧ (wav_dts_demuxer_c.decode_buffer lib_none sample_repacking 14).1 ≠ 14 * 8 / 7
      ∧ (wav_dts_demuxer_c.decode_buffer lib_none sample_repacking 16).1 = 14 := by
  refine ⟨rfl, by decide, by decide, by decide⟩

/-- C18, amended: when the DTS variant has the 14-to-16-bit repack locked in,
`decode_buffer` on an input of n bytes (n times 7 within the range of `int`) reports an
output length of n times 7 / 8 bytes in integer arithmetic, so that 8 input words yield
7 output words. -/
theorem dts_repack_length (lib : codec_lib) (d : dts_demuxer) (n : Int)
    (hpack : d.m_pack_14_16 = true) (h0 : 0 ≤ n) (hfit : n * 7 < 2147483648) :
    (wav_dts_demuxer_c.decode_buffer lib d n).1 = n * 7 / 8
      ∧ (n = 2 * 8 → (wav_dts_demuxer_c.decode_buffer lib d n).1 = 2 * 7) := by
  have hval : (wav_dts_demuxer_c.decode_buffer lib d n).1 = Int.tdiv (n * 7) 8 := by
    unfold wav_dts_demuxer_c.decode_buffer
    by_cases hs : d.m_swap_bytes = true <;> simp [hs, hpack]
  rw [hval, Int.tdiv_eq_ediv (by omega) (by decide)]
  refine ⟨rfl, fun h => ?_⟩
  rw [h]
  rfl

theorem dts_repack_length_witness :
    (wav_dts_demuxer_c.decode_buffer lib_none sample_repacking 16).1 = 16 * 7 / 8
      ∧ (wav_dts_demuxer_c.decode_buffer lib_none sample_repacking 16).1 = 2 * 7 :=
  ⟨(dts_repack_length lib_none sample_repacking 16 rfl (by decide) (by decide)).1,
    (dts_repack_length lib_none sample_repacking 16 rfl (by decide) (by decide)).2 (by decide)⟩

theorem xor_one_ne (c : Nat) : c ^^^ 1 ≠ c := by
  intro h
  have h2 : c ^^^ 1 = c ^^^ 0 := by rw [h, Nat.xor_zero]
  exact absurd (Nat.xor_right_inj.1 h2) (by decide)

theorem pair_index_pair_index (k : Nat) : pair_index (pair_index k) = k := by
  unfold pair_index
  split <;> split <;> omega

theorem pair_index_lt (k m : Nat) (h : k < 2 * m) : pair_index k < 2 * m := by
  unfold pair_index
  split <;> omega

/-- Swapping a buffer into another one and back gives the buffer itself. -/
theorem swab_swab (src other : Nat → Nat) (n : Int) :
    swab (swab src 0 other 0 n) 0 src 0 n = src := by
  funext j
  simp only [swab, Nat.zero_le, Nat.sub_zero, Nat.zero_add, true_and]
  by_cases hj : j < 2 * (n.toNat / 2)
  · simp [hj, pair_index_lt j _ hj, pair_index_pair_index]
  · simp [hj]

/-- C19: byte-pair swap is involutive. For every content of the two buffers, every
active index and every length, two calls in succession of the `decode_buffer` of the
generic variant leave the active buffer holding exactly the original bytes and the
active-buffer index at its original value; with the swap locked in and a length above
2 the first of the two calls has swapped the byte pairs into the other buffer. -/
theorem ac3acm_decode_buffer_twice (d : ac3_demuxer) (len : Int) :
    ((wav_ac3acm_demuxer_c.decode_buffer
        (wav_ac3acm_demuxer_c.decode_buffer d len).2 len).2).m_cur_buf = d.m_cur_buf
      ∧ ((wav_ac3acm_demuxer_c.decode_buffer
            (wav_ac3acm_demuxer_c.decode_buffer d len).2 len).2).m_buf d.m_cur_buf
          = d.m_buf d.m_cur_buf
      ∧ (2 < len ∧ d.m_swap_bytes = true →
          (wav_ac3acm_demuxer_c.decode_buffer d len).2.m_cur_buf = d.m_cur_buf ^^^ 1
            ∧ ∀ j, j < 2 * (len.toNat / 2) →
                (wav_ac3acm_demuxer_c.decode_buffer d len).2.m_buf (d.m_cur_buf ^^^ 1) j
                  = d.m_buf d.m_cur_buf (pair_index j)) := by
  by_cases h : 2 < len ∧ d.m_swap_bytes = true
  · have hne : d.m_cur_buf ^^^ 1 ≠ d.m_cur_buf := xor_one_ne _
    have hne2 : d.m_cur_buf ≠ d.m_cur_buf ^^^ 1 := fun e => hne e.symm
    have hback : d.m_cur_buf ^^^ 1 ^^^ 1 = d.m_cur_buf := Nat.xor_cancel_right 1 d.m_cur_buf
    have hfirst : (wav_ac3acm_demuxer_c.decode_buffer d len).2
        = { d with
            m_buf := set_buf d.m_buf (d.m_cur_buf ^^^ 1)
              (swab (d.m_buf d.m_cur_buf) 0 (d.m_buf (d.m_cur_buf ^^^ 1)) 0 len),
            m_cur_buf := d.m_cur_buf ^^^ 1 } := by
      simp only [wav_ac3acm_demuxer_c.decode_buffer, h, and_self, if_true]
    rw [hfirst]
    refine ⟨?_, ?_, ?_⟩
    · simp only [wav_ac3acm_demuxer_c.decode_buffer, h, and_self, if_true, hback]
    · simp only [wav_ac3acm_demuxer_c.decode_buffer, h, and_self, if_true, hback, set_buf,
        if_true, hne2, if_false]
      exact swab_swab _ _ _
    · intro _
      refine ⟨rfl, fun j hj => ?_⟩
      simp [set_buf, swab, hj]
  · have hfirst : (wav_ac3acm_demuxer_c.decode_buffer d len).2 = d := by
      simp only [wav_ac3acm_demuxer_c.decode_buffer, h, if_false]
    rw [hfirst, hfirst]
    exact ⟨rfl, rfl, fun hh => absurd hh h⟩

/-- C20, where the code goes wrong: a generic sub-demuxer with the byte swap locked in
emits, for a block of 2 bytes, the packet with the two bytes in their original order,
while a block of 4 bytes is emitted with its byte pairs swapped. -/
theorem ac3acm_process_two_bytes_unswapped :
    (sample_swapping [0x0b, 0x77]).m_swap_bytes = true
      ∧ (wav_ac3acm_demuxer_c.process (sample_swapping [0x0b, 0x77]) 2).2 = [[0x0b, 0x77]]
      ∧ (wav_ac3acm_demuxer_c.process (sample_swapping [0x0b, 0x77, 0x01, 0x02]) 4).2
          = [[0x77, 0x0b, 0x02, 0x01]] := by
  refine ⟨rfl, by decide, by decide⟩

theorem ac3acm_decode_buffer_twice_witness :
    ((wav_ac3acm_demuxer_c.decode_buffer
        (wav_ac3acm_demuxer_c.decode_buffer (sample_swapping [1, 2, 3, 4]) 4).2 4).2).m_cur_buf
        = (sample_swapping [1, 2, 3, 4]).m_cur_buf
      ∧ mem_slice ((wav_ac3acm_demuxer_c.decode_buffer (sample_swapping [1, 2, 3, 4]) 4).2.m_buf 1)
          0 4 = [2, 1, 4, 3] :=
  ⟨(ac3acm_decode_buffer_twice (sample_swapping [1, 2, 3, 4]) 4).1, by decide⟩

/-! ## Probes leave the stream where it was -/

theorem probe_read_some (io io1 : mm_io) (n : Nat) (bs : List Nat)
    (h : probe_read io n = (some bs, io1)) :
    io1.pos = io.pos ∧ same_source io io1 ∧ bs = probe_bytes io n := by
  unfold probe_read mm_io.save_pos mm_io.read mm_io.restore_pos mm_io.issue at h
  cases h0 : io.fault io.ops <;> cases h1 : io.fault (io.ops + 1) <;>
    cases h2 : io.fault (io.ops + 1 + 1) <;> simp [h0, h1, h2] at h
  obtain ⟨hb, hio⟩ := h
  subst hio
  exact ⟨rfl, ⟨rfl, rfl, rfl, rfl⟩, by rw [← hb]; simp [probe_bytes]⟩

theorem probe_candidate_some (lib : codec_lib) (wheader : wave_header) (k : demuxer_kind)
    (io io1 : mm_io) (b : Bool) (d : wav_demuxer)
    (h : probe_candidate lib wheader k io = (some b, d, io1)) :
    io1.pos = io.pos ∧ same_source io io1 := by
  cases k with
  | ac3acm =>
    simp only [probe_candidate, wav_ac3acm_demuxer_c.probe] at h
    rcases hr : probe_read io AC3ACM_READ_SIZE with ⟨_ | bs, io2⟩
    · simp [hr] at h
    · simp only [hr, Prod.mk.injEq] at h
      obtain ⟨h1, h2, _⟩ := probe_read_some io io2 _ bs hr
      rw [← h.2.2]
      exact ⟨h1, h2⟩
  | dts =>
    simp only [probe_candidate, wav_dts_demuxer_c.probe] at h
    rcases hr : probe_read io DTS_READ_SIZE with ⟨_ | bs, io2⟩
    · simp [hr] at h
    · simp only [hr, Prod.mk.injEq] at h
      obtain ⟨h1, h2, _⟩ := probe_read_some io io2 _ bs hr
      rw [← h.2.2]
      exact ⟨h1, h2⟩
  | ac3wav =>
    simp only [probe_candidate, wav_ac3wav_demuxer_c.probe] at h
    rcases hr : probe_read io AC3WAV_BLOCK_SIZE with ⟨_ | bs, io2⟩
    · simp [hr] at h
    · simp only [hr, Prod.mk.injEq] at h
      obtain ⟨h1, h2, _⟩ := probe_read_some io io2 _ bs hr
      rw [← h.2.2]
      exact ⟨h1, h2⟩
  | pcm =>
    simp only [probe_candidate, Prod.mk.injEq] at h
    rw [← h.2.2]
    exact ⟨rfl, same_source_refl io⟩

theorem run_probes_some (lib : codec_lib) (wheader : wave_header) (ks : List demuxer_kind) :
    ∀ (io io1 : mm_io), run_probes lib wheader ks io = some io1 →
      io1.pos = io.pos ∧ same_source io io1 := by
  induction ks with
  | nil =>
    intro io io1 h
    simp only [run_probes, Option.some.injEq] at h
    rw [← h]
    exact ⟨rfl, same_source_refl io⟩
  | cons k ks ih =>
    intro io io1 h
    rcases hp : probe_candidate lib wheader k io with ⟨_ | b, d, io2⟩
    · simp [run_probes, hp] at h
    · simp only [run_probes, hp] at h
      obtain ⟨h1, h2⟩ := probe_candidate_some lib wheader k io io2 b d hp
      obtain ⟨h3, h4⟩ := ih io2 io1 h
      exact ⟨h3.trans h1, same_source_trans _ _ _ h2 h4⟩

/-- A read delivers the same bytes on two states of the same source at the same
position. -/
theorem read_same_bytes (io io1 : mm_io) (n : Int) (bs bs1 : List Nat)
    (hpos : io1.pos = io.pos) (hsrc : same_source io io1)
    (h : (io.read n).1 = some bs) (h1 : (io1.read n).1 = some bs1) : bs1 = bs := by
  rcases hr : io.read n with ⟨_ | x, io2⟩
  · rw [hr] at h; simp at h
  rcases hr1 : io1.read n with ⟨_ | x1, io3⟩
  · rw [hr1] at h1; simp at h1
  rw [hr] at h
  rw [hr1] at h1
  simp only [Option.some.injEq] at h h1
  obtain ⟨e, _⟩ := read_some io io2 n x hr
  obtain ⟨e1, _⟩ := read_some io1 io3 n x1 hr1
  rw [← h, ← h1, e, e1, hpos, hsrc.1, hsrc.2.1]

/-! ## The index after scanning lies inside the source -/

theorem get_size_some (io io1 : mm_io) (s : Int) (h : io.get_size = (some s, io1)) :
    s = (io.size : Int) ∧ io1 = { io with ops := io.ops + 1 } := by
  unfold mm_io.get_size mm_io.issue at h
  cases hf : io.fault io.ops <;> simp [hf] at h
  exact ⟨h.1.symm, h.2.symm⟩

theorem seek_beginning_some (io io1 : mm_io) (off : Int)
    (h : io.setFilePointer off .seek_beginning = (some (), io1)) :
    0 ≤ off ∧ io1 = { io with ops := io.ops + 1, pos := off.toNat } := by
  unfold mm_io.setFilePointer mm_io.issue at h
  cases hf : io.fault io.ops <;> simp [hf] at h
  by_cases hn : off < 0
  · simp [hn] at h
  · simp [hn] at h
    exact ⟨by omega, h.symm⟩

theorem chunks_in_bounds_step (r : wav_reader_c) (h : chunks_in_bounds r) :
    chunks_in_bounds (scan_step (r.m_io.size : Int) r).1 := by
  have hsrc := (scan_step_frame (r.m_io.size : Int) r).2.2.2.2.2.1
  unfold chunks_in_bounds at h ⊢
  rw [hsrc]
  rcases h1 : r.m_io.getFilePointer with ⟨_ | pos, io1⟩
  · simpa [scan_step, h1] using h
  obtain ⟨hp, hio1⟩ := getFilePointer_some _ _ _ h1
  rcases h2 : io1.read 4 with ⟨_ | id, io2⟩
  · simpa [scan_step, h1, h2] using h
  by_cases hl : id.length = 4
  swap
  · simpa [scan_step, h1, h2, hl] using h
  obtain ⟨hb1, _, hio2⟩ := read4_some _ _ _ h2 hl
  rcases h3 : io2.read_uint32_le with ⟨_ | len, io3⟩
  · simpa [scan_step, h1, h2, hl, h3] using h
  obtain ⟨hb2, _, _⟩ := read_uint32_le_some _ _ _ h3
  have hbound : (pos : Int) + 8 ≤ (r.m_io.size : Int) := by
    rw [hio2] at hb2
    rw [hio1] at hb1 hb2
    simp only at hb1 hb2
    rw [hp]
    omega
  have hpos : 0 ≤ pos := by
    rw [hp]
    omega
  have hpush : ∀ t, ∀ c ∈ (scan_push r io3 { pos := pos, id := id, len := (len : Int) } t).1.m_chunks,
      0 ≤ c.pos ∧ c.pos + 8 ≤ (r.m_io.size : Int) ∧ 0 ≤ c.len := by
    intro t c hc
    rw [(scan_push_chunks r io3 _ t).1] at hc
    rcases List.mem_append.1 hc with hc | hc
    · exact h c hc
    · simp at hc
      rw [hc]
      exact ⟨hpos, hbound, by simp⟩
  simp only [scan_step, h1, h2, h3, hl, ne_eq, not_true_eq_false, if_false]
  by_cases hd : strncasecmp id str_data 4 = 0
  · simp only [hd, if_true]
    exact hpush _
  · simp only [hd, if_false]
    rcases hlast : r.m_chunks.getLast? with _ | p
    · exact hpush _
    · by_cases hc : strncasecmp p.id str_data 4 = 0 ∧ (r.m_io.size : Int) > 0x100000000
      · simp only [hc, and_self, if_true, scan_correct]
        have hsplit : r.m_chunks.dropLast ++ [p] = r.m_chunks :=
          List.dropLast_append_getLast? p (by simp [hlast])
        intro c hcm
        rcases List.mem_append.1 hcm with hcm | hcm
        · exact h c (by rw [← hsplit]; exact List.mem_append_left _ hcm)
        · simp at hcm
          have hpb := h p (by rw [← hsplit]; simp)
          rw [hcm]
          simp only [sizeof_chunk_struct]
          refine ⟨hpb.1, hpb.2.1, ?_⟩
          have := hpb.2.1
          push_cast
          omega
      · simp only [hc, if_false]
        exact hpush _

theorem chunks_in_bounds_scan (r : wav_reader_c) (h : chunks_in_bounds r) :
    chunks_in_bounds (scan_chunks r) := by
  have hloop : ∀ (fuel : Nat) (r0 : wav_reader_c) (res : wav_reader_c × scan_exit),
      chunks_in_bounds r0 → scan_loop (r0.m_io.size : Int) fuel r0 = some res →
      chunks_in_bounds res.1 := by
    intro fuel
    induction fuel with
    | zero =>
      intro r0 res _ hres
      simp [scan_loop] at hres
    | succ k ih =>
      intro r0 res h0 hres
      have hstep := chunks_in_bounds_step r0 h0
      have hsz := (scan_step_frame (r0.m_io.size : Int) r0).2.2.2.2.2.1
      rcases hs : scan_step (r0.m_io.size : Int) r0 with ⟨r1, _ | e⟩
      · rw [hs] at hstep hsz
        simp only [scan_loop, hs] at hres
        simp only at hsz
        rw [← hsz] at hres
        exact ih r1 res hstep hres
      · rw [hs] at hstep
        simp only [scan_loop, hs, Option.some.injEq] at hres
        rw [← hres]; exact hstep
  have hsrc := get_size_source r.m_io
  unfold scan_chunks scan_chunks_exit
  rcases h1 : r.m_io.get_size with ⟨_ | fs, io1⟩
  · rw [h1] at hsrc
    simp only at hsrc ⊢
    intro c hc
    simp only [hsrc.1]
    exact h c hc
  · obtain ⟨hfs, hio1⟩ := get_size_some _ _ _ h1
    simp only
    rcases h2 : scan_loop fs (scan_fuel io1) { r with m_io := io1 } with _ | res
    · simp only
      intro c hc
      rw [hio1]
      exact h c hc
    · have hb : chunks_in_bounds { r with m_io := io1 } := by
        intro c hc
        rw [hio1]
        exact h c hc
      have hfs2 : fs = (({ r with m_io := io1 } : wav_reader_c).m_io.size : Int) := by
        rw [hfs, hio1]
      rw [hfs2] at h2
      exact hloop _ _ res hb h2

/-! ## A successful open, step by step -/

theorem parse_file_some (r r2 : wav_reader_c) (hic : index_consistent r)
    (hb : chunks_in_bounds r) (h : parse_file r = .ok r2) :
    same_source r.m_io r2.m_io ∧ index_consistent r2 ∧ chunks_in_bounds r2
      ∧ r2.m_bytes_processed = r.m_bytes_processed ∧ r2.m_demuxer = r.m_demuxer
      ∧ r2.m_cur_data_chunk_idx = find_chunk r2 str_data 0 false
      ∧ find_chunk r2 str_data 0 false ≠ -1
      ∧ r2.m_remaining_bytes_in_current_data_chunk
          = (r2.chunk_at (find_chunk r2 str_data 0 false)).len
      ∧ (r2.m_io.pos : Int) = (r2.chunk_at (find_chunk r2 str_data 0 false)).pos + 8 := by
  rcases hr : r.m_io.read (sizeof_riff_struct : Int) with ⟨_ | riff, io1⟩
  · simp [parse_file, hr] at h
  by_cases hl : riff.length = sizeof_riff_struct
  swap
  · simp [parse_file, hr, hl] at h
  have hio1 := (read_some _ _ _ _ hr).2
  have hsrc1 : same_source r.m_io io1 := by
    have := read_source r.m_io (sizeof_riff_struct : Int)
    rw [hr] at this
    exact this
  have hic0 : index_consistent
      { r with m_io := io1, m_wheader := { r.m_wheader with riff := riff } } := hic
  have hb0 : chunks_in_bounds
      { r with m_io := io1, m_wheader := { r.m_wheader with riff := riff } } := by
    intro c hc
    simp only [hsrc1.1]
    exact hb c hc
  have hframe := scan_chunks_frame
    { r with m_io := io1, m_wheader := { r.m_wheader with riff := riff } }
  have hic1 := index_consistent_scan _ hic0
  have hb1 := chunks_in_bounds_scan _ hb0
  simp only [parse_file, hr, hl, ne_eq, not_true_eq_false, if_false] at h
  generalize scan_chunks
    { r with m_io := io1, m_wheader := { r.m_wheader with riff := riff } } = rs at h hframe hic1 hb1
  obtain ⟨_, hdem, hproc, _, _, hsrc2⟩ := hframe
  simp only at hdem hproc hsrc2
  by_cases hfmt : find_chunk rs str_fmt 0 true = -1
  · simp [hfmt] at h
  simp only [hfmt, if_false] at h
  rcases hs1 : rs.m_io.setFilePointer (rs.chunk_at (find_chunk rs str_fmt 0 true)).pos
      .seek_beginning with ⟨_ | u, io2⟩
  · simp [hs1] at h
  simp only [hs1] at h
  have hsrc3 : same_source rs.m_io io2 := by
    have := setFilePointer_source rs.m_io (rs.chunk_at (find_chunk rs str_fmt 0 true)).pos
      .seek_beginning
    rw [hs1] at this
    exact this
  rcases hr2 : io2.read (sizeof_chunk_struct : Int) with ⟨_ | format, io3⟩
  · simp [hr2] at h
  simp only [hr2] at h
  have hsrc4 : same_source io2 io3 := by
    have := read_source io2 (sizeof_chunk_struct : Int)
    rw [hr2] at this
    exact this
  by_cases hl2 : format.length = sizeof_chunk_struct
  swap
  · simp [hl2] at h
  simp only [hl2, ne_eq, not_true_eq_false, if_false] at h
  rcases hr3 : io3.read (sizeof_common_struct : Int) with ⟨_ | common, io4⟩
  · simp [hr3] at h
  simp only [hr3] at h
  have hsrc5 : same_source io3 io4 := by
    have := read_source io3 (sizeof_common_struct : Int)
    rw [hr3] at this
    exact this
  by_cases hl3 : common.length = sizeof_common_struct
  swap
  · simp [hl3] at h
  simp only [hl3, ne_eq, not_true_eq_false, if_false] at h
  have hfc : ∀ (io : mm_io) (wh : wave_header),
      find_chunk { rs with m_io := io, m_wheader := wh } str_data 0 false
        = find_chunk rs str_data 0 false := fun _ _ => rfl
  have hca : ∀ (io : mm_io) (wh : wave_header) (i : Int),
      wav_reader_c.chunk_at { rs with m_io := io, m_wheader := wh } i = rs.chunk_at i :=
    fun _ _ _ => rfl
  simp only [hfc, hca] at h
  by_cases hdata : find_chunk rs str_data 0 false = -1
  · simp [hdata] at h
  simp only [hdata, if_false] at h
  rcases hs2 : io4.setFilePointer
      ((rs.chunk_at (find_chunk rs str_data 0 false)).pos + (sizeof_chunk_struct : Int))
      .seek_beginning with ⟨_ | u, io5⟩
  · simp [hs2] at h
  simp only [hs2, Except.ok.injEq] at h
  obtain ⟨hoff, hio5⟩ := seek_beginning_some _ _ _ hs2
  have hsrc6 : same_source io4 io5 := by
    have := setFilePointer_source io4
      ((rs.chunk_at (find_chunk rs str_data 0 false)).pos + (sizeof_chunk_struct : Int))
      .seek_beginning
    rw [hs2] at this
    exact this
  have hsrc : same_source r.m_io io5 :=
    same_source_trans _ _ _ hsrc1 (same_source_trans _ _ _ hsrc2
      (same_source_trans _ _ _ hsrc3 (same_source_trans _ _ _ hsrc4
        (same_source_trans _ _ _ hsrc5 hsrc6))))
  have hsz : io5.size = rs.m_io.size := by
    rw [hsrc6.1, hsrc5.1, hsrc4.1, hsrc3.1]
  rw [← h]
  refine ⟨hsrc, hic1, ?_, hproc, hdem, rfl, hdata, rfl, ?_⟩
  · intro c hc
    simp only [hsz]
    exact hb1 c hc
  · rw [hio5]
    show ((((rs.chunk_at (find_chunk rs str_data 0 false)).pos
      + (sizeof_chunk_struct : Int)).toNat : Nat) : Int) = _
    rw [Int.toNat_of_nonneg hoff]
    rfl

theorem query_size_some (io io1 : mm_io) (s : Int) (h : query_size io = (some s, io1)) :
    s = (io.size : Int) ∧ same_source io io1 := by
  unfold query_size at h
  have hsrc1 := setFilePointer_source io 0 .seek_end
  rcases h1 : io.setFilePointer 0 .seek_end with ⟨_ | u, ioa⟩
  · simp [h1] at h
  rw [h1] at hsrc1
  simp only [h1] at h
  have hpos : ioa.pos = io.size := by
    unfold mm_io.setFilePointer mm_io.issue at h1
    cases hf : io.fault io.ops <;> simp [hf] at h1
    have hn : ¬ ((io.size : Int) < 0) := by omega
    simp only [hn, if_false, Prod.mk.injEq, true_and] at h1
    rw [← h1]
  have hsrc2 := getFilePointer_source ioa
  rcases h2 : ioa.getFilePointer with ⟨_ | p, iob⟩
  · simp [h2] at h
  rw [h2] at hsrc2
  simp only [h2] at h
  obtain ⟨hp, _⟩ := getFilePointer_some _ _ _ h2
  have hsrc3 := setFilePointer_source iob 0 .seek_beginning
  rcases h3 : iob.setFilePointer 0 .seek_beginning with ⟨_ | u, ioc⟩
  · simp [h3] at h
  rw [h3] at hsrc3
  simp only [h3, Prod.mk.injEq, Option.some.injEq] at h
  rw [← h.1, ← h.2, hp, hpos]
  exact ⟨rfl, same_source_trans _ _ _ hsrc1 (same_source_trans _ _ _ hsrc2 hsrc3)⟩

theorem probe_file_source (io : mm_io) (s : Int) : same_source io (probe_file io s).2 := by
  by_cases h0 : (sizeof_wave_header : Int) > s % 18446744073709551616
  · simp only [probe_file, h0, if_true]
    exact same_source_refl io
  have hsrc1 := setFilePointer_source io 0 .seek_beginning
  rcases h1 : io.setFilePointer 0 .seek_beginning with ⟨_ | u, ioa⟩
  · rw [h1] at hsrc1
    simp only [probe_file, h0, if_false, h1]
    exact hsrc1
  rw [h1] at hsrc1
  have hsrc2 := read_source ioa (sizeof_riff_struct : Int)
  rcases h2 : ioa.read (sizeof_riff_struct : Int) with ⟨_ | riff, iob⟩
  · rw [h2] at hsrc2
    simp only [probe_file, h0, if_false, h1, h2]
    exact same_source_trans _ _ _ hsrc1 hsrc2
  rw [h2] at hsrc2
  by_cases hl : riff.length = sizeof_riff_struct
  swap
  · simp only [probe_file, h0, if_false, h1, h2, ne_eq, hl, not_false_eq_true, if_true]
    exact same_source_trans _ _ _ hsrc1 hsrc2
  have hsrc3 := setFilePointer_source iob 0 .seek_beginning
  rcases h3 : iob.setFilePointer 0 .seek_beginning with ⟨_ | u, ioc⟩
  · rw [h3] at hsrc3
    simp only [probe_file, h0, if_false, h1, h2, ne_eq, hl, not_true_eq_false, h3]
    exact same_source_trans _ _ _ hsrc1 (same_source_trans _ _ _ hsrc2 hsrc3)
  rw [h3] at hsrc3
  have hall := same_source_trans _ _ _ hsrc1 (same_source_trans _ _ _ hsrc2 hsrc3)
  simp only [probe_file, h0, if_false, h1, h2, ne_eq, hl, not_true_eq_false, h3]
  split <;> exact hall

theorem probe_frame_refl (r : wav_reader_c) : probe_frame r r :=
  ⟨rfl, rfl, rfl, rfl, rfl, rfl, rfl, same_source_refl _⟩

theorem probe_frame_trans (a b c : wav_reader_c) (h1 : probe_frame a b) (h2 : probe_frame b c) :
    probe_frame a c := by
  obtain ⟨a1, a2, a3, a4, a5, a6, a7, a8⟩ := h1
  obtain ⟨b1, b2, b3, b4, b5, b6, b7, b8⟩ := h2
  exact ⟨b1.trans a1, b2.trans a2, b3.trans a3, b4.trans a4, b5.trans a5, b6.trans a6,
    b7.trans a7, same_source_trans _ _ _ a8 b8⟩

theorem try_candidate_some (lib : codec_lib) (k : demuxer_kind)
    (st st1 : wav_reader_c × List demuxer_kind) (h : try_candidate lib k st = some st1) :
    probe_frame st.1 st1.1 := by
  unfold try_candidate at h
  rcases hp : probe_candidate lib st.1.m_wheader k st.1.m_io with ⟨_ | b, d, io1⟩
  · simp [hp] at h
  obtain ⟨h1, h2⟩ := probe_candidate_some lib _ k _ io1 b d hp
  cases b <;> simp only [hp, Option.some.injEq] at h <;> rw [← h] <;>
    exact ⟨rfl, rfl, rfl, rfl, rfl, rfl, h1, h2⟩

theorem unless_selected_some (lib : codec_lib) (k : demuxer_kind)
    (st st1 : wav_reader_c × List demuxer_kind) (h : unless_selected lib k st = some st1) :
    probe_frame st.1 st1.1 := by
  unfold unless_selected at h
  rcases hd : st.1.m_demuxer with _ | d
  · simp only [hd] at h
    exact try_candidate_some lib k st st1 h
  · simp only [hd, Option.some.injEq] at h
    rw [← h]
    exact probe_frame_refl _

theorem create_demuxer_some (lib : codec_lib) (r r1 : wav_reader_c) (log : List demuxer_kind)
    (h : create_demuxer lib r = some (r1, log)) :
    probe_frame r r1 ∧ ∃ d, r1.m_demuxer = some d := by
  unfold create_demuxer at h
  simp only at h
  have h0 : ∀ st1, (if 0x2000 = get_uint16_le r.m_wheader.wFormatTag
      then try_candidate lib .ac3acm (r, []) else some (r, [])) = some st1 →
      probe_frame r st1.1 := by
    intro st1 hst
    by_cases ht : 0x2000 = get_uint16_le r.m_wheader.wFormatTag
    · simp only [ht, if_true] at hst
      exact try_candidate_some lib _ _ _ hst
    · simp only [ht, if_false, Option.some.injEq] at hst
      rw [← hst]
      exact probe_frame_refl _
  rcases hs1 : (if 0x2000 = get_uint16_le r.m_wheader.wFormatTag
      then try_candidate lib .ac3acm (r, []) else some (r, [])) with _ | st1
  · simp [hs1] at h
  simp only [hs1] at h
  have f1 := h0 st1 hs1
  rcases hs2 : unless_selected lib .dts st1 with _ | st2
  · simp [hs2] at h
  simp only [hs2] at h
  have f2 := unless_selected_some lib _ _ _ hs2
  rcases hs3 : unless_selected lib .ac3wav st2 with _ | st3
  · simp [hs3] at h
  simp only [hs3] at h
  have f3 := unless_selected_some lib _ _ _ hs3
  have f := probe_frame_trans _ _ _ f1 (probe_frame_trans _ _ _ f2 f3)
  rcases hd : st3.1.m_demuxer with _ | d
  · simp only [hd, Option.some.injEq, Prod.mk.injEq] at h
    rw [← h.1]
    exact ⟨probe_frame_trans _ _ _ f ⟨rfl, rfl, rfl, rfl, rfl, rfl, rfl, same_source_refl _⟩,
      _, rfl⟩
  · simp only [hd, Option.some.injEq] at h
    rw [h] at f hd
    exact ⟨f, d, hd⟩

/-- What a successful open leaves behind, whatever the fault schedule of the source:
the index is consistent and inside the source, nothing is processed, the current chunk
is the chunk that `find_chunk` finds first, all of it remains, and the stream stands at
its payload. -/
theorem open_some (lib : codec_lib) (io : mm_io) (r : wav_reader_c)
    (h : wav_reader_c.new lib io = .ok r) :
    same_source io r.m_io ∧ index_consistent r ∧ chunks_in_bounds r
      ∧ r.m_bytes_processed = 0 ∧ (∃ d, r.m_demuxer = some d)
      ∧ r.m_cur_data_chunk_idx = find_chunk r str_data 0 false
      ∧ find_chunk r str_data 0 false ≠ -1
      ∧ r.m_remaining_bytes_in_current_data_chunk
          = (r.chunk_at (find_chunk r str_data 0 false)).len
      ∧ (r.m_io.pos : Int) = (r.chunk_at (find_chunk r str_data 0 false)).pos + 8 := by
  unfold wav_reader_c.new at h
  rcases hq : query_size io with ⟨_ | size, io1⟩
  · simp [hq] at h
  simp only [hq] at h
  obtain ⟨_, hsrc1⟩ := query_size_some _ _ _ hq
  have hsrc2 := probe_file_source io1 size
  rcases hp : probe_file io1 size with ⟨probed, io2⟩
  rw [hp] at hsrc2
  simp only [hp] at h
  by_cases h0 : probed = 0
  · simp [h0] at h
  simp only [h0, if_false] at h
  rcases hpf : parse_file (wav_reader_c.init io2) with e | r1
  · simp [hpf] at h
  simp only [hpf] at h
  rcases hcd : create_demuxer lib r1 with _ | ⟨r2, log⟩
  · simp [hcd] at h
  simp only [hcd, Except.ok.injEq] at h
  subst h
  have hic : index_consistent (wav_reader_c.init io2) := by
    refine ⟨?_, ?_⟩
    · simp [wav_reader_c.init, payload_sum]
    · simp [wav_reader_c.init]
  have hb : chunks_in_bounds (wav_reader_c.init io2) := by
    intro c hc
    simp [wav_reader_c.init] at hc
  obtain ⟨p1, p2, p3, p4, _, p6, p7, p8, p9⟩ := parse_file_some _ _ hic hb hpf
  obtain ⟨⟨c1, _, c3, c4, c5, c6, c7, c8⟩, hd⟩ := create_demuxer_some lib r1 r2 log hcd
  have hfc : find_chunk r2 str_data 0 false = find_chunk r1 str_data 0 false :=
    find_chunk_chunks r1 r2 c1 _ _ _
  have hca : ∀ i, r2.chunk_at i = r1.chunk_at i := by
    intro i
    simp [wav_reader_c.chunk_at, c1]
  refine ⟨?_, ?_, ?_, ?_, hd, ?_, ?_, ?_, ?_⟩
  · exact same_source_trans _ _ _ hsrc1 (same_source_trans _ _ _ hsrc2
      (same_source_trans _ _ _ p1 c8))
  · unfold index_consistent at p2 ⊢
    rw [c1, c4]
    exact p2
  · intro c hc
    rw [c1] at hc
    rw [c8.1]
    exact p3 c hc
  · rw [c3, p4]
    rfl
  · rw [c6, hfc]
    exact p6
  · rw [hfc]
    exact p7
  · rw [c5, hfc, hca]
    exact p8
  · rw [c7, hfc, hca]
    exact p9

/-! ## One read step -/

/-- The four ways in which a read step that does not raise can go: nothing was read;
a block was read and the chunk is not used up; the chunk is used up and no further
data chunk follows; the chunk is used up and the reader moves on to the next one. -/
theorem read_cases (lib : codec_lib) (r r1 : wav_reader_c) (st : file_status_e)
    (ev : List reader_event) (h : r.read lib = some (st, r1, ev)) :
    ∃ d, r.m_demuxer = some d ∧
      ((read_count r d = 0 ∧ st = .FILE_STATUS_DONE
          ∧ r1 = { r with m_io := { r.m_io with ops := r.m_io.ops + 1 } } ∧ ev = [.flush])
      ∨ (0 < read_count r d
          ∧ r.m_remaining_bytes_in_current_data_chunk - (read_count r d : Int) ≠ 0
          ∧ st = .FILE_STATUS_MOREDATA ∧ r1 = after_process lib r d ∧ ev = process_events lib r d)
      ∨ (0 < read_count r d
          ∧ r.m_remaining_bytes_in_current_data_chunk - (read_count r d : Int) = 0
          ∧ find_chunk r str_data (r.m_cur_data_chunk_idx + 1) false = -1
          ∧ st = .FILE_STATUS_DONE
          ∧ r1 = { after_process lib r d with m_cur_data_chunk_idx := -1 }
          ∧ ev = process_events lib r d ++ [.flush])
      ∨ (0 < read_count r d
          ∧ r.m_remaining_bytes_in_current_data_chunk - (read_count r d : Int) = 0
          ∧ find_chunk r str_data (r.m_cur_data_chunk_idx + 1) false ≠ -1
          ∧ 0 ≤ (r.chunk_at (find_chunk r str_data (r.m_cur_data_chunk_idx + 1) false)).pos + 8
          ∧ st = .FILE_STATUS_MOREDATA
          ∧ r1 = { after_process lib r d with
                    m_io := { r.m_io with
                      ops := r.m_io.ops + 1 + 1,
                      pos := ((r.chunk_at
                        (find_chunk r str_data (r.m_cur_data_chunk_idx + 1) false)).pos + 8).toNat },
                    m_cur_data_chunk_idx :=
                      find_chunk r str_data (r.m_cur_data_chunk_idx + 1) false,
                    m_remaining_bytes_in_current_data_chunk :=
                      (r.chunk_at (find_chunk r str_data (r.m_cur_data_chunk_idx + 1) false)).len }
          ∧ ev = process_events lib r d)) := by
  rcases hd : r.m_demuxer with _ | d
  · simp [wav_reader_c.read, hd] at h
  refine ⟨d, rfl, ?_⟩
  rcases hr : r.m_io.read
      (min r.m_remaining_bytes_in_current_data_chunk d.get_preferred_input_size) with ⟨_ | bs, io1⟩
  · simp [wav_reader_c.read, hd, hr] at h
  obtain ⟨hbs, hio1⟩ := read_some _ _ _ _ hr
  have hbs2 : bs = read_block r d := hbs
  have hlen : bs.length = read_count r d := by
    rw [hbs2]
    exact mem_slice_length _ _ _
  have hio2 : io1 = { r.m_io with ops := r.m_io.ops + 1, pos := r.m_io.pos + read_count r d } := hio1
  simp only [wav_reader_c.read, hd, hr, hlen] at h
  by_cases h0 : read_count r d = 0
  · simp only [h0, Nat.cast_zero, ge_iff_le, le_refl, if_true, Option.some.injEq,
      Prod.mk.injEq] at h
    left
    refine ⟨h0, h.1.symm, ?_, h.2.2.symm⟩
    rw [← h.2.1, hio2, h0]
    rfl
  have hpos : 0 < read_count r d := Nat.pos_of_ne_zero h0
  have hn : ¬ ((0 : Int) ≥ (read_count r d : Int)) := by omega
  simp only [hn, if_false] at h
  right
  by_cases hrem : r.m_remaining_bytes_in_current_data_chunk - (read_count r d : Int) = 0
  swap
  · simp only [hrem, if_false, Option.some.injEq, Prod.mk.injEq] at h
    left
    refine ⟨hpos, hrem, h.1.symm, ?_, ?_⟩
    · rw [← h.2.1, hio2, hbs2]
      rfl
    · rw [← h.2.2, hbs2]
      rfl
  simp only [hrem, if_true] at h
  right
  have hfc : ∀ (io : mm_io) (dm : Option wav_demuxer) (p q : Int),
      find_chunk { r with m_io := io, m_demuxer := dm, m_bytes_processed := p,
                          m_remaining_bytes_in_current_data_chunk := q } str_data
          (r.m_cur_data_chunk_idx + 1) false
        = find_chunk r str_data (r.m_cur_data_chunk_idx + 1) false := fun _ _ _ _ => rfl
  have hca : ∀ (io : mm_io) (dm : Option wav_demuxer) (p q : Int) (i : Int),
      wav_reader_c.chunk_at { r with m_io := io, m_demuxer := dm, m_bytes_processed := p,
                                     m_remaining_bytes_in_current_data_chunk := q } i
        = r.chunk_at i := fun _ _ _ _ _ => rfl
  simp only [hfc, hca] at h
  by_cases hnext : find_chunk r str_data (r.m_cur_data_chunk_idx + 1) false = -1
  · have hnext2 : (-1 : Int) = find_chunk r str_data (r.m_cur_data_chunk_idx + 1) false :=
      hnext.symm
    simp only [hnext2, if_true, Option.some.injEq, Prod.mk.injEq] at h
    left
    refine ⟨hpos, hrem, hnext, h.1.symm, ?_, ?_⟩
    · rw [← h.2.1, hio2, hbs2, ← hnext2]
      simp only [after_process, hrem]
    · rw [← h.2.2, hbs2]
      rfl
  · have hnext2 : ¬ ((-1 : Int) = find_chunk r str_data (r.m_cur_data_chunk_idx + 1) false) :=
      fun e => hnext e.symm
    simp only [hnext2, if_false] at h
    right
    rcases hs : io1.setFilePointer
        ((r.chunk_at (find_chunk r str_data (r.m_cur_data_chunk_idx + 1) false)).pos
          + (sizeof_chunk_struct : Int)) .seek_beginning with ⟨_ | u, io2⟩
    · simp [hs] at h
    obtain ⟨hoff, hio3⟩ := seek_beginning_some _ _ _ hs
    simp only [hs, Option.some.injEq, Prod.mk.injEq] at h
    refine ⟨hpos, hrem, hnext, hoff, h.1.symm, ?_, ?_⟩
    · rw [← h.2.1, hio3, hio2, hbs2]
      simp only [after_process, hrem, sizeof_chunk_struct, Nat.cast_ofNat]
    · rw [← h.2.2, hbs2]
      rfl

/-! ## Sums over parts of the index -/

theorem payload_sum_nonneg (cs : List wav_chunk_t) (h : ∀ c ∈ cs, 0 ≤ c.len) :
    0 ≤ payload_sum cs := by
  induction cs with
  | nil => simp [payload_sum]
  | cons c rest ih =>
    rw [payload_sum_cons]
    have h1 := h c (by simp)
    have h2 := ih (fun x hx => h x (by simp [hx]))
    split <;> omega

theorem payload_sum_skipped (cs : List wav_chunk_t) (hid : ∀ c ∈ cs, c.id.length = 4)
    (h : ∀ c ∈ cs, ¬ (strncasecmp c.id str_data 4 = 0 ∧ (false = true ∨ c.len ≠ 0))) :
    payload_sum cs = 0 := by
  induction cs with
  | nil => simp [payload_sum]
  | cons c rest ih =>
    rw [payload_sum_cons]
    have h2 := ih (fun x hx => hid x (by simp [hx])) (fun x hx => h x (by simp [hx]))
    have h1 := h c (by simp)
    rw [h2]
    by_cases ht : tag_is_data c.id
    · have hs := (strncasecmp_data c.id (hid c (by simp))).2 ht
      have hl : c.len = 0 := by
        by_contra hne
        exact h1 ⟨hs, Or.inr hne⟩
      simp [ht, hl]
    · simp [ht]

theorem payload_sum_take_succ (cs : List wav_chunk_t) (i : Nat) (c : wav_chunk_t)
    (h : cs[i]? = some c) :
    payload_sum (cs.take (i + 1))
      = payload_sum (cs.take i) + (if tag_is_data c.id then c.len else 0) := by
  rw [List.take_succ, h, payload_sum_append_list]
  have : (some c).toList = [c] := rfl
  rw [this, payload_sum_cons]
  simp [payload_sum]

theorem payload_sum_split (cs : List wav_chunk_t) (i : Nat) :
    payload_sum cs = payload_sum (cs.take i) + payload_sum (cs.drop i) := by
  rw [← payload_sum_append_list, List.take_append_drop]

theorem find_chunk_next (r : wav_reader_c) (id : List Nat) (ae : Bool) (i : Nat) :
    find_chunk r id ((i : Int) + 1) ae
      = find_chunk_loop id ae (r.m_chunks.drop (i + 1)) (i + 1) := by
  have h1 : ¬ ((i : Int) + 1 < 0) := by omega
  have h2 : ((i : Int) + 1).toNat = i + 1 := by omega
  simp only [find_chunk, h1, if_false, h2]

theorem read_count_le (r : wav_reader_c) (d : wav_demuxer)
    (h : 0 ≤ r.m_remaining_bytes_in_current_data_chunk) :
    (read_count r d : Int) ≤ r.m_remaining_bytes_in_current_data_chunk := by
  unfold read_count
  omega

theorem read_count_zero (r : wav_reader_c) (d : wav_demuxer)
    (h : r.m_remaining_bytes_in_current_data_chunk ≤ 0) : read_count r d = 0 := by
  unfold read_count
  omega

/-- The processed byte count of a reader that works on a chunk is below the payload
total, and not negative. -/
theorem processed_lt_total (r : wav_reader_c) (i : Nat) (c : wav_chunk_t)
    (hic : index_consistent r) (hb : chunks_in_bounds r) (hat : reading_at r i c)
    (hpr : processed_at r i c) :
    0 ≤ r.m_bytes_processed ∧ r.m_bytes_processed < r.m_bytes_in_data_chunks := by
  obtain ⟨_, hc, htag, _, hpos, hle, _⟩ := hat
  unfold processed_at at hpr
  have hlen : ∀ x ∈ r.m_chunks, 0 ≤ x.len := fun x hx => (hb x hx).2.2
  have h1 : 0 ≤ payload_sum (r.m_chunks.take i) :=
    payload_sum_nonneg _ (fun x hx => hlen x (List.mem_of_mem_take hx))
  have h2 : 0 ≤ payload_sum (r.m_chunks.drop (i + 1)) :=
    payload_sum_nonneg _ (fun x hx => hlen x (List.mem_of_mem_drop hx))
  have h3 := payload_sum_split r.m_chunks (i + 1)
  rw [payload_sum_take_succ _ _ _ hc] at h3
  simp only [htag, if_true] at h3
  rw [hic.1, h3, hpr]
  constructor <;> omega

/-! ## What a read step keeps -/

theorem read_invariant_step (lib : codec_lib) (r r1 : wav_reader_c) (st : file_status_e)
    (ev : List reader_event) (hinv : read_invariant r) (h : r.read lib = some (st, r1, ev)) :
    read_invariant r1 ∧ r1.m_chunks = r.m_chunks
      ∧ r1.m_bytes_in_data_chunks = r.m_bytes_in_data_chunks
      ∧ same_source r.m_io r1.m_io
      ∧ r.m_bytes_processed ≤ r1.m_bytes_processed
      ∧ (st = .FILE_STATUS_MOREDATA → ∃ i c, reading_at r1 i c ∧ processed_at r1 i c)
      ∧ (st = .FILE_STATUS_DONE →
          finished r1
          ∨ (ev = [.flush] ∧ r1.m_bytes_processed = r.m_bytes_processed
              ∧ ∃ i c, reading_at r1 i c ∧ processed_at r1 i c)) := by
  obtain ⟨hic, hb, hstate⟩ := hinv
  obtain ⟨d, hd, hcase⟩ := read_cases lib r r1 st ev h
  rcases hcase with ⟨h0, hst, hr1, hev⟩ | ⟨hpos, hrem, hst, hr1, hev⟩
      | ⟨hpos, hrem, hnext, hst, hr1, hev⟩ | ⟨hpos, hrem, hnext, hoff, hst, hr1, hev⟩
  · -- nothing was read
    subst hr1
    have hstate1 : (∃ i c, reading_at
          { r with m_io := { r.m_io with ops := r.m_io.ops + 1 } } i c
          ∧ processed_at { r with m_io := { r.m_io with ops := r.m_io.ops + 1 } } i c)
        ∨ finished { r with m_io := { r.m_io with ops := r.m_io.ops + 1 } } := hstate
    refine ⟨⟨hic, hb, hstate1⟩, rfl, rfl, ⟨rfl, rfl, rfl, rfl⟩, le_refl _, ?_, ?_⟩
    · intro hm
      rw [hst] at hm
      cases hm
    · intro _
      rcases hstate1 with hs | hs
      · exact Or.inr ⟨hev, rfl, hs⟩
      · exact Or.inl hs
  · -- a block was read, the chunk is not used up
    rcases hstate with ⟨i, c, hat, hpr⟩ | hfin
    swap
    · have := read_count_zero r d (le_of_eq hfin.2.1)
      omega
    obtain ⟨hidx, hc, htag, hne, hrpos, hrle, hposeq⟩ := hat
    have hcnt := read_count_le r d (le_of_lt hrpos)
    have hat1 : reading_at (after_process lib r d) i c := by
      refine ⟨hidx, hc, htag, hne, ?_, ?_, ?_⟩
      · simp only [after_process]
        omega
      · simp only [after_process]
        omega
      · simp only [after_process]
        push_cast
        omega
    have hpr1 : processed_at (after_process lib r d) i c := by
      unfold processed_at at hpr ⊢
      simp only [after_process]
      omega
    subst hr1
    refine ⟨⟨hic, hb, Or.inl ⟨i, c, hat1, hpr1⟩⟩, rfl, rfl, ⟨rfl, rfl, rfl, rfl⟩, ?_, ?_, ?_⟩
    · simp only [after_process]
      omega
    · intro _
      exact ⟨i, c, hat1, hpr1⟩
    · intro hm
      rw [hst] at hm
      cases hm
  · -- the chunk is used up and no data chunk follows
    rcases hstate with ⟨i, c, hat, hpr⟩ | hfin
    swap
    · have := read_count_zero r d (le_of_eq hfin.2.1)
      omega
    obtain ⟨hidx, hc, htag, hne, hrpos, hrle, hposeq⟩ := hat
    rw [hidx, find_chunk_next] at hnext
    have hskip : payload_sum (r.m_chunks.drop (i + 1)) = 0 := by
      rcases find_chunk_loop_spec str_data false (r.m_chunks.drop (i + 1)) (i + 1)
        with ⟨_, hno⟩ | ⟨k, _, _, _, _, hres⟩
      · exact payload_sum_skipped _ (fun x hx => hic.2 x (List.mem_of_mem_drop hx)) hno
      · rw [hres] at hnext
        omega
    have h3 := payload_sum_split r.m_chunks (i + 1)
    rw [payload_sum_take_succ _ _ _ hc, hskip] at h3
    simp only [htag, if_true] at h3
    unfold processed_at at hpr
    have hfin1 : finished { after_process lib r d with m_cur_data_chunk_idx := -1 } := by
      refine ⟨rfl, hrem, ?_⟩
      show r.m_bytes_processed + (read_count r d : Int) = r.m_bytes_in_data_chunks
      rw [hic.1, h3, hpr]
      omega
    subst hr1
    refine ⟨⟨hic, hb, Or.inr hfin1⟩, rfl, rfl, ⟨rfl, rfl, rfl, rfl⟩, ?_, ?_, ?_⟩
    · show r.m_bytes_processed ≤ r.m_bytes_processed + (read_count r d : Int)
      omega
    · intro hm
      rw [hst] at hm
      cases hm
    · intro _
      exact Or.inl hfin1
  · -- the chunk is used up and the reader moves on
    rcases hstate with ⟨i, c, hat, hpr⟩ | hfin
    swap
    · have := read_count_zero r d (le_of_eq hfin.2.1)
      omega
    obtain ⟨hidx, hc, htag, hne, hrpos, hrle, hposeq⟩ := hat
    rw [hidx, find_chunk_next] at hnext hoff hr1
    rcases find_chunk_loop_spec str_data false (r.m_chunks.drop (i + 1)) (i + 1)
      with ⟨hm1, _⟩ | ⟨k, c1, hk, hhit, hbefore, hres⟩
    · exact absurd hm1 hnext
    rw [hres] at hoff hr1
    have hk1 : r.m_chunks[i + 1 + k]? = some c1 := by
      rw [← hk, List.getElem?_drop]
    have hmem : c1 ∈ r.m_chunks := List.getElem?_mem hk1
    have hca : r.chunk_at ((i + 1 + k : Nat) : Int) = c1 := by
      unfold wav_reader_c.chunk_at
      rw [Int.toNat_ofNat, List.getD_eq_getElem?_getD, hk1]
      rfl
    rw [hca] at hoff hr1
    have htag1 : tag_is_data c1.id := (strncasecmp_data c1.id (hic.2 c1 hmem)).1 hhit.1
    have hne1 : c1.len ≠ 0 := by
      rcases hhit.2 with hx | hx
      · cases hx
      · exact hx
    have hlen1 : 0 ≤ c1.len := (hb c1 hmem).2.2
    have hskip : payload_sum ((r.m_chunks.drop (i + 1)).take k) = 0 := by
      refine payload_sum_skipped _
        (fun x hx => hic.2 x (List.mem_of_mem_drop (List.mem_of_mem_take hx))) ?_
      intro x hx
      obtain ⟨j, hj, hxj⟩ := List.getElem_of_mem hx
      have hjk : j < k := by
        simp only [List.length_take] at hj
        omega
      refine hbefore j x hjk ?_
      rw [List.getElem_take] at hxj
      rw [← hxj]
      exact List.getElem?_eq_getElem _
    have htake : payload_sum (r.m_chunks.take (i + 1 + k))
        = payload_sum (r.m_chunks.take i) + c.len := by
      rw [List.take_add, payload_sum_append_list, hskip, payload_sum_take_succ _ _ _ hc]
      simp only [htag, if_true]
      omega
    unfold processed_at at hpr
    subst hr1
    have hat1 : reading_at
        { after_process lib r d with
          m_io := { r.m_io with ops := r.m_io.ops + 1 + 1, pos := (c1.pos + 8).toNat },
          m_cur_data_chunk_idx := ((i + 1 + k : Nat) : Int),
          m_remaining_bytes_in_current_data_chunk := c1.len } (i + 1 + k) c1 := by
      refine ⟨rfl, hk1, htag1, hne1, ?_, le_refl _, ?_⟩
      · show 0 < c1.len
        omega
      · show (((c1.pos + 8).toNat : Nat) : Int) - (c1.pos + 8) + c1.len = c1.len
        rw [Int.toNat_of_nonneg hoff]
        omega
    have hpr1 : processed_at
        { after_process lib r d with
          m_io := { r.m_io with ops := r.m_io.ops + 1 + 1, pos := (c1.pos + 8).toNat },
          m_cur_data_chunk_idx := ((i + 1 + k : Nat) : Int),
          m_remaining_bytes_in_current_data_chunk := c1.len } (i + 1 + k) c1 := by
      show r.m_bytes_processed + (read_count r d : Int)
        = payload_sum (r.m_chunks.take (i + 1 + k)) + (c1.len - c1.len)
      rw [htake, hpr]
      omega
    refine ⟨⟨hic, hb, Or.inl ⟨_, _, hat1, hpr1⟩⟩, rfl, rfl, ⟨rfl, rfl, rfl, rfl⟩, ?_, ?_, ?_⟩
    · show r.m_bytes_processed ≤ r.m_bytes_processed + (read_count r d : Int)
      omega
    · intro _
      exact ⟨_, _, hat1, hpr1⟩
    · intro hm
      rw [hst] at hm
      cases hm

/-! ## The states of a reader at work -/

/-- The reader that a successful open gives works on the first data chunk that is not
empty, with all of its bytes remaining and the stream at its payload. -/
theorem open_invariant (lib : codec_lib) (io : mm_io) (r : wav_reader_c)
    (h : wav_reader_c.new lib io = .ok r) :
    index_consistent r ∧ chunks_in_bounds r ∧ same_source io r.m_io
      ∧ ∃ i c, reading_at r i c ∧ processed_at r i c
          ∧ r.m_remaining_bytes_in_current_data_chunk = c.len
          ∧ r.m_bytes_processed = 0
          ∧ (r.m_io.pos : Int) = c.pos + 8
          ∧ ∀ j c1, j < i → r.m_chunks[j]? = some c1 → ¬ (tag_is_data c1.id ∧ c1.len ≠ 0) := by
  obtain ⟨hsrc, hic, hb, hproc, _, hidx, hne, hrem, hpos⟩ := open_some lib io r h
  have hfc : find_chunk r str_data 0 false = find_chunk_loop str_data false r.m_chunks 0 := by
    simp only [find_chunk, lt_self_iff_false, if_false, Int.toNat_zero, List.drop_zero]
  rw [hfc] at hidx hne hrem hpos
  rcases find_chunk_loop_spec str_data false r.m_chunks 0
    with ⟨hm1, _⟩ | ⟨k, c, hk, hhit, hbefore, hres⟩
  · exact absurd hm1 hne
  rw [hres] at hidx hrem hpos
  simp only [Nat.zero_add] at hidx hrem hpos
  have hmem : c ∈ r.m_chunks := List.getElem?_mem hk
  have hca : r.chunk_at ((k : Nat) : Int) = c := by
    unfold wav_reader_c.chunk_at
    rw [Int.toNat_ofNat, List.getD_eq_getElem?_getD, hk]
    rfl
  rw [hca] at hrem hpos
  have htag : tag_is_data c.id := (strncasecmp_data c.id (hic.2 c hmem)).1 hhit.1
  have hlen : c.len ≠ 0 := by
    rcases hhit.2 with hx | hx
    · cases hx
    · exact hx
  have hlen0 : 0 ≤ c.len := (hb c hmem).2.2
  have hskip : payload_sum (r.m_chunks.take k) = 0 := by
    refine payload_sum_skipped _ (fun x hx => hic.2 x (List.mem_of_mem_take hx)) ?_
    intro x hx
    obtain ⟨j, hj, hxj⟩ := List.getElem_of_mem hx
    have hjk : j < k := by
      simp only [List.length_take] at hj
      omega
    refine hbefore j x hjk ?_
    rw [List.getElem_take] at hxj
    rw [← hxj]
    exact List.getElem?_eq_getElem _
  refine ⟨hic, hb, hsrc, k, c, ⟨hidx, hk, htag, hlen, ?_, ?_, ?_⟩, ?_, hrem, hproc, hpos, ?_⟩
  · omega
  · omega
  · omega
  · unfold processed_at
    rw [hskip, hproc, hrem]
    omega
  · intro j c1 hj hj1 hx
    have hmem1 : c1 ∈ r.m_chunks := List.getElem?_mem hj1
    exact hbefore j c1 hj hj1
      ⟨(strncasecmp_data c1.id (hic.2 c1 hmem1)).2 hx.1, Or.inr hx.2⟩

theorem read_more_invariant (lib : codec_lib) (n : Nat) :
    ∀ (r0 r : wav_reader_c), read_invariant r0
      → (∃ i c, reading_at r0 i c ∧ processed_at r0 i c)
      → read_more lib n r0 = some r
      → read_invariant r ∧ ∃ i c, reading_at r i c ∧ processed_at r i c := by
  induction n with
  | zero =>
    intro r0 r hinv hat hrun
    simp only [read_more, Option.some.injEq] at hrun
    rw [← hrun]
    exact ⟨hinv, hat⟩
  | succ k ih =>
    intro r0 r hinv _ hrun
    rcases hr : r0.read lib with _ | ⟨st, r1, ev⟩
    · simp [read_more, hr] at hrun
    cases st with
    | FILE_STATUS_DONE => simp [read_more, hr] at hrun
    | FILE_STATUS_MOREDATA =>
      simp only [read_more, hr] at hrun
      obtain ⟨hinv1, _, _, _, _, hmore, _⟩ := read_invariant_step lib r0 r1 _ ev hinv hr
      exact ih r1 r hinv1 (hmore rfl) hrun

theorem read_steps_invariant (lib : codec_lib) (n : Nat) :
    ∀ (r0 r : wav_reader_c), read_invariant r0 → read_steps lib n r0 = some r
      → read_invariant r := by
  induction n with
  | zero =>
    intro r0 r hinv hrun
    simp only [read_steps, Option.some.injEq] at hrun
    rw [← hrun]
    exact hinv
  | succ k ih =>
    intro r0 r hinv hrun
    rcases hr : r0.read lib with _ | ⟨st, r1, ev⟩
    · simp [read_steps, hr] at hrun
    simp only [read_steps, hr] at hrun
    exact ih r1 r (read_invariant_step lib r0 r1 st ev hinv hr).1 hrun

theorem find_chunk_in_bounds (r : wav_reader_c) (id : List Nat) (start : Int) (ae : Bool) :
    find_chunk r id start ae = -1
      ∨ (0 ≤ find_chunk r id start ae
          ∧ (find_chunk r id start ae).toNat < r.m_chunks.length) := by
  unfold find_chunk
  by_cases hs : start < 0
  · simp [hs]
  simp only [hs, if_false]
  rcases find_chunk_loop_spec id ae (r.m_chunks.drop start.toNat) start.toNat
    with ⟨hm1, _⟩ | ⟨k, c, hk, _, _, hres⟩
  · exact Or.inl hm1
  right
  rw [hres]
  have hlt : k < (r.m_chunks.drop start.toNat).length := by
    rcases Nat.lt_or_ge k (r.m_chunks.drop start.toNat).length with hx | hx
    · exact hx
    · rw [List.getElem?_eq_none hx] at hk
      cases hk
  simp only [List.length_drop] at hlt
  constructor
  · omega
  · rw [Int.toNat_ofNat]
    omega

/-- C11: each probe that answers, with success or with failure, leaves the stream at
the position at which it found it, for every variant and every state of the stream,
whatever the fault schedule; hence a read issued behind any sequence of probes
delivers the bytes that the same read delivers in front of them; and behind a
successful open, probing included, the stream stands at the payload (`pos + 8`) of the
first data chunk of the index that is not empty. -/
theorem probes_leave_stream_in_place (lib : codec_lib) :
    (∀ (wheader : wave_header) (k : demuxer_kind) (io io1 : mm_io) (b : Bool) (d : wav_demuxer),
        probe_candidate lib wheader k io = (some b, d, io1) → io1.pos = io.pos)
    ∧ (∀ (wheader : wave_header) (ks : List demuxer_kind) (io io1 : mm_io) (n : Int)
        (bs bs1 : List Nat),
        run_probes lib wheader ks io = some io1 →
        (io.read n).1 = some bs → (io1.read n).1 = some bs1 → bs1 = bs)
    ∧ (∀ (io : mm_io) (r : wav_reader_c), wav_reader_c.new lib io = .ok r →
        ∃ (i : Nat) (c : wav_chunk_t), r.m_chunks[i]? = some c ∧ tag_is_data c.id ∧ c.len ≠ 0
          ∧ (∀ (j : Nat) (c1 : wav_chunk_t), j < i → r.m_chunks[j]? = some c1 → ¬ (tag_is_data c1.id ∧ c1.len ≠ 0))
          ∧ (r.m_io.pos : Int) = c.pos + 8) := by
  refine ⟨?_, ?_, ?_⟩
  · intro wheader k io io1 b d h
    exact (probe_candidate_some lib wheader k io io1 b d h).1
  · intro wheader ks io io1 n bs bs1 hrun h h1
    obtain ⟨hpos, hsrc⟩ := run_probes_some lib wheader ks io io1 hrun
    exact read_same_bytes io io1 n bs bs1 hpos hsrc h h1
  · intro io r hopen
    obtain ⟨_, _, _, i, c, hat, _, _, _, hpos, hfirst⟩ := open_invariant lib io r hopen
    exact ⟨i, c, hat.2.1, hat.2.2.1, hat.2.2.2.1, hfirst, hpos⟩

theorem probes_leave_stream_in_place_witness :
    ∃ (i : Nat) (c : wav_chunk_t), (opened lib_none sample_two_chunks).m_chunks[i]? = some c ∧ tag_is_data c.id
      ∧ c.len ≠ 0
      ∧ (∀ (j : Nat) (c1 : wav_chunk_t), j < i → (opened lib_none sample_two_chunks).m_chunks[j]? = some c1 →
          ¬ (tag_is_data c1.id ∧ c1.len ≠ 0))
      ∧ ((opened lib_none sample_two_chunks).m_io.pos : Int) = c.pos + 8 :=
  (probes_leave_stream_in_place lib_none).2.2 sample_two_chunks
    (opened lib_none sample_two_chunks) rfl

/-- C13: at every state that is reached from a successful open by read steps none of
which returned `FILE_STATUS_DONE`, the current chunk index is a valid index of an
entry that is tagged "data" and not empty, the remaining byte count is positive and at
most the length of that entry, and the bytes consumed from the chunk (stream position
minus `pos + 8`) plus the remaining bytes are the length of the chunk; and every index
that `find_chunk` returns, in `parse_file` and in `read`, is -1 or in bounds. -/
theorem reader_stays_inside_current_chunk (lib : codec_lib) (io : mm_io)
    (r0 r : wav_reader_c) (n : Nat)
    (hopen : wav_reader_c.new lib io = .ok r0) (hrun : read_more lib n r0 = some r) :
    (∃ (i : Nat) (c : wav_chunk_t), r.m_cur_data_chunk_idx = (i : Int) ∧ i < r.m_chunks.length
        ∧ r.m_chunks[i]? = some c ∧ tag_is_data c.id ∧ c.len ≠ 0
        ∧ 0 < r.m_remaining_bytes_in_current_data_chunk
        ∧ r.m_remaining_bytes_in_current_data_chunk ≤ c.len
        ∧ ((r.m_io.pos : Int) - (c.pos + 8)) + r.m_remaining_bytes_in_current_data_chunk = c.len)
    ∧ (∀ (id : List Nat) (start : Int) (ae : Bool),
        find_chunk r id start ae = -1
          ∨ (0 ≤ find_chunk r id start ae
              ∧ (find_chunk r id start ae).toNat < r.m_chunks.length)) := by
  obtain ⟨hic, hb, _, i, c, hat, hpr, _⟩ := open_invariant lib io r0 hopen
  obtain ⟨_, j, c1, hat1, _⟩ := read_more_invariant lib n r0 r
    ⟨hic, hb, Or.inl ⟨i, c, hat, hpr⟩⟩ ⟨i, c, hat, hpr⟩ hrun
  obtain ⟨h1, h2, h3, h4, h5, h6, h7⟩ := hat1
  refine ⟨⟨j, c1, h1, ?_, h2, h3, h4, h5, h6, h7⟩, fun id start ae => find_chunk_in_bounds r id start ae⟩
  rcases Nat.lt_or_ge j r.m_chunks.length with hx | hx
  · exact hx
  · rw [List.getElem?_eq_none hx] at h2
    cases h2

theorem reader_stays_inside_current_chunk_witness :
    ∃ (i : Nat) (c : wav_chunk_t), sample_two_chunks_second.m_cur_data_chunk_idx = (i : Int)
      ∧ i < sample_two_chunks_second.m_chunks.length
      ∧ sample_two_chunks_second.m_chunks[i]? = some c ∧ tag_is_data c.id ∧ c.len ≠ 0
      ∧ 0 < sample_two_chunks_second.m_remaining_bytes_in_current_data_chunk
      ∧ sample_two_chunks_second.m_remaining_bytes_in_current_data_chunk ≤ c.len
      ∧ ((sample_two_chunks_second.m_io.pos : Int) - (c.pos + 8))
          + sample_two_chunks_second.m_remaining_bytes_in_current_data_chunk = c.len :=
  (reader_stays_inside_current_chunk lib_none sample_two_chunks
    (opened lib_none sample_two_chunks) sample_two_chunks_second 1 rfl rfl).1

/-! ## Progress of a reader at work -/

theorem progress_facts (r : wav_reader_c) (h0 : 0 ≤ r.m_bytes_processed)
    (h1 : r.m_bytes_processed ≤ r.m_bytes_in_data_chunks) :
    0 ≤ get_progress r ∧ get_progress r ≤ 100
      ∧ (r.m_bytes_processed = r.m_bytes_in_data_chunks → get_progress r = 100)
      ∧ (r.m_bytes_processed < r.m_bytes_in_data_chunks → get_progress r < 100)
      ∧ (r.m_bytes_in_data_chunks ≠ 0 →
          get_progress r = 100 * r.m_bytes_processed / r.m_bytes_in_data_chunks) := by
  by_cases ht : r.m_bytes_in_data_chunks = 0
  · have hp : get_progress r = 100 := by simp [get_progress, ht]
    rw [hp]
    refine ⟨by omega, by omega, fun _ => rfl, fun h => by omega, fun h => absurd ht h⟩
  have htpos : 0 < r.m_bytes_in_data_chunks := by omega
  have hq0 : 0 ≤ 100 * r.m_bytes_processed / r.m_bytes_in_data_chunks :=
    Int.ediv_nonneg (by omega) (by omega)
  have hq1 : 100 * r.m_bytes_processed / r.m_bytes_in_data_chunks ≤ 100 :=
    Int.ediv_le_of_le_mul htpos (by omega)
  have hp : get_progress r = 100 * r.m_bytes_processed / r.m_bytes_in_data_chunks := by
    simp only [get_progress, ht, ne_eq, not_false_eq_true, if_true]
    rw [Int.tdiv_eq_ediv (by omega) (by omega)]
    exact to_int32_of_range _ (by omega) (by omega)
  rw [hp]
  refine ⟨hq0, hq1, ?_, ?_, fun _ => rfl⟩
  · intro he
    rw [he]
    exact Int.mul_ediv_cancel 100 ht
  · intro hlt
    exact Int.ediv_lt_of_lt_mul htpos (by omega)

theorem progress_mono (r r1 : wav_reader_c) (h0 : 0 ≤ r.m_bytes_processed)
    (hle : r.m_bytes_processed ≤ r1.m_bytes_processed)
    (h1 : r1.m_bytes_processed ≤ r1.m_bytes_in_data_chunks)
    (ht : r1.m_bytes_in_data_chunks = r.m_bytes_in_data_chunks) :
    get_progress r ≤ get_progress r1 := by
  by_cases hz : r.m_bytes_in_data_chunks = 0
  · have hz1 : r1.m_bytes_in_data_chunks = 0 := by rw [ht, hz]
    simp [get_progress, hz, hz1]
  have hz1 : r1.m_bytes_in_data_chunks ≠ 0 := by rw [ht]; exact hz
  rw [(progress_facts r h0 (by omega)).2.2.2.2 hz,
    (progress_facts r1 (by omega) h1).2.2.2.2 hz1, ht]
  exact Int.ediv_le_ediv (by omega) (by omega)

theorem invariant_bounds (r : wav_reader_c) (hinv : read_invariant r) :
    0 ≤ r.m_bytes_processed ∧ r.m_bytes_processed ≤ r.m_bytes_in_data_chunks := by
  obtain ⟨hic, hb, hstate⟩ := hinv
  rcases hstate with ⟨i, c, hat, hpr⟩ | hfin
  · have := processed_lt_total r i c hic hb hat hpr
    omega
  · have h1 : 0 ≤ payload_sum r.m_chunks :=
      payload_sum_nonneg _ (fun x hx => (hb x hx).2.2)
    rw [hfin.2.2, hic.1]
    omega

/-- C15: across every sequence of read steps behind a successful open, the processed
byte count is not negative and never exceeds the total of the recorded payload bytes,
`get_progress` stays within 0..100, and `get_progress` behind a further step is never
smaller than in front of it. -/
theorem progress_bounded_and_monotone (lib : codec_lib) (io : mm_io) (r0 r : wav_reader_c)
    (n : Nat) (hopen : wav_reader_c.new lib io = .ok r0)
    (hrun : read_steps lib n r0 = some r) :
    0 ≤ r.m_bytes_processed ∧ r.m_bytes_processed ≤ r.m_bytes_in_data_chunks
      ∧ 0 ≤ get_progress r ∧ get_progress r ≤ 100
      ∧ ∀ (st : file_status_e) (r1 : wav_reader_c) (ev : List reader_event),
          r.read lib = some (st, r1, ev) →
            r1.m_bytes_processed ≤ r1.m_bytes_in_data_chunks
              ∧ get_progress r ≤ get_progress r1 := by
  obtain ⟨hic, hb, _, i, c, hat, hpr, _⟩ := open_invariant lib io r0 hopen
  have hinv := read_steps_invariant lib n r0 r ⟨hic, hb, Or.inl ⟨i, c, hat, hpr⟩⟩ hrun
  obtain ⟨h0, h1⟩ := invariant_bounds r hinv
  obtain ⟨p0, p1, _⟩ := progress_facts r h0 h1
  refine ⟨h0, h1, p0, p1, ?_⟩
  intro st r1 ev hread
  obtain ⟨hinv1, _, htot, _, hle, _⟩ := read_invariant_step lib r r1 st ev hinv hread
  obtain ⟨_, h11⟩ := invariant_bounds r1 hinv1
  exact ⟨h11, progress_mono r r1 h0 hle h11 htot⟩

theorem progress_bounded_and_monotone_witness :
    0 ≤ sample_two_chunks_second.m_bytes_processed
      ∧ sample_two_chunks_second.m_bytes_processed
          ≤ sample_two_chunks_second.m_bytes_in_data_chunks
      ∧ 0 ≤ get_progress sample_two_chunks_second
      ∧ get_progress sample_two_chunks_second ≤ 100
      ∧ get_progress sample_two_chunks_second = 66 :=
  ⟨(progress_bounded_and_monotone lib_none sample_two_chunks
      (opened lib_none sample_two_chunks) sample_two_chunks_second 1 rfl rfl).1,
    (progress_bounded_and_monotone lib_none sample_two_chunks
      (opened lib_none sample_two_chunks) sample_two_chunks_second 1 rfl rfl).2.1,
    (progress_bounded_and_monotone lib_none sample_two_chunks
      (opened lib_none sample_two_chunks) sample_two_chunks_second 1 rfl rfl).2.2.1,
    (progress_bounded_and_monotone lib_none sample_two_chunks
      (opened lib_none sample_two_chunks) sample_two_chunks_second 1 rfl rfl).2.2.2.1,
    by decide⟩

/-! ## Read steps on a source without faults -/

theorem seek_beginning_ok_int (io : mm_io) (off : Int) (h : io.fault io.ops = false)
    (h0 : 0 ≤ off) :
    io.setFilePointer off .seek_beginning
      = (some (), { io with ops := io.ops + 1, pos := off.toNat }) := by
  have hn : ¬ (off < 0) := by omega
  simp [mm_io.setFilePointer, mm_io.issue, h, hn]

theorem chunk_at_pos_nonneg (r : wav_reader_c) (h : ∀ c ∈ r.m_chunks, 0 ≤ c.pos) (i : Int) :
    0 ≤ (r.chunk_at i).pos := by
  unfold wav_reader_c.chunk_at
  rw [List.getD_eq_getElem?_getD]
  rcases hc : r.m_chunks[i.toNat]? with _ | c
  · simp
  · simp only [Option.getD_some]
    exact h c (List.getElem?_mem hc)

/-- On a source without faults a read step of a reader with a sub-demuxer does not
raise. -/
theorem read_total (lib : codec_lib) (r : wav_reader_c) (d : wav_demuxer)
    (hf : r.m_io.no_fault) (hd : r.m_demuxer = some d) (hpos : ∀ c ∈ r.m_chunks, 0 ≤ c.pos) :
    ∃ st r1 ev, r.read lib = some (st, r1, ev) := by
  have hff : ∀ k, r.m_io.fault k = false := hf
  have hr := read_ok r.m_io
    (min r.m_remaining_bytes_in_current_data_chunk d.get_preferred_input_size) (hff _)
  have hseek : ∀ (io io1 : mm_io) (off : Int),
      io.setFilePointer off .seek_beginning = (none, io1) → io.fault = r.m_io.fault →
      0 ≤ off → False := by
    intro io io1 off hs hio h0
    rw [seek_beginning_ok_int io off (by rw [hio]; exact hff _) h0] at hs
    cases hs
  simp only [wav_reader_c.read, hd, hr]
  split_ifs
  · exact ⟨_, _, _, rfl⟩
  · exact ⟨_, _, _, rfl⟩
  · split
    · rename_i heq
      exact (hseek _ _ _ heq rfl
        (Int.add_nonneg (chunk_at_pos_nonneg _ hpos _)
          (Int.natCast_nonneg sizeof_chunk_struct))).elim
    · exact ⟨_, _, _, rfl⟩
  · exact ⟨_, _, _, rfl⟩

/-! ## Opening with a codec library that recognises nothing -/

theorem ac3acm_probe_buffer_none (d : ac3_demuxer) (bs : List Nat) :
    (wav_ac3acm_demuxer_c.probe_buffer lib_none d bs).1 = false := by
  simp [wav_ac3acm_demuxer_c.probe_buffer, lib_none]

theorem dts_probe_buffer_none (d : dts_demuxer) (bs : List Nat) :
    (wav_dts_demuxer_c.probe_buffer lib_none d bs).1 = false := by
  simp [wav_dts_demuxer_c.probe_buffer, lib_none]

theorem ac3wav_decode_buffer_none (d : ac3_demuxer) (len : Int) :
    (wav_ac3wav_demuxer_c.decode_buffer lib_none d len).1 = -1 := by
  unfold wav_ac3wav_demuxer_c.decode_buffer
  have hz : ¬ ((0 : Int) = -1) := by decide
  simp only [lib_none, hz, if_false]
  split_ifs <;> rfl

theorem ac3wav_probe_buffer_none (d : ac3_demuxer) (bs : List Nat) :
    (wav_ac3wav_demuxer_c.probe_buffer lib_none d bs).1 = false := by
  simp [wav_ac3wav_demuxer_c.probe_buffer, ac3wav_decode_buffer_none]

theorem probe_candidate_lib_none (wheader : wave_header) (k : demuxer_kind) (io io1 : mm_io)
    (b : Bool) (d : wav_demuxer) (hk : k ≠ .pcm)
    (h : probe_candidate lib_none wheader k io = (some b, d, io1)) : b = false := by
  cases k with
  | ac3acm =>
    simp only [probe_candidate, wav_ac3acm_demuxer_c.probe] at h
    rcases hr : probe_read io AC3ACM_READ_SIZE with ⟨_ | bs, io2⟩
    · simp [hr] at h
    · simp only [hr, Prod.mk.injEq, Option.some.injEq] at h
      rw [← h.1]
      exact ac3acm_probe_buffer_none _ _
  | dts =>
    simp only [probe_candidate, wav_dts_demuxer_c.probe] at h
    rcases hr : probe_read io DTS_READ_SIZE with ⟨_ | bs, io2⟩
    · simp [hr] at h
    · simp only [hr, Prod.mk.injEq, Option.some.injEq] at h
      rw [← h.1]
      exact dts_probe_buffer_none _ _
  | ac3wav =>
    simp only [probe_candidate, wav_ac3wav_demuxer_c.probe] at h
    rcases hr : probe_read io AC3WAV_BLOCK_SIZE with ⟨_ | bs, io2⟩
    · simp [hr] at h
    · simp only [hr, Prod.mk.injEq, Option.some.injEq] at h
      rw [← h.1]
      exact ac3wav_probe_buffer_none _ _
  | pcm => exact absurd rfl hk

theorem try_candidate_lib_none (k : demuxer_kind) (st st1 : wav_reader_c × List demuxer_kind)
    (hk : k ≠ .pcm) (h : try_candidate lib_none k st = some st1) :
    st1.1.m_demuxer = none ∧ st1.1.m_wheader = st.1.m_wheader := by
  unfold try_candidate at h
  rcases hp : probe_candidate lib_none st.1.m_wheader k st.1.m_io with ⟨_ | b, d, io1⟩
  · simp [hp] at h
  have hb := probe_candidate_lib_none _ k _ io1 b d hk hp
  subst hb
  simp only [hp, Option.some.injEq] at h
  rw [← h]
  exact ⟨rfl, rfl⟩

theorem unless_selected_lib_none (k : demuxer_kind) (st st1 : wav_reader_c × List demuxer_kind)
    (hk : k ≠ .pcm) (hnone : st.1.m_demuxer = none)
    (h : unless_selected lib_none k st = some st1) :
    st1.1.m_demuxer = none ∧ st1.1.m_wheader = st.1.m_wheader := by
  unfold unless_selected at h
  simp only [hnone] at h
  exact try_candidate_lib_none k st st1 hk h

/-- With a codec library that recognises nothing, `create_demuxer` ends with the PCM
variant built from the format header. -/
theorem create_demuxer_lib_none (r r1 : wav_reader_c) (log : List demuxer_kind)
    (hnone : r.m_demuxer = none) (h : create_demuxer lib_none r = some (r1, log)) :
    r1.m_demuxer = some (.pcm (pcm_demuxer.new lib_none r.m_wheader
      (decide (0x0003 = get_uint16_le r.m_wheader.wFormatTag)))) := by
  unfold create_demuxer at h
  simp only at h
  have h0 : ∀ st1, (if 0x2000 = get_uint16_le r.m_wheader.wFormatTag
      then try_candidate lib_none .ac3acm (r, []) else some (r, [])) = some st1 →
      st1.1.m_demuxer = none ∧ st1.1.m_wheader = r.m_wheader := by
    intro st1 hst
    by_cases ht : 0x2000 = get_uint16_le r.m_wheader.wFormatTag
    · simp only [ht, if_true] at hst
      exact try_candidate_lib_none _ _ _ (by decide) hst
    · simp only [ht, if_false, Option.some.injEq] at hst
      rw [← hst]
      exact ⟨hnone, rfl⟩
  rcases hs1 : (if 0x2000 = get_uint16_le r.m_wheader.wFormatTag
      then try_candidate lib_none .ac3acm (r, []) else some (r, [])) with _ | st1
  · simp [hs1] at h
  simp only [hs1] at h
  obtain ⟨n1, w1⟩ := h0 st1 hs1
  rcases hs2 : unless_selected lib_none .dts st1 with _ | st2
  · simp [hs2] at h
  simp only [hs2] at h
  obtain ⟨n2, w2⟩ := unless_selected_lib_none _ _ _ (by decide) n1 hs2
  rcases hs3 : unless_selected lib_none .ac3wav st2 with _ | st3
  · simp [hs3] at h
  simp only [hs3] at h
  obtain ⟨n3, w3⟩ := unless_selected_lib_none _ _ _ (by decide) n2 hs3
  simp only [n3, Option.some.injEq, Prod.mk.injEq] at h
  rw [← h.1, w3, w2, w1]

theorem parse_file_header (r r2 : wav_reader_c) (h : parse_file r = .ok r2) :
    r2.m_chunks = (parse_file_scanned r).m_chunks
      ∧ r2.m_demuxer = r.m_demuxer
      ∧ r2.m_wheader.common = mem_slice (fun i => r.m_io.data i % 256)
          ((format_chunk_pos (parse_file_scanned r)).toNat + 8) 16 := by
  rcases hr : r.m_io.read (sizeof_riff_struct : Int) with ⟨_ | riff, io1⟩
  · simp [parse_file, hr] at h
  by_cases hl : riff.length = sizeof_riff_struct
  swap
  · simp [parse_file, hr, hl] at h
  have hsrc1 : same_source r.m_io io1 := by
    have := read_source r.m_io (sizeof_riff_struct : Int)
    rw [hr] at this
    exact this
  have hrs : parse_file_scanned r = scan_chunks
      { r with m_io := io1, m_wheader := { r.m_wheader with riff := riff } } := by
    simp only [parse_file_scanned, hr, Option.getD_some]
  have hframe := scan_chunks_frame
    { r with m_io := io1, m_wheader := { r.m_wheader with riff := riff } }
  simp only [parse_file, hr, hl, ne_eq, not_true_eq_false, if_false] at h
  rw [← hrs] at h hframe
  generalize parse_file_scanned r = rs at h hframe
  obtain ⟨_, hdem, _, _, _, hsrc2⟩ := hframe
  simp only at hdem hsrc2
  by_cases hfmt : find_chunk rs str_fmt 0 true = -1
  · simp [hfmt] at h
  simp only [hfmt, if_false] at h
  rcases hs1 : rs.m_io.setFilePointer (rs.chunk_at (find_chunk rs str_fmt 0 true)).pos
      .seek_beginning with ⟨_ | u, io2⟩
  · simp [hs1] at h
  simp only [hs1] at h
  obtain ⟨_, hio2⟩ := seek_beginning_some _ _ _ hs1
  rcases hr2 : io2.read (sizeof_chunk_struct : Int) with ⟨_ | format, io3⟩
  · simp [hr2] at h
  simp only [hr2] at h
  obtain ⟨hfb, hio3⟩ := read_some _ _ _ _ hr2
  by_cases hl2 : format.length = sizeof_chunk_struct
  swap
  · simp [hl2] at h
  simp only [hl2, ne_eq, not_true_eq_false, if_false] at h
  rcases hr3 : io3.read (sizeof_common_struct : Int) with ⟨_ | common, io4⟩
  · simp [hr3] at h
  simp only [hr3] at h
  obtain ⟨hcb, _⟩ := read_some _ _ _ _ hr3
  by_cases hl3 : common.length = sizeof_common_struct
  swap
  · simp [hl3] at h
  simp only [hl3, ne_eq, not_true_eq_false, if_false] at h
  have hfc : ∀ (io : mm_io) (wh : wave_header),
      find_chunk { rs with m_io := io, m_wheader := wh } str_data 0 false
        = find_chunk rs str_data 0 false := fun _ _ => rfl
  have hca : ∀ (io : mm_io) (wh : wave_header) (i : Int),
      wav_reader_c.chunk_at { rs with m_io := io, m_wheader := wh } i = rs.chunk_at i :=
    fun _ _ _ => rfl
  simp only [hfc, hca] at h
  by_cases hdata : find_chunk rs str_data 0 false = -1
  · simp [hdata] at h
  simp only [hdata, if_false] at h
  rcases hs2 : io4.setFilePointer
      ((rs.chunk_at (find_chunk rs str_data 0 false)).pos + (sizeof_chunk_struct : Int))
      .seek_beginning with ⟨_ | u, io5⟩
  · simp [hs2] at h
  simp only [hs2, Except.ok.injEq] at h
  rw [← h]
  refine ⟨rfl, hdem, ?_⟩
  show common = _
  have hdata2 : rs.m_io.data = r.m_io.data := by rw [hsrc2.2.1, hsrc1.2.1]
  have hf8 : min (sizeof_chunk_struct : Int).toNat (io2.size - io2.pos) = 8 := by
    have := mem_slice_length (fun i => io2.data i % 256) io2.pos
      (min (sizeof_chunk_struct : Int).toNat (io2.size - io2.pos))
    rw [← hfb, hl2] at this
    exact this.symm
  have hc16 : min (sizeof_common_struct : Int).toNat (io3.size - io3.pos) = 16 := by
    have := mem_slice_length (fun i => io3.data i % 256) io3.pos
      (min (sizeof_common_struct : Int).toNat (io3.size - io3.pos))
    rw [← hcb, hl3] at this
    exact this.symm
  rw [hcb, hc16, hio3, hf8, hio2]
  simp only [format_chunk_pos, hdata2]

/-! ## The reader that the constructor gives -/

theorem open_header (lib : codec_lib) (io : mm_io) (r : wav_reader_c)
    (h : wav_reader_c.new lib io = .ok r) :
    r.m_chunks = (scanned_at_open io).m_chunks
      ∧ r.m_wheader.common = mem_slice (fun i => io.data i % 256)
          ((format_chunk_pos (scanned_at_open io)).toNat + 8) 16 := by
  unfold wav_reader_c.new at h
  rcases hq : query_size io with ⟨_ | size, io1⟩
  · simp [hq] at h
  simp only [hq] at h
  obtain ⟨hsz, hsrc1⟩ := query_size_some _ _ _ hq
  have hsrc2 := probe_file_source io1 size
  rcases hp : probe_file io1 size with ⟨probed, io2⟩
  rw [hp] at hsrc2
  simp only [hp] at h
  by_cases h0 : probed = 0
  · simp [h0] at h
  simp only [h0, if_false] at h
  rcases hpf : parse_file (wav_reader_c.init io2) with e | r1
  · simp [hpf] at h
  simp only [hpf] at h
  rcases hcd : create_demuxer lib r1 with _ | ⟨r2, log⟩
  · simp [hcd] at h
  simp only [hcd, Except.ok.injEq] at h
  subst h
  have hsc : scanned_at_open io = parse_file_scanned (wav_reader_c.init io2) := by
    simp only [scanned_at_open, hq, ← hsz, hp]
  obtain ⟨p1, _, p3⟩ := parse_file_header _ _ hpf
  obtain ⟨⟨c1, c2, _⟩, _⟩ := create_demuxer_some lib r1 r2 log hcd
  have hdata : (wav_reader_c.init io2).m_io.data = io.data := by
    show io2.data = io.data
    rw [hsrc2.2.1, hsrc1.2.1]
  rw [hsc, c1, c2, p1, p3, hdata]
  exact ⟨rfl, rfl⟩

theorem open_lib_none (io : mm_io) (r : wav_reader_c)
    (h : wav_reader_c.new lib_none io = .ok r) :
    r.m_demuxer = some (.pcm (pcm_demuxer.new lib_none r.m_wheader
      (decide (0x0003 = get_uint16_le r.m_wheader.wFormatTag)))) := by
  unfold wav_reader_c.new at h
  rcases hq : query_size io with ⟨_ | size, io1⟩
  · simp [hq] at h
  simp only [hq] at h
  rcases hp : probe_file io1 size with ⟨probed, io2⟩
  simp only [hp] at h
  by_cases h0 : probed = 0
  · simp [h0] at h
  simp only [h0, if_false] at h
  rcases hpf : parse_file (wav_reader_c.init io2) with e | r1
  · simp [hpf] at h
  simp only [hpf] at h
  rcases hcd : create_demuxer lib_none r1 with _ | ⟨r2, log⟩
  · simp [hcd] at h
  simp only [hcd, Except.ok.injEq] at h
  subst h
  obtain ⟨_, p2, _⟩ := parse_file_header _ _ hpf
  obtain ⟨⟨_, c2, _⟩, _⟩ := create_demuxer_some lib_none r1 r2 log hcd
  have := create_demuxer_lib_none r1 r2 log (by rw [p2]; rfl) hcd
  rw [this, c2]

theorem opened_of_ok (lib : codec_lib) (io : mm_io) (r : wav_reader_c)
    (h : wav_reader_c.new lib io = .ok r) : opened lib io = r := by
  simp only [opened, h]

theorem opened_of_thrown_none (lib : codec_lib) (io : mm_io)
    (h : thrown (wav_reader_c.new lib io) = none) :
    wav_reader_c.new lib io = .ok (opened lib io) := by
  rcases hn : wav_reader_c.new lib io with e | r
  · rw [hn] at h
    simp [thrown] at h
  · rw [opened_of_ok lib io r hn]

theorem pcm_process_events (lib : codec_lib) (r : wav_reader_c) (d : pcm_demuxer)
    (hpos : 0 < read_count r (.pcm d)) :
    process_events lib r (.pcm d)
      = [.demuxer_process (read_count r (.pcm d) : Int), .packet (read_block r (.pcm d))] := by
  have hn : ¬ ((0 : Int) ≥ (read_count r (.pcm d) : Int)) := by omega
  have hlen : (read_block r (.pcm d)).length = read_count r (.pcm d) := mem_slice_length _ _ _
  have hsl := mem_slice_write d.m_buffer (read_block r (.pcm d)) 0 (read_count r (.pcm d))
    (by omega)
  rw [List.drop_zero, ← hlen, List.take_length] at hsl
  simp only [process_events, wav_demuxer.store, wav_demuxer.process, wav_pcm_demuxer_c.process,
    hn, if_false, Int.toNat_ofNat, List.map_cons, List.map_nil]
  rw [← hlen, hsl]

theorem pcm_after_process (lib : codec_lib) (r : wav_reader_c) (d : pcm_demuxer) :
    ∃ d1 : pcm_demuxer, (after_process lib r (.pcm d)).m_demuxer = some (.pcm d1)
      ∧ d1.m_bps = d.m_bps := by
  simp only [after_process, wav_demuxer.store, wav_demuxer.process, wav_pcm_demuxer_c.process]
  split_ifs <;> exact ⟨_, rfl, rfl⟩

/-- Progress behind a read step of a reader at work: below 100 behind a step that
returns `FILE_STATUS_MOREDATA`, 100 behind a step that returns `FILE_STATUS_DONE`
and leaves no current chunk, and unchanged, below 100, behind a step that
returns `FILE_STATUS_DONE` with a chunk still being worked on. -/
theorem progress_after_step (lib : codec_lib) (r r1 : wav_reader_c) (st : file_status_e)
    (ev : List reader_event) (hinv : read_invariant r) (hread : r.read lib = some (st, r1, ev)) :
    (st = .FILE_STATUS_MOREDATA → get_progress r1 < 100)
      ∧ (st = .FILE_STATUS_DONE → r1.m_cur_data_chunk_idx = -1 → get_progress r1 = 100)
      ∧ (st = .FILE_STATUS_DONE → r1.m_cur_data_chunk_idx ≠ -1 →
          ev = [.flush] ∧ r1.m_bytes_processed < r1.m_bytes_in_data_chunks
            ∧ get_progress r1 = get_progress r ∧ get_progress r1 < 100) := by
  obtain ⟨hinv1, _, htot, _, _, hmore, hdone⟩ := read_invariant_step lib r r1 st ev hinv hread
  obtain ⟨hic1, hb1, _⟩ := hinv1
  have hbelow : ∀ i c, reading_at r1 i c → processed_at r1 i c →
      r1.m_bytes_processed < r1.m_bytes_in_data_chunks ∧ get_progress r1 < 100 := by
    intro i c hat hpr
    obtain ⟨h0, h1⟩ := processed_lt_total r1 i c hic1 hb1 hat hpr
    exact ⟨h1, (progress_facts r1 h0 (le_of_lt h1)).2.2.2.1 h1⟩
  refine ⟨?_, ?_, ?_⟩
  · intro hst
    obtain ⟨i, c, hat, hpr⟩ := hmore hst
    exact (hbelow i c hat hpr).2
  · intro hst hidx
    rcases hdone hst with hfin | ⟨_, _, i, c, hat, _⟩
    · obtain ⟨h0, h1⟩ := invariant_bounds r1 ⟨hic1, hb1, Or.inr hfin⟩
      exact (progress_facts r1 h0 h1).2.2.1 hfin.2.2
    · have := hat.1
      omega
  · intro hst hidx
    rcases hdone hst with hfin | ⟨hev, hsame, i, c, hat, hpr⟩
    · exact absurd hfin.1 hidx
    · refine ⟨hev, (hbelow i c hat hpr).1, ?_, (hbelow i c hat hpr).2⟩
      simp only [get_progress, hsame, htot]

/-! ## One second of silence -/

theorem one_second_example :
    ∃ (r0 r1 : wav_reader_c) (bs : List Nat),
      wav_reader_c.new lib_none sample_one_second = .ok r0
        ∧ r0.variant = some .pcm ∧ r0.block_size = 32000
        ∧ r0.read lib_none = some (.FILE_STATUS_DONE, r1,
            [.demuxer_process 32000, .packet bs, .flush])
        ∧ bs.length = 32000 ∧ get_progress r1 = 100 := by
  have hthrown : thrown (wav_reader_c.new lib_none sample_one_second) = none :=
    ((open_outcome lib_none sample_one_second (fun _ => rfl) (by decide)).2
      (by decide) (by decide)).2.2.2 (by decide) (by decide) (by decide)
  have hopen := opened_of_thrown_none _ _ hthrown
  generalize opened lib_none sample_one_second = r0 at hopen
  obtain ⟨hchunks, hcommon⟩ := open_header _ _ _ hopen
  have hsc : (scanned_at_open sample_one_second).m_chunks
      = [{ pos := 12, id := str_fmt, len := 16 }, { pos := 36, id := str_data, len := 32000 }] := by
    decide
  have hfp : (format_chunk_pos (scanned_at_open sample_one_second)).toNat + 8 = 20 := by decide
  have hcm : mem_slice (fun i => sample_one_second.data i % 256) 20 16
      = [1, 0, 2, 0] ++ le32 8000 ++ le32 32000 ++ [4, 0, 16, 0] := by decide
  rw [hsc] at hchunks
  rw [hfp, hcm] at hcommon
  have hdem := open_lib_none _ _ hopen
  obtain ⟨hic, hb, hsrc, i, c, hat, hpr, hrem, hproc, hpos, _⟩ :=
    open_invariant lib_none sample_one_second r0 hopen
  have hinv : read_invariant r0 := ⟨hic, hb, Or.inl ⟨i, c, hat, hpr⟩⟩
  have hi : i = 1 ∧ c = { pos := 36, id := str_data, len := 32000 } := by
    have h2 := hat.2.1
    have h3 := hat.2.2.1
    rw [hchunks] at h2
    match i, h2 with
    | 0, h2 =>
      simp only [List.getElem?_cons_zero, Option.some.injEq] at h2
      rw [← h2] at h3
      exact absurd h3 (by decide)
    | 1, h2 =>
      simp only [List.getElem?_cons_succ, List.getElem?_cons_zero, Option.some.injEq] at h2
      exact ⟨rfl, h2.symm⟩
    | k + 2, h2 =>
      simp at h2
  obtain ⟨hi1, hc1⟩ := hi
  subst hi1
  subst hc1
  simp only at hrem hpos
  have hsize : r0.m_io.size = 32044 := hsrc.1
  have hfault : r0.m_io.no_fault := by
    intro k
    rw [hsrc.2.2.1]
    rfl
  have hbps : (pcm_demuxer.new lib_none r0.m_wheader
      (decide (0x0003 = get_uint16_le r0.m_wheader.wFormatTag))).m_bps = 32000 := by
    simp only [pcm_demuxer.new, wave_header.wChannels, wave_header.wBitsPerSample,
      wave_header.dwSamplesPerSec, hcommon]
    decide
  generalize pcm_demuxer.new lib_none r0.m_wheader
    (decide (0x0003 = get_uint16_le r0.m_wheader.wFormatTag)) = d at hdem hbps
  have hcnt : read_count r0 (.pcm d) = 32000 := by
    unfold read_count
    simp only [wav_demuxer.get_preferred_input_size]
    rw [hbps, hrem, hsize]
    omega
  have hnext : find_chunk r0 str_data (r0.m_cur_data_chunk_idx + 1) false = -1 := by
    rw [hat.1, find_chunk_next, hchunks]
    rfl
  obtain ⟨st, r1, ev, hread⟩ := read_total lib_none r0 (.pcm d) hfault hdem
    (fun x hx => (hb x hx).1)
  obtain ⟨d1, hd1, hcase⟩ := read_cases lib_none r0 r1 st ev hread
  rw [hdem] at hd1
  simp only [Option.some.injEq] at hd1
  subst hd1
  have hvar : r0.variant = some .pcm := by
    simp only [wav_reader_c.variant, hdem, Option.map_some', wav_demuxer.kind]
  have hblock : r0.block_size = 32000 := by
    simp only [wav_reader_c.block_size, hdem, Option.map_some', Option.getD_some,
      wav_demuxer.get_preferred_input_size, hbps]
  rcases hcase with ⟨h0, _⟩ | ⟨_, hne, _⟩ | ⟨hp, _, _, hst, hr1, hev⟩ | ⟨_, _, hn, _⟩
  · omega
  · rw [hcnt, hrem] at hne
    exact absurd rfl hne
  · have hprog := (progress_after_step lib_none r0 r1 st ev hinv hread).2.1 hst
      (by rw [hr1])
    rw [pcm_process_events lib_none r0 d hp, hcnt] at hev
    subst hst
    subst hev
    refine ⟨r0, r1, read_block r0 (.pcm d), hopen, hvar, hblock, hread, ?_, hprog⟩
    rw [← hcnt]
    exact mem_slice_length _ _ _
  · exact absurd hnext hn

/-! ## Progress when a read step returns -/

/-- C14, as the claim states it, fails: the data chunk of `sample_cut_short` declares
16 bytes of which the file holds 8. The open succeeds, the first read step reads the 8
bytes and returns `FILE_STATUS_MOREDATA` with progress 50, and the second step finds
nothing to read, flushes and returns `FILE_STATUS_DONE` with `get_progress` still at
50, not at 100. -/
theorem done_with_progress_below_100 :
    wav_reader_c.new lib_none sample_cut_short = .ok (opened lib_none sample_cut_short)
      ∧ ((opened lib_none sample_cut_short).read lib_none).map
          (fun x => (x.1, get_progress x.2.1)) = some (.FILE_STATUS_MOREDATA, 50)
      ∧ read_steps lib_none 1 (opened lib_none sample_cut_short) = some sample_cut_short_second
      ∧ (sample_cut_short_second.read lib_none).map
          (fun x => (x.1, x.2.2, get_progress x.2.1)) = some (.FILE_STATUS_DONE, [.flush], 50)
      ∧ get_progress sample_cut_short_done ≠ 100 :=
  ⟨rfl, by decide, rfl, by decide, by decide⟩

/-- C14, amended: behind a successful open and any number of read steps, a read step
that returns `FILE_STATUS_MOREDATA` leaves `get_progress` below 100; a step that
returns `FILE_STATUS_DONE` because no further data chunk that is not empty follows (it
sets the current chunk index to -1) leaves `get_progress` at 100; and a step that
returns `FILE_STATUS_DONE` because its read delivered no bytes while a chunk is still
being worked on (the payload is cut short in the file, or the block size is zero) only
flushes and leaves `get_progress` where it was, below 100. For the container with
2 channels, 16 bits, 8000 Hz and one data chunk of 32000 bytes, the PCM variant is
selected with a block size of 32000, the first read step makes exactly one call
`process(32000)`, hands on one packet of 32000 bytes, flushes and returns
`FILE_STATUS_DONE`, and progress is 100 after it. -/
theorem progress_at_read_result (lib : codec_lib) (io : mm_io) (r0 r r1 : wav_reader_c)
    (n : Nat) (st : file_status_e) (ev : List reader_event)
    (hopen : wav_reader_c.new lib io = .ok r0) (hrun : read_steps lib n r0 = some r)
    (hread : r.read lib = some (st, r1, ev)) :
    (st = .FILE_STATUS_MOREDATA → get_progress r1 < 100)
      ∧ (st = .FILE_STATUS_DONE → r1.m_cur_data_chunk_idx = -1 → get_progress r1 = 100)
      ∧ (st = .FILE_STATUS_DONE → r1.m_cur_data_chunk_idx ≠ -1 →
          ev = [.flush] ∧ r1.m_bytes_processed < r1.m_bytes_in_data_chunks
            ∧ get_progress r1 = get_progress r ∧ get_progress r1 < 100)
      ∧ (∃ (q0 q1 : wav_reader_c) (bs : List Nat),
          wav_reader_c.new lib_none sample_one_second = .ok q0
            ∧ q0.variant = some .pcm ∧ q0.block_size = 32000
            ∧ q0.read lib_none = some (.FILE_STATUS_DONE, q1,
                [.demuxer_process 32000, .packet bs, .flush])
            ∧ bs.length = 32000 ∧ get_progress q1 = 100) := by
  obtain ⟨hic, hb, _, i, c, hat, hpr, _⟩ := open_invariant lib io r0 hopen
  have hinv := read_steps_invariant lib n r0 r ⟨hic, hb, Or.inl ⟨i, c, hat, hpr⟩⟩ hrun
  obtain ⟨h1, h2, h3⟩ := progress_after_step lib r r1 st ev hinv hread
  exact ⟨h1, h2, h3, one_second_example⟩

theorem progress_at_read_result_witness :
    sample_cut_short_done.m_cur_data_chunk_idx ≠ -1
      ∧ sample_cut_short_done.m_bytes_processed < sample_cut_short_done.m_bytes_in_data_chunks
      ∧ get_progress sample_cut_short_done = get_progress sample_cut_short_second
      ∧ get_progress sample_cut_short_done < 100 :=
  ⟨by decide,
    ((progress_at_read_result lib_none sample_cut_short (opened lib_none sample_cut_short)
      sample_cut_short_second sample_cut_short_done 1 .FILE_STATUS_DONE [.flush]
      rfl rfl rfl).2.2.1 rfl (by decide)).2⟩

/-! ## The packets of the whole read loop -/

theorem packets_of_append (a b : List reader_event) :
    packets_of (a ++ b) = packets_of a ++ packets_of b := by
  induction a with
  | nil => rfl
  | cons e rest ih =>
    cases e <;> simp [packets_of, ih]

theorem data_payloads_append (io : mm_io) (a b : List wav_chunk_t) :
    data_payloads io (a ++ b) = data_payloads io a ++ data_payloads io b := by
  simp [data_payloads]

theorem data_payloads_cons (io : mm_io) (c : wav_chunk_t) (cs : List wav_chunk_t) :
    data_payloads io (c :: cs)
      = (if tag_is_data c.id ∧ c.len ≠ 0 then chunk_payload io c else []) ++ data_payloads io cs := by
  by_cases h : tag_is_data c.id ∧ c.len ≠ 0
  · simp [data_payloads, h]
  · simp [data_payloads, h]

theorem data_payloads_skipped (io : mm_io) (cs : List wav_chunk_t)
    (hid : ∀ c ∈ cs, c.id.length = 4)
    (h : ∀ c ∈ cs, ¬ (strncasecmp c.id str_data 4 = 0 ∧ (false = true ∨ c.len ≠ 0))) :
    data_payloads io cs = [] := by
  induction cs with
  | nil => simp [data_payloads]
  | cons c rest ih =>
    rw [data_payloads_cons, ih (fun x hx => hid x (by simp [hx])) (fun x hx => h x (by simp [hx]))]
    have h1 := h c (by simp)
    have hno : ¬ (tag_is_data c.id ∧ c.len ≠ 0) := by
      rintro ⟨ht, hl⟩
      exact h1 ⟨(strncasecmp_data c.id (hid c (by simp))).2 ht, Or.inr hl⟩
    simp [hno]

theorem data_payloads_congr (io io1 : mm_io) (h : io1.data = io.data) (cs : List wav_chunk_t) :
    data_payloads io1 cs = data_payloads io cs := by
  have : chunk_payload io1 = chunk_payload io := by
    funext c
    simp only [chunk_payload, h]
  simp only [data_payloads, this]

theorem payload_lengths_eq (cs : List wav_chunk_t) : payload_lengths cs = payload_sum cs := by
  induction cs with
  | nil => rfl
  | cons c rest ih =>
    rw [payload_sum_cons, ← ih]
    by_cases ht : tag_is_data c.id
    · by_cases hl : c.len = 0
      · simp [payload_lengths, ht, hl]
      · simp [payload_lengths, ht, hl]
    · simp [payload_lengths, ht]

theorem read_loop_more_fuel (lib : codec_lib) (n : Nat) :
    ∀ (m : Nat) (r : wav_reader_c) (res : wav_reader_c × List reader_event),
      n ≤ m → read_loop lib n r = some res → read_loop lib m r = some res := by
  induction n with
  | zero =>
    intro m r res _ h
    simp [read_loop] at h
  | succ k ih =>
    intro m r res hm h
    obtain ⟨m1, rfl⟩ : ∃ m1, m = m1 + 1 := ⟨m - 1, by omega⟩
    rcases hr : r.read lib with _ | ⟨st, r1, ev⟩
    · simp [read_loop, hr] at h
    cases st with
    | FILE_STATUS_DONE =>
      simp only [read_loop, hr] at h ⊢
      exact h
    | FILE_STATUS_MOREDATA =>
      simp only [read_loop, hr] at h ⊢
      rcases hl : read_loop lib k r1 with _ | ⟨r2, ev2⟩
      · simp [hl] at h
      · rw [ih m1 r1 (r2, ev2) (by omega) hl]
        simp only [hl] at h
        exact h

/-- The read loop of the PCM variant with a block size that is not zero, on a source
without faults that holds the payloads in full: it comes to an end, and its packets
are the rest of the current chunk followed by the payloads of the data chunks behind
it. -/
theorem read_loop_pcm (lib : codec_lib) (N : Nat) :
    ∀ (r : wav_reader_c) (i : Nat) (c : wav_chunk_t) (d : pcm_demuxer),
      index_consistent r → chunks_in_bounds r → reading_at r i c → processed_at r i c →
      r.m_io.no_fault → payloads_present r → r.m_demuxer = some (.pcm d) → 0 < d.m_bps →
      r.m_bytes_in_data_chunks - r.m_bytes_processed ≤ (N : Int) →
      ∃ (n : Nat) (r1 : wav_reader_c) (ev : List reader_event),
        read_loop lib n r = some (r1, ev)
          ∧ (packets_of ev).flatten
              = mem_slice (fun k => r.m_io.data k % 256) r.m_io.pos
                  r.m_remaining_bytes_in_current_data_chunk.toNat
                ++ data_payloads r.m_io (r.m_chunks.drop (i + 1))
          ∧ finished r1 ∧ r1.m_bytes_in_data_chunks = r.m_bytes_in_data_chunks := by
  induction N with
  | zero =>
    intro r i c d hic hb hat hpr _ _ _ _ hN
    have := processed_lt_total r i c hic hb hat hpr
    omega
  | succ N ih =>
    intro r i c d hic hb hat hpr hf hpres hd hbps hN
    have hinv : read_invariant r := ⟨hic, hb, Or.inl ⟨i, c, hat, hpr⟩⟩
    obtain ⟨st, r1, ev, hread⟩ := read_total lib r (.pcm d) hf hd (fun x hx => (hb x hx).1)
    obtain ⟨hinv1, hchunks, htot, hsrc, _, hmore, hdone⟩ :=
      read_invariant_step lib r r1 st ev hinv hread
    obtain ⟨d0, hd0, hcase⟩ := read_cases lib r r1 st ev hread
    rw [hd] at hd0
    simp only [Option.some.injEq] at hd0
    subst hd0
    obtain ⟨hidx, hc, htag, hne, hrpos, hrle, hposeq⟩ := hat
    have hmem : c ∈ r.m_chunks := List.getElem?_mem hc
    have hfit := hpres c hmem htag
    have hcnt : (read_count r (.pcm d) : Int)
        = min r.m_remaining_bytes_in_current_data_chunk d.m_bps := by
      unfold read_count
      simp only [wav_demuxer.get_preferred_input_size]
      omega
    have hcpos : 0 < read_count r (.pcm d) := by omega
    have hblock : read_block r (.pcm d)
        = mem_slice (fun k => r.m_io.data k % 256) r.m_io.pos (read_count r (.pcm d)) := rfl
    have hf1 : r1.m_io.no_fault := by
      intro k
      rw [hsrc.2.2.1]
      exact hf k
    have hpres1 : payloads_present r1 := by
      intro x hx
      rw [hchunks] at hx
      rw [hsrc.1]
      exact hpres x hx
    have hev1 : packets_of (process_events lib r (.pcm d)) = [read_block r (.pcm d)] := by
      rw [pcm_process_events lib r d hcpos]
      rfl
    rcases hcase with ⟨h0, _⟩ | ⟨_, hrem, hst, hr1, hev⟩ | ⟨_, hrem, hnext, hst, hr1, hev⟩
        | ⟨_, hrem, hnext, _, hst, hr1, hev⟩
    · omega
    · -- the chunk is not used up
      obtain ⟨i1, c1, hat1, hpr1⟩ := hmore hst
      have hidx1 : r1.m_cur_data_chunk_idx = r.m_cur_data_chunk_idx := by rw [hr1]; rfl
      have hi1 : i = i1 := by
        have := hat1.1
        omega
      subst hi1
      have hc1 : c = c1 := by
        have h2 := hat1.2.1
        rw [hchunks, hc] at h2
        exact Option.some.inj h2
      subst hc1
      obtain ⟨d1, hd1, hbps1⟩ := pcm_after_process lib r d
      rw [← hr1] at hd1
      have hpos1 : r1.m_io.pos = r.m_io.pos + read_count r (.pcm d) := by rw [hr1]; rfl
      have hrem1 : r1.m_remaining_bytes_in_current_data_chunk
          = r.m_remaining_bytes_in_current_data_chunk - (read_count r (.pcm d) : Int) := by
        rw [hr1]; rfl
      have hproc1 : r1.m_bytes_processed = r.m_bytes_processed + (read_count r (.pcm d) : Int) := by
        rw [hr1]; rfl
      obtain ⟨n, r2, ev2, hloop, hpk, hfin, htot2⟩ := ih r1 i c d1 hinv1.1 hinv1.2.1 hat1 hpr1
        hf1 hpres1 hd1 (by rw [hbps1]; exact hbps) (by rw [htot, hproc1]; omega)
      refine ⟨n + 1, r2, ev ++ ev2, ?_, ?_, hfin, by rw [htot2, htot]⟩
      · subst hst
        simp only [read_loop, hread, hloop]
      · rw [packets_of_append, List.flatten_append, hpk, hev, hev1, hblock, hpos1, hrem1,
          hsrc.2.1, hchunks, data_payloads_congr r.m_io r1.m_io hsrc.2.1]
        have hsplit : r.m_remaining_bytes_in_current_data_chunk.toNat
            = read_count r (.pcm d)
              + (r.m_remaining_bytes_in_current_data_chunk - (read_count r (.pcm d) : Int)).toNat := by
          omega
        rw [hsplit, mem_slice_add]
        simp
    · -- the chunk is used up and no data chunk follows
      rw [hidx, find_chunk_next] at hnext
      have hskip : data_payloads r.m_io (r.m_chunks.drop (i + 1)) = [] := by
        rcases find_chunk_loop_spec str_data false (r.m_chunks.drop (i + 1)) (i + 1)
          with ⟨_, hno⟩ | ⟨k, _, _, _, _, hres⟩
        · exact data_payloads_skipped _ _ (fun x hx => hic.2 x (List.mem_of_mem_drop hx)) hno
        · rw [hres] at hnext
          omega
      have hfin : finished r1 := by
        rcases hdone hst with hfin | ⟨hflush, _⟩
        · exact hfin
        · rw [hev, pcm_process_events lib r d hcpos] at hflush
          simp at hflush
      refine ⟨1, r1, ev, ?_, ?_, hfin, htot⟩
      · subst hst
        simp only [read_loop, hread]
      · rw [hev, packets_of_append, hev1, hskip, hblock]
        have hall : r.m_remaining_bytes_in_current_data_chunk.toNat = read_count r (.pcm d) := by
          omega
        rw [hall]
        simp [packets_of]
    · -- the chunk is used up and the reader moves on
      obtain ⟨i1, c1, hat1, hpr1⟩ := hmore hst
      rw [hidx, find_chunk_next] at hnext hr1
      rcases find_chunk_loop_spec str_data false (r.m_chunks.drop (i + 1)) (i + 1)
        with ⟨hm1, _⟩ | ⟨k, c2, hk, hhit, hbefore, hres⟩
      · exact absurd hm1 hnext
      rw [hres] at hr1
      have hk1 : r.m_chunks[i + 1 + k]? = some c2 := by
        rw [← hk, List.getElem?_drop]
      have hmem2 : c2 ∈ r.m_chunks := List.getElem?_mem hk1
      have hca : r.chunk_at ((i + 1 + k : Nat) : Int) = c2 := by
        unfold wav_reader_c.chunk_at
        rw [Int.toNat_ofNat, List.getD_eq_getElem?_getD, hk1]
        rfl
      rw [hca] at hr1
      have hi1 : i + 1 + k = i1 := by
        have h1 := hat1.1
        have h2 : r1.m_cur_data_chunk_idx = ((i + 1 + k : Nat) : Int) := by rw [hr1]
        omega
      subst hi1
      have hc1 : c2 = c1 := by
        have h2 := hat1.2.1
        rw [hchunks, hk1] at h2
        exact Option.some.inj h2
      subst hc1
      obtain ⟨d1, hd1, hbps1⟩ := pcm_after_process lib r d
      have hd2 : r1.m_demuxer = some (.pcm d1) := by rw [hr1]; exact hd1
      have hpos1 : r1.m_io.pos = (c2.pos + 8).toNat := by rw [hr1]
      have hrem1 : r1.m_remaining_bytes_in_current_data_chunk = c2.len := by rw [hr1]
      have hproc2 : r1.m_bytes_processed = r.m_bytes_processed + (read_count r (.pcm d) : Int) := by
        rw [hr1]; rfl
      obtain ⟨n, r2, ev2, hloop, hpk, hfin, htot2⟩ := ih r1 (i + 1 + k) c2 d1 hinv1.1 hinv1.2.1
        hat1 hpr1 hf1 hpres1 hd2 (by rw [hbps1]; exact hbps) (by rw [htot, hproc2]; omega)
      have hskip : data_payloads r.m_io ((r.m_chunks.drop (i + 1)).take k) = [] := by
        refine data_payloads_skipped _ _
          (fun x hx => hic.2 x (List.mem_of_mem_drop (List.mem_of_mem_take hx))) ?_
        intro x hx
        obtain ⟨j, hj, hxj⟩ := List.getElem_of_mem hx
        have hjk : j < k := by
          simp only [List.length_take] at hj
          omega
        refine hbefore j x hjk ?_
        rw [List.getElem_take] at hxj
        rw [← hxj]
        exact List.getElem?_eq_getElem _
      have hdrop : (r.m_chunks.drop (i + 1)).drop k = c2 :: r.m_chunks.drop (i + 1 + k + 1) := by
        have e : (r.m_chunks.drop (i + 1)).drop k = r.m_chunks.drop (i + 1 + k) := by
          rw [List.drop_drop]
        have hlt : i + 1 + k < r.m_chunks.length := by
          rcases Nat.lt_or_ge (i + 1 + k) r.m_chunks.length with hx | hx
          · exact hx
          · rw [List.getElem?_eq_none hx] at hk1
            cases hk1
        have hget : r.m_chunks[i + 1 + k] = c2 := by
          rw [List.getElem?_eq_getElem hlt] at hk1
          exact Option.some.inj hk1
        rw [e, List.drop_eq_getElem_cons hlt, hget]
      have htail : data_payloads r.m_io (r.m_chunks.drop (i + 1))
          = chunk_payload r.m_io c2 ++ data_payloads r.m_io (r.m_chunks.drop (i + 1 + k + 1)) := by
        rw [← List.take_append_drop k (r.m_chunks.drop (i + 1)), data_payloads_append, hskip,
          hdrop, data_payloads_cons]
        simp [hat1.2.2.1, hat1.2.2.2.1]
      refine ⟨n + 1, r2, ev ++ ev2, ?_, ?_, hfin, by rw [htot2, htot]⟩
      · subst hst
        simp only [read_loop, hread, hloop]
      · rw [packets_of_append, List.flatten_append, hpk, hev, hev1, hblock, hpos1, hrem1,
          hsrc.2.1, hchunks, data_payloads_congr r.m_io r1.m_io hsrc.2.1, htail]
        have hall : r.m_remaining_bytes_in_current_data_chunk.toNat = read_count r (.pcm d) := by
          omega
        rw [hall]
        simp [chunk_payload]

theorem sample_500_300_facts :
    wav_reader_c.new lib_none sample_500_300 = .ok (opened lib_none sample_500_300)
      ∧ (opened lib_none sample_500_300).variant = some .pcm
      ∧ (opened lib_none sample_500_300).block_size = 32000
      ∧ payloads_present (opened lib_none sample_500_300)
      ∧ payload_lengths (opened lib_none sample_500_300).m_chunks = 800 := by
  have hthrown : thrown (wav_reader_c.new lib_none sample_500_300) = none :=
    ((open_outcome lib_none sample_500_300 (fun _ => rfl) (by decide)).2
      (by decide) (by decide)).2.2.2 (by decide) (by decide) (by decide)
  have hopen := opened_of_thrown_none _ _ hthrown
  refine ⟨hopen, ?_⟩
  generalize opened lib_none sample_500_300 = r0 at hopen ⊢
  obtain ⟨hchunks, hcommon⟩ := open_header _ _ _ hopen
  have hsc : (scanned_at_open sample_500_300).m_chunks
      = [{ pos := 12, id := str_fmt, len := 16 }, { pos := 36, id := str_data, len := 500 },
          { pos := 544, id := str_data, len := 300 }] := by
    decide
  have hfp : (format_chunk_pos (scanned_at_open sample_500_300)).toNat + 8 = 20 := by decide
  have hcm : mem_slice (fun i => sample_500_300.data i % 256) 20 16
      = [1, 0, 2, 0] ++ le32 8000 ++ le32 32000 ++ [4, 0, 16, 0] := by decide
  rw [hsc] at hchunks
  rw [hfp, hcm] at hcommon
  have hdem := open_lib_none _ _ hopen
  have hsize : r0.m_io.size = 852 := (open_invariant lib_none sample_500_300 r0 hopen).2.2.1.1
  have hbps : (pcm_demuxer.new lib_none r0.m_wheader
      (decide (0x0003 = get_uint16_le r0.m_wheader.wFormatTag))).m_bps = 32000 := by
    simp only [pcm_demuxer.new, wave_header.wChannels, wave_header.wBitsPerSample,
      wave_header.dwSamplesPerSec, hcommon]
    decide
  refine ⟨?_, ?_, ?_, ?_⟩
  · simp only [wav_reader_c.variant, hdem, Option.map_some', wav_demuxer.kind]
  · simp only [wav_reader_c.block_size, hdem, Option.map_some', Option.getD_some,
      wav_demuxer.get_preferred_input_size, hbps]
  · unfold payloads_present
    rw [hchunks, hsize]
    decide
  · rw [hchunks]
    decide

/-- C12, as the claim states it, fails: the format chunk of `sample_no_rate` gives a
sample rate of 0, so that the block size of the PCM variant is 0. The data chunk of 8
bytes is fully present, yet the first read step asks for 0 bytes, gets none and ends
the loop: no packet is emitted and the processed byte count stays 0. -/
theorem pcm_without_block_size_emits_nothing :
    wav_reader_c.new lib_none sample_no_rate = .ok (opened lib_none sample_no_rate)
      ∧ (opened lib_none sample_no_rate).variant = some .pcm
      ∧ (opened lib_none sample_no_rate).block_size = 0
      ∧ payloads_present (opened lib_none sample_no_rate)
      ∧ data_payloads sample_no_rate (opened lib_none sample_no_rate).m_chunks
          = [1, 2, 3, 4, 5, 6, 7, 8]
      ∧ payload_lengths (opened lib_none sample_no_rate).m_chunks = 8
      ∧ (read_loop lib_none 1 (opened lib_none sample_no_rate)).map
          (fun x => (x.2, x.1.m_bytes_processed)) = some ([.flush], 0)
      ∧ (read_loop lib_none 9 (opened lib_none sample_no_rate)).map
          (fun x => ((packets_of x.2).flatten, x.1.m_bytes_processed)) = some ([], 0) :=
  ⟨rfl, by decide, by decide, by decide, by decide, by decide, by decide, by decide⟩

/-- C12, amended: for the PCM variant with a block size that is not zero, on a source
without I/O faults and a container in which the payload of every data chunk is fully
present in the file, the read loop comes to an end, the concatenation of all packets
emitted over the whole loop equals the concatenation, in index order, of the payloads
of all data chunks of non-zero length, and the final processed byte count equals the
sum of the lengths of those chunks (800 for two data chunks of 500 and 300 bytes). -/
theorem pcm_read_loop_emits_payloads (lib : codec_lib) (io : mm_io) (r0 : wav_reader_c)
    (hf : io.no_fault) (hopen : wav_reader_c.new lib io = .ok r0)
    (hpcm : r0.variant = some .pcm) (hbps : 0 < r0.block_size)
    (hpres : payloads_present r0) :
    ∃ n, ∀ fuel, n ≤ fuel →
      ∃ (r1 : wav_reader_c) (ev : List reader_event),
        read_loop lib fuel r0 = some (r1, ev)
          ∧ (packets_of ev).flatten = data_payloads io r0.m_chunks
          ∧ r1.m_bytes_processed = payload_lengths r0.m_chunks := by
  obtain ⟨hic, hb, hsrc, i, c, hat, hpr, hrem, hproc, hpos, hfirst⟩ :=
    open_invariant lib io r0 hopen
  have hf0 : r0.m_io.no_fault := by
    intro k
    rw [hsrc.2.2.1]
    exact hf k
  rcases hd : r0.m_demuxer with _ | dm
  · simp [wav_reader_c.variant, hd] at hpcm
  cases dm with
  | ac3acm d => simp [wav_reader_c.variant, hd, wav_demuxer.kind] at hpcm
  | ac3wav d => simp [wav_reader_c.variant, hd, wav_demuxer.kind] at hpcm
  | dts d => simp [wav_reader_c.variant, hd, wav_demuxer.kind] at hpcm
  | pcm d =>
    have hbps1 : 0 < d.m_bps := by
      simpa [wav_reader_c.block_size, hd, wav_demuxer.get_preferred_input_size] using hbps
    obtain ⟨n, r1, ev, hloop, hpk, hfin, htot⟩ := read_loop_pcm lib
      (r0.m_bytes_in_data_chunks - r0.m_bytes_processed).toNat r0 i c d hic hb hat hpr hf0 hpres
      hd hbps1 (by omega)
    refine ⟨n, fun fuel hfuel => ⟨r1, ev, read_loop_more_fuel lib n fuel r0 _ hfuel hloop, ?_, ?_⟩⟩
    · have hc := hat.2.1
      have hlt : i < r0.m_chunks.length := by
        rcases Nat.lt_or_ge i r0.m_chunks.length with hx | hx
        · exact hx
        · rw [List.getElem?_eq_none hx] at hc
          cases hc
      have hget : r0.m_chunks[i] = c := by
        rw [List.getElem?_eq_getElem hlt] at hc
        exact Option.some.inj hc
      have hskip : data_payloads r0.m_io (r0.m_chunks.take i) = [] := by
        have hnil : (r0.m_chunks.take i).filter
            (fun x => decide (tag_is_data x.id ∧ x.len ≠ 0)) = [] := by
          rw [List.filter_eq_nil_iff]
          intro x hx
          obtain ⟨j, hj, hxj⟩ := List.getElem_of_mem hx
          have hji : j < i := by
            simp only [List.length_take] at hj
            omega
          have hx2 : r0.m_chunks[j]? = some x := by
            rw [List.getElem_take] at hxj
            rw [← hxj]
            exact List.getElem?_eq_getElem _
          simpa using hfirst j x hji hx2
        simp only [data_payloads, hnil, List.map_nil, List.flatten_nil]
      have hsplit : data_payloads r0.m_io r0.m_chunks
          = chunk_payload r0.m_io c ++ data_payloads r0.m_io (r0.m_chunks.drop (i + 1)) := by
        conv_lhs => rw [← List.take_append_drop i r0.m_chunks]
        rw [data_payloads_append, hskip, List.drop_eq_getElem_cons hlt, hget, data_payloads_cons]
        simp [hat.2.2.1, hat.2.2.2.1]
      have hcp : chunk_payload r0.m_io c
          = mem_slice (fun k => r0.m_io.data k % 256) r0.m_io.pos
              r0.m_remaining_bytes_in_current_data_chunk.toNat := by
        have h1 : (c.pos + 8).toNat = r0.m_io.pos := by omega
        simp only [chunk_payload, h1, hrem]
      rw [hpk, ← data_payloads_congr io r0.m_io hsrc.2.1 r0.m_chunks, hsplit, hcp]
    · rw [hfin.2.2, htot, hic.1, payload_lengths_eq]

theorem pcm_read_loop_emits_payloads_witness :
    (∃ n, ∀ fuel, n ≤ fuel →
      ∃ (r1 : wav_reader_c) (ev : List reader_event),
        read_loop lib_none fuel (opened lib_none sample_500_300) = some (r1, ev)
          ∧ (packets_of ev).flatten
              = data_payloads sample_500_300 (opened lib_none sample_500_300).m_chunks
          ∧ r1.m_bytes_processed = payload_lengths (opened lib_none sample_500_300).m_chunks)
      ∧ payload_lengths (opened lib_none sample_500_300).m_chunks = 800 :=
  ⟨pcm_read_loop_emits_payloads lib_none sample_500_300 (opened lib_none sample_500_300)
      (fun _ => rfl) sample_500_300_facts.1 sample_500_300_facts.2.1
      (by rw [sample_500_300_facts.2.2.1]; decide) sample_500_300_facts.2.2.2.1,
    sample_500_300_facts.2.2.2.2⟩

/-! ## The wrapped AC3 block -/

theorem ac3wav_decode_buffer_bufs (lib : codec_lib) (d : ac3_demuxer) (len : Int) :
    (wav_ac3wav_demuxer_c.decode_buffer lib d len).2.m_swap_bytes = d.m_swap_bytes
      ∧ (wav_ac3wav_demuxer_c.decode_buffer lib d len).2.m_cur_buf
          = (if 8 ≤ len ∧ d.m_swap_bytes = true then d.m_cur_buf ^^^ 1 else d.m_cur_buf)
      ∧ (wav_ac3wav_demuxer_c.decode_buffer lib d len).2.m_buf
          = (if 8 ≤ len ∧ d.m_swap_bytes = true then
              set_buf d.m_buf (d.m_cur_buf ^^^ 1)
                (swab (d.m_buf d.m_cur_buf) 8
                  (memcpy (d.m_buf (d.m_cur_buf ^^^ 1)) (d.m_buf d.m_cur_buf) 8) 8 (len - 8))
             else d.m_buf) := by
  unfold wav_ac3wav_demuxer_c.decode_buffer
  by_cases h8 : len < 8
  · have h8b : ¬ (8 ≤ len) := by omega
    simp [h8, h8b]
  · have h8b : 8 ≤ len := by omega
    cases hs : d.m_swap_bytes
    · simp only [h8, if_false, Bool.false_eq_true, h8b, and_false]
      split_ifs <;> first | exact ⟨rfl, rfl, rfl⟩ | exact ⟨hs, rfl, rfl⟩
    · simp only [h8, if_false, if_true, h8b, and_self]
      split_ifs <;> exact ⟨rfl, rfl, rfl⟩

theorem ac3wav_base_eq (lib : codec_lib) (d : ac3_demuxer) (len : Int) :
    wav_ac3wav_demuxer_c.base lib d len
      = (if 8 ≤ len ∧ d.m_swap_bytes = true then
          swab (d.m_buf d.m_cur_buf) 8
            (memcpy (d.m_buf (d.m_cur_buf ^^^ 1)) (d.m_buf d.m_cur_buf) 8) 8 (len - 8)
         else d.m_buf d.m_cur_buf) := by
  obtain ⟨_, hcur, hbuf⟩ := ac3wav_decode_buffer_bufs lib d len
  unfold wav_ac3wav_demuxer_c.base
  rw [hcur, hbuf]
  split_ifs
  · simp [set_buf]
  · rfl

theorem ac3wav_decode_buffer_value (lib : codec_lib) (d : ac3_demuxer) (len : Int) :
    ((8 ≤ len
        ∧ get_uint16_le (mem_slice (wav_ac3wav_demuxer_c.base lib d len) 0 2) = AC3WAV_SYNC_WORD1
        ∧ get_uint16_le (mem_slice (wav_ac3wav_demuxer_c.base lib d len) 2 2) = AC3WAV_SYNC_WORD2
        ∧ wav_ac3wav_demuxer_c.base lib d len 4 = 0x01
        ∧ (declared_payload (wav_ac3wav_demuxer_c.base lib d len) : Int) + 8 ≤ len
        ∧ frame_at_start lib d.m_ac3header (wav_ac3wav_demuxer_c.base lib d len)) →
      (wav_ac3wav_demuxer_c.decode_buffer lib d len).1
        = (declared_payload (wav_ac3wav_demuxer_c.base lib d len) : Int))
    ∧ (¬ (8 ≤ len
        ∧ get_uint16_le (mem_slice (wav_ac3wav_demuxer_c.base lib d len) 0 2) = AC3WAV_SYNC_WORD1
        ∧ get_uint16_le (mem_slice (wav_ac3wav_demuxer_c.base lib d len) 2 2) = AC3WAV_SYNC_WORD2
        ∧ wav_ac3wav_demuxer_c.base lib d len 4 = 0x01
        ∧ (declared_payload (wav_ac3wav_demuxer_c.base lib d len) : Int) + 8 ≤ len
        ∧ frame_at_start lib d.m_ac3header (wav_ac3wav_demuxer_c.base lib d len)) →
      (wav_ac3wav_demuxer_c.decode_buffer lib d len).1 = -1) := by
  rw [ac3wav_base_eq]
  unfold wav_ac3wav_demuxer_c.decode_buffer
  by_cases h8 : len < 8
  · have h8b : ¬ (8 ≤ len) := by omega
    simp [h8, h8b]
  have h8b : 8 ≤ len := by omega
  have key : ∀ (B : Nat → Nat) (d1 d2 : ac3_demuxer) (L : Nat),
      ((get_uint16_le (mem_slice B 0 2) = AC3WAV_SYNC_WORD1
          ∧ get_uint16_le (mem_slice B 2 2) = AC3WAV_SYNC_WORD2 ∧ B 4 = 1
          ∧ (L : Int) + 8 ≤ len
          ∧ (lib.find_ac3_header (mem_slice B 8 L) (L : Int) d.m_ac3header true).1 = 0) →
        (if get_uint16_le (mem_slice B 0 2) ≠ AC3WAV_SYNC_WORD1
              ∨ get_uint16_le (mem_slice B 2 2) ≠ AC3WAV_SYNC_WORD2 ∨ 1 ≠ B 4 then ((-1 : Int), d1)
         else if (L : Int) + 8 > len then (-1, d1)
         else (if 0 = (lib.find_ac3_header (mem_slice B 8 L) (L : Int) d.m_ac3header true).1
               then (L : Int) else -1, d2)).1 = (L : Int))
      ∧ (¬ (get_uint16_le (mem_slice B 0 2) = AC3WAV_SYNC_WORD1
          ∧ get_uint16_le (mem_slice B 2 2) = AC3WAV_SYNC_WORD2 ∧ B 4 = 1
          ∧ (L : Int) + 8 ≤ len
          ∧ (lib.find_ac3_header (mem_slice B 8 L) (L : Int) d.m_ac3header true).1 = 0) →
        (if get_uint16_le (mem_slice B 0 2) ≠ AC3WAV_SYNC_WORD1
              ∨ get_uint16_le (mem_slice B 2 2) ≠ AC3WAV_SYNC_WORD2 ∨ 1 ≠ B 4 then ((-1 : Int), d1)
         else if (L : Int) + 8 > len then (-1, d1)
         else (if 0 = (lib.find_ac3_header (mem_slice B 8 L) (L : Int) d.m_ac3header true).1
               then (L : Int) else -1, d2)).1 = -1) := by
    intro B d1 d2 L
    constructor
    · rintro ⟨c1, c2, c4, c5, c6⟩
      have c5b : ¬ ((L : Int) + 8 > len) := by omega
      simp [c1, c2, c4, c5b, c6]
    · intro hn
      by_cases c1 : get_uint16_le (mem_slice B 0 2) = AC3WAV_SYNC_WORD1
      swap
      · simp [c1]
      by_cases c2 : get_uint16_le (mem_slice B 2 2) = AC3WAV_SYNC_WORD2
      swap
      · simp [c1, c2]
      by_cases c4 : B 4 = 1
      swap
      · have c4b : ¬ (1 = B 4) := fun e => c4 e.symm
        simp [c1, c2, c4b]
      by_cases c5 : (L : Int) + 8 ≤ len
      swap
      · have c5b : (L : Int) + 8 > len := by omega
        simp [c1, c2, c4, c5b]
      have c5b : ¬ ((L : Int) + 8 > len) := by omega
      have c6 : ¬ ((lib.find_ac3_header (mem_slice B 8 L) (L : Int) d.m_ac3header true).1 = 0) :=
        fun e => hn ⟨c1, c2, c4, c5, e⟩
      have c6b : ¬ (0 = (lib.find_ac3_header (mem_slice B 8 L) (L : Int) d.m_ac3header true).1) :=
        fun e => c6 e.symm
      simp [c1, c2, c4, c5b, c6b]
  cases hs : d.m_swap_bytes
  · simp only [h8, if_false, Bool.false_eq_true, h8b, and_false, true_and, declared_payload,
      frame_at_start, Int.toNat_ofNat]
    exact key _ _ _ _
  · simp only [h8, if_false, if_true, h8b, and_self, true_and, declared_payload,
      frame_at_start, set_buf, Int.toNat_ofNat]
    exact key _ _ _ _

theorem ac3wav_base_head (lib : codec_lib) (d : ac3_demuxer) (len : Int) (j : Nat) (hj : j < 8) :
    wav_ac3wav_demuxer_c.base lib d len j = d.m_buf d.m_cur_buf j := by
  rw [ac3wav_base_eq]
  split_ifs
  · have h1 : ¬ (8 ≤ j) := by omega
    simp [swab, memcpy, h1, hj]
  · rfl

theorem ac3wav_base_payload (lib : codec_lib) (d : ac3_demuxer) (len : Int) (j : Nat)
    (h8 : 8 ≤ len) (hs : d.m_swap_bytes = true) (hj : j < 2 * ((len - 8).toNat / 2)) :
    wav_ac3wav_demuxer_c.base lib d len (8 + j) = d.m_buf d.m_cur_buf (8 + pair_index j) := by
  rw [ac3wav_base_eq]
  simp [h8, hs, swab, hj]

theorem ac3wav_decode_buffer_iff (lib : codec_lib) (d : ac3_demuxer) (len : Int) :
    (0 < (wav_ac3wav_demuxer_c.decode_buffer lib d len).1
        ↔ head_valid (wav_ac3wav_demuxer_c.base lib d len) len
            ∧ frame_at_start lib d.m_ac3header (wav_ac3wav_demuxer_c.base lib d len))
      ∧ (0 < (wav_ac3wav_demuxer_c.decode_buffer lib d len).1 →
          (wav_ac3wav_demuxer_c.decode_buffer lib d len).1
            = (declared_payload (wav_ac3wav_demuxer_c.base lib d len) : Int))
      ∧ (¬ 0 < (wav_ac3wav_demuxer_c.decode_buffer lib d len).1 →
          (wav_ac3wav_demuxer_c.decode_buffer lib d len).1 = -1
            ∨ (wav_ac3wav_demuxer_c.decode_buffer lib d len).1 = 0) := by
  obtain ⟨hyes, hno⟩ := ac3wav_decode_buffer_value lib d len
  by_cases hc : 8 ≤ len
      ∧ get_uint16_le (mem_slice (wav_ac3wav_demuxer_c.base lib d len) 0 2) = AC3WAV_SYNC_WORD1
      ∧ get_uint16_le (mem_slice (wav_ac3wav_demuxer_c.base lib d len) 2 2) = AC3WAV_SYNC_WORD2
      ∧ wav_ac3wav_demuxer_c.base lib d len 4 = 0x01
      ∧ (declared_payload (wav_ac3wav_demuxer_c.base lib d len) : Int) + 8 ≤ len
      ∧ frame_at_start lib d.m_ac3header (wav_ac3wav_demuxer_c.base lib d len)
  · have hv := hyes hc
    obtain ⟨c0, c1, c2, c4, c5, c6⟩ := hc
    rw [hv]
    refine ⟨⟨fun hp => ⟨⟨c0, c1, c2, c4, by omega, c5⟩, c6⟩, fun hh => ?_⟩, fun _ => rfl,
      fun hp => Or.inr (by omega)⟩
    have := hh.1.2.2.2.2.1
    omega
  · have hv := hno hc
    rw [hv]
    refine ⟨⟨fun hp => by omega, fun hh => ?_⟩, fun hp => by omega, fun _ => Or.inl rfl⟩
    obtain ⟨⟨c0, c1, c2, c4, _, c5⟩, c6⟩ := hh
    exact absurd ⟨c0, c1, c2, c4, c5, c6⟩ hc

/-- C21: the `decode_buffer` of the wrapped variant on a block of n bytes returns a
positive payload length L if and only if n is at least 8, the little-endian 16 bit
words at offsets 0 and 2 of the examined buffer are 0xf872 and 0x4e1f, the byte at
offset 4 is 0x01, L, the word at offset 6 divided by 8, is positive with L + 8 at most
n, and the search for an AC3 frame header over the L bytes from offset 8 on finds a
header at position 0; in every other case it returns -1 or 0. The function is total:
no case raises. The examined buffer is the active one behind the optional swap: the
block itself when no swap is locked in, and otherwise the block with its 8 byte head
copied and the bytes behind it exchanged in pairs. -/
theorem wrapped_decode_buffer_accepts_iff (lib : codec_lib) (d : ac3_demuxer) (len : Int) :
    (0 < (wav_ac3wav_demuxer_c.decode_buffer lib d len).1
        ↔ head_valid (wav_ac3wav_demuxer_c.base lib d len) len
            ∧ frame_at_start lib d.m_ac3header (wav_ac3wav_demuxer_c.base lib d len))
      ∧ (0 < (wav_ac3wav_demuxer_c.decode_buffer lib d len).1 →
          (wav_ac3wav_demuxer_c.decode_buffer lib d len).1
            = (declared_payload (wav_ac3wav_demuxer_c.base lib d len) : Int))
      ∧ (¬ 0 < (wav_ac3wav_demuxer_c.decode_buffer lib d len).1 →
          (wav_ac3wav_demuxer_c.decode_buffer lib d len).1 = -1
            ∨ (wav_ac3wav_demuxer_c.decode_buffer lib d len).1 = 0)
      ∧ (d.m_swap_bytes = false →
          wav_ac3wav_demuxer_c.base lib d len = d.m_buf d.m_cur_buf)
      ∧ (∀ j, j < 8 → wav_ac3wav_demuxer_c.base lib d len j = d.m_buf d.m_cur_buf j)
      ∧ (8 ≤ len → d.m_swap_bytes = true → ∀ j, j < 2 * ((len - 8).toNat / 2) →
          wav_ac3wav_demuxer_c.base lib d len (8 + j)
            = d.m_buf d.m_cur_buf (8 + pair_index j)) := by
  obtain ⟨h1, h2, h3⟩ := ac3wav_decode_buffer_iff lib d len
  refine ⟨h1, h2, h3, ?_, fun j hj => ac3wav_base_head lib d len j hj,
    fun h8 hs j hj => ac3wav_base_payload lib d len j h8 hs hj⟩
  intro hs
  rw [ac3wav_base_eq]
  simp [hs]

theorem wrapped_decode_buffer_accepts_iff_witness :
    (wav_ac3wav_demuxer_c.decode_buffer lib_ac3_only
        ((ac3_demuxer.new lib_ac3_only).holding wrapped_block) 16).1 = 8
      ∧ wav_ac3wav_demuxer_c.base lib_ac3_only
          ((ac3_demuxer.new lib_ac3_only).holding wrapped_block) 16
        = ((ac3_demuxer.new lib_ac3_only).holding wrapped_block).m_buf
            ((ac3_demuxer.new lib_ac3_only).holding wrapped_block).m_cur_buf :=
  ⟨by decide,
    (wrapped_decode_buffer_accepts_iff lib_ac3_only
      ((ac3_demuxer.new lib_ac3_only).holding wrapped_block) 16).2.2.2.1 rfl⟩

/-- C22: for the wrapped variant, `process(n)` with n above 0 (and within the range of
`int`, the type of the parameter of `decode_buffer`) emits exactly one packet when the
block validates and none otherwise; the packet consists of exactly bit-length / 8 bytes
taken from offset 8 of the active buffer, and its range from 8 to 8 + bit-length / 8
lies within the n bytes of the block. -/
theorem wrapped_process_emits (lib : codec_lib) (d : ac3_demuxer) (n : Int)
    (hn : 0 < n) (hfit : n < 2147483648) :
    (head_valid (wav_ac3wav_demuxer_c.base lib d n) n
        ∧ frame_at_start lib d.m_ac3header (wav_ac3wav_demuxer_c.base lib d n) →
      (wav_ac3wav_demuxer_c.process lib d n).2
          = [mem_slice (wav_ac3wav_demuxer_c.base lib d n) 8
              (declared_payload (wav_ac3wav_demuxer_c.base lib d n))]
        ∧ (8 : Int) + (declared_payload (wav_ac3wav_demuxer_c.base lib d n) : Int) ≤ n
        ∧ declared_payload (wav_ac3wav_demuxer_c.base lib d n)
            = get_uint16_le (mem_slice (wav_ac3wav_demuxer_c.base lib d n) 6 2) / 8)
      ∧ (¬ (head_valid (wav_ac3wav_demuxer_c.base lib d n) n
            ∧ frame_at_start lib d.m_ac3header (wav_ac3wav_demuxer_c.base lib d n)) →
          (wav_ac3wav_demuxer_c.process lib d n).2 = [])
      ∧ (wav_ac3wav_demuxer_c.process lib d n).1.m_buf
            (wav_ac3wav_demuxer_c.process lib d n).1.m_cur_buf
          = wav_ac3wav_demuxer_c.base lib d n := by
  obtain ⟨h1, h2, _⟩ := ac3wav_decode_buffer_iff lib d n
  have hpos : ¬ ((0 : Int) ≥ n) := by omega
  refine ⟨fun hv => ?_, fun hv => ?_, ?_⟩
  · have hp := h1.2 hv
    have hval := h2 hp
    refine ⟨?_, by have := hv.1.2.2.2.2.2; omega, rfl⟩
    simp only [wav_ac3wav_demuxer_c.process, hpos, if_false, hp, if_true]
    rw [hval, Int.toNat_ofNat]
    rfl
  · have hp : ¬ 0 < (wav_ac3wav_demuxer_c.decode_buffer lib d n).1 := fun hp => hv (h1.1 hp)
    simp only [wav_ac3wav_demuxer_c.process, hpos, if_false, hp]
  · simp only [wav_ac3wav_demuxer_c.process, hpos, if_false]
    split_ifs <;> rfl

theorem wrapped_process_emits_witness :
    (wav_ac3wav_demuxer_c.process lib_ac3_only
        ((ac3_demuxer.new lib_ac3_only).holding wrapped_block) 16).2
      = [mem_slice (wav_ac3wav_demuxer_c.base lib_ac3_only
            ((ac3_demuxer.new lib_ac3_only).holding wrapped_block) 16) 8
          (declared_payload (wav_ac3wav_demuxer_c.base lib_ac3_only
            ((ac3_demuxer.new lib_ac3_only).holding wrapped_block) 16))]
      ∧ (wav_ac3wav_demuxer_c.process lib_ac3_only
          ((ac3_demuxer.new lib_ac3_only).holding wrapped_block) 16).2
        = [[0x0b, 0x77, 1, 2, 3, 4, 5, 6]] :=
  ⟨((wrapped_process_emits lib_ac3_only ((ac3_demuxer.new lib_ac3_only).holding wrapped_block)
      16 (by decide) (by decide)).1 (by decide)).1, by decide⟩

theorem mem_slice_congr (a b : Nat → Nat) (off n : Nat)
    (h : ∀ j, off ≤ j → j < off + n → a j = b j) : mem_slice a off n = mem_slice b off n := by
  unfold mem_slice
  apply List.map_congr_left
  intro i hi
  exact h (off + i) (by omega) (by have := List.mem_range.1 hi; omega)

/-- The checks on the head look at the first 8 bytes only. -/
theorem head_valid_congr (a b : Nat → Nat) (len : Int) (h : ∀ j, j < 8 → a j = b j) :
    head_valid a len ↔ head_valid b len := by
  have e0 := mem_slice_congr a b 0 2 (fun j _ hj => h j (by omega))
  have e2 := mem_slice_congr a b 2 2 (fun j _ hj => h j (by omega))
  have e6 := mem_slice_congr a b 6 2 (fun j _ hj => h j (by omega))
  simp only [head_valid, declared_payload, e0, e2, e6, h 4 (by omega)]

/-- On a block just read, the checks on the head are those on the raw bytes. -/
theorem head_valid_stored (m : Nat → Nat) (bs : List Nat) :
    head_valid (mem_write m 0 bs) (bs.length : Int)
      ↔ wrapped_head bs ∧ 0 < get_uint16_le ((bs.drop 6).take 2) / 8 := by
  by_cases h8 : 8 ≤ bs.length
  · have e0 := mem_slice_write m bs 0 2 (by omega)
    have e2 := mem_slice_write m bs 2 2 (by omega)
    have e6 := mem_slice_write m bs 6 2 (by omega)
    have e4 : mem_write m 0 bs 4 = bs.getD 4 0 := by
      have : 4 < bs.length := by omega
      simp [mem_write, this]
    simp only [List.drop_zero] at e0
    simp only [head_valid, wrapped_head, declared_payload, e0, e2, e6, e4]
    constructor
    · rintro ⟨_, a, b, c, d, e⟩
      exact ⟨⟨h8, a, b, c, by omega⟩, d⟩
    · rintro ⟨⟨_, a, b, c, e⟩, d⟩
      exact ⟨by omega, a, b, c, d, by omega⟩
  · constructor
    · intro h
      have := h.1
      omega
    · intro h
      exact absurd h.1.1 h8

theorem holding_active (d : ac3_demuxer) (bs : List Nat) :
    (d.holding bs).m_buf (d.holding bs).m_cur_buf = mem_write (d.m_buf d.m_cur_buf) 0 bs := by
  simp [ac3_demuxer.holding, set_buf]

theorem ac3wav_probe_buffer_eq (lib : codec_lib) (d : ac3_demuxer) (bs : List Nat) :
    wav_ac3wav_demuxer_c.probe_buffer lib d bs
      = if (wav_ac3wav_demuxer_c.decode_buffer lib (d.holding bs) (bs.length : Int)).1 > 0 then
          (true, (wav_ac3wav_demuxer_c.decode_buffer lib (d.holding bs) (bs.length : Int)).2)
        else
          (decide ((wav_ac3wav_demuxer_c.decode_buffer lib
              { (wav_ac3wav_demuxer_c.decode_buffer lib (d.holding bs) (bs.length : Int)).2 with
                m_swap_bytes := true } (bs.length : Int)).1 > 0),
            (wav_ac3wav_demuxer_c.decode_buffer lib
              { (wav_ac3wav_demuxer_c.decode_buffer lib (d.holding bs) (bs.length : Int)).2 with
                m_swap_bytes := true } (bs.length : Int)).2) := rfl

/-- The active buffer behind the probe, as a buffer examined by `decode_buffer`. -/
theorem ac3wav_probe_buffer_active (lib : codec_lib) (d : ac3_demuxer) (bs : List Nat) :
    (wav_ac3wav_demuxer_c.probe_buffer lib d bs).2.m_buf
        (wav_ac3wav_demuxer_c.probe_buffer lib d bs).2.m_cur_buf
      = if (wav_ac3wav_demuxer_c.decode_buffer lib (d.holding bs) (bs.length : Int)).1 > 0 then
          wav_ac3wav_demuxer_c.base lib (d.holding bs) (bs.length : Int)
        else
          wav_ac3wav_demuxer_c.base lib
            { (wav_ac3wav_demuxer_c.decode_buffer lib (d.holding bs) (bs.length : Int)).2 with
              m_swap_bytes := true } (bs.length : Int) := by
  rw [ac3wav_probe_buffer_eq]
  split_ifs <;> rfl

/-- A probe that accepts has seen a valid head in the raw bytes. -/
theorem ac3wav_probe_buffer_head (lib : codec_lib) (d : ac3_demuxer) (bs : List Nat)
    (h : (wav_ac3wav_demuxer_c.probe_buffer lib d bs).1 = true) :
    wrapped_head bs ∧ 0 < get_uint16_le ((bs.drop 6).take 2) / 8 := by
  rw [← head_valid_stored (d.m_buf d.m_cur_buf) bs, ← holding_active]
  rw [ac3wav_probe_buffer_eq] at h
  by_cases h1 : (wav_ac3wav_demuxer_c.decode_buffer lib (d.holding bs) (bs.length : Int)).1 > 0
  · have hv := ((ac3wav_decode_buffer_iff lib (d.holding bs) (bs.length : Int)).1.1 h1).1
    exact (head_valid_congr _ _ _ (fun j hj => ac3wav_base_head lib _ _ j hj)).1 hv
  · simp only [h1, if_false, decide_eq_true_eq] at h
    have hv := ((ac3wav_decode_buffer_iff lib _ (bs.length : Int)).1.1 h).1
    have hv1 := (head_valid_congr _ _ _ (fun j hj => ac3wav_base_head lib _ _ j hj)).1 hv
    exact (head_valid_congr _ _ _ (fun j hj => ac3wav_base_head lib _ _ j hj)).1 hv1

/-- C27: the swap retry of the wrapped variant never alters the 8 byte head: behind
the probe the first 8 bytes of the active buffer are those read, and the retry has
exchanged in pairs only the bytes from offset 8 on. For every input whose raw head
fails the sync word, type byte or length check the probe returns false: a block that
the retry rescues has a valid raw head and a raw payload in which no frame header was
found at the start. -/
theorem wrapped_retry_keeps_head (lib : codec_lib) (d : ac3_demuxer) (bs : List Nat) :
    (∀ j, j < 8 →
        (wav_ac3wav_demuxer_c.probe_buffer lib d bs).2.m_buf
            (wav_ac3wav_demuxer_c.probe_buffer lib d bs).2.m_cur_buf j
          = (d.holding bs).m_buf (d.holding bs).m_cur_buf j)
      ∧ (d.m_swap_bytes = false →
          ¬ 0 < (wav_ac3wav_demuxer_c.decode_buffer lib (d.holding bs) (bs.length : Int)).1 →
          ∀ j, j < 2 * ((bs.length - 8) / 2) →
            (wav_ac3wav_demuxer_c.probe_buffer lib d bs).2.m_buf
                (wav_ac3wav_demuxer_c.probe_buffer lib d bs).2.m_cur_buf (8 + j)
              = (d.holding bs).m_buf (d.holding bs).m_cur_buf (8 + pair_index j))
      ∧ (¬ wrapped_head bs → (wav_ac3wav_demuxer_c.probe_buffer lib d bs).1 = false)
      ∧ (d.m_swap_bytes = false → (wav_ac3wav_demuxer_c.probe_buffer lib d bs).1 = true →
          ¬ 0 < (wav_ac3wav_demuxer_c.decode_buffer lib (d.holding bs) (bs.length : Int)).1 →
          wrapped_head bs
            ∧ ¬ frame_at_start lib d.m_ac3header ((d.holding bs).m_buf (d.holding bs).m_cur_buf))
      ∧ (∀ io, (wav_ac3wav_demuxer_c.probe lib d io).1 = some true →
          ∃ bs1 io1, probe_read io AC3WAV_BLOCK_SIZE = (some bs1, io1) ∧ wrapped_head bs1) := by
  have hbase0 : d.m_swap_bytes = false →
      wav_ac3wav_demuxer_c.base lib (d.holding bs) (bs.length : Int)
        = (d.holding bs).m_buf (d.holding bs).m_cur_buf := by
    intro hs
    rw [ac3wav_base_eq]
    have : (d.holding bs).m_swap_bytes = false := hs
    simp [this]
  have hfirst_active : (wav_ac3wav_demuxer_c.decode_buffer lib (d.holding bs) (bs.length : Int)).2.m_buf
      (wav_ac3wav_demuxer_c.decode_buffer lib (d.holding bs) (bs.length : Int)).2.m_cur_buf
        = wav_ac3wav_demuxer_c.base lib (d.holding bs) (bs.length : Int) := rfl
  refine ⟨?_, ?_, ?_, ?_, ?_⟩
  · intro j hj
    rw [ac3wav_probe_buffer_active]
    split_ifs
    · exact ac3wav_base_head lib _ _ j hj
    · rw [ac3wav_base_head lib _ _ j hj]
      exact ac3wav_base_head lib (d.holding bs) _ j hj
  · intro hs h1 j hj
    have h1' : ¬ (wav_ac3wav_demuxer_c.decode_buffer lib (d.holding bs) (bs.length : Int)).1 > 0 := h1
    rw [ac3wav_probe_buffer_active, if_neg h1']
    rw [ac3wav_base_payload lib _ (bs.length : Int) j (by omega) rfl (by omega)]
    show wav_ac3wav_demuxer_c.base lib (d.holding bs) (bs.length : Int) (8 + pair_index j) = _
    rw [hbase0 hs]
  · intro hh
    cases hp : (wav_ac3wav_demuxer_c.probe_buffer lib d bs).1
    · rfl
    · exact absurd (ac3wav_probe_buffer_head lib d bs hp).1 hh
  · intro hs hp h1
    refine ⟨(ac3wav_probe_buffer_head lib d bs hp).1, fun hf => h1 ?_⟩
    have hv := (head_valid_stored (d.m_buf d.m_cur_buf) bs).2 (ac3wav_probe_buffer_head lib d bs hp)
    rw [← holding_active] at hv
    apply (ac3wav_decode_buffer_iff lib (d.holding bs) (bs.length : Int)).1.2
    rw [hbase0 hs]
    exact ⟨hv, hf⟩
  · intro io hio
    unfold wav_ac3wav_demuxer_c.probe at hio
    rcases hr : probe_read io AC3WAV_BLOCK_SIZE with ⟨_ | bs1, io1⟩
    · rw [hr] at hio
      exact absurd hio (by simp)
    · rw [hr] at hio
      simp only [Option.some.injEq] at hio
      exact ⟨bs1, io1, rfl, (ac3wav_probe_buffer_head lib d bs1 hio).1⟩

theorem wrapped_retry_keeps_head_witness :
    (wav_ac3wav_demuxer_c.probe_buffer lib_ac3_sync (ac3_demuxer.new lib_ac3_sync)
        wrapped_block_swapped).1 = true
      ∧ wrapped_head wrapped_block_swapped
      ∧ ¬ frame_at_start lib_ac3_sync (ac3_demuxer.new lib_ac3_sync).m_ac3header
          (((ac3_demuxer.new lib_ac3_sync).holding wrapped_block_swapped).m_buf
            ((ac3_demuxer.new lib_ac3_sync).holding wrapped_block_swapped).m_cur_buf) :=
  ⟨by decide,
    (wrapped_retry_keeps_head lib_ac3_sync (ac3_demuxer.new lib_ac3_sync)
      wrapped_block_swapped).2.2.2.1 rfl (by decide) (by decide)⟩

theorem ac3wav_decode_buffer_header (lib : codec_lib) (d : ac3_demuxer) (len : Int) :
    ((8 ≤ len
        ∧ get_uint16_le (mem_slice (wav_ac3wav_demuxer_c.base lib d len) 0 2) = AC3WAV_SYNC_WORD1
        ∧ get_uint16_le (mem_slice (wav_ac3wav_demuxer_c.base lib d len) 2 2) = AC3WAV_SYNC_WORD2
        ∧ wav_ac3wav_demuxer_c.base lib d len 4 = 0x01
        ∧ (declared_payload (wav_ac3wav_demuxer_c.base lib d len) : Int) + 8 ≤ len) →
      (wav_ac3wav_demuxer_c.decode_buffer lib d len).2.m_ac3header
        = (lib.find_ac3_header
            (mem_slice (wav_ac3wav_demuxer_c.base lib d len) 8
              (declared_payload (wav_ac3wav_demuxer_c.base lib d len)))
            (declared_payload (wav_ac3wav_demuxer_c.base lib d len) : Int) d.m_ac3header true).2)
    ∧ (¬ (8 ≤ len
        ∧ get_uint16_le (mem_slice (wav_ac3wav_demuxer_c.base lib d len) 0 2) = AC3WAV_SYNC_WORD1
        ∧ get_uint16_le (mem_slice (wav_ac3wav_demuxer_c.base lib d len) 2 2) = AC3WAV_SYNC_WORD2
        ∧ wav_ac3wav_demuxer_c.base lib d len 4 = 0x01
        ∧ (declared_payload (wav_ac3wav_demuxer_c.base lib d len) : Int) + 8 ≤ len) →
      (wav_ac3wav_demuxer_c.decode_buffer lib d len).2.m_ac3header = d.m_ac3header) := by
  rw [ac3wav_base_eq]
  unfold wav_ac3wav_demuxer_c.decode_buffer
  by_cases h8 : len < 8
  · have h8b : ¬ (8 ≤ len) := by omega
    simp [h8, h8b]
  have h8b : 8 ≤ len := by omega
  have key : ∀ (B : Nat → Nat) (d1 : ac3_demuxer) (L : Nat) (v : Int), d1.m_ac3header = d.m_ac3header →
      ((get_uint16_le (mem_slice B 0 2) = AC3WAV_SYNC_WORD1
          ∧ get_uint16_le (mem_slice B 2 2) = AC3WAV_SYNC_WORD2 ∧ B 4 = 1
          ∧ (L : Int) + 8 ≤ len) →
        (if get_uint16_le (mem_slice B 0 2) ≠ AC3WAV_SYNC_WORD1
              ∨ get_uint16_le (mem_slice B 2 2) ≠ AC3WAV_SYNC_WORD2 ∨ 1 ≠ B 4 then ((-1 : Int), d1)
         else if (L : Int) + 8 > len then (-1, d1)
         else (v, { d1 with m_ac3header :=
                (lib.find_ac3_header (mem_slice B 8 L) (L : Int) d.m_ac3header true).2 })).2.m_ac3header
          = (lib.find_ac3_header (mem_slice B 8 L) (L : Int) d.m_ac3header true).2)
      ∧ (¬ (get_uint16_le (mem_slice B 0 2) = AC3WAV_SYNC_WORD1
          ∧ get_uint16_le (mem_slice B 2 2) = AC3WAV_SYNC_WORD2 ∧ B 4 = 1
          ∧ (L : Int) + 8 ≤ len) →
        (if get_uint16_le (mem_slice B 0 2) ≠ AC3WAV_SYNC_WORD1
              ∨ get_uint16_le (mem_slice B 2 2) ≠ AC3WAV_SYNC_WORD2 ∨ 1 ≠ B 4 then ((-1 : Int), d1)
         else if (L : Int) + 8 > len then (-1, d1)
         else (v, { d1 with m_ac3header :=
                (lib.find_ac3_header (mem_slice B 8 L) (L : Int) d.m_ac3header true).2 })).2.m_ac3header
          = d.m_ac3header) := by
    intro B d1 L v hd1
    constructor
    · rintro ⟨c1, c2, c4, c5⟩
      have c5b : ¬ ((L : Int) + 8 > len) := by omega
      simp [c1, c2, c4, c5b]
    · intro hn
      by_cases c1 : get_uint16_le (mem_slice B 0 2) = AC3WAV_SYNC_WORD1
      swap
      · simp [c1, hd1]
      by_cases c2 : get_uint16_le (mem_slice B 2 2) = AC3WAV_SYNC_WORD2
      swap
      · simp [c1, c2, hd1]
      by_cases c4 : B 4 = 1
      swap
      · have c4b : ¬ (1 = B 4) := fun e => c4 e.symm
        simp [c1, c2, c4b, hd1]
      have c5b : (L : Int) + 8 > len := by
        by_contra c5
        exact hn ⟨c1, c2, c4, by omega⟩
      simp [c1, c2, c4, c5b, hd1]
  cases hs : d.m_swap_bytes
  · simp only [h8, if_false, Bool.false_eq_true, h8b, and_false, true_and, declared_payload,
      Int.toNat_ofNat]
    exact key _ _ _ _ rfl
  · simp only [h8, if_false, if_true, h8b, and_self, true_and, declared_payload,
      set_buf, Int.toNat_ofNat]
    exact key _ _ _ _ rfl

theorem ac3wav_base_same_but_at (lib : codec_lib) (a b : ac3_demuxer) (len : Int)
    (h : same_but_at 5 a b) (j : Nat) (hj : j ≠ 5) :
    wav_ac3wav_demuxer_c.base lib a len j = wav_ac3wav_demuxer_c.base lib b len j := by
  obtain ⟨_, hc, hs, hb⟩ := h
  rw [ac3wav_base_eq, ac3wav_base_eq, hc, hs]
  split_ifs
  · simp only [swab, memcpy]
    split_ifs
    · exact hb _ _ (by omega)
    · exact hb _ _ hj
    · exact hb _ _ hj
  · exact hb _ _ hj

/-- The outcome of `decode_buffer` does not depend on the byte at offset 5. -/
theorem ac3wav_decode_same_but_at (lib : codec_lib) (a b : ac3_demuxer) (len : Int)
    (h : same_but_at 5 a b) :
    (wav_ac3wav_demuxer_c.decode_buffer lib a len).1
        = (wav_ac3wav_demuxer_c.decode_buffer lib b len).1
      ∧ same_but_at 5 (wav_ac3wav_demuxer_c.decode_buffer lib a len).2
          (wav_ac3wav_demuxer_c.decode_buffer lib b len).2
      ∧ ∀ n, mem_slice (wav_ac3wav_demuxer_c.base lib a len) 8 n
          = mem_slice (wav_ac3wav_demuxer_c.base lib b len) 8 n := by
  have hbase := ac3wav_base_same_but_at lib a b len h
  obtain ⟨hh, hc, hs, hb⟩ := h
  have e0 := mem_slice_congr _ _ 0 2 (fun j _ hj => hbase j (by omega))
  have e2 := mem_slice_congr _ _ 2 2 (fun j _ hj => hbase j (by omega))
  have e6 := mem_slice_congr _ _ 6 2 (fun j _ hj => hbase j (by omega))
  have e4 := hbase 4 (by omega)
  have e8 : ∀ n, mem_slice (wav_ac3wav_demuxer_c.base lib a len) 8 n
      = mem_slice (wav_ac3wav_demuxer_c.base lib b len) 8 n :=
    fun n => mem_slice_congr _ _ 8 n (fun j hj _ => hbase j (by omega))
  have eL : declared_payload (wav_ac3wav_demuxer_c.base lib a len)
      = declared_payload (wav_ac3wav_demuxer_c.base lib b len) := by
    simp only [declared_payload, e6]
  obtain ⟨va, vna⟩ := ac3wav_decode_buffer_value lib a len
  obtain ⟨vb, vnb⟩ := ac3wav_decode_buffer_value lib b len
  obtain ⟨ha, hna⟩ := ac3wav_decode_buffer_header lib a len
  obtain ⟨hb1, hnb⟩ := ac3wav_decode_buffer_header lib b len
  obtain ⟨sa, ca, ba⟩ := ac3wav_decode_buffer_bufs lib a len
  obtain ⟨sb, cb, bb⟩ := ac3wav_decode_buffer_bufs lib b len
  simp only [frame_at_start, e0, e2, e4, e8, eL, hh] at va vna ha hna
  refine ⟨?_, ⟨?_, ?_, ?_, ?_⟩, e8⟩
  · by_cases hcnd : 8 ≤ len
        ∧ get_uint16_le (mem_slice (wav_ac3wav_demuxer_c.base lib b len) 0 2) = AC3WAV_SYNC_WORD1
        ∧ get_uint16_le (mem_slice (wav_ac3wav_demuxer_c.base lib b len) 2 2) = AC3WAV_SYNC_WORD2
        ∧ wav_ac3wav_demuxer_c.base lib b len 4 = 0x01
        ∧ (declared_payload (wav_ac3wav_demuxer_c.base lib b len) : Int) + 8 ≤ len
        ∧ frame_at_start lib b.m_ac3header (wav_ac3wav_demuxer_c.base lib b len)
    · rw [va hcnd, vb hcnd]
    · rw [vna hcnd, vnb hcnd]
  · by_cases hcnd : 8 ≤ len
        ∧ get_uint16_le (mem_slice (wav_ac3wav_demuxer_c.base lib b len) 0 2) = AC3WAV_SYNC_WORD1
        ∧ get_uint16_le (mem_slice (wav_ac3wav_demuxer_c.base lib b len) 2 2) = AC3WAV_SYNC_WORD2
        ∧ wav_ac3wav_demuxer_c.base lib b len 4 = 0x01
        ∧ (declared_payload (wav_ac3wav_demuxer_c.base lib b len) : Int) + 8 ≤ len
    · rw [ha hcnd, hb1 hcnd]
    · rw [hna hcnd, hnb hcnd]
  · rw [ca, cb, hc, hs]
  · rw [sa, sb, hs]
  · intro c j hj
    rw [ba, bb, hc, hs]
    split_ifs
    · simp only [set_buf]
      split_ifs
      · simp only [swab, memcpy]
        split_ifs
        · exact hb _ _ (by omega)
        · exact hb _ _ hj
        · exact hb _ _ hj
      · exact hb _ _ hj
    · exact hb _ _ hj

theorem poke_active_same (d : ac3_demuxer) (x : Nat) : same_but_at 5 (d.poke_active 5 x) d := by
  refine ⟨rfl, rfl, rfl, ?_⟩
  intro c j hj
  simp only [ac3_demuxer.poke_active, set_buf]
  split_ifs with h1
  · simp only [poke, hj, if_false, h1]
  · rfl

theorem same_but_at_swap (a b : ac3_demuxer) (h : same_but_at 5 a b) :
    same_but_at 5 { a with m_swap_bytes := true } { b with m_swap_bytes := true } :=
  ⟨h.1, h.2.1, rfl, h.2.2.2⟩

theorem holding_set_same (d : ac3_demuxer) (bs : List Nat) (x : Nat) :
    same_but_at 5 (d.holding (bs.set 5 x)) (d.holding bs) := by
  refine ⟨rfl, rfl, rfl, ?_⟩
  intro c j hj
  simp only [ac3_demuxer.holding, set_buf]
  split_ifs
  · simp only [mem_write, List.length_set]
    split_ifs
    · rw [List.getD_eq_getElem?_getD, List.getD_eq_getElem?_getD, List.getElem?_set_ne]
      omega
    · rfl
  · rfl

theorem ac3wav_process_same_but_at (lib : codec_lib) (a b : ac3_demuxer) (n : Int)
    (h : same_but_at 5 a b) :
    (wav_ac3wav_demuxer_c.process lib a n).2 = (wav_ac3wav_demuxer_c.process lib b n).2 := by
  obtain ⟨hv, _, hsl⟩ := ac3wav_decode_same_but_at lib a b n h
  unfold wav_ac3wav_demuxer_c.process
  by_cases hn : 0 ≥ n
  · simp only [hn, if_true]
  · simp only [hn, if_false, hv]
    split_ifs
    · exact congrArg (fun p => [p]) (hsl _)
    · rfl

theorem ac3wav_probe_buffer_same_but_at (lib : codec_lib) (a b : ac3_demuxer) (n : Int)
    (h : same_but_at 5 a b) :
    (if (wav_ac3wav_demuxer_c.decode_buffer lib a n).1 > 0 then true
      else decide ((wav_ac3wav_demuxer_c.decode_buffer lib
        { (wav_ac3wav_demuxer_c.decode_buffer lib a n).2 with m_swap_bytes := true } n).1 > 0))
    = (if (wav_ac3wav_demuxer_c.decode_buffer lib b n).1 > 0 then true
      else decide ((wav_ac3wav_demuxer_c.decode_buffer lib
        { (wav_ac3wav_demuxer_c.decode_buffer lib b n).2 with m_swap_bytes := true } n).1 > 0)) := by
  obtain ⟨hv, hd, _⟩ := ac3wav_decode_same_but_at lib a b n h
  obtain ⟨hv2, _, _⟩ := ac3wav_decode_same_but_at lib _ _ n (same_but_at_swap _ _ hd)
  rw [hv, hv2]

/-- C28: the acceptance decision of the wrapped variant and the packet it emits do
not depend on the byte at offset 5 of the head: with any value in its place,
`decode_buffer` returns the same value, `process` emits the same packets and the
probe gives the same verdict. Only the byte at offset 4 is compared with 0x01. -/
theorem wrapped_byte_5_ignored (lib : codec_lib) (d : ac3_demuxer) (x : Nat) :
    (∀ len, (wav_ac3wav_demuxer_c.decode_buffer lib (d.poke_active 5 x) len).1
        = (wav_ac3wav_demuxer_c.decode_buffer lib d len).1)
      ∧ (∀ n, (wav_ac3wav_demuxer_c.process lib (d.poke_active 5 x) n).2
          = (wav_ac3wav_demuxer_c.process lib d n).2)
      ∧ (∀ bs, (wav_ac3wav_demuxer_c.probe_buffer lib d (bs.set 5 x)).1
          = (wav_ac3wav_demuxer_c.probe_buffer lib d bs).1)
      ∧ (∀ len, (0 < (wav_ac3wav_demuxer_c.decode_buffer lib (d.poke_active 4 x) len).1) →
          x = 0x01) := by
  refine ⟨fun len => (ac3wav_decode_same_but_at lib _ _ len (poke_active_same d x)).1,
    fun n => ac3wav_process_same_but_at lib _ _ n (poke_active_same d x), ?_, ?_⟩
  · intro bs
    have h := ac3wav_probe_buffer_same_but_at lib _ _ (bs.length : Int) (holding_set_same d bs x)
    rw [ac3wav_probe_buffer_eq, ac3wav_probe_buffer_eq, List.length_set]
    have e : ∀ (c : Prop) [Decidable c] (p q : Bool × ac3_demuxer),
        (if c then p else q).1 = if c then p.1 else q.1 := by
      intro c _ p q
      split_ifs <;> rfl
    rw [e, e]
    exact h
  · intro len hp
    have hv := ((ac3wav_decode_buffer_iff lib _ len).1.1 hp).1.2.2.2.1
    rw [ac3wav_base_head lib _ len 4 (by omega)] at hv
    simpa [ac3_demuxer.poke_active, set_buf, poke] using hv

theorem wrapped_byte_5_ignored_witness :
    (wav_ac3wav_demuxer_c.decode_buffer lib_ac3_only
        (((ac3_demuxer.new lib_ac3_only).holding wrapped_block).poke_active 5 0xff) 16).1
      = (wav_ac3wav_demuxer_c.decode_buffer lib_ac3_only
          ((ac3_demuxer.new lib_ac3_only).holding wrapped_block) 16).1
      ∧ (wav_ac3wav_demuxer_c.decode_buffer lib_ac3_only
          ((ac3_demuxer.new lib_ac3_only).holding wrapped_block) 16).1 = 8 :=
  ⟨(wrapped_byte_5_ignored lib_ac3_only ((ac3_demuxer.new lib_ac3_only).holding wrapped_block)
      0xff).1 16, by decide⟩

/-! ## The two scratch buffers -/

theorem flips_of_set_buf (buf : Nat → Nat → Nat) (cur : Nat) (written : Nat → Nat) :
    flips_into_inactive buf cur (set_buf buf (cur ^^^ 1) written) (cur ^^^ 1) written := by
  refine ⟨rfl, ?_, ?_, ?_⟩
  · simp only [set_buf, (xor_one_ne cur).symm, if_false]
  · simp only [set_buf, if_true]
  · intro c hc
    simp only [set_buf, hc, if_false]

theorem xor_flags_lt (c : Nat) (s p : Bool) (h : c < 2) :
    c ^^^ (if s = true then 1 else 0) ^^^ (if p = true then 1 else 0) < 2 := by
  have hc : c = 0 ∨ c = 1 := by omega
  rcases hc with hc | hc <;> subst hc <;> cases s <;> cases p <;> decide

/-- C26: in every variant with two scratch buffers (AC3 with a swap, wrapped AC3,
DTS) each transform that is applied reads the active buffer, writes the other buffer
of the pair only and then flips the active index: the buffer that was active is as it
was. A transform that is not applied changes nothing. After the `decode_buffer` of the
DTS variant the active index is the initial one XOR the swap flag XOR the repack flag,
and an index in {0, 1} stays in {0, 1}. -/
theorem transforms_flip_buffers (lib : codec_lib) :
    (∀ (d : ac3_demuxer) (len : Int),
        (2 < len ∧ d.m_swap_bytes = true →
          flips_into_inactive d.m_buf d.m_cur_buf
            (wav_ac3acm_demuxer_c.decode_buffer d len).2.m_buf
            (wav_ac3acm_demuxer_c.decode_buffer d len).2.m_cur_buf
            (swab (d.m_buf d.m_cur_buf) 0 (d.m_buf (d.m_cur_buf ^^^ 1)) 0 len))
          ∧ (¬ (2 < len ∧ d.m_swap_bytes = true) →
              (wav_ac3acm_demuxer_c.decode_buffer d len).2 = d))
      ∧ (∀ (d : ac3_demuxer) (len : Int),
          (8 ≤ len ∧ d.m_swap_bytes = true →
            flips_into_inactive d.m_buf d.m_cur_buf
              (wav_ac3wav_demuxer_c.decode_buffer lib d len).2.m_buf
              (wav_ac3wav_demuxer_c.decode_buffer lib d len).2.m_cur_buf
              (swab (d.m_buf d.m_cur_buf) 8
                (memcpy (d.m_buf (d.m_cur_buf ^^^ 1)) (d.m_buf d.m_cur_buf) 8) 8 (len - 8)))
            ∧ (¬ (8 ≤ len ∧ d.m_swap_bytes = true) →
                (wav_ac3wav_demuxer_c.decode_buffer lib d len).2.m_buf = d.m_buf
                  ∧ (wav_ac3wav_demuxer_c.decode_buffer lib d len).2.m_cur_buf = d.m_cur_buf))
      ∧ (∀ (d : dts_demuxer) (len : Int),
          (∃ d1 : dts_demuxer,
              (d.m_swap_bytes = true →
                flips_into_inactive d.m_buf d.m_cur_buf d1.m_buf d1.m_cur_buf
                  (swab (d.m_buf d.m_cur_buf) 0 (d.m_buf (d.m_cur_buf ^^^ 1)) 0 len))
                ∧ (d.m_swap_bytes = false → d1 = d)
                ∧ (d.m_pack_14_16 = true →
                    flips_into_inactive d1.m_buf d1.m_cur_buf
                      (wav_dts_demuxer_c.decode_buffer lib d len).2.m_buf
                      (wav_dts_demuxer_c.decode_buffer lib d len).2.m_cur_buf
                      (mem_write (d1.m_buf (d1.m_cur_buf ^^^ 1)) 0
                        (repacked lib (d1.m_buf d1.m_cur_buf) len)))
                ∧ (d.m_pack_14_16 = false → (wav_dts_demuxer_c.decode_buffer lib d len).2 = d1))
            ∧ (wav_dts_demuxer_c.decode_buffer lib d len).2.m_cur_buf
                = d.m_cur_buf ^^^ (if d.m_swap_bytes = true then 1 else 0)
                    ^^^ (if d.m_pack_14_16 = true then 1 else 0)
            ∧ (d.m_cur_buf < 2 → (wav_dts_demuxer_c.decode_buffer lib d len).2.m_cur_buf < 2)) := by
  refine ⟨fun d len => ⟨fun h => ?_, fun h => ?_⟩, fun d len => ⟨fun h => ?_, fun h => ?_⟩,
    fun d len => ?_⟩
  · simp only [wav_ac3acm_demuxer_c.decode_buffer, h, and_self, if_true]
    exact flips_of_set_buf _ _ _
  · simp only [wav_ac3acm_demuxer_c.decode_buffer, h, if_false]
  · obtain ⟨_, hc, hb⟩ := ac3wav_decode_buffer_bufs lib d len
    rw [hc, hb]
    simp only [h, and_self, if_true]
    exact flips_of_set_buf _ _ _
  · obtain ⟨_, hc, hb⟩ := ac3wav_decode_buffer_bufs lib d len
    rw [hc, hb]
    simp only [h, if_false, and_self]
  · have hidx : (wav_dts_demuxer_c.decode_buffer lib d len).2.m_cur_buf
        = d.m_cur_buf ^^^ (if d.m_swap_bytes = true then 1 else 0)
            ^^^ (if d.m_pack_14_16 = true then 1 else 0) := by
      unfold wav_dts_demuxer_c.decode_buffer
      cases hs : d.m_swap_bytes <;> cases hp : d.m_pack_14_16 <;>
        simp [hs, hp]
    refine ⟨?_, hidx, fun h2 => ?_⟩
    · cases hs : d.m_swap_bytes
      · refine ⟨d, fun h => absurd h (by simp), fun _ => rfl, fun hp => ?_, fun hp => ?_⟩
        · simp only [wav_dts_demuxer_c.decode_buffer, hs, hp, Bool.false_eq_true, if_false, if_true]
          exact flips_of_set_buf _ _ _
        · simp only [wav_dts_demuxer_c.decode_buffer, hs, hp, Bool.false_eq_true, if_false]
      · refine ⟨{ d with
            m_buf := set_buf d.m_buf (d.m_cur_buf ^^^ 1)
              (swab (d.m_buf d.m_cur_buf) 0 (d.m_buf (d.m_cur_buf ^^^ 1)) 0 len),
            m_cur_buf := d.m_cur_buf ^^^ 1 },
          fun _ => flips_of_set_buf _ _ _, fun h => absurd h (by simp), fun hp => ?_, fun hp => ?_⟩
        · simp only [wav_dts_demuxer_c.decode_buffer, hs, hp, if_true]
          exact flips_of_set_buf _ _ _
        · simp only [wav_dts_demuxer_c.decode_buffer, hs, hp, Bool.false_eq_true, if_false, if_true]
    · rw [hidx]
      exact xor_flags_lt _ _ _ h2

theorem transforms_flip_buffers_witness :
    (wav_dts_demuxer_c.decode_buffer lib_none sample_swapping_repacking 16).2.m_cur_buf
        = 0 ^^^ 1 ^^^ 1
      ∧ (wav_dts_demuxer_c.decode_buffer lib_none sample_swapping_repacking 16).2.m_cur_buf < 2 :=
  ⟨((transforms_flip_buffers lib_none).2.2 sample_swapping_repacking 16).2.1,
    ((transforms_flip_buffers lib_none).2.2 sample_swapping_repacking 16).2.2 (by decide)⟩

/-! ## One read step -/

theorem process_calls_packets (ps : List (List Nat)) :
    process_calls (ps.map reader_event.packet) = [] := by
  induction ps with
  | nil => rfl
  | cons p rest ih => simpa [process_calls] using ih

theorem process_calls_append (a b : List reader_event) :
    process_calls (a ++ b) = process_calls a ++ process_calls b := by
  induction a with
  | nil => rfl
  | cons e rest ih =>
    cases e <;> simp [process_calls, ih]

/-- C23: a read step requests exactly min(remaining, preferred block size) bytes from
the stream. If the stream delivers no byte, the step flushes once, makes no call of
`process`, leaves the processed and the remaining byte count as they are and returns
`FILE_STATUS_DONE`. Otherwise, with n bytes delivered, it calls `process(n)` exactly
once, adds n to the processed byte count and subtracts n from the remaining one (which,
when this brings it to zero and a further data chunk exists, is then loaded with the
length of that chunk). On a source without faults the step returns a result. -/
theorem read_step_counts (lib : codec_lib) (r : wav_reader_c) (d : wav_demuxer)
    (hd : r.m_demuxer = some d) :
    (∀ st r1 ev, r.read lib = some (st, r1, ev) →
        ∃ bs io1,
          r.m_io.read (min r.m_remaining_bytes_in_current_data_chunk d.get_preferred_input_size)
              = (some bs, io1)
            ∧ (bs.length = 0 →
                st = .FILE_STATUS_DONE ∧ ev = [.flush] ∧ process_calls ev = []
                  ∧ r1.m_bytes_processed = r.m_bytes_processed
                  ∧ r1.m_remaining_bytes_in_current_data_chunk
                      = r.m_remaining_bytes_in_current_data_chunk)
            ∧ (bs.length ≠ 0 →
                process_calls ev = [(bs.length : Int)]
                  ∧ r1.m_bytes_processed = r.m_bytes_processed + (bs.length : Int)
                  ∧ (r1.m_remaining_bytes_in_current_data_chunk
                        = r.m_remaining_bytes_in_current_data_chunk - (bs.length : Int)
                      ∨ (r.m_remaining_bytes_in_current_data_chunk - (bs.length : Int) = 0
                          ∧ st = .FILE_STATUS_MOREDATA
                          ∧ r1.m_remaining_bytes_in_current_data_chunk
                              = (r.chunk_at r1.m_cur_data_chunk_idx).len))))
      ∧ (r.m_io.no_fault → (∀ c ∈ r.m_chunks, 0 ≤ c.pos) →
          ∃ st r1 ev, r.read lib = some (st, r1, ev)) := by
  refine ⟨?_, fun hf hpos => read_total lib r d hf hd hpos⟩
  intro st r1 ev h
  rcases hr : r.m_io.read
    (min r.m_remaining_bytes_in_current_data_chunk d.get_preferred_input_size) with ⟨_ | bs, io1⟩
  · simp only [wav_reader_c.read, hd, hr] at h
    cases h
  refine ⟨bs, io1, rfl, ?_, ?_⟩
  · intro h0
    have hle : (0 : Int) ≥ (bs.length : Int) := by omega
    simp only [wav_reader_c.read, hd, hr, hle, if_true, Option.some.injEq, Prod.mk.injEq] at h
    obtain ⟨h1, h2, h3⟩ := h
    subst h1 h2 h3
    exact ⟨rfl, rfl, rfl, rfl, rfl⟩
  · intro h0
    have hle : ¬ ((0 : Int) ≥ (bs.length : Int)) := by omega
    have hcalls : process_calls
        (reader_event.demuxer_process (bs.length : Int)
          :: ((d.store bs).process lib (bs.length : Int)).2.map reader_event.packet)
        = [(bs.length : Int)] := by
      simp only [process_calls, process_calls_packets]
    simp only [wav_reader_c.read, hd, hr, hle, if_false] at h
    split_ifs at h with hz hf
    · simp only [Option.some.injEq, Prod.mk.injEq] at h
      obtain ⟨h1, h2, h3⟩ := h
      subst h1 h2 h3
      refine ⟨?_, rfl, Or.inl rfl⟩
      rw [process_calls_append, hcalls]
      rfl
    · split at h
      · cases h
      · simp only [Option.some.injEq, Prod.mk.injEq] at h
        obtain ⟨h1, h2, h3⟩ := h
        subst h1 h2 h3
        exact ⟨hcalls, rfl, Or.inr ⟨hz, rfl, rfl⟩⟩
    · simp only [Option.some.injEq, Prod.mk.injEq] at h
      obtain ⟨h1, h2, h3⟩ := h
      subst h1 h2 h3
      exact ⟨hcalls, rfl, Or.inl rfl⟩

theorem read_step_counts_witness :
    (opened lib_none sample_two_chunks).m_demuxer = some sample_two_chunks_demuxer
      ∧ ∃ st r1 ev, (opened lib_none sample_two_chunks).read lib_none = some (st, r1, ev) :=
  ⟨rfl, (read_step_counts lib_none (opened lib_none sample_two_chunks) sample_two_chunks_demuxer
    rfl).2 (fun _ => rfl) (by decide)⟩

/-! ## Moving on to the next data chunk -/

theorem find_chunk_data_from (r : wav_reader_c) (s : Nat)
    (htags : ∀ c ∈ r.m_chunks, c.id.length = 4) :
    (find_chunk r str_data (s : Int) false = -1
        ∧ ∀ (j : Nat) (c : wav_chunk_t), s ≤ j → r.m_chunks[j]? = some c →
            ¬ (tag_is_data c.id ∧ c.len ≠ 0))
      ∨ (∃ (j : Nat) (c : wav_chunk_t), s ≤ j ∧ r.m_chunks[j]? = some c ∧ tag_is_data c.id
          ∧ c.len ≠ 0
          ∧ (∀ (k : Nat) (c1 : wav_chunk_t), s ≤ k → k < j → r.m_chunks[k]? = some c1 →
              ¬ (tag_is_data c1.id ∧ c1.len ≠ 0))
          ∧ find_chunk r str_data (s : Int) false = (j : Int)) := by
  have h1 : ¬ ((s : Int) < 0) := by omega
  have hfc : find_chunk r str_data (s : Int) false
      = find_chunk_loop str_data false (r.m_chunks.drop s) s := by
    simp only [find_chunk, h1, if_false, Int.toNat_ofNat]
  have hlen : ∀ (k : Nat) (c : wav_chunk_t), r.m_chunks[k]? = some c → c.id.length = 4 := by
    intro k c hk
    exact htags c (List.getElem?_mem hk)
  rw [hfc]
  rcases find_chunk_loop_spec str_data false (r.m_chunks.drop s) s with ⟨hn, hall⟩ | ⟨k, c, hk, hm, hfirst, hv⟩
  · left
    refine ⟨hn, fun j c hj hc hd => ?_⟩
    have hmem : c ∈ r.m_chunks.drop s := by
      have hx : (r.m_chunks.drop s)[j - s]? = some c := by
        rw [List.getElem?_drop]
        have : s + (j - s) = j := by omega
        rw [this]
        exact hc
      exact List.getElem?_mem hx
    apply hall c hmem
    exact ⟨(strncasecmp_data c.id (hlen j c hc)).2 hd.1, Or.inr hd.2⟩
  · right
    rw [List.getElem?_drop] at hk
    refine ⟨s + k, c, by omega, hk, (strncasecmp_data c.id (hlen _ c hk)).1 hm.1, ?_, ?_, hv⟩
    · rcases hm.2 with h | h
      · cases h
      · exact h
    · intro k1 c1 hs hlt hc1 hd
      apply hfirst (k1 - s) c1 (by omega)
      · rw [List.getElem?_drop]
        have : s + (k1 - s) = k1 := by omega
        rw [this]
        exact hc1
      · exact ⟨(strncasecmp_data c1.id (hlen _ c1 hc1)).2 hd.1, Or.inr hd.2⟩

theorem chunk_at_of_getElem (r : wav_reader_c) (j : Nat) (c : wav_chunk_t)
    (h : r.m_chunks[j]? = some c) : r.chunk_at (j : Int) = c := by
  unfold wav_reader_c.chunk_at
  rw [Int.toNat_ofNat, List.getD_eq_getElem?_getD, h]
  rfl

theorem flush_not_in_process_events (lib : codec_lib) (r : wav_reader_c) (d : wav_demuxer) :
    reader_event.flush ∉ process_events lib r d := by
  simp [process_events]

/-- C24: when a read step brings the remaining byte count to zero (it has read the
last bytes of the current chunk): if the index contains a data chunk of non-zero length
at an index greater than the current one, the cursor moves to the first such entry,
the stream is repositioned to the pos of that entry plus 8, the remaining byte count is
set to its length, nothing is flushed and the step returns `FILE_STATUS_MOREDATA`;
otherwise the step flushes, sets the cursor to -1 and returns `FILE_STATUS_DONE`. -/
theorem read_step_moves_to_next_chunk (lib : codec_lib) (r r1 : wav_reader_c) (d : wav_demuxer)
    (st : file_status_e) (ev : List reader_event)
    (h : r.read lib = some (st, r1, ev)) (hd : r.m_demuxer = some d)
    (hread : 0 < read_count r d)
    (hzero : r.m_remaining_bytes_in_current_data_chunk - (read_count r d : Int) = 0)
    (hidx : -1 ≤ r.m_cur_data_chunk_idx) (htags : ∀ c ∈ r.m_chunks, c.id.length = 4) :
    ((∃ j c, next_data_chunk r j c) →
        ∃ j c, next_data_chunk r j c ∧ (∀ k c1, next_data_chunk r k c1 → j ≤ k)
          ∧ r1.m_cur_data_chunk_idx = (j : Int) ∧ (r1.m_io.pos : Int) = c.pos + 8
          ∧ r1.m_remaining_bytes_in_current_data_chunk = c.len
          ∧ st = .FILE_STATUS_MOREDATA ∧ reader_event.flush ∉ ev)
      ∧ ((¬ ∃ j c, next_data_chunk r j c) →
          st = .FILE_STATUS_DONE ∧ ev = process_events lib r d ++ [.flush]
            ∧ r1.m_cur_data_chunk_idx = -1
            ∧ r1.m_remaining_bytes_in_current_data_chunk = 0) := by
  have hs : ((r.m_cur_data_chunk_idx + 1).toNat : Int) = r.m_cur_data_chunk_idx + 1 := by omega
  have hspec := find_chunk_data_from r (r.m_cur_data_chunk_idx + 1).toNat htags
  rw [hs] at hspec
  obtain ⟨d1, hd1, hc⟩ := read_cases lib r r1 st ev h
  rw [hd] at hd1
  cases hd1
  rcases hc with ⟨h0, _⟩ | ⟨_, hne, _⟩ | ⟨_, _, hF, hst, hr1, hev⟩ | ⟨_, _, hF, hpos, hst, hr1, hev⟩
  · omega
  · exact absurd hzero hne
  · rcases hspec with ⟨_, hall⟩ | ⟨j, c, _, _, _, _, _, hv⟩
    · have hnone : ¬ ∃ j c, next_data_chunk r j c := by
        rintro ⟨j, c, hlt, hc, htag, hlen⟩
        exact hall j c (by omega) hc ⟨htag, hlen⟩
      refine ⟨fun hex => absurd hex hnone, fun _ => ⟨hst, hev, ?_, ?_⟩⟩
      · rw [hr1]
      · rw [hr1]
        exact hzero
    · rw [hv] at hF
      omega
  · rcases hspec with ⟨hn, _⟩ | ⟨j, c, hsj, hcj, htag, hlen, hfirst, hv⟩
    · exact absurd hn hF
    · have hnext : next_data_chunk r j c := ⟨by omega, hcj, htag, hlen⟩
      refine ⟨fun _ => ⟨j, c, hnext, ?_, ?_, ?_, ?_, hst, ?_⟩, fun hno => absurd ⟨j, c, hnext⟩ hno⟩
      · intro k c1 hk
        by_contra hlt
        exact hfirst k c1 (by have := hk.1; omega) (by omega) hk.2.1 ⟨hk.2.2.1, hk.2.2.2⟩
      · rw [hr1, hv]
      · rw [hv, chunk_at_of_getElem r j c hcj] at hpos
        rw [hr1, hv, chunk_at_of_getElem r j c hcj]
        show ((c.pos + 8).toNat : Int) = c.pos + 8
        omega
      · rw [hr1, hv, chunk_at_of_getElem r j c hcj]
      · rw [hev]
        exact flush_not_in_process_events lib r d

theorem read_step_moves_to_next_chunk_witness :
    ∃ j c, next_data_chunk (opened lib_none sample_two_chunks) j c
      ∧ (∀ k c1, next_data_chunk (opened lib_none sample_two_chunks) k c1 → j ≤ k)
      ∧ sample_two_chunks_second.m_cur_data_chunk_idx = (j : Int)
      ∧ (sample_two_chunks_second.m_io.pos : Int) = c.pos + 8
      ∧ sample_two_chunks_second.m_remaining_bytes_in_current_data_chunk = c.len
      ∧ file_status_e.FILE_STATUS_MOREDATA = .FILE_STATUS_MOREDATA
      ∧ reader_event.flush ∉ [reader_event.demuxer_process 4, .packet [1, 2, 3, 4]] :=
  (read_step_moves_to_next_chunk lib_none (opened lib_none sample_two_chunks)
    sample_two_chunks_second sample_two_chunks_demuxer .FILE_STATUS_MOREDATA
    [.demuxer_process 4, .packet [1, 2, 3, 4]] rfl rfl (by decide) (by decide) (by decide)
    (by decide)).1 ⟨2, { pos := 48, id := str_data, len := 2 }, by decide⟩

/-! ## Read steps behind the last data chunk -/

theorem probe_candidate_block_size (lib : codec_lib) (wheader : wave_header) (k : demuxer_kind)
    (io : mm_io) : 0 ≤ (probe_candidate lib wheader k io).2.1.get_preferred_input_size := by
  cases k
  · exact Int.natCast_nonneg _
  · exact Int.natCast_nonneg _
  · exact Int.natCast_nonneg _
  · exact Int.natCast_nonneg _

theorem try_candidate_block_size (lib : codec_lib) (k : demuxer_kind)
    (st st1 : wav_reader_c × List demuxer_kind) (h : try_candidate lib k st = some st1) :
    0 ≤ st1.1.block_size := by
  unfold try_candidate at h
  have hp0 := probe_candidate_block_size lib st.1.m_wheader k st.1.m_io
  rcases hp : probe_candidate lib st.1.m_wheader k st.1.m_io with ⟨_ | b, d, io1⟩
  · simp [hp] at h
  rw [hp] at hp0
  cases b <;> simp only [hp, Option.some.injEq] at h <;> rw [← h]
  · exact le_refl _
  · exact hp0

theorem unless_selected_block_size (lib : codec_lib) (k : demuxer_kind)
    (st st1 : wav_reader_c × List demuxer_kind) (h : unless_selected lib k st = some st1)
    (h0 : 0 ≤ st.1.block_size) : 0 ≤ st1.1.block_size := by
  unfold unless_selected at h
  rcases hd : st.1.m_demuxer with _ | d
  · simp only [hd] at h
    exact try_candidate_block_size lib k st st1 h
  · simp only [hd, Option.some.injEq] at h
    rw [← h]
    exact h0

theorem create_demuxer_block_size (lib : codec_lib) (r r1 : wav_reader_c) (log : List demuxer_kind)
    (h : create_demuxer lib r = some (r1, log)) (h0 : 0 ≤ r.block_size) : 0 ≤ r1.block_size := by
  unfold create_demuxer at h
  simp only at h
  rcases hs1 : (if 0x2000 = get_uint16_le r.m_wheader.wFormatTag
      then try_candidate lib .ac3acm (r, []) else some (r, [])) with _ | st1
  · simp [hs1] at h
  simp only [hs1] at h
  have f1 : 0 ≤ st1.1.block_size := by
    by_cases ht : 0x2000 = get_uint16_le r.m_wheader.wFormatTag
    · simp only [ht, if_true] at hs1
      exact try_candidate_block_size lib _ _ _ hs1
    · simp only [ht, if_false, Option.some.injEq] at hs1
      rw [← hs1]
      exact h0
  rcases hs2 : unless_selected lib .dts st1 with _ | st2
  · simp [hs2] at h
  simp only [hs2] at h
  have f2 := unless_selected_block_size lib _ _ _ hs2 f1
  rcases hs3 : unless_selected lib .ac3wav st2 with _ | st3
  · simp [hs3] at h
  simp only [hs3] at h
  have f3 := unless_selected_block_size lib _ _ _ hs3 f2
  rcases hd : st3.1.m_demuxer with _ | d
  · simp only [hd, Option.some.injEq, Prod.mk.injEq] at h
    rw [← h.1]
    exact Int.natCast_nonneg _
  · simp only [hd, Option.some.injEq] at h
    rw [h] at f3
    exact f3

/-- The sub-demuxer that the constructor selects prefers a block size that is not
negative. -/
theorem open_block_size (lib : codec_lib) (io : mm_io) (r : wav_reader_c)
    (h : wav_reader_c.new lib io = .ok r) : 0 ≤ r.block_size := by
  unfold wav_reader_c.new at h
  rcases hq : query_size io with ⟨_ | size, io1⟩
  · simp [hq] at h
  simp only [hq] at h
  rcases hp : probe_file io1 size with ⟨probed, io2⟩
  simp only [hp] at h
  by_cases h0 : probed = 0
  · simp [h0] at h
  simp only [h0, if_false] at h
  rcases hpf : parse_file (wav_reader_c.init io2) with e | r1
  · simp [hpf] at h
  simp only [hpf] at h
  rcases hcd : create_demuxer lib r1 with _ | ⟨r2, log⟩
  · simp [hcd] at h
  simp only [hcd, Except.ok.injEq] at h
  subst h
  have hic : index_consistent (wav_reader_c.init io2) := by
    refine ⟨?_, ?_⟩
    · simp [wav_reader_c.init, payload_sum]
    · simp [wav_reader_c.init]
  have hb : chunks_in_bounds (wav_reader_c.init io2) := by
    intro c hc
    simp [wav_reader_c.init] at hc
  obtain ⟨_, _, _, _, p5, _⟩ := parse_file_some _ _ hic hb hpf
  apply create_demuxer_block_size lib r1 _ log hcd
  unfold wav_reader_c.block_size
  rw [p5]
  exact le_refl _

theorem process_block_size (lib : codec_lib) (d : wav_demuxer) (bs : List Nat) (size : Int) :
    ((d.store bs).process lib size).1.get_preferred_input_size = d.get_preferred_input_size := by
  cases d with
  | ac3acm d => rfl
  | ac3wav d => rfl
  | dts d => rfl
  | pcm d =>
    simp only [wav_demuxer.store, wav_demuxer.process, wav_pcm_demuxer_c.process,
      wav_demuxer.get_preferred_input_size]
    split_ifs <;> rfl

theorem read_block_size (lib : codec_lib) (r r1 : wav_reader_c) (st : file_status_e)
    (ev : List reader_event) (h : r.read lib = some (st, r1, ev)) :
    r1.block_size = r.block_size ∧ ∃ d, r1.m_demuxer = some d := by
  obtain ⟨d, hd, hc⟩ := read_cases lib r r1 st ev h
  have hb : (after_process lib r d).block_size = r.block_size := by
    simp only [wav_reader_c.block_size, after_process, hd, Option.map_some', Option.getD_some]
    exact process_block_size lib d _ _
  rcases hc with ⟨_, _, hr1, _⟩ | ⟨_, _, _, hr1, _⟩ | ⟨_, _, _, _, hr1, _⟩ | ⟨_, _, _, _, _, hr1, _⟩
  · rw [hr1]
    exact ⟨rfl, d, hd⟩
  · rw [hr1]
    exact ⟨hb, _, rfl⟩
  · rw [hr1]
    exact ⟨hb, _, rfl⟩
  · rw [hr1]
    exact ⟨hb, _, rfl⟩

/-- What read steps leave as it is: the invariant, the index, the recorded total, the
byte source and the preferred block size. -/
theorem read_steps_frame (lib : codec_lib) (n : Nat) :
    ∀ (r0 r : wav_reader_c), read_invariant r0 → read_steps lib n r0 = some r
      → read_invariant r ∧ r.m_chunks = r0.m_chunks
        ∧ r.m_bytes_in_data_chunks = r0.m_bytes_in_data_chunks
        ∧ same_source r0.m_io r.m_io ∧ r.block_size = r0.block_size
        ∧ ((∃ d, r0.m_demuxer = some d) → ∃ d, r.m_demuxer = some d) := by
  induction n with
  | zero =>
    intro r0 r hinv hrun
    simp only [read_steps, Option.some.injEq] at hrun
    rw [← hrun]
    exact ⟨hinv, rfl, rfl, same_source_refl _, rfl, fun h => h⟩
  | succ k ih =>
    intro r0 r hinv hrun
    rcases hr : r0.read lib with _ | ⟨st, r1, ev⟩
    · simp [read_steps, hr] at hrun
    simp only [read_steps, hr] at hrun
    obtain ⟨hinv1, hc1, ht1, hs1, _⟩ := read_invariant_step lib r0 r1 st ev hinv hr
    obtain ⟨hb1, hd1⟩ := read_block_size lib r0 r1 st ev hr
    obtain ⟨hinv2, hc2, ht2, hs2, hb2, hd2⟩ := ih r1 r hinv1 hrun
    exact ⟨hinv2, hc2.trans hc1, ht2.trans ht1, same_source_trans _ _ _ hs1 hs2, hb2.trans hb1,
      fun _ => hd2 hd1⟩

theorem read_zero (io : mm_io) :
    (io.read 0 = (none, { io with ops := io.ops + 1 }) ∧ io.fault io.ops = true)
      ∨ (io.read 0 = (some [], { io with ops := io.ops + 1 }) ∧ io.fault io.ops = false) := by
  unfold mm_io.read mm_io.issue
  cases h : io.fault io.ops
  · right
    simp [mem_slice]
  · left
    simp

/-- A read step of a reader that has nothing remaining in its chunk. -/
theorem idle_step (lib : codec_lib) (r : wav_reader_c) (d : wav_demuxer)
    (hd : r.m_demuxer = some d) (hrem : r.m_remaining_bytes_in_current_data_chunk = 0)
    (hp : 0 ≤ d.get_preferred_input_size) :
    min r.m_remaining_bytes_in_current_data_chunk d.get_preferred_input_size = 0
      ∧ ((r.m_io.fault r.m_io.ops = true ∧ r.read lib = none)
        ∨ (r.m_io.fault r.m_io.ops = false
            ∧ r.read lib = some (.FILE_STATUS_DONE,
                { r with m_io := { r.m_io with ops := r.m_io.ops + 1 } }, [.flush]))) := by
  have hmin : min r.m_remaining_bytes_in_current_data_chunk d.get_preferred_input_size = 0 := by
    rw [hrem]
    omega
  refine ⟨hmin, ?_⟩
  rcases read_zero r.m_io with ⟨hr, hf⟩ | ⟨hr, hf⟩
  · left
    refine ⟨hf, ?_⟩
    simp only [wav_reader_c.read, hd, hmin, hr]
  · right
    refine ⟨hf, ?_⟩
    simp only [wav_reader_c.read, hd, hmin, hr]
    simp

theorem idle_steps (lib : codec_lib) (n : Nat) :
    ∀ (r r2 : wav_reader_c) (d : wav_demuxer), r.m_demuxer = some d →
      r.m_remaining_bytes_in_current_data_chunk = 0 → 0 ≤ d.get_preferred_input_size →
      read_steps lib n r = some r2 →
      r2 = { r with m_io := { r.m_io with ops := r.m_io.ops + n } } := by
  induction n with
  | zero =>
    intro r r2 d _ _ _ hrun
    simp only [read_steps, Option.some.injEq] at hrun
    rw [← hrun]
    rfl
  | succ k ih =>
    intro r r2 d hd hrem hp hrun
    rcases (idle_step lib r d hd hrem hp).2 with ⟨_, hr⟩ | ⟨_, hr⟩
    · simp [read_steps, hr] at hrun
    · simp only [read_steps, hr] at hrun
      rw [ih { r with m_io := { r.m_io with ops := r.m_io.ops + 1 } } r2 d hd hrem hp hrun]
      simp only [wav_reader_c.mk.injEq, mm_io.mk.injEq, true_and, and_true]
      omega

/-- C30: `FILE_STATUS_DONE` is absorbing. Once the reader has run out of data chunks
(a read step has set the cursor to -1; the remaining byte count then is 0), every later
read step requests 0 bytes, makes no call of `process`, does not depend on any entry of
the index, leaves the processed byte count and the progress as they are, and returns
`FILE_STATUS_DONE` again with one flush; on a source without faults every such step
does return. -/
theorem done_is_absorbing (lib : codec_lib) (io : mm_io) (r0 r : wav_reader_c) (n : Nat)
    (hopen : wav_reader_c.new lib io = .ok r0) (hsteps : read_steps lib n r0 = some r)
    (hidx : r.m_cur_data_chunk_idx = -1) :
    r.m_remaining_bytes_in_current_data_chunk = 0
      ∧ ∀ m r2, read_steps lib m r = some r2 →
          (∃ d, r2.m_demuxer = some d
              ∧ min r2.m_remaining_bytes_in_current_data_chunk d.get_preferred_input_size = 0)
            ∧ r2.m_cur_data_chunk_idx = -1
            ∧ r2.m_remaining_bytes_in_current_data_chunk = 0
            ∧ r2.m_bytes_processed = r.m_bytes_processed
            ∧ get_progress r2 = get_progress r
            ∧ (∀ st r3 ev, r2.read lib = some (st, r3, ev) →
                st = .FILE_STATUS_DONE ∧ ev = [.flush] ∧ process_calls ev = []
                  ∧ r3.m_bytes_processed = r.m_bytes_processed
                  ∧ get_progress r3 = get_progress r
                  ∧ r3.m_cur_data_chunk_idx = -1
                  ∧ r3.m_remaining_bytes_in_current_data_chunk = 0)
            ∧ (∀ cs, ({ r2 with m_chunks := cs }).read lib
                = (r2.read lib).map (fun x => (x.1, { x.2.1 with m_chunks := cs }, x.2.2)))
            ∧ (io.no_fault → ∃ r3, r2.read lib = some (.FILE_STATUS_DONE, r3, [.flush])) := by
  obtain ⟨hic, hcb, hsrc0, i, c, hra, hpa, _⟩ := open_invariant lib io r0 hopen
  have hinv0 : read_invariant r0 := ⟨hic, hcb, Or.inl ⟨i, c, hra, hpa⟩⟩
  obtain ⟨_, _, _, _, hdem0, _⟩ := open_some lib io r0 hopen
  obtain ⟨hinv, _, _, hsrc, hbs, hdem⟩ := read_steps_frame lib n r0 r hinv0 hsteps
  obtain ⟨d, hd⟩ := hdem hdem0
  have hp : 0 ≤ d.get_preferred_input_size := by
    have h0 := open_block_size lib io r0 hopen
    rw [← hbs] at h0
    simpa [wav_reader_c.block_size, hd] using h0
  have hrem : r.m_remaining_bytes_in_current_data_chunk = 0 := by
    rcases hinv.2.2 with ⟨i1, c1, hra1, _⟩ | hfin
    · have := hra1.1
      omega
    · exact hfin.2.1
  refine ⟨hrem, ?_⟩
  intro m r2 hrun
  have hr2 := idle_steps lib m r r2 d hd hrem hp hrun
  have hd2 : r2.m_demuxer = some d := by rw [hr2]; exact hd
  have hrem2 : r2.m_remaining_bytes_in_current_data_chunk = 0 := by rw [hr2]; exact hrem
  have hproc2 : r2.m_bytes_processed = r.m_bytes_processed := by rw [hr2]
  have hprog2 : get_progress r2 = get_progress r := by rw [hr2]; rfl
  have hidx2 : r2.m_cur_data_chunk_idx = -1 := by rw [hr2]; exact hidx
  obtain ⟨hmin, hstep⟩ := idle_step lib r2 d hd2 hrem2 hp
  refine ⟨⟨d, hd2, hmin⟩, hidx2, hrem2, hproc2, hprog2, ?_, ?_, ?_⟩
  · intro st r3 ev hrd
    rcases hstep with ⟨_, hn⟩ | ⟨_, hs⟩
    · rw [hn] at hrd
      cases hrd
    · rw [hs] at hrd
      simp only [Option.some.injEq, Prod.mk.injEq] at hrd
      obtain ⟨h1, h2, h3⟩ := hrd
      subst h1 h2 h3
      exact ⟨rfl, rfl, rfl, hproc2, hprog2, hidx2, hrem2⟩
  · intro cs
    obtain ⟨_, hstep1⟩ := idle_step lib { r2 with m_chunks := cs } d hd2 hrem2 hp
    rcases hstep with ⟨hf, hn⟩ | ⟨hf, hs⟩
    · rcases hstep1 with ⟨_, hn1⟩ | ⟨hf1, _⟩
      · rw [hn, hn1]
        rfl
      · have hf2 : r2.m_io.fault r2.m_io.ops = false := hf1
        rw [hf] at hf2
        cases hf2
    · rcases hstep1 with ⟨hf1, _⟩ | ⟨_, hs1⟩
      · have hf2 : r2.m_io.fault r2.m_io.ops = true := hf1
        rw [hf] at hf2
        cases hf2
      · rw [hs, hs1]
        rfl
  · intro hnf
    have hfault : r2.m_io.fault = io.fault := by
      rw [hr2]
      exact hsrc.2.2.1.trans hsrc0.2.2.1
    rcases hstep with ⟨hf, _⟩ | ⟨_, hs⟩
    · rw [hfault, hnf] at hf
      cases hf
    · exact ⟨_, hs⟩

theorem done_is_absorbing_witness :
    sample_two_chunks_done.m_remaining_bytes_in_current_data_chunk = 0
      ∧ ∃ r3, sample_two_chunks_done.read lib_none = some (.FILE_STATUS_DONE, r3, [.flush]) :=
  ⟨(done_is_absorbing lib_none sample_two_chunks (opened lib_none sample_two_chunks)
      sample_two_chunks_done 2 rfl rfl (by decide)).1,
    ((done_is_absorbing lib_none sample_two_chunks (opened lib_none sample_two_chunks)
      sample_two_chunks_done 2 rfl rfl (by decide)).2 0 sample_two_chunks_done rfl).2.2.2.2.2.2.2
      (fun _ => rfl)⟩

/-! ## The index while scanning and afterwards -/

theorem scan_loop_shape (fs : Int) (fuel : Nat) (r : wav_reader_c)
    (res : wav_reader_c × scan_exit) (h : scan_loop fs fuel r = some res) :
    ∃ cs : List wav_chunk_t,
      (res.2 ≠ .corrected → res.1.m_chunks = r.m_chunks ++ cs)
        ∧ (res.2 = .corrected → fs > 0x100000000
            ∧ ∃ p : wav_chunk_t, (r.m_chunks ++ cs).getLast? = some p
              ∧ res.1.m_chunks = (r.m_chunks ++ cs).dropLast
                  ++ [{ p with len := fs - p.pos - (sizeof_chunk_struct : Int) }]) := by
  induction fuel generalizing r with
  | zero => simp [scan_loop] at h
  | succ k ih =>
    rcases hs : scan_step fs r with ⟨r1, _ | e⟩
    · simp only [scan_loop, hs] at h
      obtain ⟨cs, hc, hcorr⟩ := ih r1 h
      rcases scan_step_cases fs r with ⟨_, _, he⟩ | ⟨c, _, _, hc1, _, _⟩ | ⟨_, _, _, _, _, _, he⟩
      · rw [hs] at he
        simp at he
      · rw [hs] at hc1
        simp only at hc1
        rw [hc1, List.append_assoc] at hc hcorr
        exact ⟨[c] ++ cs, hc, hcorr⟩
      · rw [hs] at he
        simp at he
    · simp only [scan_loop, hs, Option.some.injEq] at h
      rw [← h]
      simp only
      rcases scan_step_cases fs r with ⟨hc1, _, he⟩ | ⟨c, _, _, hc1, _, he⟩ | ⟨p, hp, _, hfs, hc1, _, he⟩
      · rw [hs] at hc1 he
        simp only [Option.some.injEq] at hc1 he
        refine ⟨[], fun _ => by rw [hc1, List.append_nil], fun hcr => ?_⟩
        rw [hcr] at he
        rcases he with he | he <;> cases he
      · rw [hs] at hc1 he
        simp only [Option.some.injEq] at hc1 he
        refine ⟨[c], fun _ => hc1, fun hcr => ?_⟩
        rw [hcr] at he
        rcases he with he | he <;> cases he
      · rw [hs] at hc1 he
        simp only [Option.some.injEq] at hc1 he
        refine ⟨[], fun hne => absurd he hne, fun _ => ⟨hfs, p, ?_, ?_⟩⟩
        · rw [List.append_nil]
          exact hp
        · rw [List.append_nil]
          exact hc1

theorem scan_chunks_shape (r : wav_reader_c) :
    index_grown (r.m_io.size : Int) r.m_chunks (scan_chunks r).m_chunks := by
  unfold scan_chunks scan_chunks_exit
  rcases h1 : r.m_io.get_size with ⟨_ | fs, io1⟩
  · exact ⟨[], Or.inl (by simp)⟩
  · obtain ⟨hfs, _⟩ := get_size_some _ _ _ h1
    simp only
    rcases h2 : scan_loop fs (scan_fuel io1) { r with m_io := io1 } with _ | ⟨r1, e⟩
    · exact ⟨[], Or.inl (by simp)⟩
    · obtain ⟨cs, hc, hcorr⟩ := scan_loop_shape fs _ _ _ h2
      simp only at hc hcorr
      refine ⟨cs, ?_⟩
      by_cases he : e = .corrected
      · right
        rw [← hfs]
        exact hcorr he
      · left
        exact hc he

theorem parse_file_index (r r2 : wav_reader_c) (h : parse_file r = .ok r2) :
    r2.m_chunks = (parse_file_scanned r).m_chunks
      ∧ r2.m_bytes_in_data_chunks = (parse_file_scanned r).m_bytes_in_data_chunks := by
  rcases hr : r.m_io.read (sizeof_riff_struct : Int) with ⟨_ | riff, io1⟩
  · simp [parse_file, hr] at h
  by_cases hl : riff.length = sizeof_riff_struct
  swap
  · simp [parse_file, hr, hl] at h
  have hrs : parse_file_scanned r = scan_chunks
      { r with m_io := io1, m_wheader := { r.m_wheader with riff := riff } } := by
    simp only [parse_file_scanned, hr, Option.getD_some]
  simp only [parse_file, hr, hl, ne_eq, not_true_eq_false, if_false] at h
  rw [← hrs] at h
  generalize parse_file_scanned r = rs at h
  by_cases hfmt : find_chunk rs str_fmt 0 true = -1
  · simp [hfmt] at h
  simp only [hfmt, if_false] at h
  rcases hs1 : rs.m_io.setFilePointer (rs.chunk_at (find_chunk rs str_fmt 0 true)).pos
      .seek_beginning with ⟨_ | u, io2⟩
  · simp [hs1] at h
  simp only [hs1] at h
  rcases hr2 : io2.read (sizeof_chunk_struct : Int) with ⟨_ | format, io3⟩
  · simp [hr2] at h
  simp only [hr2] at h
  by_cases hl2 : format.length = sizeof_chunk_struct
  swap
  · simp [hl2] at h
  simp only [hl2, ne_eq, not_true_eq_false, if_false] at h
  rcases hr3 : io3.read (sizeof_common_struct : Int) with ⟨_ | common, io4⟩
  · simp [hr3] at h
  simp only [hr3] at h
  by_cases hl3 : common.length = sizeof_common_struct
  swap
  · simp [hl3] at h
  simp only [hl3, ne_eq, not_true_eq_false, if_false] at h
  have hfc : ∀ (io : mm_io) (wh : wave_header),
      find_chunk { rs with m_io := io, m_wheader := wh } str_data 0 false
        = find_chunk rs str_data 0 false := fun _ _ => rfl
  have hca : ∀ (io : mm_io) (wh : wave_header) (i : Int),
      wav_reader_c.chunk_at { rs with m_io := io, m_wheader := wh } i = rs.chunk_at i :=
    fun _ _ _ => rfl
  simp only [hfc, hca] at h
  by_cases hdata : find_chunk rs str_data 0 false = -1
  · simp [hdata] at h
  simp only [hdata, if_false] at h
  rcases hs2 : io4.setFilePointer
      ((rs.chunk_at (find_chunk rs str_data 0 false)).pos + (sizeof_chunk_struct : Int))
      .seek_beginning with ⟨_ | u, io5⟩
  · simp [hs2] at h
  simp only [hs2, Except.ok.injEq] at h
  rw [← h]
  exact ⟨rfl, rfl⟩

theorem open_index (lib : codec_lib) (io : mm_io) (r : wav_reader_c)
    (h : wav_reader_c.new lib io = .ok r) :
    r.m_chunks = (scanned_at_open io).m_chunks
      ∧ r.m_bytes_in_data_chunks = (scanned_at_open io).m_bytes_in_data_chunks := by
  unfold wav_reader_c.new at h
  rcases hq : query_size io with ⟨_ | size, io1⟩
  · simp [hq] at h
  simp only [hq] at h
  obtain ⟨hsz, _⟩ := query_size_some _ _ _ hq
  rcases hp : probe_file io1 size with ⟨probed, io2⟩
  simp only [hp] at h
  by_cases h0 : probed = 0
  · simp [h0] at h
  simp only [h0, if_false] at h
  rcases hpf : parse_file (wav_reader_c.init io2) with e | r1
  · simp [hpf] at h
  simp only [hpf] at h
  rcases hcd : create_demuxer lib r1 with _ | ⟨r2, log⟩
  · simp [hcd] at h
  simp only [hcd, Except.ok.injEq] at h
  subst h
  have hsc : scanned_at_open io = parse_file_scanned (wav_reader_c.init io2) := by
    simp only [scanned_at_open, hq, ← hsz, hp]
  obtain ⟨p1, p2⟩ := parse_file_index _ _ hpf
  obtain ⟨⟨c1, _, _, c4, _⟩, _⟩ := create_demuxer_some lib r1 r2 log hcd
  rw [hsc, c1, c4, p1, p2]
  exact ⟨rfl, rfl⟩

theorem read_index (lib : codec_lib) (r r1 : wav_reader_c) (st : file_status_e)
    (ev : List reader_event) (h : r.read lib = some (st, r1, ev)) :
    r1.m_chunks = r.m_chunks ∧ r1.m_bytes_in_data_chunks = r.m_bytes_in_data_chunks := by
  obtain ⟨d, _, hc⟩ := read_cases lib r r1 st ev h
  rcases hc with ⟨_, _, hr1, _⟩ | ⟨_, _, _, hr1, _⟩ | ⟨_, _, _, _, hr1, _⟩ | ⟨_, _, _, _, _, hr1, _⟩ <;>
    rw [hr1] <;> exact ⟨rfl, rfl⟩

theorem read_steps_index (lib : codec_lib) (n : Nat) :
    ∀ (r0 r : wav_reader_c), read_steps lib n r0 = some r →
      r.m_chunks = r0.m_chunks ∧ r.m_bytes_in_data_chunks = r0.m_bytes_in_data_chunks := by
  induction n with
  | zero =>
    intro r0 r hrun
    simp only [read_steps, Option.some.injEq] at hrun
    rw [← hrun]
    exact ⟨rfl, rfl⟩
  | succ k ih =>
    intro r0 r hrun
    rcases hr : r0.read lib with _ | ⟨st, r1, ev⟩
    · simp [read_steps, hr] at hrun
    simp only [read_steps, hr] at hrun
    obtain ⟨h1, h2⟩ := read_index lib r0 r1 st ev hr
    obtain ⟨h3, h4⟩ := ih r1 r hrun
    exact ⟨h3.trans h1, h4.trans h2⟩

/-- C25: the chunk index is append-only while scanning, except for at most one rewrite
of the length of the last entry, which happens only when the file size exceeds
0x100000000 and ends the scan. After `scan_chunks` has returned no operation changes
an entry of the index or the recorded total: the rest of `parse_file`,
`create_demuxer` and `read` return the reader with the index and the total as they
were (`find_chunk` and `get_progress` are functions of the reader that return a number
only), so that at every state reached from a successful open, index and total are
those that `scan_chunks` left. -/
theorem index_fixed_after_scan (lib : codec_lib) :
    (∀ (fs : Int) (r : wav_reader_c),
        (scan_step fs r).1.m_chunks = r.m_chunks
          ∨ (∃ c : wav_chunk_t, (scan_step fs r).1.m_chunks = r.m_chunks ++ [c])
          ∨ (fs > 0x100000000 ∧ (scan_step fs r).2 = some .corrected
              ∧ ∃ p : wav_chunk_t, r.m_chunks.getLast? = some p
                ∧ (scan_step fs r).1.m_chunks = r.m_chunks.dropLast
                    ++ [{ p with len := fs - p.pos - (sizeof_chunk_struct : Int) }]))
      ∧ (∀ (fs : Int) (fuel : Nat) (r : wav_reader_c) (res : wav_reader_c × scan_exit),
          scan_loop fs fuel r = some res → index_grown fs r.m_chunks res.1.m_chunks)
      ∧ (∀ r : wav_reader_c, index_grown (r.m_io.size : Int) r.m_chunks (scan_chunks r).m_chunks)
      ∧ (∀ r r2 : wav_reader_c, parse_file r = .ok r2 →
          r2.m_chunks = (parse_file_scanned r).m_chunks
            ∧ r2.m_bytes_in_data_chunks = (parse_file_scanned r).m_bytes_in_data_chunks)
      ∧ (∀ (r r1 : wav_reader_c) (log : List demuxer_kind), create_demuxer lib r = some (r1, log) →
          r1.m_chunks = r.m_chunks ∧ r1.m_bytes_in_data_chunks = r.m_bytes_in_data_chunks)
      ∧ (∀ (r r1 : wav_reader_c) (st : file_status_e) (ev : List reader_event),
          r.read lib = some (st, r1, ev) →
          r1.m_chunks = r.m_chunks ∧ r1.m_bytes_in_data_chunks = r.m_bytes_in_data_chunks)
      ∧ (∀ (io : mm_io) (r0 r : wav_reader_c) (n : Nat),
          wav_reader_c.new lib io = .ok r0 → read_steps lib n r0 = some r →
          r.m_chunks = (scanned_at_open io).m_chunks
            ∧ r.m_bytes_in_data_chunks = (scanned_at_open io).m_bytes_in_data_chunks) := by
  refine ⟨?_, ?_, scan_chunks_shape, parse_file_index, ?_, read_index lib, ?_⟩
  · intro fs r
    rcases scan_step_cases fs r with ⟨hc1, _, _⟩ | ⟨c, _, _, hc1, _, _⟩ | ⟨p, hp, _, hfs, hc1, _, he⟩
    · exact Or.inl hc1
    · exact Or.inr (Or.inl ⟨c, hc1⟩)
    · exact Or.inr (Or.inr ⟨hfs, he, p, hp, hc1⟩)
  · intro fs fuel r res h
    obtain ⟨cs, hc, hcorr⟩ := scan_loop_shape fs fuel r res h
    refine ⟨cs, ?_⟩
    by_cases he : res.2 = .corrected
    · exact Or.inr (hcorr he)
    · exact Or.inl (hc he)
  · intro r r1 log h
    obtain ⟨⟨c1, _, _, c4, _⟩, _⟩ := create_demuxer_some lib r r1 log h
    exact ⟨c1, c4⟩
  · intro io r0 r n hopen hrun
    obtain ⟨h1, h2⟩ := open_index lib io r0 hopen
    obtain ⟨h3, h4⟩ := read_steps_index lib n r0 r hrun
    exact ⟨h3.trans h1, h4.trans h2⟩

theorem index_fixed_after_scan_witness :
    sample_two_chunks_done.m_chunks = (scanned_at_open sample_two_chunks).m_chunks
      ∧ sample_two_chunks_done.m_bytes_in_data_chunks
          = (scanned_at_open sample_two_chunks).m_bytes_in_data_chunks :=
  (index_fixed_after_scan lib_none).2.2.2.2.2.2 sample_two_chunks
    (opened lib_none sample_two_chunks) sample_two_chunks_done 2 rfl rfl

/-! ## Termination of the scan -/

theorem scan_step_short (fs : Int) (r : wav_reader_c) (h : r.m_io.size < r.m_io.pos + 4) :
    (scan_step fs r).2 = some .short_read ∨ (scan_step fs r).2 = some .io_error := by
  unfold scan_step
  rcases h1 : r.m_io.getFilePointer with ⟨_ | p, io1⟩
  · exact Or.inr rfl
  obtain ⟨_, hio1⟩ := getFilePointer_some _ _ _ h1
  simp only
  rcases h2 : io1.read 4 with ⟨_ | id, io2⟩
  · exact Or.inr rfl
  simp only
  by_cases hl : id.length = 4
  · obtain ⟨hsz, _⟩ := read4_some _ _ _ h2 hl
    rw [hio1] at hsz
    simp only at hsz
    omega
  · simp only [ne_eq, hl, not_false_eq_true, if_true]
    exact Or.inl trivial

theorem scan_step_advances (fs : Int) (r : wav_reader_c) (h : (scan_step fs r).2 = none) :
    r.m_io.pos + 8 ≤ (scan_step fs r).1.m_io.pos
      ∧ (scan_step fs r).1.m_io.size = r.m_io.size ∧ r.m_io.pos + 8 ≤ r.m_io.size := by
  obtain ⟨hsz, len, t, _, hr1⟩ := scan_step_next fs r h
  rw [hr1]
  exact ⟨by simp only; omega, rfl, hsz⟩

theorem scan_passes_le (fs : Int) (fuel : Nat) (r : wav_reader_c) :
    scan_passes fs fuel r ≤ (r.m_io.size - r.m_io.pos) / 8 + 1 := by
  induction fuel generalizing r with
  | zero => simp [scan_passes]
  | succ k ih =>
    rcases hs : scan_step fs r with ⟨r1, _ | e⟩
    · have hn : (scan_step fs r).2 = none := by rw [hs]
      obtain ⟨hadv, hsize, hsz⟩ := scan_step_advances fs r hn
      rw [hs] at hadv hsize
      simp only at hadv hsize
      have h1 := ih r1
      simp only [scan_passes, hs]
      rw [hsize] at h1
      omega
    · simp only [scan_passes, hs]
      omega

theorem scan_passes_exact (fs : Int) (fuel : Nat) (r : wav_reader_c)
    (res : wav_reader_c × scan_exit) (h : scan_loop fs fuel r = some res) :
    scan_loop fs (scan_passes fs fuel r) r = some res := by
  induction fuel generalizing r with
  | zero => simp [scan_loop] at h
  | succ k ih =>
    rcases hs : scan_step fs r with ⟨r1, _ | e⟩
    · simp only [scan_loop, hs] at h
      have h1 := ih r1 h
      simp only [scan_passes, hs]
      rw [Nat.add_comm]
      simp only [scan_loop, hs]
      exact h1
    · simp only [scan_loop, hs] at h
      simp only [scan_passes, hs, scan_loop]
      exact h

/-- C29: `scan_chunks` terminates on every input. Each pass through the loop that
goes on has advanced the stream by at least 8 bytes, inside a source that keeps its
size; a tag read with fewer than 4 bytes left ends the loop; so the number of passes
is at most the file size / 8 + 1, that many passes always bring the loop to its end,
and the function returns with a reason for which scanning ended. -/
theorem scanning_terminates (fs : Int) (r : wav_reader_c) :
    (∃ e, (scan_chunks_exit r).2 = some e)
      ∧ (∃ res, scan_loop fs (r.m_io.size / 8 + 1) r = some res)
      ∧ (∀ fuel, scan_passes fs fuel r ≤ r.m_io.size / 8 + 1)
      ∧ (∀ fuel res, scan_loop fs fuel r = some res →
          scan_loop fs (scan_passes fs fuel r) r = some res)
      ∧ ((scan_step fs r).2 = none →
          r.m_io.pos + 8 ≤ (scan_step fs r).1.m_io.pos
            ∧ (scan_step fs r).1.m_io.size = r.m_io.size ∧ r.m_io.pos + 8 ≤ r.m_io.size)
      ∧ (r.m_io.size < r.m_io.pos + 4 →
          (scan_step fs r).2 = some .short_read ∨ (scan_step fs r).2 = some .io_error) := by
  refine ⟨scan_chunks_exit_some r, scan_loop_ends fs _ r ?_, fun fuel => ?_,
    fun fuel res h => scan_passes_exact fs fuel r res h, scan_step_advances fs r,
    scan_step_short fs r⟩
  · have : (r.m_io.size - r.m_io.pos) / 8 ≤ r.m_io.size / 8 :=
      Nat.div_le_div_right (Nat.sub_le _ _)
    omega
  · have h1 := scan_passes_le fs fuel r
    have : (r.m_io.size - r.m_io.pos) / 8 ≤ r.m_io.size / 8 :=
      Nat.div_le_div_right (Nat.sub_le _ _)
    omega

theorem scanning_terminates_witness :
    scan_passes 58 100 (wav_reader_c.init { sample_two_chunks with pos := 12 }) = 4
      ∧ scan_passes 58 100 (wav_reader_c.init { sample_two_chunks with pos := 12 }) ≤ 58 / 8 + 1 :=
  ⟨by decide, (scanning_terminates 58
    (wav_reader_c.init { sample_two_chunks with pos := 12 })).2.2.1 100⟩

end WavReader
